import Mathlib

/-!
# A shallow embedding of the standalone RTMP server

The development follows the C sources under `src/standalone`:
`rtmp_pool.c`, `rtmp_connection.c`, `rtmp_session.c`, `rtmp_handshake.c`
and `rtmp_server.c`.

* Pointers are natural-number addresses; `NULL` is `Option.none`.
* C structs are Lean structures holding the fields the code reads or writes;
  byte buffers live in a flat byte memory `world.mem`.
* Every call that leaves the program (`malloc`, `free`, `recv`, `send`,
  `close`, `epoll_ctl`, `fcntl`) is a function on `world`, which also keeps a
  chronological `trace` of those calls and of the calls of
  `rtmp_fire_event` and `rtmp_finalize_session`.
* `size_t` casts of pointer differences are taken modulo `2 ^ 64`; addresses
  themselves are assumed to stay far below `2 ^ 64`.
-/

namespace Rtmp

/-! ## Constants -/

/-- The value of `RTMP_OK` (rtmp_types.h). -/
def RTMP_OK : Int := 0
/-- The value of `RTMP_ERROR` (rtmp_types.h). -/
def RTMP_ERROR : Int := -1
/-- The value of `RTMP_AGAIN` (rtmp_types.h). -/
def RTMP_AGAIN : Int := -2

/-- The value of `RTMP_DEFAULT_CHUNK_SIZE` (rtmp_protocol.h). -/
def RTMP_DEFAULT_CHUNK_SIZE : Nat := 128
/-- The value of `RTMP_MAX_CHUNK_SIZE` (rtmp_protocol.h). -/
def RTMP_MAX_CHUNK_SIZE : Nat := 10485760
/-- The value of `RTMP_MSG_MAX` (rtmp_protocol.h). -/
def RTMP_MSG_MAX : Nat := 22
/-- The event number `RTMP_CONNECT`. -/
def RTMP_CONNECT : Nat := RTMP_MSG_MAX + 1
/-- The event number `RTMP_DISCONNECT`. -/
def RTMP_DISCONNECT : Nat := RTMP_MSG_MAX + 2
/-- The event number `RTMP_HANDSHAKE_DONE`. -/
def RTMP_HANDSHAKE_DONE : Nat := RTMP_MSG_MAX + 3

/-- The value of `RTMP_HANDSHAKE_BUFSIZE` (rtmp_handshake.c). -/
def RTMP_HANDSHAKE_BUFSIZE : Nat := 1537
/-- Handshake stage 0. -/
def RTMP_HANDSHAKE_SERVER_RECV_CHALLENGE1 : Nat := 0
/-- Handshake stage 1. -/
def RTMP_HANDSHAKE_SERVER_SEND_CHALLENGE2 : Nat := 1
/-- Handshake stage 2. -/
def RTMP_HANDSHAKE_SERVER_RECV_CHALLENGE2 : Nat := 2
/-- Handshake stage 3. -/
def RTMP_HANDSHAKE_SERVER_SEND_RESPONSE : Nat := 3

/-- The value of `RTMP_POOL_ALIGNMENT` (rtmp_pool.c). -/
def RTMP_POOL_ALIGNMENT : Nat := 16
/-- The value of `RTMP_DEFAULT_POOL_SIZE` (rtmp_pool.c). -/
def RTMP_DEFAULT_POOL_SIZE : Nat := 4096

/-- The value of `EPOLLIN`, which is `RTMP_READ_EVENT`. -/
def RTMP_READ_EVENT : Nat := 1
/-- The value of `EPOLLOUT`, which is `RTMP_WRITE_EVENT`. -/
def RTMP_WRITE_EVENT : Nat := 4
/-- The value of `EPOLLET`. -/
def EPOLLET : Nat := 2147483648
/-- The value of `EPOLL_CTL_ADD`. -/
def EPOLL_CTL_ADD : Nat := 1
/-- The value of `EPOLL_CTL_DEL`. -/
def EPOLL_CTL_DEL : Nat := 2
/-- The value of `EPOLL_CTL_MOD`. -/
def EPOLL_CTL_MOD : Nat := 3

/-! Sizes of the C structs on an LP64 target (x86-64 Linux, the platform of
`epoll`). They only decide where the pool places objects. -/

/-- The LP64 value of `sizeof(rtmp_pool_t)`: five 8-byte fields. -/
def sizeof_rtmp_pool_t : Nat := 40
/-- The LP64 value of `sizeof(rtmp_buf_t)`: four pointers and a flag byte. -/
def sizeof_rtmp_buf_t : Nat := 40
/-- The LP64 value of `sizeof(rtmp_event_t)`. -/
def sizeof_rtmp_event_t : Nat := 32
/-- The LP64 value of `sizeof(rtmp_connection_t)`. -/
def sizeof_rtmp_connection_t : Nat := 96
/-- The LP64 value of `sizeof(rtmp_session_t)`. -/
def sizeof_rtmp_session_t : Nat := 416
/-- The LP64 value of `sizeof(rtmp_stream_t)`. -/
def sizeof_rtmp_stream_t : Nat := 40
/-- The LP64 value of `sizeof(rtmp_chain_t *)`. -/
def sizeof_ptr : Nat := 8
/-- The value of `sizeof(struct sockaddr_in)`. -/
def sizeof_sockaddr_in : Nat := 16

/-- A C cast of a signed 64-bit value to `size_t`. -/
def size_t_of (x : Int) : Nat := (x % (2 ^ 64 : Int)).toNat

/-! ## The environment -/

/-- One call that leaves the program, or one call of the two session-level
notification points, in program order. -/
inductive effect where
  | malloc (size : Nat) (ret : Option Nat)
  | free (ptr : Nat)
  | recv (size : Nat) (ret : Int)
  | send (buf : List Nat) (ret : Int)
  | close (fd : Int)
  | epoll_ctl (op : Nat) (fd : Int) (events : Nat) (ok : Bool)
  | fcntl (fd : Int) (ok : Bool)
  | fire_event (evt : Nat)
  | finalize_session
  deriving DecidableEq, Repr

/-- What the kernel answers to one `recv(2)` or `send(2)` call: up to `k`
bytes are transferred, or the call fails with `EAGAIN`, or with another
error. -/
inductive os_io where
  | bytes (k : Nat)
  | eagain
  | fail
  deriving DecidableEq, Repr

/-- Everything outside the C structs: byte memory, the heap of `malloc`, the
socket, the epoll instance, the clock and `rand`, and the trace of calls. A
script that has run out answers as follows: `malloc`, `epoll_ctl` and
`fcntl` succeed, `recv` and `send` report `EAGAIN`. -/
structure world where
  /-- Byte memory. -/
  mem : Nat → Nat
  /-- The address the next successful `malloc` returns. -/
  brk : Nat
  /-- Live heap allocations as (address, size). -/
  live : List (Nat × Nat)
  /-- Per `malloc` call: `true` makes the call return `NULL`. -/
  oom : List Bool
  /-- Per `recv(2)` call: what the kernel answers. -/
  rx : List os_io
  /-- The bytes the peer has put on the wire and that were not yet read. -/
  wire : List Nat
  /-- Per `send(2)` call: what the kernel answers. -/
  tx : List os_io
  /-- Per `epoll_ctl` call: `true` is success. -/
  ctl : List Bool
  /-- Per `fcntl` call: `true` is success. -/
  fcntl_ok : List Bool
  /-- The static `epoll_fd` of rtmp_connection.c. -/
  epoll_fd : Int
  /-- The value of `time(NULL)`. -/
  now : Nat
  /-- The value of the `i`-th call of `rand()`. -/
  rand : Nat → Nat
  /-- How many times `rand()` was called. -/
  rand_calls : Nat
  /-- The calls made so far, oldest first. -/
  trace : List effect

/-- Append one call to the trace. -/
def world.log (w : world) (e : effect) : world :=
  { w with trace := w.trace ++ [e] }

/-- Store `bytes` at `addr`.. -/
def mem_write (mem : Nat → Nat) (addr : Nat) (bytes : List Nat) : Nat → Nat :=
  fun a => if addr ≤ a ∧ a < addr + bytes.length then bytes.getD (a - addr) 0 else mem a

/-- Load `n` bytes from `addr`. -/
def mem_read (mem : Nat → Nat) (addr n : Nat) : List Nat :=
  (List.range n).map (fun i => mem (addr + i))

/-- The call `malloc(size)`. Successful calls are placed one after the other
at 16-byte aligned addresses, each taking `max 32 (size + 8 rounded up to 16)`
bytes, the layout of glibc on a fresh heap. -/
def malloc (size : Nat) (w : world) : Option Nat × world :=
  if w.oom.headD false then (none, { w with oom := w.oom.tail }.log (.malloc size none))
  else
    (some w.brk,
     { w with oom := w.oom.tail,
              brk := w.brk + max 32 ((size + 8 + 15) / 16 * 16),
              live := (w.brk, size) :: w.live }.log (.malloc size (some w.brk)))

/-- The call `free(p)`. A call with an address that is not a live allocation,
which C leaves undefined (a double free, for a block freed before), is logged
like any other and leaves the heap as it is; `invalid_free` finds such calls
in a trace. -/
def free (p : Nat) (w : world) : world :=
  { w with live := w.live.filter (fun r => r.1 ≠ p) }.log (.free p)

/-! ## rtmp_pool.c -/

/-- One block, `struct rtmp_pool_s`, at address `addr`; `next` is kept by the
owning `rtmp_pool_t` and `cleanup_list` is never used by the code. -/
structure rtmp_pool_s where
  addr : Nat
  last : Nat
  end_ : Nat
  size : Nat
  deriving DecidableEq, Repr

/-- A non-NULL `rtmp_pool_t *`: the block pointed to and, in order, the
blocks reached through `next`. -/
structure rtmp_pool_t where
  blk : rtmp_pool_s
  next : List rtmp_pool_s
  deriving DecidableEq, Repr

/-- The function `rtmp_create_pool`. -/
def rtmp_create_pool (size : Nat) (w : world) : Option rtmp_pool_t × world :=
  let size := if size < RTMP_DEFAULT_POOL_SIZE then RTMP_DEFAULT_POOL_SIZE else size
  match malloc size w with
  | (none, w) => (none, w)
  | (some p, w) =>
    (some { blk := { addr := p, last := p + sizeof_rtmp_pool_t, end_ := p + size, size := size },
            next := [] }, w)

/-- The function `rtmp_destroy_pool`: every block of the chain is freed. -/
def rtmp_destroy_pool (pool : rtmp_pool_t) (w : world) : world :=
  (pool.blk :: pool.next).foldl (fun w p => free p.addr w) w

/-- The function `rtmp_palloc_large`. -/
def rtmp_palloc_large (pool : rtmp_pool_t) (size : Nat) (w : world) :
    Option Nat × rtmp_pool_t × world :=
  match malloc size w with
  | (none, w) => (none, pool, w)
  | (some p, w) =>
    if size < RTMP_DEFAULT_POOL_SIZE then
      match rtmp_create_pool RTMP_DEFAULT_POOL_SIZE w with
      | (some new_pool, w) =>
        (some p, { pool with next := new_pool.blk :: pool.next }, w)
      | (none, w) => (some p, pool, w)
    else (some p, pool, w)

/-- The function `rtmp_palloc_small`. -/
def rtmp_palloc_small (pool : rtmp_pool_t) (size : Nat) (w : world) :
    Option Nat × rtmp_pool_t × world :=
  let m := (pool.blk.last + (RTMP_POOL_ALIGNMENT - 1)) / RTMP_POOL_ALIGNMENT * RTMP_POOL_ALIGNMENT
  if size_t_of ((pool.blk.end_ : Int) - m) ≥ size then
    (some m, { pool with blk := { pool.blk with last := m + size } }, w)
  else rtmp_palloc_large pool size w

/-- The function `rtmp_pool_alloc`. -/
def rtmp_pool_alloc (pool : rtmp_pool_t) (size : Nat) (w : world) :
    Option Nat × rtmp_pool_t × world :=
  if size ≤ size_t_of ((pool.blk.end_ : Int) - pool.blk.last) then
    rtmp_palloc_small pool size w
  else rtmp_palloc_large pool size w

/-- The function `rtmp_pool_calloc`. -/
def rtmp_pool_calloc (pool : rtmp_pool_t) (size : Nat) (w : world) :
    Option Nat × rtmp_pool_t × world :=
  match rtmp_pool_alloc pool size w with
  | (some p, pool, w) =>
    (some p, pool, { w with mem := mem_write w.mem p (List.replicate size 0) })
  | (none, pool, w) => (none, pool, w)

/-- A run of `rtmp_pool_alloc` calls on one pool, with the pointer each call
returned. -/
def rtmp_pool_alloc_seq (pool : rtmp_pool_t) (w : world) :
    List Nat → List (Option Nat × Nat) × rtmp_pool_t × world
  | [] => ([], pool, w)
  | size :: rest =>
    match rtmp_pool_alloc pool size w with
    | (p, pool, w) =>
      match rtmp_pool_alloc_seq pool w rest with
      | (ps, pool, w) => ((p, size) :: ps, pool, w)

/-- The byte ranges `[a, a + n)` and `[b, b + m)` have no byte in common. -/
def ranges_disjoint (a n b m : Nat) : Prop :=
  n = 0 ∨ m = 0 ∨ a + n ≤ b ∨ b + m ≤ a

instance (a n b m : Nat) : Decidable (ranges_disjoint a n b m) := by
  unfold ranges_disjoint; infer_instance

/-- A world in which nothing has happened yet: zeroed memory, an empty heap
starting at `brk`, an initialised epoll instance, scripts as given. -/
def boot (brk : Nat) (wire : List Nat) (rx tx : List os_io) : world :=
  { mem := fun _ => 0, brk := brk, live := [], oom := [], rx := rx, wire := wire, tx := tx,
    ctl := [], fcntl_ok := [], epoll_fd := 3, now := 1700000000, rand := fun i => i,
    rand_calls := 0, trace := [] }


/-! ## rtmp_connection.h, rtmp_types.h, rtmp_protocol.h: the structs -/

/-- The functions the code stores in `rtmp_event_t.handler`. -/
inductive handler_t where
  | null
  | rtmp_accept_handler
  | rtmp_recv_handler
  | rtmp_send_handler
  | rtmp_close_handler
  | rtmp_handshake_recv
  | rtmp_handshake_send
  deriving DecidableEq, Repr

/-- The struct `rtmp_event_s`; `data` points to the owning connection. -/
structure rtmp_event_t where
  handler : handler_t
  write : Bool
  active : Bool
  ready : Bool
  eof : Bool
  error : Bool
  timedout : Bool
  timer_set : Bool
  timer : Nat
  deriving DecidableEq, Repr

/-- The struct `rtmp_buf_s`: four addresses into `world.mem`. -/
structure rtmp_buf_t where
  pos : Nat
  last : Nat
  start : Nat
  end_ : Nat
  temporary : Bool
  deriving DecidableEq, Repr

/-- The struct `rtmp_connection_s`; `data` points to the session, `recv` and
`send` are `rtmp_unix_recv` and `rtmp_unix_send`, the only functions the code
stores there. -/
structure rtmp_connection_t where
  fd : Int
  read : rtmp_event_t
  write : rtmp_event_t
  sockaddr : Option Nat
  socklen : Nat
  addr_text_len : Nat
  addr_text_data : Option Nat
  pool : rtmp_pool_t
  destroyed : Bool
  timedout : Bool
  close : Bool
  error : Bool
  deriving DecidableEq, Repr

/-- The fields of `rtmp_session_s` that the code under `src/` reads or writes.
`connection` says whether `s->connection` is non-NULL; it then points to the
connection of the machine. -/
structure rtmp_session_t where
  signature : Nat
  close : rtmp_event_t
  connected : Int
  buflen : Nat
  ack_size : Nat
  hs_buf : Option rtmp_buf_t
  hs_stage : Nat
  epoch : Nat
  base_time : Nat
  ping_active : Bool
  ping_reset : Bool
  in_streams : Option Nat
  in_chunk_size : Nat
  in_pool : Option rtmp_pool_t
  connection : Bool
  timeout : Nat
  out_queue : Nat
  out_cork : Nat
  deriving DecidableEq, Repr

/-- One connection with its session (`c->data`, `NULL` before
`rtmp_init_connection` has created it) and the environment. -/
structure machine where
  c : rtmp_connection_t
  s : Option rtmp_session_t
  w : world

/-! ## rtmp_connection.c -/

/-- The call `epoll_ctl(epoll_fd, op, fd, &epev)` with `epev.events = events`;
`true` is success. -/
def epoll_ctl (op : Nat) (fd : Int) (events : Nat) (w : world) : Bool × world :=
  (w.ctl.headD true,
   { w with ctl := w.ctl.tail }.log (.epoll_ctl op fd events (w.ctl.headD true)))

/-- The function `rtmp_add_event`; `fd` is `((rtmp_connection_t *) ev->data)->fd`
and `flags` is unused by the code. -/
def rtmp_add_event (ev : rtmp_event_t) (fd : Int) (event : Nat) (w : world) :
    Int × rtmp_event_t × world :=
  if w.epoll_fd = -1 then (RTMP_ERROR, ev, w)
  else
    let op := if ev.active then EPOLL_CTL_MOD else EPOLL_CTL_ADD
    let ev := if ev.active then ev else { ev with active := true }
    let r := epoll_ctl op fd (event ||| EPOLLET) w
    if r.1 = false then (RTMP_ERROR, ev, r.2) else (RTMP_OK, ev, r.2)

/-- The function `rtmp_del_event`; its `epev` is passed uninitialised, taken
as 0 here. -/
def rtmp_del_event (ev : rtmp_event_t) (fd : Int) (w : world) :
    Int × rtmp_event_t × world :=
  if w.epoll_fd = -1 ∨ ¬ ev.active then (RTMP_OK, ev, w)
  else
    let r := epoll_ctl EPOLL_CTL_DEL fd 0 w
    if r.1 = false then (RTMP_ERROR, ev, r.2) else (RTMP_OK, { ev with active := false }, r.2)

/-- The function `rtmp_add_timer`: the first store to `ev->timer` is
overwritten by the second. -/
def rtmp_add_timer (ev : rtmp_event_t) (timer : Nat) : rtmp_event_t :=
  { ev with timer_set := true, timer := timer }

/-- The function `rtmp_del_timer`. -/
def rtmp_del_timer (ev : rtmp_event_t) : rtmp_event_t :=
  { ev with timer_set := false }

/-- The statement `if (ev->timer_set) { rtmp_del_timer(ev); }` that opens the
event handlers. -/
def del_timer_if_set (ev : rtmp_event_t) : rtmp_event_t :=
  if ev.timer_set then rtmp_del_timer ev else ev

/-- The statement `if (ev->active) { rtmp_del_event(ev, ...); }` of
`rtmp_close_connection` and of the handshake handlers; none of them looks at
what the call returns. -/
def del_event_if_active (ev : rtmp_event_t) (fd : Int) (w : world) : rtmp_event_t × world :=
  if ev.active then ((rtmp_del_event ev fd w).2.1, (rtmp_del_event ev fd w).2.2) else (ev, w)

/-- The function `rtmp_handle_read_event`. -/
def rtmp_handle_read_event (rev : rtmp_event_t) (fd : Int) (w : world) :
    Int × rtmp_event_t × world :=
  if ¬ rev.active then rtmp_add_event rev fd RTMP_READ_EVENT w else (RTMP_OK, rev, w)

/-- The function `rtmp_handle_write_event`. -/
def rtmp_handle_write_event (wev : rtmp_event_t) (fd : Int) (w : world) :
    Int × rtmp_event_t × world :=
  if ¬ wev.active then rtmp_add_event wev fd RTMP_WRITE_EVENT w else (RTMP_OK, wev, w)

/-- The function `rtmp_close_connection`. -/
def rtmp_close_connection (c : rtmp_connection_t) (w : world) :
    rtmp_connection_t × world :=
  if c.fd ≠ -1 then
    let r1 := del_event_if_active c.read c.fd w
    let r2 := del_event_if_active c.write c.fd r1.2
    ({ c with read := r1.1, write := r2.1, fd := -1, destroyed := true },
     r2.2.log (.close c.fd))
  else ({ c with destroyed := true }, w)

/-- The function `rtmp_unix_recv` on the socket of the machine: the kernel
stores the bytes it delivers at `buf`. -/
def rtmp_unix_recv (buf size : Nat) (w : world) : Int × world :=
  match w.rx with
  | [] => (RTMP_AGAIN, w.log (.recv size RTMP_AGAIN))
  | .eagain :: rest => (RTMP_AGAIN, { w with rx := rest }.log (.recv size RTMP_AGAIN))
  | .fail :: rest => (RTMP_ERROR, { w with rx := rest }.log (.recv size RTMP_ERROR))
  | .bytes k :: rest =>
    let data := w.wire.take (min k size)
    if data.length = 0 then
      (RTMP_ERROR, { w with rx := rest }.log (.recv size RTMP_ERROR))
    else
      (data.length,
       { w with rx := rest, wire := w.wire.drop data.length,
                mem := mem_write w.mem buf data }.log (.recv size data.length))

/-- The function `rtmp_unix_send` on the socket of the machine. -/
def rtmp_unix_send (buf size : Nat) (w : world) : Int × world :=
  match w.tx with
  | [] => (RTMP_AGAIN, w.log (.send (mem_read w.mem buf size) RTMP_AGAIN))
  | .eagain :: rest =>
    (RTMP_AGAIN, { w with tx := rest }.log (.send (mem_read w.mem buf size) RTMP_AGAIN))
  | .fail :: rest =>
    (RTMP_ERROR, { w with tx := rest }.log (.send (mem_read w.mem buf size) RTMP_ERROR))
  | .bytes k :: rest =>
    (min k size, { w with tx := rest }.log (.send (mem_read w.mem buf size) (min k size)))


/-! ## rtmp_pool.c: buffers -/

/-- The function `rtmp_create_temp_buf`. -/
def rtmp_create_temp_buf (pool : rtmp_pool_t) (size : Nat) (w : world) :
    Option rtmp_buf_t × rtmp_pool_t × world :=
  match rtmp_pool_calloc pool sizeof_rtmp_buf_t w with
  | (none, pool, w) => (none, pool, w)
  | (some _, pool, w) =>
    match rtmp_pool_alloc pool size w with
    | (none, pool, w) => (none, pool, w)
    | (some start, pool, w) =>
      (some { pos := start, last := start, start := start, end_ := start + size,
              temporary := true }, pool, w)

/-! ## rtmp_session.c and rtmp_handshake.c -/

/-- The function `rtmp_reset_ping`. -/
def rtmp_reset_ping (s : rtmp_session_t) : rtmp_session_t :=
  { s with ping_active := false, ping_reset := false }

/-- The function `rtmp_set_chunk_size`. -/
def rtmp_set_chunk_size (s : rtmp_session_t) (size : Nat) : Int × rtmp_session_t :=
  if size > RTMP_MAX_CHUNK_SIZE then (RTMP_ERROR, s)
  else (RTMP_OK, { s with in_chunk_size := size })

/-- How the `while` loop of `rtmp_handshake_recv` or `rtmp_handshake_send`
ends: the loop condition became false, or the function finalized the session
and returned, or it armed the timer and returned. -/
inductive loop_exit where
  | done
  | finalize
  | again
  deriving DecidableEq, Repr

/-- The `while (b->last - b->start < required_size)` loop of
`rtmp_handshake_recv`. -/
def rtmp_handshake_recv_loop (required_size : Nat) (b : rtmp_buf_t) (w : world) :
    loop_exit × rtmp_buf_t × world :=
  if (b.last : Int) - b.start < required_size then
    match h : rtmp_unix_recv b.last (size_t_of ((b.end_ : Int) - b.last)) w with
    | (n, w1) =>
      if n = RTMP_ERROR ∨ n = 0 then (.finalize, b, w1)
      else if n = RTMP_AGAIN then (.again, b, w1)
      else rtmp_handshake_recv_loop required_size { b with last := (b.last + n).toNat } w1
  else (.done, b, w)
termination_by w.rx.length
decreasing_by
  rename_i h1 h2
  unfold rtmp_unix_recv at h
  split at h
  · simp [RTMP_AGAIN] at h; exact absurd h.1.symm h2
  · simp [RTMP_AGAIN] at h; exact absurd h.1.symm h2
  · simp [RTMP_ERROR] at h; exact absurd (Or.inl h.1.symm) h1
  · rename_i hrx
    dsimp only at h
    split at h
    · simp [RTMP_ERROR] at h; exact absurd (Or.inl h.1.symm) h1
    · simp at h
      rw [← h.2, hrx]
      simp [world.log]


/-- The `while (b->pos != b->last)` loop of `rtmp_handshake_send`. -/
def rtmp_handshake_send_loop (b : rtmp_buf_t) (w : world) :
    loop_exit × rtmp_buf_t × world :=
  if b.pos ≠ b.last then
    match h : rtmp_unix_send b.pos (size_t_of ((b.last : Int) - b.pos)) w with
    | (n, w1) =>
      if n = RTMP_ERROR then (.finalize, b, w1)
      else if n = RTMP_AGAIN ∨ n = 0 then (.again, b, w1)
      else rtmp_handshake_send_loop { b with pos := (b.pos + n).toNat } w1
  else (.done, b, w)
termination_by w.tx.length
decreasing_by
  rename_i h1 h2
  unfold rtmp_unix_send at h
  split at h
  · simp [RTMP_AGAIN] at h; exact absurd (Or.inl h.1.symm) h2
  · simp [RTMP_AGAIN] at h; exact absurd (Or.inl h.1.symm) h2
  · simp [RTMP_ERROR] at h; exact absurd h.1.symm h1
  · rename_i hrx
    simp at h
    rw [← h.2, hrx]
    simp [world.log]

/-- The function `rtmp_handshake_create_challenge`: S0, the S1 header, 1528
bytes of `rand()`, then S2. The `memcpy` that fills S2 reads its 1536 source
bytes as they are once S0 and S1 are stored and then writes them. Where its
source and its destination have a byte in common C leaves the call undefined
and the bytes computed here stand for nothing; the theorems below read S2 of
that branch only where the source lies outside the 3073 bytes written. -/
def rtmp_handshake_create_challenge (s : rtmp_session_t) (buf bufsize : Nat) (w : world) :
    Int × world :=
  if bufsize < 1537 + 1536 then (RTMP_ERROR, w)
  else
    let timestamp := w.now % 2 ^ 32
    let s0s1 :=
      [3, (timestamp >>> 24) &&& 0xFF, (timestamp >>> 16) &&& 0xFF,
        (timestamp >>> 8) &&& 0xFF, timestamp &&& 0xFF, 0, 0, 0, 0]
      ++ (List.range 1528).map (fun i => (w.rand (w.rand_calls + i) &&& 0xFF) % 256)
    let mem1 := mem_write w.mem buf s0s1
    let p := buf + 1537
    let s2 :=
      match s.hs_buf with
      | some hb =>
        if (hb.last : Int) - hb.start ≥ 1537 then mem_read mem1 (hb.start + 1) 1536
        else List.replicate 1536 0
      | none => List.replicate 1536 0
    (RTMP_OK, { w with mem := mem_write mem1 p s2, rand_calls := w.rand_calls + 1528 })

/-- The measure that orders the calls among `rtmp_handshake`,
`rtmp_handshake_recv` and `rtmp_handshake_send`: each of the two handlers
calls `rtmp_handshake` only after it has increased `hs_stage`. -/
def hs_rank (m : machine) : Nat :=
  match m.s with
  | some s => 26 - s.hs_stage % 2 ^ 64
  | none => 0

mutual

/-- The function `rtmp_finalize_session`. The result `none` of this and the
following functions stands for a dereferenced `NULL` pointer. The machine
returned still carries the session, as the struct was left, although
`rtmp_destroy_pool(s->in_pool)` has freed the block that holds it: the result
is what C defines for a call on a live session, and a call on the session of
a machine returned by this function stands for a use of freed memory. -/
def rtmp_finalize_session (m : machine) : Option machine :=
  let m1 : machine := { m with w := m.w.log .finalize_session }
  match m1.s with
  | none => some m1
  | some s =>
    match rtmp_fire_event RTMP_DISCONNECT m1 with
    | none => none
    | some m2 =>
      let m3 : machine :=
        if s.connection then
          match rtmp_close_connection m2.c m2.w with
          | (c, w) => { m2 with c := c, w := w }
        else m2
      match m3.s with
      | none => none
      | some s3 =>
        match s3.in_pool with
        | some pool => some { m3 with w := rtmp_destroy_pool pool m3.w }
        | none => some m3
termination_by 1
decreasing_by
  all_goals simp_wf
  all_goals
    simp only [hs_rank, RTMP_DISCONNECT, RTMP_HANDSHAKE_DONE, RTMP_MSG_MAX,
      RTMP_HANDSHAKE_SERVER_RECV_CHALLENGE2, RTMP_HANDSHAKE_SERVER_SEND_CHALLENGE2] at *
  all_goals first | omega | simp_all

/-- The function `rtmp_fire_event`; it always returns `RTMP_OK`. -/
def rtmp_fire_event (evt : Nat) (m : machine) : Option machine :=
  let m1 : machine := { m with w := m.w.log (.fire_event evt) }
  if evt = RTMP_CONNECT then
    match m1.s with
    | none => none
    | some s => some { m1 with s := some { s with connected := 1 } }
  else if evt = RTMP_DISCONNECT then
    match m1.s with
    | none => none
    | some s => some { m1 with s := some { s with connected := 0 } }
  else if evt = RTMP_HANDSHAKE_DONE then rtmp_cycle m1
  else some m1
termination_by if evt = RTMP_HANDSHAKE_DONE then 3 else 0
decreasing_by
  all_goals simp_wf
  all_goals
    simp only [hs_rank, RTMP_DISCONNECT, RTMP_HANDSHAKE_DONE, RTMP_MSG_MAX,
      RTMP_HANDSHAKE_SERVER_RECV_CHALLENGE2, RTMP_HANDSHAKE_SERVER_SEND_CHALLENGE2] at *
  all_goals first | omega | simp_all

/-- The function `rtmp_cycle`. -/
def rtmp_cycle (m : machine) : Option machine :=
  match m.s with
  | none => none
  | some s =>
    if ¬ s.connection then none
    else if m.c.destroyed then some m
    else
      match rtmp_handle_read_event m.c.read m.c.fd m.w with
      | (rc, rev, w) =>
        let m1 : machine := { m with c := { m.c with read := rev }, w := w }
        if rc ≠ RTMP_OK then rtmp_finalize_session m1
        else some { m1 with s := some (rtmp_reset_ping s) }
termination_by 2
decreasing_by
  all_goals simp_wf
  all_goals
    simp only [hs_rank, RTMP_DISCONNECT, RTMP_HANDSHAKE_DONE, RTMP_MSG_MAX,
      RTMP_HANDSHAKE_SERVER_RECV_CHALLENGE2, RTMP_HANDSHAKE_SERVER_SEND_CHALLENGE2] at *
  all_goals first | omega | simp_all

/-- The function `rtmp_handshake`. -/
def rtmp_handshake (m : machine) : Option machine :=
  match hs : m.s with
  | none => none
  | some s =>
    if ¬ s.connection then none
    else if m.c.destroyed then some m
    else if s.hs_stage = RTMP_HANDSHAKE_SERVER_RECV_CHALLENGE1 then
      let r : Option (Option rtmp_buf_t × Option rtmp_pool_t × world) :=
        match s.hs_buf with
        | some b => some (some b, s.in_pool, m.w)
        | none =>
          match s.in_pool with
          | none => none
          | some pool =>
            match rtmp_create_temp_buf pool RTMP_HANDSHAKE_BUFSIZE m.w with
            | (b, pool, w) => some (b, some pool, w)
      match r with
      | none => none
      | some (none, pool, w) =>
        rtmp_finalize_session { m with s := some { s with hs_buf := none, in_pool := pool }, w := w }
      | some (some b, pool, w) =>
        rtmp_handshake_recv
          { c := { m.c with read := { m.c.read with handler := .rtmp_handshake_recv },
                            write := { m.c.write with handler := .rtmp_handshake_send } },
            s := some { s with hs_buf := some b, in_pool := pool },
            w := w }
    else if s.hs_stage = RTMP_HANDSHAKE_SERVER_SEND_CHALLENGE2 then rtmp_handshake_send m
    else if s.hs_stage = RTMP_HANDSHAKE_SERVER_RECV_CHALLENGE2 then rtmp_handshake_recv m
    else if s.hs_stage = RTMP_HANDSHAKE_SERVER_SEND_RESPONSE then rtmp_handshake_send m
    else if s.hs_stage = RTMP_HANDSHAKE_DONE then rtmp_fire_event RTMP_HANDSHAKE_DONE m
    else some m
termination_by 2 * hs_rank m + 5
decreasing_by
  all_goals simp_wf
  all_goals
    simp only [hs_rank, hs, RTMP_DISCONNECT, RTMP_HANDSHAKE_DONE, RTMP_MSG_MAX,
      RTMP_HANDSHAKE_SERVER_RECV_CHALLENGE2, RTMP_HANDSHAKE_SERVER_SEND_CHALLENGE2] at *
  all_goals first | omega | simp_all

/-- The function `rtmp_handshake_recv`, called with `rev = c->read`. -/
def rtmp_handshake_recv (m : machine) : Option machine :=
  if m.c.destroyed then some m
  else if m.c.read.timedout then
    rtmp_finalize_session { m with c := { m.c with timedout := true } }
  else
    let rev := del_timer_if_set m.c.read
    match hs : m.s with
    | none => none
    | some s =>
      if s.hs_stage = RTMP_HANDSHAKE_SERVER_RECV_CHALLENGE1
          ∨ s.hs_stage = RTMP_HANDSHAKE_SERVER_RECV_CHALLENGE2 then
        let required_size :=
          if s.hs_stage = RTMP_HANDSHAKE_SERVER_RECV_CHALLENGE1 then 1537 else 1536
        match s.hs_buf with
        | none => none
        | some b0 =>
          match rtmp_handshake_recv_loop required_size b0 m.w with
          | (.finalize, b, w) =>
            rtmp_finalize_session
              { c := { m.c with read := rev }, s := some { s with hs_buf := some b }, w := w }
          | (.again, b, w) =>
            match rtmp_handle_read_event (rtmp_add_timer rev s.timeout) m.c.fd w with
            | (rc, rev, w) =>
              let m1 : machine :=
                { c := { m.c with read := rev }, s := some { s with hs_buf := some b }, w := w }
              if rc ≠ RTMP_OK then rtmp_finalize_session m1 else some m1
          | (.done, b, w) =>
            let r := del_event_if_active rev m.c.fd w
            let stage := (s.hs_stage + 1) % 2 ^ 64
            let m1 : machine :=
              { c := { m.c with read := r.1 },
                s := some { s with hs_buf := some b, hs_stage := stage }, w := r.2 }
            if stage = RTMP_HANDSHAKE_SERVER_SEND_CHALLENGE2 then
              if r.2.mem b.start ≠ 3 then rtmp_finalize_session m1
              else rtmp_handshake m1
            else if stage = RTMP_HANDSHAKE_DONE then rtmp_handshake m1
            else rtmp_finalize_session m1
      else
        rtmp_finalize_session { m with c := { m.c with read := rev } }
termination_by 2 * hs_rank m + 4
decreasing_by
  all_goals simp_wf
  all_goals
    simp only [hs_rank, hs, RTMP_DISCONNECT, RTMP_HANDSHAKE_DONE, RTMP_MSG_MAX,
      RTMP_HANDSHAKE_SERVER_RECV_CHALLENGE2, RTMP_HANDSHAKE_SERVER_SEND_CHALLENGE2] at *
  all_goals first | omega | simp_all

/-- The function `rtmp_handshake_send`, called with `wev = c->write`. -/
def rtmp_handshake_send (m : machine) : Option machine :=
  if m.c.destroyed then some m
  else if m.c.write.timedout then
    rtmp_finalize_session { m with c := { m.c with timedout := true } }
  else
    let wev := del_timer_if_set m.c.write
    match hs : m.s with
    | none => none
    | some s =>
      match s.hs_buf with
      | none => none
      | some b0 =>
        let r : Int × rtmp_buf_t × world :=
          if s.hs_stage = RTMP_HANDSHAKE_SERVER_SEND_CHALLENGE2 then
            let b1 : rtmp_buf_t := { b0 with pos := b0.start, last := b0.start }
            match rtmp_handshake_create_challenge { s with hs_buf := some b1 } b1.last
                (size_t_of ((b1.end_ : Int) - b1.last)) m.w with
            | (rc, w) =>
              if rc ≠ RTMP_OK then (RTMP_ERROR, b1, w)
              else (RTMP_OK, { b1 with last := b1.last + (1537 + 1536), pos := b1.start }, w)
          else (RTMP_OK, b0, m.w)
        match r with
        | (rc, b1, w1) =>
          if rc ≠ RTMP_OK then
            rtmp_finalize_session
              { c := { m.c with write := wev }, s := some { s with hs_buf := some b1 }, w := w1 }
          else
            match rtmp_handshake_send_loop b1 w1 with
            | (.finalize, b, w) =>
              rtmp_finalize_session
                { c := { m.c with write := wev }, s := some { s with hs_buf := some b }, w := w }
            | (.again, b, w) =>
              match rtmp_handle_write_event (rtmp_add_timer wev s.timeout) m.c.fd w with
              | (rc, wev, w) =>
                let m1 : machine :=
                  { c := { m.c with write := wev }, s := some { s with hs_buf := some b }, w := w }
                if rc ≠ RTMP_OK then rtmp_finalize_session m1 else some m1
            | (.done, b, w) =>
              let r := del_event_if_active wev m.c.fd w
              let stage := (s.hs_stage + 1) % 2 ^ 64
              if stage = RTMP_HANDSHAKE_SERVER_RECV_CHALLENGE2 then
                rtmp_handshake
                  { c := { m.c with write := r.1 },
                    s := some { s with hs_buf := some { b with pos := b.start, last := b.start },
                                       hs_stage := stage },
                    w := r.2 }
              else if stage = RTMP_HANDSHAKE_DONE then
                rtmp_handshake
                  { c := { m.c with write := r.1 },
                    s := some { s with hs_buf := none, hs_stage := stage }, w := r.2 }
              else
                rtmp_finalize_session
                  { c := { m.c with write := r.1 },
                    s := some { s with hs_buf := some b, hs_stage := stage }, w := r.2 }
termination_by 2 * hs_rank m + 4
decreasing_by
  all_goals simp_wf
  all_goals
    simp only [hs_rank, hs, RTMP_DISCONNECT, RTMP_HANDSHAKE_DONE, RTMP_MSG_MAX,
      RTMP_HANDSHAKE_SERVER_RECV_CHALLENGE2, RTMP_HANDSHAKE_SERVER_SEND_CHALLENGE2] at *
  all_goals first | omega | simp_all

end


/-- An event struct as `rtmp_pcalloc` leaves it: all fields zero. -/
def rtmp_event_zero : rtmp_event_t :=
  { handler := .null, write := false, active := false, ready := false, eof := false,
    error := false, timedout := false, timer_set := false, timer := 0 }

/-- The function `rtmp_init_session`; its argument `c` is not used by the code. -/
def rtmp_init_session (w : world) : Option rtmp_session_t × world :=
  match rtmp_create_pool 4096 w with
  | (none, w) => (none, w)
  | (some pool, w) =>
    match rtmp_pool_calloc pool (sizeof_rtmp_session_t + sizeof_ptr * 64) w with
    | (none, pool, w) => (none, rtmp_destroy_pool pool w)
    | (some _, pool, w) =>
      match rtmp_pool_calloc pool (sizeof_rtmp_stream_t * 64) w with
      | (none, pool, w) => (none, rtmp_destroy_pool pool w)
      | (some in_streams, pool, w) =>
        (some { signature := 0x504D5452, close := rtmp_event_zero, connected := 0,
                buflen := 3000, ack_size := 5000000, hs_buf := none, hs_stage := 0,
                epoch := w.now * 1000, base_time := w.now * 1000, ping_active := false,
                ping_reset := false, in_streams := some in_streams,
                in_chunk_size := RTMP_DEFAULT_CHUNK_SIZE, in_pool := some pool,
                connection := false, timeout := 60000, out_queue := 256, out_cork := 8192 }, w)

/-- The function `rtmp_init_connection`. -/
def rtmp_init_connection (c : rtmp_connection_t) (w : world) : Option machine :=
  match rtmp_init_session w with
  | (none, w) =>
    match rtmp_close_connection c w with
    | (c, w) => some { c := c, s := none, w := w }
  | (some s, w) =>
    rtmp_handshake
      { c := { c with read := { c.read with handler := .rtmp_recv_handler },
                      write := { c.write with handler := .rtmp_send_handler } },
        s := some { s with connection := true,
                           close := { s.close with handler := .rtmp_close_handler } },
        w := w }

/-- The function `rtmp_recv_handler`, installed on `c->read`. -/
def rtmp_recv_handler (m : machine) : Option machine :=
  if m.c.destroyed then some m
  else if m.c.read.timedout then
    rtmp_finalize_session { m with c := { m.c with timedout := true } }
  else
    let rev := del_timer_if_set m.c.read
    let m1 : machine := { m with c := { m.c with read := rev } }
    match m1.s with
    | none => none
    | some s => if s.connected = 0 then rtmp_handshake m1 else some m1

/-- The function `rtmp_send_handler`, installed on `c->write`. -/
def rtmp_send_handler (m : machine) : Option machine :=
  if m.c.destroyed then some m
  else if m.c.write.timedout then
    rtmp_finalize_session { m with c := { m.c with timedout := true } }
  else
    let wev := del_timer_if_set m.c.write
    let m1 : machine := { m with c := { m.c with write := wev } }
    match m1.s with
    | none => none
    | some s => if s.connected = 0 then rtmp_handshake m1 else some m1

/-- The function `rtmp_close_handler`. -/
def rtmp_close_handler (m : machine) : machine :=
  match rtmp_close_connection m.c m.w with
  | (c, w) => { m with c := c, w := w }

/-- The call `fcntl(fd, F_SETFL, O_NONBLOCK)`; `true` is success. -/
def fcntl (fd : Int) (w : world) : Bool × world :=
  (w.fcntl_ok.headD true,
   { w with fcntl_ok := w.fcntl_ok.tail }.log (.fcntl fd (w.fcntl_ok.headD true)))

/-- The function `rtmp_create_connection`. The pool is returned as the calls
left it, also when the result is `NULL`. -/
def rtmp_create_connection (fd : Int) (pool : rtmp_pool_t) (w : world) :
    Option rtmp_connection_t × rtmp_pool_t × world :=
  match rtmp_pool_calloc pool sizeof_rtmp_connection_t w with
  | (none, pool, w) => (none, pool, w)
  | (some _, pool, w) =>
    match rtmp_pool_calloc pool sizeof_rtmp_event_t w with
    | (none, pool, w) => (none, pool, w)
    | (some _, pool, w) =>
      match rtmp_pool_calloc pool sizeof_rtmp_event_t w with
      | (none, pool, w) => (none, pool, w)
      | (some _, pool, w) =>
        match fcntl fd w with
        | (false, w) => (none, pool, w)
        | (true, w) =>
          (some { fd := fd, read := rtmp_event_zero,
                  write := { rtmp_event_zero with write := true },
                  sockaddr := none, socklen := 0, addr_text_len := 0, addr_text_data := none,
                  pool := pool, destroyed := false, timedout := false, close := false,
                  error := false }, pool, w)

/-- The body of the `for (;;)` loop of `rtmp_accept_handler` once `accept`
has returned the socket `fd` of a peer whose `sockaddr_in` is `addr` and whose
address prints as `addr_str`. `Sum.inl` is the `continue` taken when no
connection could be set up, `Sum.inr` the outcome of `rtmp_init_connection`. -/
def rtmp_accept_connection (fd : Int) (addr addr_str : List Nat) (w : world) :
    world ⊕ Option machine :=
  match rtmp_create_pool 4096 w with
  | (none, w) => .inl (w.log (.close fd))
  | (some pool, w) =>
    match rtmp_create_connection fd pool w with
    | (none, pool, w) => .inl (rtmp_destroy_pool pool (w.log (.close fd)))
    | (some c, pool, w) =>
      match rtmp_pool_alloc pool sizeof_sockaddr_in w with
      | (sockaddr, pool, w) =>
        let w1 : world :=
          match sockaddr with
          | some p => { w with mem := mem_write w.mem p (addr.take sizeof_sockaddr_in) }
          | none => w
        let c1 : rtmp_connection_t :=
          match sockaddr with
          | some _ => { c with sockaddr := sockaddr, socklen := sizeof_sockaddr_in }
          | none => { c with sockaddr := none }
        match rtmp_pool_alloc pool addr_str.length w1 with
        | (data, pool, w2) =>
          let w3 : world :=
            match data with
            | some p => { w2 with mem := mem_write w2.mem p addr_str }
            | none => w2
          .inr (rtmp_init_connection
            { c1 with addr_text_len := addr_str.length, addr_text_data := data, pool := pool } w3)

/-! ## rtmp_connection.c: `rtmp_send_chain` -/

/-- What `rtmp_send_chain` returns: `NULL`, `RTMP_CHAIN_ERROR`, or a pointer to
a link of the chain, given as the chain from that link on. -/
inductive chain_result where
  | null
  | error
  | node (cl : List Nat)
  deriving DecidableEq, Repr

/-- The `size` that `rtmp_send_chain` offers to `send` for the buffer `b`:
`b->last - b->pos`, cut down to `limit` when `limit` is not 0. -/
def rtmp_send_chain_size (b : rtmp_buf_t) (limit : Int) : Nat :=
  let size := size_t_of ((b.last : Int) - b.pos)
  if limit ≠ 0 ∧ size > size_t_of limit then size_t_of limit else size

/-- The function `rtmp_send_chain`. A chain is the list of the `buf` pointers
of its links, in `next` order, and `bufs` maps such a pointer to the buffer
struct it points to (links may share a buffer). A recursive call with the same
chain is the next round of the `while` loop, one with the tail of the chain the
next round of the `for` loop. -/
def rtmp_send_chain (bufs : Nat → rtmp_buf_t) (cl : List Nat) (limit : Int) (w : world) :
    chain_result × (Nat → rtmp_buf_t) × world :=
  match cl with
  | [] => (.null, bufs, w)
  | p :: next =>
    if (bufs p).pos < (bufs p).last then
      match h : rtmp_unix_send (bufs p).pos (rtmp_send_chain_size (bufs p) limit) w with
      | (n, w1) =>
        if n = RTMP_ERROR then (.error, bufs, w1)
        else if n = RTMP_AGAIN then (.node (p :: next), bufs, w1)
        else
          let bufs1 := Function.update bufs p { bufs p with pos := ((bufs p).pos + n).toNat }
          if limit ≠ 0 then
            if limit - n = 0 then (.node (p :: next), bufs1, w1)
            else rtmp_send_chain bufs1 (p :: next) (limit - n) w1
          else rtmp_send_chain bufs1 (p :: next) limit w1
    else rtmp_send_chain bufs next limit w
termination_by (cl.length, w.tx.length)
decreasing_by
  all_goals simp_wf
  · rename_i h1 h2 _ _
    apply Prod.Lex.right
    unfold rtmp_unix_send at h
    split at h
    · simp [RTMP_AGAIN] at h; exact absurd h.1.symm h2
    · simp [RTMP_AGAIN] at h; exact absurd h.1.symm h2
    · simp [RTMP_ERROR] at h; exact absurd h.1.symm h1
    · rename_i hrx
      simp at h
      rw [← h.2, hrx]
      simp [world.log]
  · rename_i h1 h2 _
    apply Prod.Lex.right
    unfold rtmp_unix_send at h
    split at h
    · simp [RTMP_AGAIN] at h; exact absurd h.1.symm h2
    · simp [RTMP_AGAIN] at h; exact absurd h.1.symm h2
    · simp [RTMP_ERROR] at h; exact absurd h.1.symm h1
    · rename_i hrx
      simp at h
      rw [← h.2, hrx]
      simp [world.log]
  · apply Prod.Lex.left
    simp


/-! ## Observations on the trace -/

/-- A call of `send`. -/
def effect.is_send : effect → Bool
  | .send _ _ => true
  | _ => false

/-- A call of `recv`. -/
def effect.is_recv : effect → Bool
  | .recv _ _ => true
  | _ => false

/-- A call of `close`. -/
def effect.is_close : effect → Bool
  | .close _ => true
  | _ => false

/-- A call of `epoll_ctl`. -/
def effect.is_epoll_ctl : effect → Bool
  | .epoll_ctl _ _ _ _ => true
  | _ => false

/-- A call of `malloc` or `free`. -/
def effect.is_heap : effect → Bool
  | .malloc _ _ => true
  | .free _ => true
  | _ => false

/-- The bytes `send` accepted, in order: of each call that returned `n > 0`
the first `n` bytes it was offered. -/
def sent_bytes : List effect → List Nat
  | [] => []
  | .send buf ret :: t => (if 0 < ret then buf.take ret.toNat else []) ++ sent_bytes t
  | _ :: t => sent_bytes t

/-- The calls made between the state `w` and the later state `w2`. -/
def new_effects (w w2 : world) : List effect :=
  w2.trace.drop w.trace.length

/-- The world `w2` comes from `w` by calls of `malloc` and `free` only. -/
def heap_step (w w2 : world) : Prop :=
  w2.rx = w.rx ∧ w2.wire = w.wire ∧ w2.tx = w.tx ∧ w2.ctl = w.ctl ∧
  w2.fcntl_ok = w.fcntl_ok ∧ w2.epoll_fd = w.epoll_fd ∧ w2.now = w.now ∧
  w2.rand = w.rand ∧ w2.rand_calls = w.rand_calls ∧
  ∃ es, w2.trace = w.trace ++ es ∧ ∀ e ∈ es, e.is_heap = true

/-- Neither a call of `send` nor the `RTMP_HANDSHAKE_DONE` notification. -/
def effect.quiet (e : effect) : Bool :=
  !e.is_send && !(e == .fire_event RTMP_HANDSHAKE_DONE)

/-- The world `w2` comes from `w` by calls that are all `quiet`. -/
def quiet_step (w w2 : world) : Prop :=
  ∃ es, w2.trace = w.trace ++ es ∧ ∀ e ∈ es, e.quiet = true

/-- The `free` calls of `rtmp_destroy_pool` on a pool pointer that may be
`NULL`: one per block of the chain, in chain order. -/
def pool_frees : Option rtmp_pool_t → List effect
  | some pool => (pool.blk :: pool.next).map (fun b => effect.free b.addr)
  | none => []

/-- The bytes of a chain that are still to be sent: the regions
`[pos, last)` of its buffers, in chain order. A buffer that two links share is
counted at the first of them, which is the link that sends it. -/
def chain_pending (bufs : Nat → rtmp_buf_t) (mem : Nat → Nat) (cl : List Nat) : List Nat :=
  match cl with
  | [] => []
  | p :: next =>
    mem_read mem (bufs p).pos ((bufs p).last - (bufs p).pos) ++
      chain_pending (Function.update bufs p { bufs p with pos := (bufs p).last }) mem next

/-- The bytes between where the buffers of a chain stood (`bufs`) and where
they stand now (`bufs2`): the regions `[pos, pos2)`, in chain order. A buffer
that two links share is counted at the first of them. -/
def chain_advanced (bufs bufs2 : Nat → rtmp_buf_t) (mem : Nat → Nat) (cl : List Nat) :
    List Nat :=
  match cl with
  | [] => []
  | p :: next =>
    mem_read mem (bufs p).pos ((bufs2 p).pos - (bufs p).pos) ++
      chain_advanced (Function.update bufs p (bufs2 p)) bufs2 mem next

/-- What one call does to the interest list of the epoll instance (socket to
event mask): a successful `EPOLL_CTL_ADD` or `EPOLL_CTL_MOD` stores the mask
for the socket, a successful `EPOLL_CTL_DEL` and `close` remove the socket, and
a failed `epoll_ctl` changes nothing. -/
def epoll_apply (reg : Int → Option Nat) (e : effect) : Int → Option Nat :=
  match e with
  | .epoll_ctl op fd events true =>
    if op = EPOLL_CTL_DEL then Function.update reg fd none
    else Function.update reg fd (some events)
  | .close fd => Function.update reg fd none
  | _ => reg

/-- The interest list of the epoll instance after the calls of a trace. -/
def epoll_interest (tr : List effect) : Int → Option Nat :=
  tr.foldl epoll_apply (fun _ => none)

/-- The socket `fd` is registered with the epoll instance for `event`
(`RTMP_READ_EVENT` or `RTMP_WRITE_EVENT`) after the calls of a trace. -/
def event_registered (tr : List effect) (fd : Int) (event : Nat) : Bool :=
  match epoll_interest tr fd with
  | some mask => mask &&& event != 0
  | none => false

/-- The buffer invariant `start ≤ pos ≤ last ≤ end`. -/
def buf_valid (b : rtmp_buf_t) : Prop :=
  b.start ≤ b.pos ∧ b.pos ≤ b.last ∧ b.last ≤ b.end_

/-- The scratch buffer of the session of a machine, if there is one, satisfies
the buffer invariant. -/
def hs_buf_valid (m : machine) : Prop :=
  ∀ s b, m.s = some s → s.hs_buf = some b → buf_valid b

/-! ## Concrete states

The states below are the ones a connection accepted on socket 7 goes through
when the heap starts at address 65536. -/

/-- The connection as `rtmp_accept_handler` hands it to
`rtmp_init_connection`. -/
def sample_connection : rtmp_connection_t :=
  { fd := 7, read := rtmp_event_zero, write := { rtmp_event_zero with write := true },
    sockaddr := some 65744, socklen := 16, addr_text_len := 3, addr_text_data := some 65760,
    pool := { blk := { addr := 65536, last := 65763, end_ := 69632, size := 4096 }, next := [] },
    destroyed := false, timedout := false, close := false, error := false }

/-- The world at that moment: the pool of the connection is the one live
allocation; the peer will write `wire`, and `rx` and `tx` script the socket. -/
def sample_world (wire : List Nat) (rx tx : List os_io) : world :=
  { boot 69648 wire rx tx with
    live := [(65536, 4096)],
    trace := [.malloc 4096 (some 65536), .fcntl 7 true] }

/-- The session of that connection while it waits for C0 and C1: stage 0, an
empty scratch buffer of 1537 bytes, a pool of two blocks. -/
def sample_session : rtmp_session_t :=
  { signature := 0x504D5452,
    close := { rtmp_event_zero with handler := .rtmp_close_handler },
    connected := 0, buflen := 3000, ack_size := 5000000,
    hs_buf := some { pos := 73760, last := 73760, start := 73760, end_ := 75297,
                     temporary := true },
    hs_stage := 0, epoch := 1700000000000, base_time := 1700000000000,
    ping_active := false, ping_reset := false, in_streams := some 70624,
    in_chunk_size := 128,
    in_pool := some { blk := { addr := 69648, last := 73224, end_ := 73744, size := 4096 },
                      next := [{ addr := 75312, last := 75352, end_ := 79408, size := 4096 }] },
    connection := true, timeout := 60000, out_queue := 256, out_cork := 8192 }

/-- The connection of that session: the handshake handlers are installed, the
read event is registered and its timer armed. -/
def sample_connection_waiting : rtmp_connection_t :=
  { sample_connection with
    read := { rtmp_event_zero with handler := .rtmp_handshake_recv, active := true,
                                   timer_set := true, timer := 60000 },
    write := { rtmp_event_zero with handler := .rtmp_handshake_send, write := true } }

/-- The world of that session: four live allocations (the pool of the
connection, the two blocks of the pool of the session, the scratch buffer). -/
def sample_world_waiting (wire : List Nat) (rx tx : List os_io) : world :=
  { boot 79424 wire rx tx with
    live := [(75312, 4096), (73760, 1537), (69648, 4096), (65536, 4096)],
    trace := [.malloc 4096 (some 65536), .fcntl 7 true, .malloc 4096 (some 69648),
              .malloc 1537 (some 73760), .malloc 4096 (some 75312), .recv 1537 RTMP_AGAIN,
              .epoll_ctl EPOLL_CTL_ADD 7 (RTMP_READ_EVENT ||| EPOLLET) true] }

/-- The buffers of a chain of two links: the link at 100 has the four bytes at
1000..1003 to send, the link at 200 the three bytes at 2000..2002. -/
def sample_chain_bufs (p : Nat) : rtmp_buf_t :=
  if p = 100 then { pos := 1000, last := 1004, start := 1000, end_ := 1004, temporary := true }
  else if p = 200 then
    { pos := 2000, last := 2003, start := 2000, end_ := 2003, temporary := true }
  else { pos := 0, last := 0, start := 0, end_ := 0, temporary := false }

/-- A world whose memory holds at every address the low byte of the address,
with `tx` as the script of `send`. -/
def sample_chain_world (tx : List os_io) : world :=
  { sample_world [] [] tx with mem := fun a => a % 256 }

/-- A session whose scratch buffer holds 1537 received bytes at 1000..2536 and
has room for 3073. -/
def sample_session_full : rtmp_session_t :=
  { sample_session with
    hs_buf := some { pos := 1000, last := 2537, start := 1000, end_ := 4073,
                     temporary := true } }

/-- A connection and session after a teardown: the socket is closed and the
connection is marked destroyed. -/
def sample_machine_closed : machine :=
  { c := { sample_connection_waiting with fd := -1, destroyed := true },
    s := some sample_session,
    w := sample_world_waiting [] [] [] }

/-- The waiting connection and session at the moment both timers have fired:
the `timedout` flag of the read event and of the write event is set. -/
def sample_machine_timedout : machine :=
  { c := { sample_connection_waiting with
           read := { sample_connection_waiting.read with timedout := true },
           write := { sample_connection_waiting.write with timedout := true } },
    s := some sample_session,
    w := sample_world_waiting [] [] [] }

/-- The waiting connection and session at a moment when the peer has put the
two bytes 3 and 9 on the wire: one `recv` will deliver them, the next will
report `EAGAIN`. -/
def sample_machine_reading : machine :=
  { c := sample_connection_waiting, s := some sample_session,
    w := sample_world_waiting [3, 9] [.bytes 2] [] }

/-- The state `rtmp_handshake_recv` leaves `sample_machine_reading` in: the two
bytes are in the scratch buffer and `last` has moved on by 2. -/
def sample_machine_read : machine :=
  { c := sample_connection_waiting,
    s := some { sample_session with
      hs_buf := some { pos := 73760, last := 73762, start := 73760, end_ := 75297,
                       temporary := true } },
    w := { sample_world_waiting [] [] [] with
           mem := mem_write (fun _ => 0) 73760 [3, 9],
           trace := (sample_world_waiting [] [] []).trace ++
             [.recv 1537 2, .recv 1535 RTMP_AGAIN] } }

/-! ## rtmp_pool.c: arrays -/

/-- The LP64 value of `sizeof(rtmp_array_t)`: five 8-byte fields. -/
def sizeof_rtmp_array_t : Nat := 40

/-- The struct `rtmp_array_t` (rtmp_types.h). Its `pool` field always points
to the pool the array was created in; the functions below take that pool as an
argument and give it back as it is after the call. -/
structure rtmp_array_t where
  elts : Option Nat
  nelts : Nat
  size : Nat
  nalloc : Nat
  deriving DecidableEq, Repr

/-- The function `rtmp_memcpy`, which is `memcpy`. -/
def rtmp_memcpy (dst src n : Nat) (w : world) : world :=
  { w with mem := mem_write w.mem dst (mem_read w.mem src n) }

/-- The function `rtmp_array_create`. -/
def rtmp_array_create (pool : rtmp_pool_t) (n size : Nat) (w : world) :
    Option rtmp_array_t × rtmp_pool_t × world :=
  match rtmp_pool_alloc pool sizeof_rtmp_array_t w with
  | (none, pool, w) => (none, pool, w)
  | (some _, pool, w) =>
    if n ≠ 0 then
      match rtmp_pool_alloc pool (n * size % 2 ^ 64) w with
      | (none, pool, w) => (none, pool, w)
      | (some e, pool, w) =>
        (some { elts := some e, nelts := 0, size := size, nalloc := n }, pool, w)
    else (some { elts := none, nelts := 0, size := size, nalloc := n }, pool, w)

/-- The function `rtmp_array_push`: the address of the new element, or `none`
for `NULL`, and the array as the call leaves it. -/
def rtmp_array_push (a : rtmp_array_t) (pool : rtmp_pool_t) (w : world) :
    Option Nat × rtmp_array_t × rtmp_pool_t × world :=
  if a.nelts = a.nalloc then
    let size := a.size * a.nalloc % 2 ^ 64
    match rtmp_pool_alloc pool (2 * size % 2 ^ 64) w with
    | (none, pool, w) => (none, a, pool, w)
    | (some new_elts, pool, w) =>
      let w := rtmp_memcpy new_elts (a.elts.getD 0) size w
      let a := { a with elts := some new_elts, nalloc := a.nalloc * 2 % 2 ^ 64 }
      (some (a.elts.getD 0 + a.size * a.nelts % 2 ^ 64),
       { a with nelts := (a.nelts + 1) % 2 ^ 64 }, pool, w)
  else
    (some (a.elts.getD 0 + a.size * a.nelts % 2 ^ 64),
     { a with nelts := (a.nelts + 1) % 2 ^ 64 }, pool, w)

/-- The function `rtmp_array_push_n`. -/
def rtmp_array_push_n (a : rtmp_array_t) (n : Nat) (pool : rtmp_pool_t) (w : world) :
    Option Nat × rtmp_array_t × rtmp_pool_t × world :=
  if (a.nelts + n) % 2 ^ 64 > a.nalloc then
    let size := a.size * a.nalloc % 2 ^ 64
    match rtmp_pool_alloc pool (2 * size * n % 2 ^ 64) w with
    | (none, pool, w) => (none, a, pool, w)
    | (some new_elts, pool, w) =>
      let w := rtmp_memcpy new_elts (a.elts.getD 0) size w
      let a := { a with elts := some new_elts, nalloc := 2 * a.nalloc * n % 2 ^ 64 }
      (some (a.elts.getD 0 + a.size * a.nelts % 2 ^ 64),
       { a with nelts := (a.nelts + n) % 2 ^ 64 }, pool, w)
  else
    (some (a.elts.getD 0 + a.size * a.nelts % 2 ^ 64),
     { a with nelts := (a.nelts + n) % 2 ^ 64 }, pool, w)

/-! ## rtmp_session.c and rtmp_protocol.h: byte order -/

/-- The loop `while (n--) { d[n] = s[n]; }` of `rtmp_rmemcpy`, on byte
memory. -/
def rtmp_rmemcpy_loop (d s : Nat) : Nat → (Nat → Nat) → (Nat → Nat)
  | 0, mem => mem
  | n + 1, mem => rtmp_rmemcpy_loop d s n (Function.update mem (d + n) (mem (s + n)))

/-- The function `rtmp_rmemcpy`: the pointer returned and the memory after
the call. -/
def rtmp_rmemcpy (dst src n : Nat) (mem : Nat → Nat) : Nat × (Nat → Nat) :=
  (dst, rtmp_rmemcpy_loop dst src n mem)

/-- The function `rtmp_r16`; the argument is converted to `uint16_t`, the
operands are promoted to `int`, and the result is converted to `uint16_t`. -/
def rtmp_r16 (n : Nat) : Nat :=
  let n := n % 2 ^ 16
  ((n <<< 8) ||| (n >>> 8)) % 2 ^ 16

/-- The function `rtmp_r32`, in `uint32_t` arithmetic. -/
def rtmp_r32 (n : Nat) : Nat :=
  let n := n % 2 ^ 32
  ((n <<< 24) % 2 ^ 32) ||| (((n <<< 8) % 2 ^ 32) &&& 0xff0000) ||| ((n >>> 8) &&& 0xff00) |||
    (n >>> 24)

/-- The function `rtmp_r64`: the casts to `uint32_t` keep the low 32 bits. -/
def rtmp_r64 (n : Nat) : Nat :=
  let n := n % 2 ^ 64
  ((rtmp_r32 (n % 2 ^ 32) <<< 32) % 2 ^ 64) ||| rtmp_r32 ((n >>> 32) % 2 ^ 32)

/-- The `k` bytes of `n`, least significant first: how a little-endian
machine stores a `k`-byte unsigned value. -/
def bytes_of (k n : Nat) : List Nat :=
  (List.range k).map (fun i => n / 256 ^ i % 256)

/-! ## rtmp_protocol.h: the chunk stream

The header declares `rtmp_prepare_message`, `rtmp_send_message` and
`rtmp_receive_message` and the structs they work on; the functions themselves
and the loop that reads chunks are not part of the sources (`rtmp_recv_handler`
ends in a `TODO`). They are modelled below from §4.5 of the specification, with
the field widths of the published RTMP chunk format that §6 refers to. -/

/-- The struct `rtmp_header_t` (rtmp_protocol.h). -/
structure rtmp_header_t where
  csid : Nat
  timestamp : Nat
  mlen : Nat
  type : Nat
  msid : Nat
  deriving DecidableEq, Repr

/-- The struct `rtmp_stream_t` (rtmp_protocol.h); `in_` holds the bytes of the
chain `in`. -/
structure rtmp_stream_t where
  hdr : rtmp_header_t
  dtime : Nat
  len : Nat
  ext : Bool
  in_ : List Nat
  deriving DecidableEq, Repr

/-- The `k` bytes of `n`, most significant first. -/
def be_bytes (k n : Nat) : List Nat :=
  (bytes_of k n).reverse

/-- The number that a list of bytes spells, most significant byte first. -/
def be_value (bs : List Nat) : Nat :=
  bs.foldl (fun a b => a * 256 + b) 0

/-- The number that a list of bytes spells, least significant byte first. -/
def le_value (bs : List Nat) : Nat :=
  bs.foldr (fun b a => b + 256 * a) 0

/-- Modelled from the spec: the part of a session that the Chunk Protocol
Engine of §4.5 works on, which is missing from the sources together with the
engine: the `Stream` slot of every chunk stream (`in_streams`), the negotiated
incoming chunk size, and the messages handed to the message handler so far,
each as its header and its payload. -/
structure chunk_engine where
  in_streams : Nat → rtmp_stream_t
  in_chunk_size : Nat
  received : List (rtmp_header_t × List Nat)

/-- Modelled from the spec: the basic header of a chunk, missing from the
sources. §4.5: "a basic header encoding the csid (1, 2, or 3 bytes depending
on magnitude) and a 2-bit header-size selector"; the selector is the top two
bits of the first byte, a csid below 64 is its low six bits, and the low six
bits 0 and 1 announce one and two further bytes that hold `csid - 64`. -/
def chunk_basic_header (fmt csid : Nat) : List Nat :=
  if csid < 64 then [fmt * 64 + csid]
  else if csid < 320 then [fmt * 64, csid - 64]
  else [fmt * 64 + 1, (csid - 64) % 256, (csid - 64) / 256]

/-- Modelled from the spec: the extended timestamp, missing from the sources.
§4.5: "A 24-bit timestamp field equal to `0xFFFFFF` signals a following 4-byte
extended timestamp." -/
def chunk_ext_timestamp (ts : Nat) : List Nat :=
  if 0xFFFFFF ≤ ts then be_bytes 4 ts else []

/-- Modelled from the spec: the message header of a chunk in each of the four
forms of §4.5, missing from the sources: "full (timestamp, message length,
type, message-stream-id), same-stream-id (timestamp delta, length, type),
timestamp-delta-only, or header-elided". Timestamp and length take 3 bytes,
the type 1 byte, the message-stream-id 4 bytes least significant first. -/
def chunk_message_header (fmt ts mlen type msid : Nat) : List Nat :=
  (if fmt = 0 then be_bytes 3 (min ts 0xFFFFFF) ++ be_bytes 3 mlen ++ [type] ++ bytes_of 4 msid
   else if fmt = 1 then be_bytes 3 (min ts 0xFFFFFF) ++ be_bytes 3 mlen ++ [type]
   else if fmt = 2 then be_bytes 3 (min ts 0xFFFFFF)
   else []) ++ chunk_ext_timestamp ts

/-- Modelled from the spec: the choice of the header form in
`rtmp_prepare_message`, missing from the sources. §4.5: "header-form selection
minimizes bytes by reusing the previous header for the same
message-stream-id/type/length when unchanged": with the previous header `lh`
of the chunk stream, the same message-stream-id allows the same-stream-id form
(1), and the same type and length as well allow the timestamp-delta-only form
(2); without a previous header the form is the full one (0). -/
def header_form (h : rtmp_header_t) (mlen : Nat) (lh : Option rtmp_header_t) : Nat :=
  match lh with
  | none => 0
  | some l =>
    if l.csid = h.csid ∧ l.msid = h.msid then
      if l.type = h.type ∧ l.mlen = mlen then 2 else 1
    else 0

/-- Modelled from the spec: the timestamp field of the first chunk of a
message, missing from the sources: the timestamp in the full form, the
difference to the timestamp of the previous header in the other forms, in
`uint32_t` arithmetic. -/
def timestamp_field (fmt : Nat) (h : rtmp_header_t) (lh : Option rtmp_header_t) : Nat :=
  match lh with
  | none => h.timestamp % 2 ^ 32
  | some l =>
    if fmt = 0 then h.timestamp % 2 ^ 32
    else (h.timestamp % 2 ^ 32 + 2 ^ 32 - l.timestamp % 2 ^ 32) % 2 ^ 32

/-- Modelled from the spec: the chunks that follow the first chunk of a
message, missing from the sources. §4.5: "split into chunks no larger than the
negotiated outgoing chunk size"; each starts with `cont`, the header-elided
form. The first argument after `cont` bounds the number of chunks. -/
def rtmp_chunks (chunk_size : Nat) (cont : List Nat) : Nat → List Nat → List Nat
  | 0, _ => []
  | fuel + 1, rest =>
    if rest = [] then []
    else cont ++ rest.take chunk_size ++ rtmp_chunks chunk_size cont fuel (rest.drop chunk_size)

/-- Modelled from the spec: the function `rtmp_prepare_message`, declared in
rtmp_protocol.h and defined nowhere in the sources. It turns the message with
header `h` and payload `out` into the bytes of its chunks, for the outgoing
chunk size `chunk_size` and the previous header `lh` of the chunk stream; the
message length written is the length of `out`. -/
def rtmp_prepare_message (chunk_size : Nat) (h : rtmp_header_t) (lh : Option rtmp_header_t)
    (out : List Nat) : List Nat :=
  let fmt := header_form h out.length lh
  let ts := timestamp_field fmt h lh
  chunk_basic_header fmt h.csid ++ chunk_message_header fmt ts out.length h.type h.msid ++
    out.take chunk_size ++
    rtmp_chunks chunk_size (chunk_basic_header 3 h.csid ++ chunk_ext_timestamp ts) out.length
      (out.drop chunk_size)

/-- Modelled from the spec: the function `rtmp_send_message`, declared in
rtmp_protocol.h and defined nowhere in the sources: the prepared bytes are
appended to what the connection has to send. -/
def rtmp_send_message (queue out : List Nat) : List Nat :=
  queue ++ out

/-- Modelled from the spec: the function `rtmp_receive_message`, declared in
rtmp_protocol.h and defined nowhere in the sources. §4.5: the engine "hands
the completed Chain plus its header to the message-handler collaborator". -/
def rtmp_receive_message (e : chunk_engine) (h : rtmp_header_t) (payload : List Nat) :
    chunk_engine :=
  { e with received := e.received ++ [(h, payload)] }

/-- The first `n` bytes of a stream and the rest; `none` when fewer are there. -/
def take_bytes (n : Nat) (bs : List Nat) : Option (List Nat × List Nat) :=
  if n ≤ bs.length then some (bs.take n, bs.drop n) else none

/-- Modelled from the spec: reading the basic header of a chunk, missing from
the sources: the header-size selector, the csid and the rest of the stream. -/
def parse_basic_header : List Nat → Option (Nat × Nat × List Nat)
  | [] => none
  | b :: rest =>
    if b % 64 = 0 then
      match rest with
      | b1 :: rest => some (b / 64 % 4, 64 + b1, rest)
      | [] => none
    else if b % 64 = 1 then
      match rest with
      | b1 :: b2 :: rest => some (b / 64 % 4, 64 + b1 + 256 * b2, rest)
      | _ => none
    else some (b / 64 % 4, b % 64, rest)

/-- Modelled from the spec: reading the message header of a chunk in the form
`fmt`, missing from the sources: the timestamp field, the length, the type and
the message-stream-id, the extended-timestamp flag and the rest of the stream.
What the form leaves out comes from the `Stream` slot `st`. -/
def parse_message_header (fmt : Nat) (st : rtmp_stream_t) (bs : List Nat) :
    Option (Nat × Nat × Nat × Nat × Bool × List Nat) :=
  let fixed : Option (Nat × Nat × Nat × Nat × Bool × List Nat) :=
    if fmt = 0 then
      match take_bytes 11 bs with
      | none => none
      | some (f, rest) =>
        some (be_value (f.take 3), be_value ((f.drop 3).take 3), f.getD 6 0,
          le_value (f.drop 7), decide (be_value (f.take 3) = 0xFFFFFF), rest)
    else if fmt = 1 then
      match take_bytes 7 bs with
      | none => none
      | some (f, rest) =>
        some (be_value (f.take 3), be_value ((f.drop 3).take 3), f.getD 6 0,
          st.hdr.msid, decide (be_value (f.take 3) = 0xFFFFFF), rest)
    else if fmt = 2 then
      match take_bytes 3 bs with
      | none => none
      | some (f, rest) =>
        some (be_value f, st.hdr.mlen, st.hdr.type, st.hdr.msid,
          decide (be_value f = 0xFFFFFF), rest)
    else some (st.dtime, st.hdr.mlen, st.hdr.type, st.hdr.msid, st.ext, bs)
  match fixed with
  | none => none
  | some (ts, mlen, type, msid, ext, rest) =>
    if ext then
      match take_bytes 4 rest with
      | none => none
      | some (x, rest) => some (be_value x, mlen, type, msid, true, rest)
    else some (ts, mlen, type, msid, false, rest)

/-- Modelled from the spec: the reassembly step of §4.5 for one chunk, missing
from the sources. "Receiving a chunk updates/derives the header via the
four-form rule above, accumulates payload bytes into the Stream's in-progress
Chain up to `min(remaining message length, negotiated incoming chunk size)`
per chunk, and on reaching the full declared message length, hands the
completed Chain plus its header to the message-handler collaborator and resets
the Stream's accumulator." A chunk that continues a message reuses the header
of the slot. The result is `none` when the stream ends inside the chunk. -/
def rtmp_recv_chunk (e : chunk_engine) (bs : List Nat) : Option (chunk_engine × List Nat) :=
  match parse_basic_header bs with
  | none => none
  | some (fmt, csid, bs1) =>
    match parse_message_header fmt (e.in_streams csid) bs1 with
    | none => none
    | some (ts, mlen, type, msid, ext, bs2) =>
      let st := e.in_streams csid
      let st1 : rtmp_stream_t :=
        if st.len = 0 then
          { st with
            hdr := { csid := csid,
                     timestamp := if fmt = 0 then ts else (st.hdr.timestamp + ts) % 2 ^ 32,
                     mlen := mlen, type := type, msid := msid },
            dtime := if fmt = 0 then 0 else ts,
            ext := ext }
        else st
      match take_bytes (min (st1.hdr.mlen - st1.len) e.in_chunk_size) bs2 with
      | none => none
      | some (data, rest) =>
        if st1.len + data.length = st1.hdr.mlen then
          some (rtmp_receive_message
                  { e with in_streams :=
                      (Function.update e.in_streams csid { st1 with len := 0, in_ := [] }) }
                  st1.hdr (st1.in_ ++ data),
                rest)
        else
          some ({ e with in_streams :=
                    (Function.update e.in_streams csid
                      { st1 with len := st1.len + data.length, in_ := st1.in_ ++ data }) },
                rest)

/-- Modelled from the spec: the engine reading chunk after chunk, at most
`fuel` of them, until the stream is used up. -/
def rtmp_recv_chunks : Nat → chunk_engine → List Nat → Option chunk_engine
  | 0, e, bs => if bs = [] then some e else none
  | fuel + 1, e, bs =>
    if bs = [] then some e
    else
      match rtmp_recv_chunk e bs with
      | none => none
      | some (e1, rest) => rtmp_recv_chunks fuel e1 rest

/-- Modelled from the spec: the Chunk Protocol Engine of §4.5 on a byte
stream, missing from the sources: every chunk takes at least one byte, so the
length of the stream bounds the number of chunks. -/
def rtmp_recv (e : chunk_engine) (bs : List Nat) : Option chunk_engine :=
  rtmp_recv_chunks bs.length e bs

/-- A concrete engine: every slot idle and zero, incoming chunk size 128. -/
def sample_engine : chunk_engine :=
  { in_streams := fun _ =>
      { hdr := { csid := 0, timestamp := 0, mlen := 0, type := 0, msid := 0 },
        dtime := 0, len := 0, ext := false, in_ := [] },
    in_chunk_size := 128, received := [] }

/-! ## rtmp_connection.c: `rtmp_event_loop` -/

/-- The value of `EPOLLERR`. -/
def EPOLLERR : Nat := 8
/-- The value of `EPOLLHUP`. -/
def EPOLLHUP : Nat := 16

/-- One round of the `for` loop of `rtmp_event_loop`, for an entry of
`epoll_wait` whose `data.ptr` is the read event of the connection and whose
`events` field is `events`: the flags `error` and `ready` are set from the
mask, then the handler stored in the event is called with it. The code stores
`rtmp_recv_handler` and `rtmp_handshake_recv` in `c->read->handler` and nothing
else; the other handlers expect another event, and for them the result is
`none` as well. -/
def rtmp_event_loop_read (events : Nat) (m : machine) : Option machine :=
  let rev := m.c.read
  let rev := if events &&& (EPOLLERR ||| EPOLLHUP) ≠ 0 then { rev with error := true } else rev
  let rev := if events &&& RTMP_READ_EVENT ≠ 0 then { rev with ready := true } else rev
  let m1 : machine := { m with c := { m.c with read := rev } }
  match rev.handler with
  | .null => some m1
  | .rtmp_recv_handler => rtmp_recv_handler m1
  | .rtmp_handshake_recv => rtmp_handshake_recv m1
  | _ => none

/-- The rounds of `rtmp_event_loop` for a run of read events of the
connection, given by their `events` masks, oldest first. The loop never sets a
`timedout` flag: its timer processing is left as a comment. While a session
waits for C0 and C1 the read event is the only event of its connection that is
registered with epoll: the write event is registered by `rtmp_handshake_send`
alone. -/
def rtmp_event_loop_reads : List Nat → machine → Option machine
  | [], m => some m
  | events :: rest, m =>
    match rtmp_event_loop_read events m with
    | none => none
    | some m1 => rtmp_event_loop_reads rest m1

/-- The number of bytes a socket script offers in all. -/
def bytes_offered : List os_io → Nat
  | [] => 0
  | .bytes k :: t => k + bytes_offered t
  | _ :: t => bytes_offered t

/-- A socket script that reports neither an error nor the end of the stream:
each answer is `EAGAIN` or a positive number of bytes. -/
def rx_delivers (rx : List os_io) : Prop :=
  ∀ x ∈ rx, x = .eagain ∨ ∃ k, 0 < k ∧ x = .bytes k

/-- A machine that waits for the rest of C0 and C1, seen from the world `w0`
in which the connection was accepted: stage `RECV_CHALLENGE1`, the handshake
handler on the read event, a scratch buffer of 1537 bytes that holds fewer than
1537, and these are the bytes taken from the wire of `w0` so far. Nothing but
quiet calls was made since `w0`, and `rtmp_finalize_session` was not called. -/
def hs_recv_waiting (w0 : world) (m : machine) : Prop :=
  quiet_step w0 m.w ∧ effect.finalize_session ∉ new_effects w0 m.w ∧
  m.c.destroyed = false ∧ m.c.read.timedout = false ∧
  m.c.read.handler = .rtmp_handshake_recv ∧
  ∃ s b, m.s = some s ∧ s.connection = true ∧
    s.hs_stage = RTMP_HANDSHAKE_SERVER_RECV_CHALLENGE1 ∧ s.hs_buf = some b ∧
    b.start ≤ b.last ∧ b.last < b.start + 1537 ∧ b.end_ = b.start + 1537 ∧
    mem_read m.w.mem b.start (b.last - b.start) ++ m.w.wire = w0.wire

/-- A machine whose session was finalized before 1537 bytes were taken from
the wire of `w0` (a failed allocation, `recv` or `epoll_ctl`). -/
def hs_recv_failed (w0 : world) (m : machine) : Prop :=
  quiet_step w0 m.w ∧ effect.finalize_session ∈ new_effects w0 m.w ∧
  m.c.destroyed = true ∧
  (m.c.read.handler = .rtmp_handshake_recv ∨ m.c.read.handler = .rtmp_recv_handler) ∧
  w0.wire.length < m.w.wire.length + 1537

/-- A machine whose session was finalized by the version test of
`rtmp_handshake_recv`: `rtmp_finalize_session` was called once, in a state `X`
of stage `SEND_CHALLENGE2` whose scratch buffer holds the 1537 bytes `P` taken
from the wire of `w0`, and nothing was called since it returned. -/
def hs_recv_rejected (w0 : world) (P : List Nat) (m : machine) : Prop :=
  quiet_step w0 m.w ∧ effect.finalize_session ∈ new_effects w0 m.w ∧
  m.c.destroyed = true ∧ m.c.fd = -1 ∧
  (m.c.read.handler = .rtmp_handshake_recv ∨ m.c.read.handler = .rtmp_recv_handler) ∧
  w0.wire = P ++ m.w.wire ∧
  ∃ X mX s b, rtmp_finalize_session X = some mX ∧ mX.w = m.w ∧
    effect.finalize_session ∉ new_effects w0 X.w ∧
    X.s = some s ∧ s.hs_stage = RTMP_HANDSHAKE_SERVER_SEND_CHALLENGE2 ∧
    s.hs_buf = some b ∧ b.last = b.start + 1537 ∧ mem_read X.w.mem b.start 1537 = P

/-- What the socket and the epoll instance will answer lets the rest of C0 and
C1 arrive: `recv` reports neither an error nor the end of the stream and
offers, with what was taken from the wire of `w0` so far, at least 1537 bytes,
and `epoll_ctl` succeeds. -/
def hs_recv_served (w0 : world) (w : world) : Prop :=
  rx_delivers w.rx ∧ (∀ b ∈ w.ctl, b = true) ∧ w.epoll_fd ≠ -1 ∧
  1537 + w.wire.length ≤ w0.wire.length + bytes_offered w.rx

/-! ## The heap: calls of `free` -/

/-- Replays the calls `es` on the list `live` of the addresses that `malloc`
has returned and `free` has not yet been given: `true` when one of the `free`
calls is given an address that is not in the list at that moment. C leaves
such a call undefined (for a block freed before, a double free); glibc aborts
the process when it detects one. -/
def invalid_free (live : List Nat) : List effect → Bool
  | [] => false
  | .free p :: t => if p ∈ live then invalid_free (live.filter (fun a => a ≠ p)) t else true
  | .malloc _ (some p) :: t => invalid_free (p :: live) t
  | _ :: t => invalid_free live t

/-! ## Theorems -/

/-- C4: a chunk size above `RTMP_MAX_CHUNK_SIZE` (10485760) is answered with
`RTMP_ERROR` and the session is returned as it was; every size up to the bound
is answered with `RTMP_OK` (and becomes `in_chunk_size`). -/
theorem rtmp_set_chunk_size_bound (s : rtmp_session_t) (size : Nat) :
    (10485760 < size → rtmp_set_chunk_size s size = (RTMP_ERROR, s)) ∧
    (size ≤ 10485760 →
      (rtmp_set_chunk_size s size).1 = RTMP_OK ∧
      (rtmp_set_chunk_size s size).2 = { s with in_chunk_size := size }) := by
  constructor
  · intro h
    simp [rtmp_set_chunk_size, RTMP_MAX_CHUNK_SIZE, h]
  · intro h
    have h2 : ¬ size > RTMP_MAX_CHUNK_SIZE := by
      simp [RTMP_MAX_CHUNK_SIZE]; omega
    simp [rtmp_set_chunk_size, h2]


@[simp] theorem world_log_trace (w : world) (e : effect) : (w.log e).trace = w.trace ++ [e] := rfl

theorem rtmp_fire_event_disconnect (m : machine) (s : rtmp_session_t) (h : m.s = some s) :
    rtmp_fire_event RTMP_DISCONNECT m =
      some { m with s := some { s with connected := 0 },
                    w := m.w.log (.fire_event RTMP_DISCONNECT) } := by
  rw [rtmp_fire_event]
  simp [h, RTMP_DISCONNECT, RTMP_CONNECT]

/-- The closed form of `rtmp_finalize_session` on a machine that has a session. -/
theorem rtmp_finalize_session_eq (m : machine) (s : rtmp_session_t) (h : m.s = some s) :
    rtmp_finalize_session m = some
      { c := if s.connection then
               (rtmp_close_connection m.c
                 ((m.w.log .finalize_session).log (.fire_event RTMP_DISCONNECT))).1
             else m.c,
        s := some { s with connected := 0 },
        w := match s.in_pool with
             | some pool =>
               rtmp_destroy_pool pool
                 (if s.connection then
                    (rtmp_close_connection m.c
                      ((m.w.log .finalize_session).log (.fire_event RTMP_DISCONNECT))).2
                  else (m.w.log .finalize_session).log (.fire_event RTMP_DISCONNECT))
             | none =>
               if s.connection then
                 (rtmp_close_connection m.c
                   ((m.w.log .finalize_session).log (.fire_event RTMP_DISCONNECT))).2
               else (m.w.log .finalize_session).log (.fire_event RTMP_DISCONNECT) } := by
  rw [rtmp_finalize_session]
  simp only [h]
  rw [rtmp_fire_event_disconnect _ s rfl]
  simp only []
  by_cases hc : s.connection = true <;> simp [hc] <;> cases s.in_pool <;> simp

theorem rtmp_destroy_pool_trace (pool : rtmp_pool_t) (w : world) :
    (rtmp_destroy_pool pool w).trace =
      w.trace ++ (pool.blk :: pool.next).map (fun p => effect.free p.addr) := by
  unfold rtmp_destroy_pool
  generalize pool.blk :: pool.next = l
  induction l generalizing w with
  | nil => simp
  | cons a l ih =>
    simp only [List.foldl_cons, List.map_cons]
    rw [ih]
    simp [free]

/-- The calls of `del_event_if_active`: at most one `epoll_ctl`; memory and
the `timedout` flag of the event stay as they are. -/
theorem del_event_if_active_spec (ev : rtmp_event_t) (fd : Int) (w : world) :
    (∃ es, (del_event_if_active ev fd w).2.trace = w.trace ++ es ∧
      ∀ e ∈ es, e.is_epoll_ctl = true) ∧
    (del_event_if_active ev fd w).2.mem = w.mem ∧
    (del_event_if_active ev fd w).1.timedout = ev.timedout := by
  unfold del_event_if_active
  split
  · unfold rtmp_del_event epoll_ctl
    split
    · exact ⟨⟨[], by simp⟩, rfl, rfl⟩
    · dsimp only
      refine ⟨⟨[effect.epoll_ctl EPOLL_CTL_DEL fd 0 (w.ctl.headD true)], ?_, ?_⟩, ?_, ?_⟩
      · split <;> rfl
      · simp [effect.is_epoll_ctl]
      · split <;> rfl
      · split <;> rfl
  · exact ⟨⟨[], by simp⟩, rfl, rfl⟩

theorem countP_is_close_of_epoll_ctl (es : List effect)
    (h : ∀ e ∈ es, e.is_epoll_ctl = true) : es.countP effect.is_close = 0 := by
  rw [List.countP_eq_zero]
  intro e he
  have := h e he
  cases e <;> simp_all [effect.is_epoll_ctl, effect.is_close]

/-- The calls `rtmp_close_connection` makes: the `epoll_ctl` calls that
deregister active events, then one `close`, when the socket is open; none
otherwise. -/
theorem rtmp_close_connection_trace (c : rtmp_connection_t) (w : world) :
    ∃ es, (rtmp_close_connection c w).2.trace = w.trace ++ es ∧
      (∀ e ∈ es, e.is_epoll_ctl = true ∨ e = .close c.fd) ∧
      es.countP effect.is_close = (if c.fd = -1 then 0 else 1) ∧
      (c.fd = -1 → es = []) := by
  unfold rtmp_close_connection
  by_cases hfd : c.fd = -1
  · exact ⟨[], by simp [hfd]⟩
  · simp only [hfd, ne_eq, not_false_eq_true, ↓reduceIte, world_log_trace]
    obtain ⟨⟨es1, h1, p1⟩, -⟩ := del_event_if_active_spec c.read c.fd w
    obtain ⟨⟨es2, h2, p2⟩, -⟩ := del_event_if_active_spec c.write c.fd
      (del_event_if_active c.read c.fd w).2
    refine ⟨es1 ++ es2 ++ [.close c.fd], ?_, ?_, ?_, ?_⟩
    · rw [h2, h1]; simp
    · intro e he
      simp only [List.mem_append, List.mem_singleton] at he
      rcases he with (he | he) | he
      · exact Or.inl (p1 e he)
      · exact Or.inl (p2 e he)
      · exact Or.inr he
    · simp [List.countP_append, countP_is_close_of_epoll_ctl es1 p1,
        countP_is_close_of_epoll_ctl es2 p2, effect.is_close]
    · intro h; exact h.elim

theorem new_effects_of_append (w w2 : world) (es : List effect)
    (h : w2.trace = w.trace ++ es) : new_effects w w2 = es := by
  simp [new_effects, h]

theorem rtmp_close_connection_fd (c : rtmp_connection_t) (w : world) :
    (rtmp_close_connection c w).1.fd = -1 ∧ (rtmp_close_connection c w).1.destroyed = true := by
  unfold rtmp_close_connection
  by_cases hfd : c.fd = -1 <;> simp [hfd]

theorem rtmp_close_connection_closed (c : rtmp_connection_t) (w : world)
    (hfd : c.fd = -1) (hd : c.destroyed = true) :
    rtmp_close_connection c w = (c, w) := by
  cases c
  simp_all [rtmp_close_connection]

/-- What one call of `rtmp_finalize_session` does to a machine that has a
session: it logs itself, fires `RTMP_DISCONNECT`, closes the connection
(`es`), and frees the blocks of `s->in_pool` (`fs`). -/
theorem rtmp_finalize_session_spec (m : machine) (s : rtmp_session_t) (h : m.s = some s) :
    ∃ m1 es fs, rtmp_finalize_session m = some m1 ∧
      m1.s = some { s with connected := 0 } ∧
      m1.c = (if s.connection then
                (rtmp_close_connection m.c
                  ((m.w.log .finalize_session).log (.fire_event RTMP_DISCONNECT))).1
              else m.c) ∧
      m1.w.trace =
        m.w.trace ++ [.finalize_session, .fire_event RTMP_DISCONNECT] ++ es ++ fs ∧
      (∀ e ∈ es, e.is_epoll_ctl = true ∨ e = .close m.c.fd) ∧
      es.countP effect.is_close = (if s.connection = true ∧ m.c.fd ≠ -1 then 1 else 0) ∧
      ((s.connection = false ∨ m.c.fd = -1) → es = []) ∧
      fs = pool_frees s.in_pool := by
  rw [rtmp_finalize_session_eq m s h]
  obtain ⟨es, h1, h2, h3, h4⟩ := rtmp_close_connection_trace m.c
    ((m.w.log .finalize_session).log (.fire_event RTMP_DISCONNECT))
  by_cases hc : s.connection = true
  · refine ⟨_, es, _, rfl, rfl, rfl, ?_, h2, ?_, ?_, rfl⟩
    · cases hp : s.in_pool <;>
        simp [hc, h1, rtmp_destroy_pool_trace, pool_frees]
    · rw [h3]; by_cases hfd : m.c.fd = -1 <;> simp [hfd, hc]
    · intro h; rcases h with h | h
      · simp [hc] at h
      · exact h4 h
  · refine ⟨_, [], _, rfl, rfl, rfl, ?_, by simp, by simp [hc], by simp, rfl⟩
    cases hp : s.in_pool <;> simp [hc, rtmp_destroy_pool_trace, pool_frees]

theorem countP_is_close_of_heap (es : List effect)
    (h : ∀ e ∈ es, e.is_heap = true) : es.countP effect.is_close = 0 := by
  rw [List.countP_eq_zero]
  intro e he
  have := h e he
  cases e <;> simp_all [effect.is_heap, effect.is_close]

theorem countP_is_epoll_ctl_of_heap (es : List effect)
    (h : ∀ e ∈ es, e.is_heap = true) : es.countP effect.is_epoll_ctl = 0 := by
  rw [List.countP_eq_zero]
  intro e he
  have := h e he
  cases e <;> simp_all [effect.is_heap, effect.is_epoll_ctl]

theorem pool_frees_is_heap (p : Option rtmp_pool_t) :
    ∀ e ∈ pool_frees p, e.is_heap = true := by
  intro e he
  cases p with
  | none => simp [pool_frees] at he
  | some pool =>
    simp only [pool_frees, List.mem_map] at he
    obtain ⟨_, _, rfl⟩ := he
    rfl

/-- C5 (the code departs from the claim): on every machine that has a session,
two calls of `rtmp_finalize_session` in a row both return, and each of them
fires `RTMP_DISCONNECT` once: the second call fires it again. -/
theorem rtmp_finalize_session_twice_disconnects (m : machine) (s : rtmp_session_t)
    (h : m.s = some s) :
    ∃ m1 m2, rtmp_finalize_session m = some m1 ∧ rtmp_finalize_session m1 = some m2 ∧
      (new_effects m.w m1.w).count (.fire_event RTMP_DISCONNECT) = 1 ∧
      (new_effects m1.w m2.w).count (.fire_event RTMP_DISCONNECT) = 1 := by
  have key : ∀ (m : machine) (s : rtmp_session_t), m.s = some s →
      ∃ m1, rtmp_finalize_session m = some m1 ∧ m1.s = some { s with connected := 0 } ∧
        (new_effects m.w m1.w).count (.fire_event RTMP_DISCONNECT) = 1 := by
    intro m s h
    obtain ⟨m1, es, fs, e1, e2, _, e4, e5, _, _, e8⟩ := rtmp_finalize_session_spec m s h
    refine ⟨m1, e1, e2, ?_⟩
    have hes : es.count (.fire_event RTMP_DISCONNECT) = 0 := by
      rw [List.count_eq_zero]
      intro hmem
      rcases e5 _ hmem with h | h
      · simp [effect.is_epoll_ctl] at h
      · cases h
    have hfs : fs.count (.fire_event RTMP_DISCONNECT) = 0 := by
      rw [List.count_eq_zero, e8]
      cases s.in_pool <;> simp [pool_frees]
    rw [new_effects_of_append _ _ _ (by rw [e4, List.append_assoc, List.append_assoc])]
    simp [List.count_append, hes, hfs, List.count_cons]
  obtain ⟨m1, a1, a2, a3⟩ := key m s h
  obtain ⟨m2, b1, _, b3⟩ := key m1 _ a2
  exact ⟨m1, m2, a1, b1, a3, b3⟩

/-! ### Steps that only touch the heap -/

theorem heap_step_refl (w : world) : heap_step w w :=
  ⟨rfl, rfl, rfl, rfl, rfl, rfl, rfl, rfl, rfl, [], by simp, by simp⟩

theorem heap_step_trans {w1 w2 w3 : world} (h1 : heap_step w1 w2) (h2 : heap_step w2 w3) :
    heap_step w1 w3 := by
  obtain ⟨a1, a2, a3, a4, a5, a6, a7, a8, a9, es1, t1, p1⟩ := h1
  obtain ⟨b1, b2, b3, b4, b5, b6, b7, b8, b9, es2, t2, p2⟩ := h2
  refine ⟨b1.trans a1, b2.trans a2, b3.trans a3, b4.trans a4, b5.trans a5, b6.trans a6,
    b7.trans a7, b8.trans a8, b9.trans a9, es1 ++ es2, ?_, ?_⟩
  · rw [t2, t1, List.append_assoc]
  · intro e he
    rcases List.mem_append.mp he with h | h
    · exact p1 e h
    · exact p2 e h

theorem heap_step_mem (w : world) (f : Nat → Nat) : heap_step w { w with mem := f } :=
  ⟨rfl, rfl, rfl, rfl, rfl, rfl, rfl, rfl, rfl, [], by simp, by simp⟩

theorem heap_step_malloc (size : Nat) (w : world) : heap_step w (malloc size w).2 := by
  unfold malloc
  split
  · exact ⟨rfl, rfl, rfl, rfl, rfl, rfl, rfl, rfl, rfl, [.malloc size none], rfl,
      by simp [effect.is_heap]⟩
  · exact ⟨rfl, rfl, rfl, rfl, rfl, rfl, rfl, rfl, rfl, [.malloc size (some w.brk)], rfl,
      by simp [effect.is_heap]⟩

theorem heap_step_free (p : Nat) (w : world) : heap_step w (free p w) :=
  ⟨rfl, rfl, rfl, rfl, rfl, rfl, rfl, rfl, rfl, [.free p], rfl, by simp [effect.is_heap]⟩

theorem heap_step_create_pool (size : Nat) (w : world) :
    heap_step w (rtmp_create_pool size w).2 := by
  unfold rtmp_create_pool
  dsimp only
  have h := heap_step_malloc (if size < RTMP_DEFAULT_POOL_SIZE then RTMP_DEFAULT_POOL_SIZE else size) w
  revert h
  generalize malloc _ w = r
  rcases r with ⟨_ | p, w2⟩ <;> exact fun h => h

theorem heap_step_destroy_pool (pool : rtmp_pool_t) (w : world) :
    heap_step w (rtmp_destroy_pool pool w) := by
  unfold rtmp_destroy_pool
  generalize pool.blk :: pool.next = l
  induction l generalizing w with
  | nil => exact heap_step_refl w
  | cons a l ih => exact heap_step_trans (heap_step_free a.addr w) (ih _)

theorem heap_step_palloc_large (pool : rtmp_pool_t) (size : Nat) (w : world) :
    heap_step w (rtmp_palloc_large pool size w).2.2 := by
  unfold rtmp_palloc_large
  have h := heap_step_malloc size w
  revert h
  generalize malloc size w = r
  rcases r with ⟨_ | p, w2⟩
  · exact fun h => h
  · intro h
    dsimp only
    split
    · have h2 := heap_step_create_pool RTMP_DEFAULT_POOL_SIZE w2
      revert h2
      generalize rtmp_create_pool RTMP_DEFAULT_POOL_SIZE w2 = r2
      rcases r2 with ⟨_ | p2, w3⟩ <;> exact fun h2 => heap_step_trans h h2
    · exact h

theorem heap_step_pool_alloc (pool : rtmp_pool_t) (size : Nat) (w : world) :
    heap_step w (rtmp_pool_alloc pool size w).2.2 := by
  unfold rtmp_pool_alloc rtmp_palloc_small
  split
  · dsimp only
    split
    · exact heap_step_refl w
    · exact heap_step_palloc_large pool size w
  · exact heap_step_palloc_large pool size w

theorem heap_step_pool_calloc (pool : rtmp_pool_t) (size : Nat) (w : world) :
    heap_step w (rtmp_pool_calloc pool size w).2.2 := by
  unfold rtmp_pool_calloc
  have h := heap_step_pool_alloc pool size w
  revert h
  generalize rtmp_pool_alloc pool size w = r
  rcases r with ⟨_ | p, pool2, w2⟩
  · exact fun h => h
  · exact fun h => heap_step_trans h (heap_step_mem _ _)

/-- The buffer `rtmp_create_temp_buf` returns is empty and `size` bytes long. -/
theorem rtmp_create_temp_buf_spec (pool : rtmp_pool_t) (size : Nat) (w : world) :
    heap_step w (rtmp_create_temp_buf pool size w).2.2 ∧
    ∀ b, (rtmp_create_temp_buf pool size w).1 = some b →
      b.pos = b.start ∧ b.last = b.start ∧ b.end_ = b.start + size := by
  unfold rtmp_create_temp_buf
  have h := heap_step_pool_calloc pool sizeof_rtmp_buf_t w
  revert h
  generalize rtmp_pool_calloc pool sizeof_rtmp_buf_t w = r
  rcases r with ⟨_ | p, pool2, w2⟩
  · exact fun h => ⟨h, by simp⟩
  · intro h
    dsimp only
    have h2 := heap_step_pool_alloc pool2 size w2
    revert h2
    generalize rtmp_pool_alloc pool2 size w2 = r2
    rcases r2 with ⟨_ | p2, pool3, w3⟩
    · exact fun h2 => ⟨heap_step_trans h h2, by simp⟩
    · intro h2
      refine ⟨heap_step_trans h h2, ?_⟩
      intro b hb
      simp only [Option.some.injEq] at hb
      subst hb
      exact ⟨rfl, rfl, rfl⟩

/-- The session `rtmp_init_session` returns: stage 0, no handshake buffer yet,
a pool of its own. -/
theorem rtmp_init_session_spec (w : world) :
    heap_step w (rtmp_init_session w).2 ∧
    ∀ s, (rtmp_init_session w).1 = some s →
      s.hs_stage = 0 ∧ s.hs_buf = none ∧ s.connected = 0 ∧ s.connection = false ∧
      ∃ pool, s.in_pool = some pool := by
  unfold rtmp_init_session
  have h := heap_step_create_pool 4096 w
  revert h
  generalize rtmp_create_pool 4096 w = r
  rcases r with ⟨_ | pool, w1⟩
  · exact fun h => ⟨h, by simp⟩
  · intro h
    dsimp only
    have h2 := heap_step_pool_calloc pool (sizeof_rtmp_session_t + sizeof_ptr * 64) w1
    revert h2
    generalize rtmp_pool_calloc pool (sizeof_rtmp_session_t + sizeof_ptr * 64) w1 = r2
    rcases r2 with ⟨_ | p2, pool2, w2⟩
    · exact fun h2 => ⟨heap_step_trans (heap_step_trans h h2) (heap_step_destroy_pool _ _),
        by simp⟩
    · intro h2
      dsimp only
      have h3 := heap_step_pool_calloc pool2 (sizeof_rtmp_stream_t * 64) w2
      revert h3
      generalize rtmp_pool_calloc pool2 (sizeof_rtmp_stream_t * 64) w2 = r3
      rcases r3 with ⟨_ | p3, pool3, w3⟩
      · exact fun h3 =>
          ⟨heap_step_trans (heap_step_trans (heap_step_trans h h2) h3)
            (heap_step_destroy_pool _ _), by simp⟩
      · intro h3
        refine ⟨heap_step_trans (heap_step_trans h h2) h3, ?_⟩
        intro s hs
        simp only [Option.some.injEq] at hs
        subst hs
        exact ⟨rfl, rfl, rfl, rfl, pool3, rfl⟩

/-! ### The receive loop of the handshake -/

theorem size_t_of_sub (a b : Nat) (h : a ≤ b) (hlt : b - a < 2 ^ 64) :
    size_t_of ((b : Int) - a) = b - a := by
  unfold size_t_of
  have e : ((b : Int) - a) = ((b - a : Nat) : Int) := by omega
  rw [e, Int.emod_eq_of_lt (by omega) (by exact_mod_cast hlt)]
  simp

theorem rtmp_buf_last_eta (b : rtmp_buf_t) : { b with last := b.last } = b := by
  cases b; rfl

theorem mem_write_lt (mem : Nat → Nat) (addr : Nat) (bytes : List Nat) (a : Nat)
    (h : a < addr) : mem_write mem addr bytes a = mem a := by
  unfold mem_write
  rw [if_neg]
  omega

theorem mem_write_at (mem : Nat → Nat) (addr : Nat) (bytes : List Nat) (i : Nat)
    (h : i < bytes.length) : mem_write mem addr bytes (addr + i) = bytes.getD i 0 := by
  unfold mem_write
  rw [if_pos (by omega)]
  congr 1
  omega

/-- One `rtmp_unix_recv` call that finds bytes: it returns their number and
stores them at `buf`. -/
theorem rtmp_unix_recv_bytes (buf size k : Nat) (w : world) (rest : List os_io)
    (hrx : w.rx = .bytes k :: rest) (hpos : 0 < min (min k size) w.wire.length) :
    rtmp_unix_recv buf size w =
      (((min (min k size) w.wire.length : Nat) : Int),
       { w with rx := rest, wire := w.wire.drop (min (min k size) w.wire.length),
                mem := mem_write w.mem buf (w.wire.take (min k size)) }.log
         (.recv size ((min (min k size) w.wire.length : Nat) : Int))) := by
  unfold rtmp_unix_recv
  rw [hrx]
  have hl : (List.take (min k size) w.wire).length = min (min k size) w.wire.length := by
    simp
  simp only [hl]
  rw [if_neg (by omega)]

/-- When the kernel hands over positive amounts that add up to what is still
missing, the receive loop runs to its end: the buffer then holds at least
`req` bytes, the bytes stored behind the old `last` are the next bytes of the
wire in order, and nothing below the old `last` was touched. -/
theorem rtmp_handshake_recv_loop_done (req : Nat) (ks : List Nat) :
    ∀ (b : rtmp_buf_t) (w : world) (rest : List os_io),
      w.rx = ks.map os_io.bytes ++ rest →
      (∀ k ∈ ks, 0 < k) →
      b.start ≤ b.last → b.last ≤ b.end_ → b.end_ - b.last < 2 ^ 64 →
      req ≤ b.end_ - b.start →
      req - (b.last - b.start) ≤ w.wire.length →
      req - (b.last - b.start) ≤ ks.sum →
      ∃ last w2,
        rtmp_handshake_recv_loop req b w = (.done, { b with last := last }, w2) ∧
        b.last ≤ last ∧ last ≤ b.end_ ∧ req ≤ last - b.start ∧
        w2.wire = w.wire.drop (last - b.last) ∧
        (∀ a, a < b.last → w2.mem a = w.mem a) ∧
        (∀ i, i < last - b.last → w2.mem (b.last + i) = w.wire.getD i 0) ∧
        ∃ es, w2.trace = w.trace ++ es ∧ ∀ e ∈ es, e.is_recv = true := by
  induction ks with
  | nil =>
    intro b w rest _ _ h1 h2 _ h4 _ h6
    simp only [List.sum_nil] at h6
    refine ⟨b.last, w, ?_, le_refl _, h2, by omega, by simp, fun _ _ => rfl,
      fun i hi => by omega, [], by simp, by simp⟩
    rw [rtmp_handshake_recv_loop, if_neg (by omega), rtmp_buf_last_eta]
  | cons k ks ih =>
    intro b w rest hrx hk h1 h2 h3 h4 h5 h6
    by_cases hc : (b.last : Int) - b.start < req
    · have hk0 : 0 < k := hk k (by simp)
      have hsz := size_t_of_sub b.last b.end_ h2 h3
      have hn : 0 < min (min k (b.end_ - b.last)) w.wire.length := by omega
      have hrx2 : w.rx = .bytes k :: (ks.map os_io.bytes ++ rest) := by simpa using hrx
      have hrecv := rtmp_unix_recv_bytes b.last (b.end_ - b.last) k w _ hrx2 hn
      generalize hnd : min (min k (b.end_ - b.last)) w.wire.length = n at hrecv hn
      rw [rtmp_handshake_recv_loop, if_pos hc]
      simp only [hsz]
      rw [hrecv]
      have e1 : ¬ (((n : Nat) : Int) = RTMP_ERROR ∨ ((n : Nat) : Int) = 0) := by
        simp only [RTMP_ERROR]; omega
      have e2 : ¬ (((n : Nat) : Int) = RTMP_AGAIN) := by
        simp only [RTMP_AGAIN]; omega
      simp only [e1, e2, ↓reduceIte]
      have e3 : ((b.last : Int) + (n : Int)).toNat = b.last + n := by omega
      rw [e3]
      simp only [List.sum_cons] at h6
      obtain ⟨last, w2, r1, r2, r3, r4, r5, r6, r7, es, r8, r9⟩ :=
        ih { b with last := b.last + n }
          ({ w with rx := ks.map os_io.bytes ++ rest, wire := w.wire.drop n,
                    mem := mem_write w.mem b.last (w.wire.take (min k (b.end_ - b.last))) }.log
            (.recv (b.end_ - b.last) n)) rest rfl
          (fun k' hk' => hk k' (by simp [hk'])) (by simp; omega) (by simp; omega)
          (by simp; omega) (by simpa using h4)
          (by simp [world.log]; omega) (by simp; omega)
      refine ⟨last, w2, r1, ?_, r3, r4, ?_, ?_, ?_, ?_⟩
      · simp at r2; omega
      · rw [r5]; simp [world.log, List.drop_drop]
        congr 1
        simp at r2
        omega
      · intro a ha
        rw [r6 a (by simp; omega)]
        exact mem_write_lt _ _ _ _ ha
      · intro i hi
        simp at r2 r6 r7
        by_cases hin : i < n
        · rw [r6 (b.last + i) (by omega)]
          simp only [world.log]
          rw [mem_write_at _ _ _ _ (by simp; omega)]
          simp only [List.getD_eq_getElem?_getD, List.getElem?_take]
          rw [if_pos (by omega)]
        · have := r7 (i - n) (by omega)
          rw [show b.last + n + (i - n) = b.last + i by omega] at this
          rw [this]
          simp [world.log, List.getD_eq_getElem?_getD]
          congr 2
          omega
      · refine ⟨.recv (b.end_ - b.last) n :: es, ?_, ?_⟩
        · rw [r8]; simp [world.log]
        · intro e he
          rcases List.mem_cons.mp he with h | h
          · subst h; rfl
          · exact r9 e h
    · refine ⟨b.last, w, ?_, le_refl _, h2, by omega, by simp, fun _ _ => rfl,
        fun i hi => by omega, [], by simp, by simp⟩
      rw [rtmp_handshake_recv_loop, if_neg hc, rtmp_buf_last_eta]

/-! ### The handshake handlers, one step at a time -/

theorem rtmp_handshake_create_challenge_small (s : rtmp_session_t) (buf bufsize : Nat)
    (w : world) (h : bufsize < 3073) :
    rtmp_handshake_create_challenge s buf bufsize w = (RTMP_ERROR, w) := by
  unfold rtmp_handshake_create_challenge
  rw [if_pos (by omega)]

/-- In stage `SEND_CHALLENGE2` with a scratch buffer shorter than 3073 bytes,
`rtmp_handshake_send` resets the buffer, fails in
`rtmp_handshake_create_challenge` and finalizes the session. -/
theorem rtmp_handshake_send_small_buf (c : rtmp_connection_t) (s : rtmp_session_t)
    (w : world) (b0 : rtmp_buf_t)
    (hd : c.destroyed = false) (ht : c.write.timedout = false)
    (hst : s.hs_stage = 1) (hb : s.hs_buf = some b0)
    (h1 : b0.start ≤ b0.end_) (h2 : b0.end_ - b0.start < 3073) :
    rtmp_handshake_send { c := c, s := some s, w := w } =
      rtmp_finalize_session
        { c := { c with write := del_timer_if_set c.write },
          s := some { s with hs_buf := some { b0 with pos := b0.start, last := b0.start } },
          w := w } := by
  rw [rtmp_handshake_send]
  have hsz : size_t_of ((b0.end_ : Int) - b0.start) = b0.end_ - b0.start :=
    size_t_of_sub _ _ h1 (by omega)
  have hcc : ∀ s2 buf,
      rtmp_handshake_create_challenge s2 buf (b0.end_ - b0.start) w = (RTMP_ERROR, w) :=
    fun s2 buf => rtmp_handshake_create_challenge_small s2 buf _ w h2
  simp only [hd, ht, hb, hst, RTMP_HANDSHAKE_SERVER_SEND_CHALLENGE2, Bool.false_eq_true,
    ↓reduceIte, hsz, hcc]
  simp [RTMP_ERROR, RTMP_OK]

/-- The dispatch of `rtmp_handshake` in stage `SEND_CHALLENGE2`. -/
theorem rtmp_handshake_stage1 (c : rtmp_connection_t) (s : rtmp_session_t) (w : world)
    (hd : c.destroyed = false) (hc : s.connection = true) (hst : s.hs_stage = 1) :
    rtmp_handshake { c := c, s := some s, w := w } =
      rtmp_handshake_send { c := c, s := some s, w := w } := by
  rw [rtmp_handshake]
  simp [hd, hc, hst, RTMP_HANDSHAKE_SERVER_RECV_CHALLENGE1,
    RTMP_HANDSHAKE_SERVER_SEND_CHALLENGE2]

/-- The dispatch of `rtmp_handshake` in stage `RECV_CHALLENGE1` when the
scratch buffer does not exist yet. -/
theorem rtmp_handshake_stage0 (c : rtmp_connection_t) (s : rtmp_session_t) (w : world)
    (pool : rtmp_pool_t)
    (hd : c.destroyed = false) (hc : s.connection = true) (hst : s.hs_stage = 0)
    (hb : s.hs_buf = none) (hp : s.in_pool = some pool) :
    rtmp_handshake { c := c, s := some s, w := w } =
      match (rtmp_create_temp_buf pool RTMP_HANDSHAKE_BUFSIZE w).1 with
      | none =>
        rtmp_finalize_session
          { c := c,
            s := some { s with hs_buf := none,
                               in_pool := some (rtmp_create_temp_buf pool 1537 w).2.1 },
            w := (rtmp_create_temp_buf pool RTMP_HANDSHAKE_BUFSIZE w).2.2 }
      | some b =>
        rtmp_handshake_recv
          { c := { c with read := { c.read with handler := .rtmp_handshake_recv },
                          write := { c.write with handler := .rtmp_handshake_send } },
            s := some { s with hs_buf := some b,
                               in_pool := some (rtmp_create_temp_buf pool 1537 w).2.1 },
            w := (rtmp_create_temp_buf pool RTMP_HANDSHAKE_BUFSIZE w).2.2 } := by
  rw [rtmp_handshake]
  simp only [hd, hc, hst, hb, hp, RTMP_HANDSHAKE_SERVER_RECV_CHALLENGE1, not_true_eq_false,
    Bool.false_eq_true, ↓reduceIte, RTMP_HANDSHAKE_BUFSIZE]
  rcases rtmp_create_temp_buf pool 1537 w with ⟨_ | b, pool2, w2⟩ <;> rfl

/-- The function `rtmp_handshake_recv` in stage `RECV_CHALLENGE1`, when its
loop has run to the end: the read event is deregistered if it was active, the
stage becomes 1 and the first byte of the buffer decides. -/
theorem rtmp_handshake_recv_stage0_done (c : rtmp_connection_t) (s : rtmp_session_t)
    (w : world) (b0 b : rtmp_buf_t) (w2 : world)
    (hd : c.destroyed = false) (ht : c.read.timedout = false)
    (hst : s.hs_stage = 0) (hb : s.hs_buf = some b0)
    (hloop : rtmp_handshake_recv_loop 1537 b0 w = (.done, b, w2)) :
    rtmp_handshake_recv { c := c, s := some s, w := w } =
      if (del_event_if_active (del_timer_if_set c.read) c.fd w2).2.mem b.start ≠ 3 then
        rtmp_finalize_session
          { c := { c with read := (del_event_if_active (del_timer_if_set c.read) c.fd w2).1 },
            s := some { s with hs_buf := some b, hs_stage := 1 },
            w := (del_event_if_active (del_timer_if_set c.read) c.fd w2).2 }
      else
        rtmp_handshake
          { c := { c with read := (del_event_if_active (del_timer_if_set c.read) c.fd w2).1 },
            s := some { s with hs_buf := some b, hs_stage := 1 },
            w := (del_event_if_active (del_timer_if_set c.read) c.fd w2).2 } := by
  rw [rtmp_handshake_recv]
  simp only [hd, ht, hst, hb, hloop, RTMP_HANDSHAKE_SERVER_RECV_CHALLENGE1,
    RTMP_HANDSHAKE_SERVER_RECV_CHALLENGE2, Bool.false_eq_true, ↓reduceIte, true_or]
  simp [RTMP_HANDSHAKE_SERVER_SEND_CHALLENGE2]

/-- The function `rtmp_handshake_recv` in stage `RECV_CHALLENGE2`, when its
loop has run to the end: the stage becomes 3, which is neither of the two
stages the function goes on from, and the session is finalized. -/
theorem rtmp_handshake_recv_stage2_done (c : rtmp_connection_t) (s : rtmp_session_t)
    (w : world) (b0 b : rtmp_buf_t) (w2 : world)
    (hd : c.destroyed = false) (ht : c.read.timedout = false)
    (hst : s.hs_stage = 2) (hb : s.hs_buf = some b0)
    (hloop : rtmp_handshake_recv_loop 1536 b0 w = (.done, b, w2)) :
    rtmp_handshake_recv { c := c, s := some s, w := w } =
      rtmp_finalize_session
        { c := { c with read := (del_event_if_active (del_timer_if_set c.read) c.fd w2).1 },
          s := some { s with hs_buf := some b, hs_stage := 3 },
          w := (del_event_if_active (del_timer_if_set c.read) c.fd w2).2 } := by
  rw [rtmp_handshake_recv]
  simp only [hd, ht, hst, hb, hloop, RTMP_HANDSHAKE_SERVER_RECV_CHALLENGE1,
    RTMP_HANDSHAKE_SERVER_RECV_CHALLENGE2, Bool.false_eq_true, ↓reduceIte, or_true]
  simp [hloop, RTMP_HANDSHAKE_SERVER_SEND_CHALLENGE2, RTMP_HANDSHAKE_DONE, RTMP_MSG_MAX]

/-! ### Quiet steps -/

theorem quiet_of_is_heap (e : effect) (h : e.is_heap = true) : e.quiet = true := by
  cases e <;> simp_all [effect.is_heap, effect.quiet, effect.is_send]

theorem quiet_of_is_recv (e : effect) (h : e.is_recv = true) : e.quiet = true := by
  cases e <;> simp_all [effect.is_recv, effect.quiet, effect.is_send]

theorem quiet_of_is_epoll_ctl (e : effect) (h : e.is_epoll_ctl = true) : e.quiet = true := by
  cases e <;> simp_all [effect.is_epoll_ctl, effect.quiet, effect.is_send]

theorem quiet_step_refl (w : world) : quiet_step w w := ⟨[], by simp, by simp⟩

theorem quiet_step_trans {w1 w2 w3 : world} (h1 : quiet_step w1 w2) (h2 : quiet_step w2 w3) :
    quiet_step w1 w3 := by
  obtain ⟨es1, t1, p1⟩ := h1
  obtain ⟨es2, t2, p2⟩ := h2
  refine ⟨es1 ++ es2, by rw [t2, t1, List.append_assoc], ?_⟩
  intro e he
  rcases List.mem_append.mp he with h | h
  · exact p1 e h
  · exact p2 e h

theorem quiet_step_of_heap_step {w w2 : world} (h : heap_step w w2) : quiet_step w w2 := by
  obtain ⟨-, -, -, -, -, -, -, -, -, es, t, p⟩ := h
  exact ⟨es, t, fun e he => quiet_of_is_heap e (p e he)⟩

theorem quiet_step_del_event_if_active (ev : rtmp_event_t) (fd : Int) (w : world) :
    quiet_step w (del_event_if_active ev fd w).2 := by
  obtain ⟨⟨es, t, p⟩, -⟩ := del_event_if_active_spec ev fd w
  exact ⟨es, t, fun e he => quiet_of_is_epoll_ctl e (p e he)⟩

/-- A call of `rtmp_finalize_session` on a machine whose session points to its
connection returns; it leaves the connection closed and destroyed, and every
call it makes is quiet. -/
theorem rtmp_finalize_session_quiet (m : machine) (s : rtmp_session_t) (h : m.s = some s)
    (hc : s.connection = true) :
    ∃ m1 es, rtmp_finalize_session m = some m1 ∧ m1.c.destroyed = true ∧ m1.c.fd = -1 ∧
      m1.w.trace = m.w.trace ++ es ∧ effect.finalize_session ∈ es ∧
      ∀ e ∈ es, e.quiet = true := by
  obtain ⟨m1, es, fs, e1, _, e3, e4, e5, _, _, e8⟩ := rtmp_finalize_session_spec m s h
  have c1 := rtmp_close_connection_fd m.c
    ((m.w.log .finalize_session).log (.fire_event RTMP_DISCONNECT))
  rw [if_pos hc] at e3
  refine ⟨m1, [.finalize_session, .fire_event RTMP_DISCONNECT] ++ es ++ fs, e1,
    by rw [e3]; exact c1.2, by rw [e3]; exact c1.1,
    by rw [e4, List.append_assoc, List.append_assoc, List.append_assoc], by simp, ?_⟩
  intro e he
  simp only [List.mem_append, List.mem_cons, List.mem_singleton, List.not_mem_nil,
    or_false] at he
  rcases he with ((he | he) | he) | he
  · subst he; rfl
  · subst he; rfl
  · rcases e5 e he with h | h
    · exact quiet_of_is_epoll_ctl e h
    · subst h; rfl
  · exact quiet_of_is_heap e (pool_frees_is_heap _ e (e8 ▸ he))

theorem quiet_step_of_recv {w w2 : world} (es : List effect)
    (t : w2.trace = w.trace ++ es) (p : ∀ e ∈ es, e.is_recv = true) : quiet_step w w2 :=
  ⟨es, t, fun e he => quiet_of_is_recv e (p e he)⟩

/-- A `rtmp_finalize_session` that follows quiet calls. -/
theorem rtmp_finalize_session_after_quiet (w : world) (m : machine) (s : rtmp_session_t)
    (h : m.s = some s) (hc : s.connection = true) (hq : quiet_step w m.w) :
    ∃ m1 es, rtmp_finalize_session m = some m1 ∧ m1.c.destroyed = true ∧
      m1.w.trace = w.trace ++ es ∧ effect.finalize_session ∈ es ∧
      ∀ e ∈ es, e.quiet = true := by
  obtain ⟨m1, es, e1, e2, _, e4, e5, e6⟩ := rtmp_finalize_session_quiet m s h hc
  obtain ⟨es0, t0, p0⟩ := hq
  refine ⟨m1, es0 ++ es, e1, e2, by rw [e4, t0, List.append_assoc],
    List.mem_append.mpr (Or.inr e5), ?_⟩
  intro e he
  rcases List.mem_append.mp he with h | h
  · exact p0 e h
  · exact e6 e h

/-- The function `rtmp_handshake_recv` on a session in stage `RECV_CHALLENGE1`
with an empty scratch buffer of 1537 bytes, when the first 1537 bytes of the
wire arrive in pieces of any positive size: whatever the first byte is, the
session ends finalized, after quiet calls only. -/
theorem rtmp_handshake_recv_quiet (c : rtmp_connection_t) (s : rtmp_session_t)
    (w0 w : world) (b : rtmp_buf_t) (ks : List Nat) (rest : List os_io)
    (hd : c.destroyed = false) (hrt : c.read.timedout = false)
    (hwt : c.write.timedout = false) (hc : s.connection = true)
    (hst : s.hs_stage = 0) (hb : s.hs_buf = some b)
    (bl : b.last = b.start) (be : b.end_ = b.start + 1537)
    (hq : quiet_step w0 w)
    (hrx : w.rx = ks.map os_io.bytes ++ rest) (hk : ∀ k ∈ ks, 0 < k)
    (hwire : 1537 ≤ w.wire.length) (hsum : 1537 ≤ ks.sum) :
    ∃ m es, rtmp_handshake_recv { c := c, s := some s, w := w } = some m ∧
      m.c.destroyed = true ∧ m.w.trace = w0.trace ++ es ∧
      effect.finalize_session ∈ es ∧ ∀ e ∈ es, e.quiet = true := by
  obtain ⟨last, w3, l1, l2, l3, l4, -, -, -, es3, l8, l9⟩ :=
    rtmp_handshake_recv_loop_done 1537 ks b w rest hrx hk
      (by omega) (by omega) (by omega) (by omega) (by omega) (by omega)
  have hq4 : quiet_step w0 (del_event_if_active (del_timer_if_set c.read) c.fd w3).2 :=
    quiet_step_trans (quiet_step_trans hq (quiet_step_of_recv es3 l8 l9))
      (quiet_step_del_event_if_active (del_timer_if_set c.read) c.fd w3)
  rw [rtmp_handshake_recv_stage0_done c s w b _ w3 hd hrt hst hb l1]
  split
  · exact rtmp_finalize_session_after_quiet w0 _ _ rfl hc hq4
  · rw [rtmp_handshake_stage1, rtmp_handshake_send_small_buf _ _ _ { b with last := last }]
    · exact rtmp_finalize_session_after_quiet w0 _ _ rfl hc hq4
    · exact hd
    · exact hwt
    · rfl
    · rfl
    · show b.start ≤ b.end_
      omega
    · show b.end_ - b.start < 3073
      omega
    · exact hd
    · exact hc
    · rfl

/-- The function `rtmp_handshake` on a fresh session (stage `RECV_CHALLENGE1`,
no scratch buffer yet) when the first 1537 bytes of the wire arrive: the
session ends finalized, after quiet calls only. -/
theorem rtmp_handshake_fresh_quiet (c : rtmp_connection_t) (s : rtmp_session_t)
    (w0 w : world) (pool : rtmp_pool_t) (ks : List Nat) (rest : List os_io)
    (hd : c.destroyed = false) (hrt : c.read.timedout = false)
    (hwt : c.write.timedout = false) (hc : s.connection = true)
    (hst : s.hs_stage = 0) (hb : s.hs_buf = none) (hp : s.in_pool = some pool)
    (hq : quiet_step w0 w)
    (hrx : w.rx = ks.map os_io.bytes ++ rest) (hk : ∀ k ∈ ks, 0 < k)
    (hwire : 1537 ≤ w.wire.length) (hsum : 1537 ≤ ks.sum) :
    ∃ m es, rtmp_handshake { c := c, s := some s, w := w } = some m ∧
      m.c.destroyed = true ∧ m.w.trace = w0.trace ++ es ∧
      effect.finalize_session ∈ es ∧ ∀ e ∈ es, e.quiet = true := by
  rw [rtmp_handshake_stage0 c s w pool hd hc hst hb hp]
  obtain ⟨hh2, hb2⟩ := rtmp_create_temp_buf_spec pool RTMP_HANDSHAKE_BUFSIZE w
  revert hh2 hb2
  have e1537 : (1537 : Nat) = RTMP_HANDSHAKE_BUFSIZE := rfl
  rw [e1537]
  generalize rtmp_create_temp_buf pool RTMP_HANDSHAKE_BUFSIZE w = t
  rcases t with ⟨_ | b, pool2, w2⟩
  · intro hh2 _
    exact rtmp_finalize_session_after_quiet w0 _ _ rfl hc
      (quiet_step_trans hq (quiet_step_of_heap_step hh2))
  · intro hh2 hb2
    obtain ⟨_, bl, be⟩ := hb2 b rfl
    have hq2 := quiet_step_trans hq (quiet_step_of_heap_step hh2)
    obtain ⟨x1, x2, -⟩ := hh2
    exact rtmp_handshake_recv_quiet _ _ w0 w2 b ks rest hd hrt hwt hc hst rfl bl be hq2
      (by rw [x1, hrx]) hk (by rw [x2]; exact hwire) hsum

/-- Whatever the first byte of the wire is: when the session can be allocated
and the first 1537 bytes of the wire arrive, in pieces of any positive size,
`rtmp_init_connection` ends with the session finalized and the connection
destroyed, and every call it made is quiet (no `send`, no
`RTMP_HANDSHAKE_DONE`). -/
theorem rtmp_init_connection_quiet (c : rtmp_connection_t) (w : world) (ks : List Nat)
    (rest : List os_io)
    (hd : c.destroyed = false) (hrt : c.read.timedout = false)
    (hwt : c.write.timedout = false)
    (hs : (rtmp_init_session w).1 ≠ none)
    (hrx : w.rx = ks.map os_io.bytes ++ rest) (hk : ∀ k ∈ ks, 0 < k)
    (hwire : 1537 ≤ w.wire.length) (hsum : 1537 ≤ ks.sum) :
    ∃ m es, rtmp_init_connection c w = some m ∧ m.c.destroyed = true ∧
      m.w.trace = w.trace ++ es ∧ effect.finalize_session ∈ es ∧
      ∀ e ∈ es, e.quiet = true := by
  unfold rtmp_init_connection
  obtain ⟨hh1, hs1⟩ := rtmp_init_session_spec w
  revert hh1 hs1 hs
  generalize rtmp_init_session w = r
  rcases r with ⟨_ | s0, w1⟩
  · intro hs; exact absurd rfl hs
  · intro _ hh1 hs1
    obtain ⟨st0, hb0, _, _, pool, hp0⟩ := hs1 s0 rfl
    obtain ⟨x1, x2, -⟩ := id hh1
    exact rtmp_handshake_fresh_quiet _ _ w w1 pool ks rest hd hrt hwt rfl st0 hb0 hp0
      (quiet_step_of_heap_step hh1) (by rw [x1, hrx]) hk (by rw [x2]; exact hwire) hsum

/-! ### The handshake claims -/

theorem is_send_of_quiet (e : effect) (h : e.quiet = true) : e.is_send = false := by
  cases e <;> simp_all [effect.quiet, effect.is_send]

theorem ne_handshake_done_of_quiet (e : effect) (h : e.quiet = true) :
    e ≠ .fire_event RTMP_HANDSHAKE_DONE := by
  intro he
  subst he
  simp [effect.quiet] at h

theorem sent_bytes_of_no_send (es : List effect) (h : ∀ e ∈ es, e.is_send = false) :
    sent_bytes es = [] := by
  induction es with
  | nil => rfl
  | cons e es ih =>
    have h1 := h e (by simp)
    have h2 := ih (fun e he => h e (by simp [he]))
    cases e <;> simp_all [sent_bytes, effect.is_send]

/-- C1 (the code departs from the claim): C0 = 3 and 1536 bytes of C1 reach a
session that `rtmp_init_connection` has just started, in pieces of any positive
size. The call returns with the session finalized and the connection destroyed;
`send` was not called at all, so the bytes handed to `send` are none instead of
the 3073 bytes of S0, S1 and S2. -/
theorem rtmp_handshake_sends_no_response (c : rtmp_connection_t) (w : world)
    (c1 tail : List Nat) (ks : List Nat) (rest : List os_io)
    (hd : c.destroyed = false) (hrt : c.read.timedout = false)
    (hwt : c.write.timedout = false)
    (hs : (rtmp_init_session w).1 ≠ none)
    (hwire : w.wire = 3 :: c1 ++ tail) (h1 : c1.length = 1536)
    (hrx : w.rx = ks.map os_io.bytes ++ rest) (hk : ∀ k ∈ ks, 0 < k)
    (hsum : 1537 ≤ ks.sum) :
    ∃ m, rtmp_init_connection c w = some m ∧
      (∀ e ∈ new_effects w m.w, e.is_send = false) ∧
      sent_bytes (new_effects w m.w) = [] ∧
      effect.finalize_session ∈ new_effects w m.w ∧
      m.c.destroyed = true := by
  obtain ⟨m, es, r1, r2, r3, r4, r5⟩ :=
    rtmp_init_connection_quiet c w ks rest hd hrt hwt hs hrx hk
      (by rw [hwire]; simp; omega) hsum
  have hn := new_effects_of_append _ _ _ r3
  have hno : ∀ e ∈ new_effects w m.w, e.is_send = false := by
    rw [hn]; exact fun e he => is_send_of_quiet e (r5 e he)
  exact ⟨m, r1, hno, sent_bytes_of_no_send _ hno, by rw [hn]; exact r4, r2⟩

/-- C2 (the code departs from the claim): a session in stage `RECV_CHALLENGE2`
with an empty scratch buffer, on a connection that is neither destroyed nor
timed out, receives the 1536 bytes of C2 in pieces of any positive size.
`rtmp_handshake_recv` returns with `rtmp_finalize_session` called and the
connection destroyed, and `RTMP_HANDSHAKE_DONE` was not fired. -/
theorem rtmp_handshake_recv_c2_finalizes (c : rtmp_connection_t) (s : rtmp_session_t)
    (w : world) (b : rtmp_buf_t) (ks : List Nat) (rest : List os_io)
    (hd : c.destroyed = false) (hrt : c.read.timedout = false)
    (hc : s.connection = true)
    (hst : s.hs_stage = RTMP_HANDSHAKE_SERVER_RECV_CHALLENGE2) (hb : s.hs_buf = some b)
    (bl : b.last = b.start) (be1 : 1536 ≤ b.end_ - b.start) (be2 : b.end_ - b.start < 2 ^ 64)
    (hrx : w.rx = ks.map os_io.bytes ++ rest) (hk : ∀ k ∈ ks, 0 < k)
    (hwire : 1536 ≤ w.wire.length) (hsum : 1536 ≤ ks.sum) :
    ∃ m, rtmp_handshake_recv { c := c, s := some s, w := w } = some m ∧
      effect.finalize_session ∈ new_effects w m.w ∧
      effect.fire_event RTMP_HANDSHAKE_DONE ∉ new_effects w m.w ∧
      m.c.destroyed = true := by
  obtain ⟨last, w3, l1, l2, l3, l4, -, -, -, es3, l8, l9⟩ :=
    rtmp_handshake_recv_loop_done 1536 ks b w rest hrx hk
      (by omega) (by omega) (by omega) (by omega) (by omega) (by omega)
  have hq4 : quiet_step w (del_event_if_active (del_timer_if_set c.read) c.fd w3).2 :=
    quiet_step_trans (quiet_step_of_recv es3 l8 l9)
      (quiet_step_del_event_if_active (del_timer_if_set c.read) c.fd w3)
  rw [rtmp_handshake_recv_stage2_done c s w b _ w3 hd hrt hst hb l1]
  obtain ⟨m, es, r1, r2, r3, r4, r5⟩ := rtmp_finalize_session_after_quiet w
    { c := { c with read := (del_event_if_active (del_timer_if_set c.read) c.fd w3).1 },
      s := some { s with hs_buf := some { b with last := last }, hs_stage := 3 },
      w := (del_event_if_active (del_timer_if_set c.read) c.fd w3).2 } _ rfl hc hq4
  have hn := new_effects_of_append _ _ _ r3
  refine ⟨m, r1, by rw [hn]; exact r4, ?_, r2⟩
  rw [hn]
  exact fun he => ne_handshake_done_of_quiet _ (r5 _ he) rfl

/-- Witness of C1: C0 = 3 and a C1 of 1536 zero bytes, delivered by one `recv`
call, with a socket ready to take 3073 bytes. -/
theorem rtmp_handshake_sends_no_response_witness :
    ∃ m, rtmp_init_connection sample_connection
        (sample_world (3 :: List.replicate 1536 0) [.bytes 1537] [.bytes 3073]) = some m ∧
      (∀ e ∈ new_effects
          (sample_world (3 :: List.replicate 1536 0) [.bytes 1537] [.bytes 3073]) m.w,
        e.is_send = false) ∧
      sent_bytes (new_effects
        (sample_world (3 :: List.replicate 1536 0) [.bytes 1537] [.bytes 3073]) m.w) = [] ∧
      effect.finalize_session ∈ new_effects
        (sample_world (3 :: List.replicate 1536 0) [.bytes 1537] [.bytes 3073]) m.w ∧
      m.c.destroyed = true :=
  rtmp_handshake_sends_no_response sample_connection
    (sample_world (3 :: List.replicate 1536 0) [.bytes 1537] [.bytes 3073])
    (List.replicate 1536 0) [] [1537] [] rfl rfl rfl (by decide)
    (by simp only [sample_world, boot, List.append_nil]) (List.length_replicate _ _) rfl
    (by decide) (by decide)

/-- Witness of C2: the sample session moved to stage 2, and a C2 of 1536 zero
bytes delivered by one `recv` call. -/
theorem rtmp_handshake_recv_c2_finalizes_witness :
    ∃ m, rtmp_handshake_recv
        { c := sample_connection_waiting,
          s := some { sample_session with hs_stage := 2 },
          w := sample_world_waiting (List.replicate 1536 0) [.bytes 1536] [] } = some m ∧
      effect.finalize_session ∈
        new_effects (sample_world_waiting (List.replicate 1536 0) [.bytes 1536] []) m.w ∧
      effect.fire_event RTMP_HANDSHAKE_DONE ∉
        new_effects (sample_world_waiting (List.replicate 1536 0) [.bytes 1536] []) m.w ∧
      m.c.destroyed = true :=
  rtmp_handshake_recv_c2_finalizes sample_connection_waiting
    { sample_session with hs_stage := 2 }
    (sample_world_waiting (List.replicate 1536 0) [.bytes 1536] [])
    { pos := 73760, last := 73760, start := 73760, end_ := 75297, temporary := true }
    [1536] [] rfl rfl rfl rfl rfl rfl (by decide) (by decide) rfl (by decide)
    (by simp only [sample_world_waiting, boot, List.length_replicate, le_refl]) (by decide)

/-- Witness of C5: the sample session while it waits for C0 and C1. -/
theorem rtmp_finalize_session_twice_disconnects_witness :
    ∃ m1 m2,
      rtmp_finalize_session
        { c := sample_connection_waiting, s := some sample_session,
          w := sample_world_waiting [] [] [] } = some m1 ∧
      rtmp_finalize_session m1 = some m2 ∧
      (new_effects (sample_world_waiting [] [] []) m1.w).count
        (.fire_event RTMP_DISCONNECT) = 1 ∧
      (new_effects m1.w m2.w).count (.fire_event RTMP_DISCONNECT) = 1 :=
  rtmp_finalize_session_twice_disconnects
    { c := sample_connection_waiting, s := some sample_session,
      w := sample_world_waiting [] [] [] } sample_session rfl

/-! ### The pool claims -/

/-- C7 (the code departs from the claim): a pool made by
`rtmp_create_pool(4100)` on a heap that starts at 65536, then requests of 4049,
100 and 2 bytes. The first is served from the block and leaves `last` 3 bytes
short of `end`; the second does not fit and comes from `malloc`, right behind
the block, at 69648; the third fits the 3 bytes by the test of
`rtmp_pool_alloc`, is aligned up past `end` (69636) to 69648, passes the test
of `rtmp_palloc_small` because `end - m` wraps as a `size_t`, and is returned
at 69648: inside the second region. -/
theorem rtmp_pool_alloc_regions_overlap :
    (match rtmp_create_pool 4100 (boot 65536 [] [] []) with
     | (some pool, w) =>
       ((rtmp_pool_alloc_seq pool w [4049, 100, 2]).1,
        (rtmp_pool_alloc_seq pool w [4049, 100, 2]).2.1.blk)
     | (none, _) => ([], ⟨0, 0, 0, 0⟩)) =
      ([(some 65584, 4049), (some 69648, 100), (some 69648, 2)],
       { addr := 65536, last := 69650, end_ := 69636, size := 4100 }) ∧
    ¬ ranges_disjoint 69648 100 69648 2 := by
  constructor
  · decide
  · decide

/-- C8 (the code departs from the claim): a pool of 4096 bytes on a heap that
starts at 65536 and one request of 5000 bytes, which `rtmp_palloc_large` takes
from `malloc` at 69648. `rtmp_destroy_pool` frees the block at 65536 and nothing
else: the region at 69648 is still live afterwards. -/
theorem rtmp_destroy_pool_leaks_large :
    (match rtmp_create_pool 4096 (boot 65536 [] [] []) with
     | (some pool, w) =>
       ((rtmp_pool_alloc pool 5000 w).1,
        (rtmp_destroy_pool (rtmp_pool_alloc pool 5000 w).2.1
          (rtmp_pool_alloc pool 5000 w).2.2).live,
        (rtmp_destroy_pool (rtmp_pool_alloc pool 5000 w).2.1
          (rtmp_pool_alloc pool 5000 w).2.2).trace)
     | (none, _) => (none, [], [])) =
      (some 69648, [(69648, 5000)],
       [.malloc 4096 (some 65536), .malloc 5000 (some 69648), .free 65536]) := by
  decide

/-- Whatever was allocated from a pool, `rtmp_destroy_pool` calls `free` on
the blocks of the chain and on nothing else, so no region that
`rtmp_palloc_large` took from `malloc` is ever freed by it. -/
theorem rtmp_destroy_pool_frees_blocks_only (pool : rtmp_pool_t) (w : world) :
    new_effects w (rtmp_destroy_pool pool w) =
      (pool.blk :: pool.next).map (fun b => effect.free b.addr) :=
  new_effects_of_append _ _ _ (rtmp_destroy_pool_trace pool w)

/-- A connection accepted on socket 7 from a peer that has not sent anything
yet: `rtmp_accept_handler` sets it up, `rtmp_init_connection` creates the
session and starts the handshake, the first `recv` reports `EAGAIN`, and the
machine is left waiting in the sample state. -/
theorem rtmp_accept_connection_waiting :
    ∃ m, rtmp_accept_connection 7 (List.replicate 16 0) [49, 50, 55] (boot 65536 [] [] [])
        = .inr (some m) ∧
      m.c = sample_connection_waiting ∧ m.s = some sample_session ∧
      m.w.trace = (sample_world_waiting [] [] []).trace ∧
      m.w.live = (sample_world_waiting [] [] []).live := by
  simp only [rtmp_accept_connection, rtmp_create_pool, malloc, boot, world.log,
    rtmp_create_connection, rtmp_pool_calloc, rtmp_pool_alloc, rtmp_palloc_small,
    rtmp_palloc_large, fcntl, RTMP_DEFAULT_POOL_SIZE, sizeof_rtmp_pool_t,
    sizeof_rtmp_connection_t, sizeof_rtmp_event_t, sizeof_sockaddr_in, RTMP_POOL_ALIGNMENT,
    size_t_of, rtmp_init_connection, rtmp_init_session, sizeof_rtmp_session_t, sizeof_ptr,
    sizeof_rtmp_stream_t, rtmp_destroy_pool]
  simp [-List.reduceReplicate]
  rw [rtmp_handshake]
  simp [-List.reduceReplicate, RTMP_HANDSHAKE_SERVER_RECV_CHALLENGE1, rtmp_create_temp_buf,
    rtmp_pool_calloc, rtmp_pool_alloc, rtmp_palloc_small, rtmp_palloc_large, malloc,
    rtmp_create_pool, size_t_of, RTMP_POOL_ALIGNMENT, sizeof_rtmp_buf_t,
    RTMP_HANDSHAKE_BUFSIZE, RTMP_DEFAULT_POOL_SIZE, world.log, sizeof_rtmp_pool_t]
  rw [rtmp_handshake_recv]
  simp [-List.reduceReplicate, RTMP_HANDSHAKE_SERVER_RECV_CHALLENGE1, rtmp_event_zero,
    del_timer_if_set]
  rw [rtmp_handshake_recv_loop]
  simp [-List.reduceReplicate, rtmp_unix_recv, RTMP_AGAIN, RTMP_ERROR, world.log, size_t_of,
    rtmp_handle_read_event, rtmp_add_timer, rtmp_add_event, epoll_ctl, RTMP_OK,
    sample_connection_waiting, sample_connection, sample_session, sample_world_waiting,
    rtmp_event_zero, boot, RTMP_DEFAULT_CHUNK_SIZE]

/-- The `free` calls of one `rtmp_finalize_session` are those of
`rtmp_destroy_pool(s->in_pool)`: the function never looks at `c->pool`. -/
theorem rtmp_finalize_session_frees (m : machine) (s : rtmp_session_t) (h : m.s = some s)
    (p : Nat) :
    ∃ m1, rtmp_finalize_session m = some m1 ∧
      (effect.free p ∈ new_effects m.w m1.w ↔ effect.free p ∈ pool_frees s.in_pool) := by
  obtain ⟨m1, es, fs, e1, _, _, e4, e5, _, _, e8⟩ := rtmp_finalize_session_spec m s h
  refine ⟨m1, e1, ?_⟩
  rw [new_effects_of_append _ _ _ (by rw [e4, List.append_assoc, List.append_assoc]), ← e8]
  simp only [List.mem_append, List.mem_cons, List.mem_singleton, List.not_mem_nil,
    or_false]
  constructor
  · rintro ((h | h) | (h | h))
    · cases h
    · cases h
    · rcases e5 _ h with h2 | h2
      · simp [effect.is_epoll_ctl] at h2
      · cases h2
    · exact h
  · exact fun h => Or.inr (Or.inr h)

/-- C9 (the code departs from the claim): a connection is accepted on socket 7
on a heap that starts at 65536, so that the pool made by `rtmp_accept_handler`,
`c->pool`, is the block at 65536; the peer sends nothing and the session is
then finalized. When `rtmp_finalize_session` has returned, `free` was called on
the two blocks of `s->in_pool` but never on the block of `c->pool`. -/
theorem rtmp_finalize_session_leaks_connection_pool :
    ∃ m m1,
      rtmp_accept_connection 7 (List.replicate 16 0) [49, 50, 55] (boot 65536 [] [] [])
        = .inr (some m) ∧
      m.c.pool.blk.addr = 65536 ∧
      effect.malloc 4096 (some 65536) ∈ m.w.trace ∧
      rtmp_finalize_session m = some m1 ∧
      m1.c.pool.blk.addr = 65536 ∧
      effect.finalize_session ∈ m1.w.trace ∧
      effect.free 69648 ∈ m1.w.trace ∧ effect.free 75312 ∈ m1.w.trace ∧
      effect.free 65536 ∉ m1.w.trace := by
  obtain ⟨m, a1, a2, a3, a4, -⟩ := rtmp_accept_connection_waiting
  obtain ⟨m1, es, fs, e1, _, e3, e4, e5, _, _, e8⟩ := rtmp_finalize_session_spec m _ a3
  have hfs : fs = [.free 69648, .free 75312] := by rw [e8]; rfl
  have hpool : m1.c.pool.blk.addr = 65536 := by
    rw [e3, a2]
    simp [sample_session, rtmp_close_connection, sample_connection_waiting,
      sample_connection]
  refine ⟨m, m1, a1, by rw [a2]; rfl, by rw [a4]; decide, e1, hpool, ?_, ?_, ?_, ?_⟩
  · rw [e4]; simp
  · rw [e4, hfs]; simp
  · rw [e4, hfs]; simp
  · rw [e4, hfs, a4]
    simp only [List.mem_append, List.mem_cons, List.mem_singleton, List.not_mem_nil,
      or_false, not_or]
    refine ⟨⟨⟨by decide, by simp, by simp⟩, ?_⟩, by simp, by simp⟩
    intro h
    rcases e5 _ h with h2 | h2
    · simp [effect.is_epoll_ctl] at h2
    · cases h2

/-! ### `rtmp_send_chain` -/

/-- One call of `rtmp_unix_send`: it logs what it was offered and what it
answers, leaves memory alone, and answers `RTMP_AGAIN`, `RTMP_ERROR` or a
count between 0 and `size`. -/
theorem rtmp_unix_send_spec (buf size : Nat) (w : world) :
    (rtmp_unix_send buf size w).2.trace =
      w.trace ++ [.send (mem_read w.mem buf size) (rtmp_unix_send buf size w).1] ∧
    (rtmp_unix_send buf size w).2.mem = w.mem ∧
    ((rtmp_unix_send buf size w).1 = RTMP_AGAIN ∨ (rtmp_unix_send buf size w).1 = RTMP_ERROR ∨
      (0 ≤ (rtmp_unix_send buf size w).1 ∧ (rtmp_unix_send buf size w).1 ≤ size)) := by
  unfold rtmp_unix_send
  split
  · exact ⟨rfl, rfl, Or.inl rfl⟩
  · exact ⟨rfl, rfl, Or.inl rfl⟩
  · exact ⟨rfl, rfl, Or.inr (Or.inl rfl)⟩
  · refine ⟨rfl, rfl, Or.inr (Or.inr ⟨?_, ?_⟩)⟩
    · simp
    · simp

/-- The size offered for a buffer is never more than its unread region. -/
theorem rtmp_send_chain_size_le (b : rtmp_buf_t) (limit : Int) (h : b.pos ≤ b.last) :
    rtmp_send_chain_size b limit ≤ b.last - b.pos := by
  have h0 : size_t_of ((b.last : Int) - b.pos) ≤ b.last - b.pos := by
    unfold size_t_of
    omega
  unfold rtmp_send_chain_size
  dsimp only
  split
  · omega
  · exact h0

theorem rtmp_send_chain_skip (bufs : Nat → rtmp_buf_t) (p : Nat) (next : List Nat)
    (limit : Int) (w : world) (h : ¬ (bufs p).pos < (bufs p).last) :
    rtmp_send_chain bufs (p :: next) limit w = rtmp_send_chain bufs next limit w := by
  rw [rtmp_send_chain]
  simp only [h, ↓reduceIte]

/-- The calls of `rtmp_send_chain` are `send` calls, and memory stays as it
is. -/
theorem rtmp_send_chain_trace (bufs : Nat → rtmp_buf_t) (cl : List Nat) (limit : Int)
    (w : world) :
    (∃ es, (rtmp_send_chain bufs cl limit w).2.2.trace = w.trace ++ es ∧
      ∀ e ∈ es, e.is_send = true) ∧
    (rtmp_send_chain bufs cl limit w).2.2.mem = w.mem := by
  induction bufs, cl, limit, w using rtmp_send_chain.induct with
  | case1 bufs limit w =>
    rw [rtmp_send_chain]
    exact ⟨⟨[], by simp, by simp⟩, rfl⟩
  | case2 bufs limit w p next hlt w1 hs =>
    have sp := rtmp_unix_send_spec (bufs p).pos (rtmp_send_chain_size (bufs p) limit) w
    rw [hs] at sp
    dsimp only at sp
    rw [rtmp_send_chain]
    simp only [hlt, ↓reduceIte, hs]
    exact ⟨⟨_, sp.1, by simp [effect.is_send]⟩, sp.2.1⟩
  | case3 bufs limit w p next hlt w1 hs hne =>
    have sp := rtmp_unix_send_spec (bufs p).pos (rtmp_send_chain_size (bufs p) limit) w
    rw [hs] at sp
    dsimp only at sp
    rw [rtmp_send_chain]
    simp only [hlt, ↓reduceIte, hs, hne]
    exact ⟨⟨_, sp.1, by simp [effect.is_send]⟩, sp.2.1⟩
  | case4 bufs limit w p next hlt n w1 hs h1 h2 h3 h4 =>
    have sp := rtmp_unix_send_spec (bufs p).pos (rtmp_send_chain_size (bufs p) limit) w
    rw [hs] at sp
    dsimp only at sp
    rw [rtmp_send_chain]
    simp only [hlt, ↓reduceIte, hs, h1, h2, h3, h4, ne_eq, not_false_eq_true]
    exact ⟨⟨_, sp.1, by simp [effect.is_send]⟩, sp.2.1⟩
  | case5 bufs limit w p next hlt n w1 hs h1 h2 bufs1 h3 h4 ih =>
    have sp := rtmp_unix_send_spec (bufs p).pos (rtmp_send_chain_size (bufs p) limit) w
    rw [hs] at sp
    dsimp only at sp
    rw [rtmp_send_chain]
    simp only [hlt, ↓reduceIte, hs, h1, h2, h3, h4, ne_eq, not_false_eq_true]
    obtain ⟨⟨es, t, q⟩, hm⟩ := ih
    refine ⟨⟨effect.send (mem_read w.mem (bufs p).pos (rtmp_send_chain_size (bufs p) limit)) n
      :: es, ?_, ?_⟩, hm.trans sp.2.1⟩
    · rw [t, sp.1, List.append_assoc]; rfl
    · intro e he
      rcases List.mem_cons.mp he with h | h
      · subst h; rfl
      · exact q e h
  | case6 bufs limit w p next hlt n w1 hs h1 h2 bufs1 h3 ih =>
    have sp := rtmp_unix_send_spec (bufs p).pos (rtmp_send_chain_size (bufs p) limit) w
    rw [hs] at sp
    dsimp only at sp
    rw [rtmp_send_chain]
    simp only [hlt, ↓reduceIte, hs, h1, h2, h3, ne_eq, not_false_eq_true]
    obtain ⟨⟨es, t, q⟩, hm⟩ := ih
    refine ⟨⟨effect.send (mem_read w.mem (bufs p).pos (rtmp_send_chain_size (bufs p) limit)) n
      :: es, ?_, ?_⟩, hm.trans sp.2.1⟩
    · rw [t, sp.1, List.append_assoc]; rfl
    · intro e he
      rcases List.mem_cons.mp he with h | h
      · subst h; rfl
      · exact q e h
  | case7 bufs limit w p next hlt ih =>
    rw [rtmp_send_chain_skip _ _ _ _ _ hlt]
    exact ih

/-- One step of the `while` loop: after a `send` that accepted `n` bytes the
buffers that were drained are as before and no buffer is read past `last`. -/
theorem rtmp_send_chain_step (bufs : Nat → rtmp_buf_t) (p : Nat) (limit : Int) (w : world)
    (n : Int) (w1 : world) (hlt : (bufs p).pos < (bufs p).last)
    (hs : rtmp_unix_send (bufs p).pos (rtmp_send_chain_size (bufs p) limit) w = (n, w1))
    (h1 : ¬ n = RTMP_ERROR) (h2 : ¬ n = RTMP_AGAIN) :
    0 ≤ n ∧ (n.toNat ≤ (bufs p).last - (bufs p).pos) ∧
    (∀ q, ¬ (bufs q).pos < (bufs q).last →
      Function.update bufs p { bufs p with pos := ((bufs p).pos + n).toNat } q = bufs q) ∧
    (∀ q, (bufs q).pos ≤ (bufs q).last →
      (Function.update bufs p { bufs p with pos := ((bufs p).pos + n).toNat } q).pos ≤
        (Function.update bufs p { bufs p with pos := ((bufs p).pos + n).toNat } q).last) := by
  have sp := rtmp_unix_send_spec (bufs p).pos (rtmp_send_chain_size (bufs p) limit) w
  rw [hs] at sp
  dsimp only at sp
  have hsz := rtmp_send_chain_size_le (bufs p) limit (by omega)
  obtain ⟨-, -, h | h | ⟨h0, hn⟩⟩ := sp
  · exact absurd h h2
  · exact absurd h h1
  · refine ⟨h0, by omega, ?_, ?_⟩
    · intro q hq
      have : q ≠ p := fun e => hq (e ▸ hlt)
      simp [Function.update, this]
    · intro q hq
      by_cases e : q = p
      · subst e
        simp only [Function.update_same]
        omega
      · simp only [Function.update, e, ↓reduceDIte]
        exact hq

/-- The buffers after `rtmp_send_chain`: a buffer that had nothing to send is
as it was, and a buffer with `pos ≤ last` still has `pos ≤ last`. -/
theorem rtmp_send_chain_bufs (bufs : Nat → rtmp_buf_t) (cl : List Nat) (limit : Int)
    (w : world) :
    (∀ q, ¬ (bufs q).pos < (bufs q).last → (rtmp_send_chain bufs cl limit w).2.1 q = bufs q) ∧
    (∀ q, (bufs q).pos ≤ (bufs q).last →
      ((rtmp_send_chain bufs cl limit w).2.1 q).pos ≤
        ((rtmp_send_chain bufs cl limit w).2.1 q).last) := by
  induction bufs, cl, limit, w using rtmp_send_chain.induct with
  | case1 bufs limit w =>
    rw [rtmp_send_chain]
    exact ⟨fun _ _ => rfl, fun _ h => h⟩
  | case2 bufs limit w p next hlt w1 hs =>
    rw [rtmp_send_chain]
    simp only [hlt, ↓reduceIte, hs]
    exact ⟨fun _ _ => trivial, fun _ h => h⟩
  | case3 bufs limit w p next hlt w1 hs hne =>
    rw [rtmp_send_chain]
    simp only [hlt, ↓reduceIte, hs, hne]
    exact ⟨fun _ _ => trivial, fun _ h => h⟩
  | case4 bufs limit w p next hlt n w1 hs h1 h2 h3 h4 =>
    obtain ⟨-, -, s3, s4⟩ := rtmp_send_chain_step bufs p limit w n w1 hlt hs h1 h2
    rw [rtmp_send_chain]
    simp only [hlt, ↓reduceIte, hs, h1, h2, h3, h4, ne_eq, not_false_eq_true]
    exact ⟨s3, s4⟩
  | case5 bufs limit w p next hlt n w1 hs h1 h2 bufs1 h3 h4 ih =>
    obtain ⟨-, -, s3, s4⟩ := rtmp_send_chain_step bufs p limit w n w1 hlt hs h1 h2
    rw [rtmp_send_chain]
    simp only [hlt, ↓reduceIte, hs, h1, h2, h3, h4, ne_eq, not_false_eq_true]
    refine ⟨fun q hq => ?_, fun q hq => ih.2 q (s4 q hq)⟩
    have e := s3 q hq
    rw [ih.1 q (by rw [show bufs1 q = bufs q from e]; exact hq)]
    exact e
  | case6 bufs limit w p next hlt n w1 hs h1 h2 bufs1 h3 ih =>
    obtain ⟨-, -, s3, s4⟩ := rtmp_send_chain_step bufs p limit w n w1 hlt hs h1 h2
    rw [rtmp_send_chain]
    simp only [hlt, ↓reduceIte, hs, h1, h2, h3, ne_eq, not_false_eq_true]
    refine ⟨fun q hq => ?_, fun q hq => ih.2 q (s4 q hq)⟩
    have e := s3 q hq
    rw [ih.1 q (by rw [show bufs1 q = bufs q from e]; exact hq)]
    exact e
  | case7 bufs limit w p next hlt ih =>
    rw [rtmp_send_chain_skip _ _ _ _ _ hlt]
    exact ih

theorem new_effects_self (w : world) : new_effects w w = [] := by
  simp [new_effects]

theorem new_effects_send_chain_cons (bufs : Nat → rtmp_buf_t) (cl : List Nat) (limit : Int)
    (w w1 : world) (e : effect) (h : w1.trace = w.trace ++ [e]) :
    new_effects w (rtmp_send_chain bufs cl limit w1).2.2 =
      e :: new_effects w1 (rtmp_send_chain bufs cl limit w1).2.2 := by
  obtain ⟨⟨es, t, -⟩, -⟩ := rtmp_send_chain_trace bufs cl limit w1
  rw [new_effects_of_append w1 _ es t,
    new_effects_of_append w _ (e :: es) (by rw [t, h, List.append_assoc]; rfl)]

theorem rtmp_send_chain_again_aux (bufs : Nat → rtmp_buf_t) (cl : List Nat) (limit : Int)
    (w : world) :
    (∀ p ∈ cl, (bufs p).pos ≤ (bufs p).last) →
    (∃ buf, effect.send buf RTMP_AGAIN ∈
      new_effects w (rtmp_send_chain bufs cl limit w).2.2) →
    ∃ pre p next, cl = pre ++ p :: next ∧
      (rtmp_send_chain bufs cl limit w).1 = .node (p :: next) ∧
      ((rtmp_send_chain bufs cl limit w).2.1 p).pos <
        ((rtmp_send_chain bufs cl limit w).2.1 p).last ∧
      ∀ q ∈ pre, ((rtmp_send_chain bufs cl limit w).2.1 q).pos =
        ((rtmp_send_chain bufs cl limit w).2.1 q).last := by
  induction bufs, cl, limit, w using rtmp_send_chain.induct with
  | case1 bufs limit w =>
    intro _ hwb
    rw [rtmp_send_chain] at hwb
    simp [new_effects_self] at hwb
  | case2 bufs limit w p next hlt w1 hs =>
    intro _ hwb
    have sp := rtmp_unix_send_spec (bufs p).pos (rtmp_send_chain_size (bufs p) limit) w
    rw [hs] at sp
    dsimp only at sp
    rw [rtmp_send_chain] at hwb
    simp only [hlt, ↓reduceIte, hs] at hwb
    rw [new_effects_of_append _ _ _ sp.1] at hwb
    simp [RTMP_ERROR, RTMP_AGAIN] at hwb
  | case3 bufs limit w p next hlt w1 hs hne =>
    intro _ _
    rw [rtmp_send_chain]
    simp only [hlt, ↓reduceIte, hs, hne]
    exact ⟨[], p, next, rfl, rfl, hlt, by simp⟩
  | case4 bufs limit w p next hlt n w1 hs h1 h2 h3 h4 =>
    intro _ hwb
    have sp := rtmp_unix_send_spec (bufs p).pos (rtmp_send_chain_size (bufs p) limit) w
    rw [hs] at sp
    dsimp only at sp
    rw [rtmp_send_chain] at hwb
    simp only [hlt, ↓reduceIte, hs, h1, h2, h3, h4, ne_eq, not_false_eq_true] at hwb
    rw [new_effects_of_append _ _ _ sp.1] at hwb
    simp at hwb
    exact absurd hwb.symm h2
  | case5 bufs limit w p next hlt n w1 hs h1 h2 bufs1 h3 h4 ih =>
    intro hinv hwb
    have sp := rtmp_unix_send_spec (bufs p).pos (rtmp_send_chain_size (bufs p) limit) w
    rw [hs] at sp
    dsimp only at sp
    obtain ⟨-, -, -, s4⟩ := rtmp_send_chain_step bufs p limit w n w1 hlt hs h1 h2
    rw [rtmp_send_chain] at hwb ⊢
    simp only [hlt, ↓reduceIte, hs, h1, h2, h3, h4, ne_eq, not_false_eq_true] at hwb ⊢
    rw [new_effects_send_chain_cons _ _ _ w w1 _ sp.1] at hwb
    apply ih (fun q hq => s4 q (hinv q hq))
    obtain ⟨buf, hb⟩ := hwb
    rcases List.mem_cons.mp hb with h | h
    · simp at h; exact absurd h.2.symm h2
    · exact ⟨buf, h⟩
  | case6 bufs limit w p next hlt n w1 hs h1 h2 bufs1 h3 ih =>
    intro hinv hwb
    have sp := rtmp_unix_send_spec (bufs p).pos (rtmp_send_chain_size (bufs p) limit) w
    rw [hs] at sp
    dsimp only at sp
    obtain ⟨-, -, -, s4⟩ := rtmp_send_chain_step bufs p limit w n w1 hlt hs h1 h2
    rw [rtmp_send_chain] at hwb ⊢
    simp only [hlt, ↓reduceIte, hs, h1, h2, h3, ne_eq, not_false_eq_true] at hwb ⊢
    rw [new_effects_send_chain_cons _ _ _ w w1 _ sp.1] at hwb
    apply ih (fun q hq => s4 q (hinv q hq))
    obtain ⟨buf, hb⟩ := hwb
    rcases List.mem_cons.mp hb with h | h
    · simp at h; exact absurd h.2.symm h2
    · exact ⟨buf, h⟩
  | case7 bufs limit w p next hlt ih =>
    intro hinv hwb
    rw [rtmp_send_chain_skip _ _ _ _ _ hlt] at hwb ⊢
    obtain ⟨pre, p2, next2, e1, e2, e3, e4⟩ :=
      ih (fun q hq => hinv q (List.mem_cons_of_mem _ hq)) hwb
    refine ⟨p :: pre, p2, next2, by rw [e1]; rfl, e2, e3, ?_⟩
    intro q hq
    rcases List.mem_cons.mp hq with h | h
    · subst h
      rw [(rtmp_send_chain_bufs bufs next limit w).1 q hlt]
      have := hinv q (by simp)
      omega
    · exact e4 q h

theorem mem_read_take (mem : Nat → Nat) (a s n : Nat) (h : n ≤ s) :
    (mem_read mem a s).take n = mem_read mem a n := by
  unfold mem_read
  rw [← List.map_take, List.take_range]
  simp [h]

theorem mem_read_append (mem : Nat → Nat) (a n k : Nat) :
    mem_read mem a n ++ mem_read mem (a + n) k = mem_read mem a (n + k) := by
  unfold mem_read
  rw [List.range_add, List.map_append, List.map_map]
  congr 1
  apply List.map_congr_left
  intro i _
  simp [Nat.add_assoc]

theorem rtmp_buf_pos_last (b : rtmp_buf_t) (h : b.pos = b.last) :
    { b with pos := b.last } = b := by
  cases b
  simp_all

/-- A link whose buffer is fully sent adds nothing to what is still to send. -/
theorem chain_pending_skip (bufs : Nat → rtmp_buf_t) (mem : Nat → Nat) (p : Nat)
    (next : List Nat) (h : (bufs p).pos = (bufs p).last) :
    chain_pending bufs mem (p :: next) = chain_pending bufs mem next := by
  rw [chain_pending, rtmp_buf_pos_last _ h, Function.update_eq_self, h]
  simp [mem_read]

theorem chain_pending_skip_prefix (bufs : Nat → rtmp_buf_t) (mem : Nat → Nat)
    (pre rest : List Nat) (h : ∀ q ∈ pre, (bufs q).pos = (bufs q).last) :
    chain_pending bufs mem (pre ++ rest) = chain_pending bufs mem rest := by
  induction pre with
  | nil => rfl
  | cons a l ih =>
    rw [List.cons_append, chain_pending_skip _ _ _ _ (h a (by simp))]
    exact ih (fun q hq => h q (List.mem_cons_of_mem _ hq))

/-- One step of the `while` loop keeps every byte: the bytes `send` accepted,
followed by what is left to send, are what was to be sent before. -/
theorem rtmp_send_chain_step_bytes (bufs : Nat → rtmp_buf_t) (p : Nat) (next : List Nat)
    (limit : Int) (w : world) (n : Int) (w1 : world) (hlt : (bufs p).pos < (bufs p).last)
    (hs : rtmp_unix_send (bufs p).pos (rtmp_send_chain_size (bufs p) limit) w = (n, w1))
    (h1 : ¬ n = RTMP_ERROR) (h2 : ¬ n = RTMP_AGAIN) :
    sent_bytes [.send (mem_read w.mem (bufs p).pos (rtmp_send_chain_size (bufs p) limit)) n]
      ++ chain_pending
          (Function.update bufs p { bufs p with pos := ((bufs p).pos + n).toNat })
          w.mem (p :: next) =
    chain_pending bufs w.mem (p :: next) := by
  have sp := rtmp_unix_send_spec (bufs p).pos (rtmp_send_chain_size (bufs p) limit) w
  rw [hs] at sp
  dsimp only at sp
  have hsz := rtmp_send_chain_size_le (bufs p) limit (by omega)
  obtain ⟨-, -, h | h | ⟨h0, hn⟩⟩ := sp
  · exact absurd h h2
  · exact absurd h h1
  · obtain ⟨k, rfl⟩ := Int.eq_ofNat_of_zero_le h0
    have hk : k ≤ rtmp_send_chain_size (bufs p) limit := by omega
    rw [chain_pending, chain_pending]
    simp only [Function.update_same, Function.update_idem]
    rw [show ((((bufs p).pos : Int) + (k : Int)).toNat) = (bufs p).pos + k by omega]
    rw [← List.append_assoc]
    congr 1
    rw [← show k + ((bufs p).last - ((bufs p).pos + k)) = (bufs p).last - (bufs p).pos by omega,
      ← mem_read_append]
    congr 1
    by_cases hk0 : k = 0
    · subst hk0; simp [sent_bytes, mem_read]
    · simp only [sent_bytes, List.append_nil]
      rw [if_pos (by omega)]
      simp only [Int.toNat_ofNat]
      exact mem_read_take _ _ _ _ hk

theorem sent_bytes_cons (e : effect) (es : List effect) :
    sent_bytes (e :: es) = sent_bytes [e] ++ sent_bytes es := by
  cases e <;> simp [sent_bytes]

/-- No byte is lost or repeated by `rtmp_send_chain`: the bytes `send` accepted
during the call, followed by what the chain still has to send, are what the
chain had to send before. -/
theorem rtmp_send_chain_bytes (bufs : Nat → rtmp_buf_t) (cl : List Nat) (limit : Int)
    (w : world) :
    (∀ p ∈ cl, (bufs p).pos ≤ (bufs p).last) →
    sent_bytes (new_effects w (rtmp_send_chain bufs cl limit w).2.2) ++
        chain_pending (rtmp_send_chain bufs cl limit w).2.1 w.mem cl =
      chain_pending bufs w.mem cl := by
  induction bufs, cl, limit, w using rtmp_send_chain.induct with
  | case1 bufs limit w =>
    intro _
    rw [rtmp_send_chain]
    simp [new_effects_self, sent_bytes]
  | case2 bufs limit w p next hlt w1 hs =>
    intro _
    have sp := rtmp_unix_send_spec (bufs p).pos (rtmp_send_chain_size (bufs p) limit) w
    rw [hs] at sp
    dsimp only at sp
    rw [rtmp_send_chain]
    simp only [hlt, ↓reduceIte, hs]
    rw [new_effects_of_append _ _ _ sp.1]
    simp [sent_bytes, RTMP_ERROR]
  | case3 bufs limit w p next hlt w1 hs hne =>
    intro _
    have sp := rtmp_unix_send_spec (bufs p).pos (rtmp_send_chain_size (bufs p) limit) w
    rw [hs] at sp
    dsimp only at sp
    rw [rtmp_send_chain]
    simp only [hlt, ↓reduceIte, hs, hne]
    rw [new_effects_of_append _ _ _ sp.1]
    simp [sent_bytes, RTMP_AGAIN]
  | case4 bufs limit w p next hlt n w1 hs h1 h2 h3 h4 =>
    intro _
    have sp := rtmp_unix_send_spec (bufs p).pos (rtmp_send_chain_size (bufs p) limit) w
    rw [hs] at sp
    dsimp only at sp
    rw [rtmp_send_chain]
    simp only [hlt, ↓reduceIte, hs, h1, h2, h3, h4, ne_eq, not_false_eq_true]
    rw [new_effects_of_append _ _ _ sp.1]
    exact rtmp_send_chain_step_bytes bufs p next limit w n w1 hlt hs h1 h2
  | case5 bufs limit w p next hlt n w1 hs h1 h2 bufs1 h3 h4 ih =>
    intro hinv
    have sp := rtmp_unix_send_spec (bufs p).pos (rtmp_send_chain_size (bufs p) limit) w
    rw [hs] at sp
    dsimp only at sp
    obtain ⟨-, -, -, s4⟩ := rtmp_send_chain_step bufs p limit w n w1 hlt hs h1 h2
    have hb := rtmp_send_chain_step_bytes bufs p next limit w n w1 hlt hs h1 h2
    have ih2 := ih (fun q hq => s4 q (hinv q hq))
    rw [sp.2.1] at ih2
    rw [rtmp_send_chain]
    simp only [hlt, ↓reduceIte, hs, h1, h2, h3, h4, ne_eq, not_false_eq_true]
    rw [new_effects_send_chain_cons _ _ _ w w1 _ sp.1, sent_bytes_cons, List.append_assoc,
      ih2]
    exact hb
  | case6 bufs limit w p next hlt n w1 hs h1 h2 bufs1 h3 ih =>
    intro hinv
    have sp := rtmp_unix_send_spec (bufs p).pos (rtmp_send_chain_size (bufs p) limit) w
    rw [hs] at sp
    dsimp only at sp
    obtain ⟨-, -, -, s4⟩ := rtmp_send_chain_step bufs p limit w n w1 hlt hs h1 h2
    have hb := rtmp_send_chain_step_bytes bufs p next limit w n w1 hlt hs h1 h2
    have ih2 := ih (fun q hq => s4 q (hinv q hq))
    rw [sp.2.1] at ih2
    rw [rtmp_send_chain]
    simp only [hlt, ↓reduceIte, hs, h1, h2, h3, ne_eq, not_false_eq_true]
    rw [new_effects_send_chain_cons _ _ _ w w1 _ sp.1, sent_bytes_cons, List.append_assoc,
      ih2]
    exact hb
  | case7 bufs limit w p next hlt ih =>
    intro hinv
    have ih2 := ih (fun q hq => hinv q (List.mem_cons_of_mem _ hq))
    have hp := hinv p (by simp)
    have hpe : (bufs p).pos = (bufs p).last := by omega
    have hfr := (rtmp_send_chain_bufs bufs next limit w).1 p hlt
    rw [rtmp_send_chain_skip _ _ _ _ _ hlt]
    rw [chain_pending_skip _ _ _ _ (by rw [hfr]; exact hpe), chain_pending_skip _ _ _ _ hpe]
    exact ih2

/-- C10: when `send` reports `RTMP_AGAIN` during `rtmp_send_chain`, on a chain
whose buffers have `pos ≤ last`, the function returns a link of the chain.
The buffer of that link has `pos < last`, the buffer of every link before it
has `pos = last`, so the bytes still to be sent are those of the chain from the
returned link on. The bytes `send` accepted during the call, followed by the
bytes still to be sent from the returned link on, are the bytes the chain had
to send before the call: a later call that resumes at the returned link loses
no byte and repeats none. -/
theorem rtmp_send_chain_would_block (bufs : Nat → rtmp_buf_t) (cl : List Nat) (limit : Int)
    (w : world)
    (hinv : ∀ p ∈ cl, (bufs p).pos ≤ (bufs p).last)
    (hwb : ∃ buf, effect.send buf RTMP_AGAIN ∈
      new_effects w (rtmp_send_chain bufs cl limit w).2.2) :
    ∃ pre p next, cl = pre ++ p :: next ∧
      (rtmp_send_chain bufs cl limit w).1 = .node (p :: next) ∧
      ((rtmp_send_chain bufs cl limit w).2.1 p).pos <
        ((rtmp_send_chain bufs cl limit w).2.1 p).last ∧
      (∀ q ∈ pre, ((rtmp_send_chain bufs cl limit w).2.1 q).pos =
        ((rtmp_send_chain bufs cl limit w).2.1 q).last) ∧
      sent_bytes (new_effects w (rtmp_send_chain bufs cl limit w).2.2) ++
          chain_pending (rtmp_send_chain bufs cl limit w).2.1
            (rtmp_send_chain bufs cl limit w).2.2.mem (p :: next) =
        chain_pending bufs w.mem cl := by
  obtain ⟨pre, p, next, e1, e2, e3, e4⟩ := rtmp_send_chain_again_aux bufs cl limit w hinv hwb
  have hmem := (rtmp_send_chain_trace bufs cl limit w).2
  have hsplit := chain_pending_skip_prefix (rtmp_send_chain bufs cl limit w).2.1
    (rtmp_send_chain bufs cl limit w).2.2.mem pre (p :: next) e4
  rw [← e1] at hsplit
  refine ⟨pre, p, next, e1, e2, e3, e4, ?_⟩
  rw [← hsplit, hmem]
  exact rtmp_send_chain_bytes bufs cl limit w hinv

theorem rtmp_send_chain_would_block_witness :
    (∀ p ∈ [100, 200], (sample_chain_bufs p).pos ≤ (sample_chain_bufs p).last) ∧
    (∃ buf, effect.send buf RTMP_AGAIN ∈
      new_effects (sample_chain_world [.bytes 4, .bytes 1, .eagain])
        (rtmp_send_chain sample_chain_bufs [100, 200] 0
          (sample_chain_world [.bytes 4, .bytes 1, .eagain])).2.2) ∧
    ∃ pre p next, [100, 200] = pre ++ p :: next ∧
      (rtmp_send_chain sample_chain_bufs [100, 200] 0
        (sample_chain_world [.bytes 4, .bytes 1, .eagain])).1 = .node (p :: next) ∧
      ((rtmp_send_chain sample_chain_bufs [100, 200] 0
        (sample_chain_world [.bytes 4, .bytes 1, .eagain])).2.1 p).pos <
        ((rtmp_send_chain sample_chain_bufs [100, 200] 0
          (sample_chain_world [.bytes 4, .bytes 1, .eagain])).2.1 p).last ∧
      (∀ q ∈ pre, ((rtmp_send_chain sample_chain_bufs [100, 200] 0
          (sample_chain_world [.bytes 4, .bytes 1, .eagain])).2.1 q).pos =
        ((rtmp_send_chain sample_chain_bufs [100, 200] 0
          (sample_chain_world [.bytes 4, .bytes 1, .eagain])).2.1 q).last) ∧
      sent_bytes (new_effects (sample_chain_world [.bytes 4, .bytes 1, .eagain])
          (rtmp_send_chain sample_chain_bufs [100, 200] 0
            (sample_chain_world [.bytes 4, .bytes 1, .eagain])).2.2) ++
          chain_pending (rtmp_send_chain sample_chain_bufs [100, 200] 0
              (sample_chain_world [.bytes 4, .bytes 1, .eagain])).2.1
            (rtmp_send_chain sample_chain_bufs [100, 200] 0
              (sample_chain_world [.bytes 4, .bytes 1, .eagain])).2.2.mem (p :: next) =
        chain_pending sample_chain_bufs
          (sample_chain_world [.bytes 4, .bytes 1, .eagain]).mem [100, 200] := by
  have h1 : ∀ p ∈ [100, 200], (sample_chain_bufs p).pos ≤ (sample_chain_bufs p).last := by
    decide
  have h2 : ∃ buf, effect.send buf RTMP_AGAIN ∈
      new_effects (sample_chain_world [.bytes 4, .bytes 1, .eagain])
        (rtmp_send_chain sample_chain_bufs [100, 200] 0
          (sample_chain_world [.bytes 4, .bytes 1, .eagain])).2.2 := by
    refine ⟨[209, 210], ?_⟩
    rw [rtmp_send_chain]
    simp [sample_chain_bufs, sample_chain_world, sample_world, boot, rtmp_unix_send,
      rtmp_send_chain_size, size_t_of, world.log, RTMP_ERROR, RTMP_AGAIN, mem_read]
    rw [rtmp_send_chain]
    simp [sample_chain_bufs, rtmp_unix_send,
      rtmp_send_chain_size, size_t_of, world.log, RTMP_ERROR, RTMP_AGAIN, mem_read]
    rw [rtmp_send_chain]
    simp [sample_chain_bufs, rtmp_unix_send,
      rtmp_send_chain_size, size_t_of, world.log, RTMP_ERROR, RTMP_AGAIN, mem_read]
    rw [rtmp_send_chain]
    simp [sample_chain_bufs, rtmp_unix_send, new_effects,
      rtmp_send_chain_size, size_t_of, world.log, RTMP_ERROR, RTMP_AGAIN, mem_read]
    decide
  exact ⟨h1, h2, rtmp_send_chain_would_block _ _ _ _ h1 h2⟩

/-! ### `rtmp_send_chain`: the byte limit -/

theorem size_t_of_le (x : Int) (h : 0 ≤ x) : (size_t_of x : Int) ≤ x := by
  unfold size_t_of
  omega

/-- C11 (the code departs from the claim): the first link of a chain has
`limit` bytes left to send (`limit > 0`), every later link is fully sent, and
`send` accepts all it is offered. `rtmp_send_chain` then returns that first
link and not `NULL`, although no `send` failed and every buffer of the chain
has `pos = last` when it returns. -/
theorem rtmp_send_chain_limit_returns_link (bufs : Nat → rtmp_buf_t) (p : Nat)
    (next : List Nat) (limit : Int) (w : world) (k : Nat) (rest : List os_io)
    (hlt : (bufs p).pos < (bufs p).last) (hsz : (bufs p).last < 2 ^ 64)
    (hl : limit = (bufs p).last - (bufs p).pos)
    (htx : w.tx = .bytes k :: rest) (hk : (bufs p).last - (bufs p).pos ≤ k)
    (hnext : ∀ q ∈ next, (bufs q).pos = (bufs q).last) :
    (rtmp_send_chain bufs (p :: next) limit w).1 = .node (p :: next) ∧
    (∀ q ∈ p :: next, ((rtmp_send_chain bufs (p :: next) limit w).2.1 q).pos =
      ((rtmp_send_chain bufs (p :: next) limit w).2.1 q).last) ∧
    new_effects w (rtmp_send_chain bufs (p :: next) limit w).2.2 =
      [.send (mem_read w.mem (bufs p).pos ((bufs p).last - (bufs p).pos)) limit] := by
  have hsize : rtmp_send_chain_size (bufs p) limit = (bufs p).last - (bufs p).pos := by
    unfold rtmp_send_chain_size
    rw [size_t_of_sub _ _ (by omega) (by omega)]
    have : size_t_of limit = (bufs p).last - (bufs p).pos := by
      rw [hl, size_t_of_sub _ _ (by omega) (by omega)]
    simp [this]
  have hsend : rtmp_unix_send (bufs p).pos (rtmp_send_chain_size (bufs p) limit) w =
      (limit, { w with tx := rest }.log
        (.send (mem_read w.mem (bufs p).pos ((bufs p).last - (bufs p).pos)) limit)) := by
    rw [hsize]
    unfold rtmp_unix_send
    rw [htx]
    simp only
    have e : ((k : Int) ⊓ (((bufs p).last - (bufs p).pos : Nat) : Int)) = limit := by
      rw [min_eq_right (by omega)]
      omega
    rw [e]
  have h1 : ¬ limit = RTMP_ERROR := by unfold RTMP_ERROR; omega
  have h2 : ¬ limit = RTMP_AGAIN := by unfold RTMP_AGAIN; omega
  have h3 : limit ≠ 0 := by omega
  rw [rtmp_send_chain]
  simp only [hlt, ↓reduceIte, hsend, h1, h2, h3, ne_eq, not_false_eq_true, sub_self]
  refine ⟨trivial, ?_, ?_⟩
  · intro q hq
    by_cases hqp : q = p
    · subst hqp
      simp only [Function.update_same]
      omega
    · simp only [Function.update_noteq hqp]
      rcases List.mem_cons.mp hq with h | h
      · exact absurd h hqp
      · exact hnext q h
  · exact new_effects_of_append _ _ _ rfl

theorem rtmp_send_chain_limit_returns_link_witness :
    (rtmp_send_chain sample_chain_bufs [100] 4 (sample_chain_world [.bytes 4])).1 =
      .node [100] ∧
    (∀ q ∈ [100],
      ((rtmp_send_chain sample_chain_bufs [100] 4 (sample_chain_world [.bytes 4])).2.1 q).pos =
      ((rtmp_send_chain sample_chain_bufs [100] 4
        (sample_chain_world [.bytes 4])).2.1 q).last) ∧
    new_effects (sample_chain_world [.bytes 4])
        (rtmp_send_chain sample_chain_bufs [100] 4 (sample_chain_world [.bytes 4])).2.2 =
      [.send (mem_read (sample_chain_world [.bytes 4]).mem (sample_chain_bufs 100).pos
        ((sample_chain_bufs 100).last - (sample_chain_bufs 100).pos)) 4] :=
  rtmp_send_chain_limit_returns_link sample_chain_bufs 100 [] 4
    (sample_chain_world [.bytes 4]) 4 [] (by decide) (by decide) (by decide) rfl (by decide)
    (by simp)

/-- Without a limit the result is `NULL` whenever no `send` failed and every
buffer of the chain is fully sent when `rtmp_send_chain` returns. -/
theorem rtmp_send_chain_unlimited_null (bufs : Nat → rtmp_buf_t) (cl : List Nat)
    (limit : Int) (w : world) :
    limit = 0 →
    (∀ p ∈ cl, ((rtmp_send_chain bufs cl limit w).2.1 p).pos =
      ((rtmp_send_chain bufs cl limit w).2.1 p).last) →
    (∀ buf, effect.send buf RTMP_ERROR ∉
      new_effects w (rtmp_send_chain bufs cl limit w).2.2) →
    (rtmp_send_chain bufs cl limit w).1 = .null := by
  induction bufs, cl, limit, w using rtmp_send_chain.induct with
  | case1 bufs limit w =>
    intro _ _ _
    rw [rtmp_send_chain]
  | case2 bufs limit w p next hlt w1 hs =>
    intro _ _ hne
    have sp := rtmp_unix_send_spec (bufs p).pos (rtmp_send_chain_size (bufs p) limit) w
    rw [hs] at sp
    dsimp only at sp
    exfalso
    rw [rtmp_send_chain] at hne
    simp only [hlt, ↓reduceIte, hs] at hne
    rw [new_effects_of_append _ _ _ sp.1] at hne
    exact hne _ (List.mem_singleton.mpr rfl)
  | case3 bufs limit w p next hlt w1 hs hne =>
    intro _ hall _
    exfalso
    rw [rtmp_send_chain] at hall
    simp only [hlt, ↓reduceIte, hs, hne] at hall
    have := hall p (by simp)
    omega
  | case4 bufs limit w p next hlt n w1 hs h1 h2 h3 h4 =>
    intro h0 _ _
    exact absurd h0 h3
  | case5 bufs limit w p next hlt n w1 hs h1 h2 bufs1 h3 h4 ih =>
    intro h0 _ _
    exact absurd h0 h3
  | case6 bufs limit w p next hlt n w1 hs h1 h2 bufs1 h3 ih =>
    intro h0 hall hne
    have sp := rtmp_unix_send_spec (bufs p).pos (rtmp_send_chain_size (bufs p) limit) w
    rw [hs] at sp
    dsimp only at sp
    rw [rtmp_send_chain] at hall hne ⊢
    simp only [hlt, ↓reduceIte, hs, h1, h2, h3, ne_eq, not_false_eq_true] at hall hne ⊢
    rw [new_effects_send_chain_cons _ _ _ w w1 _ sp.1] at hne
    exact ih h0 hall (fun buf hm => hne buf (List.mem_cons_of_mem _ hm))
  | case7 bufs limit w p next hlt ih =>
    intro h0 hall hne
    rw [rtmp_send_chain_skip _ _ _ _ _ hlt] at hall hne ⊢
    exact ih h0 (fun q hq => hall q (List.mem_cons_of_mem _ hq)) hne

theorem sent_bytes_single_length (buf : List Nat) (n : Int) (h : n ≤ buf.length) :
    ((sent_bytes [.send buf n]).length : Int) = max n 0 := by
  simp only [sent_bytes, List.append_nil]
  split
  · rw [List.length_take]
    omega
  · simp only [List.length_nil]
    omega

theorem mem_read_length (mem : Nat → Nat) (a n : Nat) : (mem_read mem a n).length = n := by
  simp [mem_read]

/-- What `send` is offered is never more than a limit that is not 0. -/
theorem rtmp_send_chain_size_le_limit (b : rtmp_buf_t) (limit : Int) (h : 0 < limit) :
    (rtmp_send_chain_size b limit : Int) ≤ limit := by
  have h0 := size_t_of_le limit (by omega)
  unfold rtmp_send_chain_size
  dsimp only
  split
  · exact h0
  · rename_i hn
    have : ¬ size_t_of ((b.last : Int) - b.pos) > size_t_of limit := by
      intro hc
      exact hn ⟨by omega, hc⟩
    omega

/-- With a limit above 0, one call of `rtmp_send_chain` lets `send` accept at
most `limit` bytes. -/
theorem rtmp_send_chain_le_limit (bufs : Nat → rtmp_buf_t) (cl : List Nat) (limit : Int)
    (w : world) :
    0 < limit →
    ((sent_bytes (new_effects w (rtmp_send_chain bufs cl limit w).2.2)).length : Int) ≤
      limit := by
  induction bufs, cl, limit, w using rtmp_send_chain.induct with
  | case1 bufs limit w =>
    intro h
    rw [rtmp_send_chain]
    simp only [new_effects_self, sent_bytes, List.length_nil]
    omega
  | case2 bufs limit w p next hlt w1 hs =>
    intro h
    have sp := rtmp_unix_send_spec (bufs p).pos (rtmp_send_chain_size (bufs p) limit) w
    rw [hs] at sp
    dsimp only at sp
    rw [rtmp_send_chain]
    simp only [hlt, ↓reduceIte, hs]
    rw [new_effects_of_append _ _ _ sp.1]
    simp only [sent_bytes, RTMP_ERROR]
    simp
    omega
  | case3 bufs limit w p next hlt w1 hs hne =>
    intro h
    have sp := rtmp_unix_send_spec (bufs p).pos (rtmp_send_chain_size (bufs p) limit) w
    rw [hs] at sp
    dsimp only at sp
    rw [rtmp_send_chain]
    simp only [hlt, ↓reduceIte, hs, hne]
    rw [new_effects_of_append _ _ _ sp.1]
    simp only [sent_bytes, RTMP_AGAIN]
    simp
    omega
  | case4 bufs limit w p next hlt n w1 hs h1 h2 h3 h4 =>
    intro h
    have sp := rtmp_unix_send_spec (bufs p).pos (rtmp_send_chain_size (bufs p) limit) w
    rw [hs] at sp
    dsimp only at sp
    have hle := rtmp_send_chain_size_le_limit (bufs p) limit h
    obtain ⟨s1, -, s3 | s3 | ⟨s3, s4⟩⟩ := sp
    · exact absurd s3 h2
    · exact absurd s3 h1
    · rw [rtmp_send_chain]
      simp only [hlt, ↓reduceIte, hs, h1, h2, h3, h4, ne_eq, not_false_eq_true]
      rw [new_effects_of_append _ _ _ s1,
        sent_bytes_single_length _ _ (by rw [mem_read_length]; exact s4)]
      omega
  | case5 bufs limit w p next hlt n w1 hs h1 h2 bufs1 h3 h4 ih =>
    intro h
    have sp := rtmp_unix_send_spec (bufs p).pos (rtmp_send_chain_size (bufs p) limit) w
    rw [hs] at sp
    dsimp only at sp
    have hle := rtmp_send_chain_size_le_limit (bufs p) limit h
    obtain ⟨s1, -, s3 | s3 | ⟨s3, s4⟩⟩ := sp
    · exact absurd s3 h2
    · exact absurd s3 h1
    · have ih2 := ih (by omega)
      dsimp only [bufs1] at ih2
      rw [rtmp_send_chain]
      simp only [hlt, ↓reduceIte, hs, h1, h2, h3, h4, ne_eq, not_false_eq_true]
      rw [new_effects_send_chain_cons _ _ _ w w1 _ s1, sent_bytes_cons, List.length_append]
      have hl := sent_bytes_single_length _ _
        (show n ≤ (mem_read w.mem (bufs p).pos (rtmp_send_chain_size (bufs p) limit)).length by
          rw [mem_read_length]; exact s4)
      push_cast
      omega
  | case6 bufs limit w p next hlt n w1 hs h1 h2 bufs1 h3 ih =>
    intro h
    exact absurd (show limit ≠ 0 by omega) h3
  | case7 bufs limit w p next hlt ih =>
    intro h
    rw [rtmp_send_chain_skip _ _ _ _ _ hlt]
    exact ih h

theorem chain_pending_drained (bufs : Nat → rtmp_buf_t) (mem : Nat → Nat) (cl : List Nat)
    (h : ∀ q ∈ cl, (bufs q).pos = (bufs q).last) : chain_pending bufs mem cl = [] := by
  have e := chain_pending_skip_prefix bufs mem cl [] h
  rw [List.append_nil] at e
  rw [e, chain_pending]

/-- Without a limit, and with a `send` that accepts all it is offered, one
call of `rtmp_send_chain` sends every buffer of the chain to its end and
returns `NULL`. -/
theorem rtmp_send_chain_accept_all (cl : List Nat) :
    ∀ (bufs : Nat → rtmp_buf_t) (w : world) (ks : List Nat) (rest : List os_io),
      w.tx = ks.map os_io.bytes ++ rest → cl.length ≤ ks.length →
      (∀ k ∈ ks, 2 ^ 64 ≤ k) →
      (∀ p ∈ cl, (bufs p).pos ≤ (bufs p).last ∧ (bufs p).last < 2 ^ 64) →
      (rtmp_send_chain bufs cl 0 w).1 = .null ∧
      ∀ p ∈ cl, ((rtmp_send_chain bufs cl 0 w).2.1 p).pos =
        ((rtmp_send_chain bufs cl 0 w).2.1 p).last := by
  induction cl with
  | nil =>
    intro bufs w ks rest _ _ _ _
    rw [rtmp_send_chain]
    simp
  | cons p next ih =>
    intro bufs w ks rest htx hlen hks hinv
    have hp := hinv p (by simp)
    by_cases hlt : (bufs p).pos < (bufs p).last
    · cases ks with
      | nil => simp at hlen
      | cons k ks =>
        have hk := hks k (by simp)
        have hsize : rtmp_send_chain_size (bufs p) 0 = (bufs p).last - (bufs p).pos := by
          unfold rtmp_send_chain_size
          rw [size_t_of_sub _ _ (by omega) (by omega)]
          simp
        have hsend : rtmp_unix_send (bufs p).pos (rtmp_send_chain_size (bufs p) 0) w =
            ((((bufs p).last - (bufs p).pos : Nat) : Int),
             { w with tx := ks.map os_io.bytes ++ rest }.log
              (.send (mem_read w.mem (bufs p).pos ((bufs p).last - (bufs p).pos))
                (((bufs p).last - (bufs p).pos : Nat) : Int))) := by
          rw [hsize]
          unfold rtmp_unix_send
          rw [htx]
          simp only [List.map_cons, List.cons_append]
          have e : ((k : Int) ⊓ (((bufs p).last - (bufs p).pos : Nat) : Int)) =
              (((bufs p).last - (bufs p).pos : Nat) : Int) := by
            rw [min_eq_right (by omega)]
          rw [e]
        have h1 : ¬ ((((bufs p).last - (bufs p).pos : Nat) : Int)) = RTMP_ERROR := by
          unfold RTMP_ERROR; omega
        have h2 : ¬ ((((bufs p).last - (bufs p).pos : Nat) : Int)) = RTMP_AGAIN := by
          unfold RTMP_AGAIN; omega
        have hpos : (((bufs p).pos : Int) + (((bufs p).last - (bufs p).pos : Nat) : Int)).toNat =
            (bufs p).last := by omega
        have hstep : rtmp_send_chain bufs (p :: next) 0 w =
            rtmp_send_chain (Function.update bufs p { bufs p with pos := (bufs p).last }) next 0
              ({ w with tx := ks.map os_io.bytes ++ rest }.log
                (.send (mem_read w.mem (bufs p).pos ((bufs p).last - (bufs p).pos))
                  (((bufs p).last - (bufs p).pos : Nat) : Int))) := by
          rw [rtmp_send_chain]
          simp only [hlt, ↓reduceIte, hsend, h1, h2, ne_eq, not_true_eq_false, hpos]
          rw [rtmp_send_chain_skip _ _ _ _ _ (by simp)]
        rw [hstep]
        have hinv1 : ∀ q ∈ next,
            (Function.update bufs p { bufs p with pos := (bufs p).last } q).pos ≤
              (Function.update bufs p { bufs p with pos := (bufs p).last } q).last ∧
            (Function.update bufs p { bufs p with pos := (bufs p).last } q).last < 2 ^ 64 := by
          intro q hq
          by_cases hqp : q = p
          · subst hqp
            simp only [Function.update_same]
            omega
          · simp only [Function.update_noteq hqp]
            exact hinv q (List.mem_cons_of_mem _ hq)
        obtain ⟨r1, r2⟩ := ih (Function.update bufs p { bufs p with pos := (bufs p).last })
          ({ w with tx := ks.map os_io.bytes ++ rest }.log
            (.send (mem_read w.mem (bufs p).pos ((bufs p).last - (bufs p).pos))
              (((bufs p).last - (bufs p).pos : Nat) : Int)))
          ks rest rfl (by simpa using hlen) (fun k hk => hks k (List.mem_cons_of_mem _ hk)) hinv1
        refine ⟨r1, ?_⟩
        intro q hq
        rcases List.mem_cons.mp hq with h | h
        · subst h
          rw [(rtmp_send_chain_bufs _ next 0 _).1 q (by simp)]
          simp
        · exact r2 q h
    · rw [rtmp_send_chain_skip _ _ _ _ _ hlt]
      obtain ⟨r1, r2⟩ := ih bufs w ks rest htx (by simp at hlen; omega) hks
        (fun q hq => hinv q (List.mem_cons_of_mem _ hq))
      refine ⟨r1, ?_⟩
      intro q hq
      rcases List.mem_cons.mp hq with h | h
      · subst h
        rw [(rtmp_send_chain_bufs bufs next 0 w).1 q hlt]
        omega
      · exact r2 q h

/-- C12: with a limit above 0, the bytes `send` accepts during one call of
`rtmp_send_chain` are at most `limit` (`send` never accepts more than it is
offered). With limit 0, on a chain of buffers with `pos ≤ last`, a `send` that
accepts all it is offered makes the call send every buffer to its end, hand
over all the bytes the chain had to send, and return `NULL`. -/
theorem rtmp_send_chain_limit (bufs : Nat → rtmp_buf_t) (cl : List Nat) (limit : Int)
    (w : world) :
    (0 < limit →
      ((sent_bytes (new_effects w (rtmp_send_chain bufs cl limit w).2.2)).length : Int) ≤
        limit) ∧
    (limit = 0 →
      ∀ (ks : List Nat) (rest : List os_io),
        w.tx = ks.map os_io.bytes ++ rest → cl.length ≤ ks.length →
        (∀ k ∈ ks, 2 ^ 64 ≤ k) →
        (∀ p ∈ cl, (bufs p).pos ≤ (bufs p).last ∧ (bufs p).last < 2 ^ 64) →
        (rtmp_send_chain bufs cl limit w).1 = .null ∧
        (∀ p ∈ cl, ((rtmp_send_chain bufs cl limit w).2.1 p).pos =
          ((rtmp_send_chain bufs cl limit w).2.1 p).last) ∧
        sent_bytes (new_effects w (rtmp_send_chain bufs cl limit w).2.2) =
          chain_pending bufs w.mem cl) := by
  refine ⟨rtmp_send_chain_le_limit bufs cl limit w, ?_⟩
  intro hl ks rest htx hlen hks hinv
  subst hl
  obtain ⟨r1, r2⟩ := rtmp_send_chain_accept_all cl bufs w ks rest htx hlen hks hinv
  refine ⟨r1, r2, ?_⟩
  have hb := rtmp_send_chain_bytes bufs cl 0 w (fun p hp => (hinv p hp).1)
  rw [chain_pending_drained _ _ _ r2, List.append_nil] at hb
  exact hb

theorem rtmp_send_chain_limit_witness :
    ((sent_bytes (new_effects (sample_chain_world [.bytes 9, .bytes 9])
        (rtmp_send_chain sample_chain_bufs [100, 200] 3
          (sample_chain_world [.bytes 9, .bytes 9])).2.2)).length : Int) ≤ 3 ∧
    (rtmp_send_chain sample_chain_bufs [100, 200] 0
      (sample_chain_world [.bytes (2 ^ 64), .bytes (2 ^ 64)])).1 = .null ∧
    sent_bytes (new_effects (sample_chain_world [.bytes (2 ^ 64), .bytes (2 ^ 64)])
        (rtmp_send_chain sample_chain_bufs [100, 200] 0
          (sample_chain_world [.bytes (2 ^ 64), .bytes (2 ^ 64)])).2.2) =
      chain_pending sample_chain_bufs
        (sample_chain_world [.bytes (2 ^ 64), .bytes (2 ^ 64)]).mem [100, 200] :=
  ⟨(rtmp_send_chain_limit sample_chain_bufs [100, 200] 3
      (sample_chain_world [.bytes 9, .bytes 9])).1 (by decide),
   ((rtmp_send_chain_limit sample_chain_bufs [100, 200] 0
      (sample_chain_world [.bytes (2 ^ 64), .bytes (2 ^ 64)])).2 rfl
      [2 ^ 64, 2 ^ 64] [] rfl (by decide) (by simp) (by decide)).1,
   ((rtmp_send_chain_limit sample_chain_bufs [100, 200] 0
      (sample_chain_world [.bytes (2 ^ 64), .bytes (2 ^ 64)])).2 rfl
      [2 ^ 64, 2 ^ 64] [] rfl (by decide) (by simp) (by decide)).2.2⟩

/-! ### `rtmp_send_chain`: what is sent, and what is left alone -/

theorem chain_advanced_self (bufs : Nat → rtmp_buf_t) (mem : Nat → Nat) (cl : List Nat) :
    chain_advanced bufs bufs mem cl = [] := by
  induction cl with
  | nil => rfl
  | cons p next ih =>
    rw [chain_advanced, Function.update_eq_self, ih]
    simp [mem_read]

/-- The bytes one successful `send` of `rtmp_send_chain` accepted are the
first `n` bytes of the unread region. -/
theorem sent_bytes_send_step (bufs : Nat → rtmp_buf_t) (p : Nat) (limit : Int) (w : world)
    (k : Nat) (h : (bufs p).pos ≤ (bufs p).last)
    (hk : (k : Int) ≤ rtmp_send_chain_size (bufs p) limit) :
    sent_bytes [.send (mem_read w.mem (bufs p).pos (rtmp_send_chain_size (bufs p) limit)) k] =
      mem_read w.mem (bufs p).pos k := by
  by_cases hk0 : k = 0
  · subst hk0; simp [sent_bytes, mem_read]
  · simp only [sent_bytes, List.append_nil]
    rw [if_pos (by omega)]
    simp only [Int.toNat_ofNat]
    exact mem_read_take _ _ _ _ (by omega)

/-- Apart from `pos`, which never moves back, `rtmp_send_chain` leaves every
buffer as it was, and it leaves alone every buffer that is not in the chain. -/
theorem rtmp_send_chain_frame (bufs : Nat → rtmp_buf_t) (cl : List Nat) (limit : Int)
    (w : world) :
    (∀ q, ((rtmp_send_chain bufs cl limit w).2.1 q).start = (bufs q).start ∧
      ((rtmp_send_chain bufs cl limit w).2.1 q).last = (bufs q).last ∧
      ((rtmp_send_chain bufs cl limit w).2.1 q).end_ = (bufs q).end_ ∧
      ((rtmp_send_chain bufs cl limit w).2.1 q).temporary = (bufs q).temporary ∧
      (bufs q).pos ≤ ((rtmp_send_chain bufs cl limit w).2.1 q).pos) ∧
    (∀ q, q ∉ cl → (rtmp_send_chain bufs cl limit w).2.1 q = bufs q) := by
  induction bufs, cl, limit, w using rtmp_send_chain.induct with
  | case1 bufs limit w =>
    rw [rtmp_send_chain]
    simp
  | case2 bufs limit w p next hlt w1 hs =>
    rw [rtmp_send_chain]
    simp only [hlt, ↓reduceIte, hs]
    simp
  | case3 bufs limit w p next hlt w1 hs hne =>
    rw [rtmp_send_chain]
    simp only [hlt, ↓reduceIte, hs, hne]
    simp
  | case4 bufs limit w p next hlt n w1 hs h1 h2 h3 h4 =>
    obtain ⟨s1, -, -, -⟩ := rtmp_send_chain_step bufs p limit w n w1 hlt hs h1 h2
    rw [rtmp_send_chain]
    simp only [hlt, ↓reduceIte, hs, h1, h2, h3, h4, ne_eq, not_false_eq_true]
    constructor
    · intro q
      by_cases hqp : q = p
      · subst hqp
        simp only [Function.update_same, true_and]
        omega
      · simp [Function.update_noteq hqp]
    · intro q hq
      have hqp : q ≠ p := fun e => hq (by simp [e])
      simp [Function.update_noteq hqp]
  | case5 bufs limit w p next hlt n w1 hs h1 h2 bufs1 h3 h4 ih =>
    obtain ⟨s1, -, -, -⟩ := rtmp_send_chain_step bufs p limit w n w1 hlt hs h1 h2
    rw [rtmp_send_chain]
    simp only [hlt, ↓reduceIte, hs, h1, h2, h3, h4, ne_eq, not_false_eq_true]
    obtain ⟨i1, i2⟩ := ih
    constructor
    · intro q
      obtain ⟨a1, a2, a3, a4, a5⟩ := i1 q
      by_cases hqp : q = p
      · subst hqp
        simp only [bufs1, Function.update_same] at a1 a2 a3 a4 a5
        exact ⟨a1, a2, a3, a4, by omega⟩
      · simp only [bufs1, Function.update_noteq hqp] at a1 a2 a3 a4 a5
        exact ⟨a1, a2, a3, a4, a5⟩
    · intro q hq
      have hqp : q ≠ p := fun e => hq (by simp [e])
      rw [i2 q hq]
      simp [bufs1, Function.update_noteq hqp]
  | case6 bufs limit w p next hlt n w1 hs h1 h2 bufs1 h3 ih =>
    obtain ⟨s1, -, -, -⟩ := rtmp_send_chain_step bufs p limit w n w1 hlt hs h1 h2
    rw [rtmp_send_chain]
    simp only [hlt, ↓reduceIte, hs, h1, h2, h3, ne_eq, not_false_eq_true]
    obtain ⟨i1, i2⟩ := ih
    constructor
    · intro q
      obtain ⟨a1, a2, a3, a4, a5⟩ := i1 q
      by_cases hqp : q = p
      · subst hqp
        simp only [bufs1, Function.update_same] at a1 a2 a3 a4 a5
        exact ⟨a1, a2, a3, a4, by omega⟩
      · simp only [bufs1, Function.update_noteq hqp] at a1 a2 a3 a4 a5
        exact ⟨a1, a2, a3, a4, a5⟩
    · intro q hq
      have hqp : q ≠ p := fun e => hq (by simp [e])
      rw [i2 q hq]
      simp [bufs1, Function.update_noteq hqp]
  | case7 bufs limit w p next hlt ih =>
    rw [rtmp_send_chain_skip _ _ _ _ _ hlt]
    obtain ⟨i1, i2⟩ := ih
    refine ⟨i1, ?_⟩
    intro q hq
    exact i2 q (fun h => hq (List.mem_cons_of_mem _ h))

/-- What `rtmp_send_chain` returns is `NULL`, `RTMP_CHAIN_ERROR` or a link of
the chain it was given; when it is `NULL`, no buffer of the chain has unread
bytes left. -/
theorem rtmp_send_chain_result (bufs : Nat → rtmp_buf_t) (cl : List Nat) (limit : Int)
    (w : world) :
    (∀ l, (rtmp_send_chain bufs cl limit w).1 = .node l → l ≠ [] ∧ l <:+ cl) ∧
    ((rtmp_send_chain bufs cl limit w).1 = .null →
      ∀ p ∈ cl, ¬ ((rtmp_send_chain bufs cl limit w).2.1 p).pos <
        ((rtmp_send_chain bufs cl limit w).2.1 p).last) := by
  induction bufs, cl, limit, w using rtmp_send_chain.induct with
  | case1 bufs limit w =>
    rw [rtmp_send_chain]
    simp
  | case2 bufs limit w p next hlt w1 hs =>
    rw [rtmp_send_chain]
    simp only [hlt, ↓reduceIte, hs]
    simp
  | case3 bufs limit w p next hlt w1 hs hne =>
    rw [rtmp_send_chain]
    simp only [hlt, ↓reduceIte, hs, hne]
    simp
  | case4 bufs limit w p next hlt n w1 hs h1 h2 h3 h4 =>
    rw [rtmp_send_chain]
    simp only [hlt, ↓reduceIte, hs, h1, h2, h3, h4, ne_eq, not_false_eq_true]
    simp
  | case5 bufs limit w p next hlt n w1 hs h1 h2 bufs1 h3 h4 ih =>
    rw [rtmp_send_chain]
    simp only [hlt, ↓reduceIte, hs, h1, h2, h3, h4, ne_eq, not_false_eq_true]
    exact ih
  | case6 bufs limit w p next hlt n w1 hs h1 h2 bufs1 h3 ih =>
    rw [rtmp_send_chain]
    simp only [hlt, ↓reduceIte, hs, h1, h2, h3, ne_eq, not_false_eq_true]
    exact ih
  | case7 bufs limit w p next hlt ih =>
    rw [rtmp_send_chain_skip _ _ _ _ _ hlt]
    obtain ⟨i1, i2⟩ := ih
    constructor
    · intro l hl
      obtain ⟨a, b⟩ := i1 l hl
      exact ⟨a, List.IsSuffix.trans b (List.suffix_cons p next)⟩
    · intro hn q hq
      rcases List.mem_cons.mp hq with h | h
      · subst h
        rw [(rtmp_send_chain_bufs bufs next limit w).1 q hlt]
        exact hlt
      · exact i2 hn q h

/-- One step of the `while` loop, told by positions: the bytes `send` accepted
followed by the bytes between the new position and a later one are the bytes
between the old position and the later one. -/
theorem rtmp_send_chain_step_advanced (bufs bufs2 : Nat → rtmp_buf_t) (p : Nat)
    (next : List Nat) (limit : Int) (w : world) (n : Int) (w1 : world)
    (hlt : (bufs p).pos < (bufs p).last)
    (hs : rtmp_unix_send (bufs p).pos (rtmp_send_chain_size (bufs p) limit) w = (n, w1))
    (h1 : ¬ n = RTMP_ERROR) (h2 : ¬ n = RTMP_AGAIN)
    (hmono : ((bufs p).pos + n).toNat ≤ (bufs2 p).pos) :
    sent_bytes [.send (mem_read w.mem (bufs p).pos (rtmp_send_chain_size (bufs p) limit)) n]
      ++ chain_advanced
          (Function.update bufs p { bufs p with pos := ((bufs p).pos + n).toNat })
          bufs2 w.mem (p :: next) =
    chain_advanced bufs bufs2 w.mem (p :: next) := by
  have sp := rtmp_unix_send_spec (bufs p).pos (rtmp_send_chain_size (bufs p) limit) w
  rw [hs] at sp
  dsimp only at sp
  have hsz := rtmp_send_chain_size_le (bufs p) limit (by omega)
  obtain ⟨-, -, h | h | ⟨h0, hn⟩⟩ := sp
  · exact absurd h h2
  · exact absurd h h1
  · obtain ⟨k, rfl⟩ := Int.eq_ofNat_of_zero_le h0
    rw [sent_bytes_send_step bufs p limit w k (by omega) hn]
    rw [chain_advanced, chain_advanced]
    simp only [Function.update_same, Function.update_idem]
    have e : ((((bufs p).pos : Int) + (k : Int)).toNat) = (bufs p).pos + k := by omega
    rw [e] at hmono ⊢
    rw [← List.append_assoc, mem_read_append]
    rw [show k + ((bufs2 p).pos - ((bufs p).pos + k)) = (bufs2 p).pos - (bufs p).pos by omega]

/-- The bytes `send` accepted during one call of `rtmp_send_chain` are, buffer
by buffer in chain order, the bytes between the position before the call and
the position after it. -/
theorem rtmp_send_chain_advanced (bufs : Nat → rtmp_buf_t) (cl : List Nat) (limit : Int)
    (w : world) :
    sent_bytes (new_effects w (rtmp_send_chain bufs cl limit w).2.2) =
      chain_advanced bufs (rtmp_send_chain bufs cl limit w).2.1 w.mem cl := by
  induction bufs, cl, limit, w using rtmp_send_chain.induct with
  | case1 bufs limit w =>
    rw [rtmp_send_chain]
    simp [new_effects_self, sent_bytes, chain_advanced]
  | case2 bufs limit w p next hlt w1 hs =>
    have sp := rtmp_unix_send_spec (bufs p).pos (rtmp_send_chain_size (bufs p) limit) w
    rw [hs] at sp
    dsimp only at sp
    rw [rtmp_send_chain]
    simp only [hlt, ↓reduceIte, hs]
    rw [new_effects_of_append _ _ _ sp.1, chain_advanced_self]
    simp [sent_bytes, RTMP_ERROR]
  | case3 bufs limit w p next hlt w1 hs hne =>
    have sp := rtmp_unix_send_spec (bufs p).pos (rtmp_send_chain_size (bufs p) limit) w
    rw [hs] at sp
    dsimp only at sp
    rw [rtmp_send_chain]
    simp only [hlt, ↓reduceIte, hs, hne]
    rw [new_effects_of_append _ _ _ sp.1, chain_advanced_self]
    simp [sent_bytes, RTMP_AGAIN]
  | case4 bufs limit w p next hlt n w1 hs h1 h2 h3 h4 =>
    have sp := rtmp_unix_send_spec (bufs p).pos (rtmp_send_chain_size (bufs p) limit) w
    rw [hs] at sp
    dsimp only at sp
    rw [rtmp_send_chain]
    simp only [hlt, ↓reduceIte, hs, h1, h2, h3, h4, ne_eq, not_false_eq_true]
    rw [new_effects_of_append _ _ _ sp.1]
    have hb := rtmp_send_chain_step_advanced bufs
      (Function.update bufs p { bufs p with pos := ((bufs p).pos + n).toNat }) p next limit w n
      w1 hlt hs h1 h2 (by simp)
    rw [chain_advanced_self, List.append_nil] at hb
    exact hb
  | case5 bufs limit w p next hlt n w1 hs h1 h2 bufs1 h3 h4 ih =>
    have sp := rtmp_unix_send_spec (bufs p).pos (rtmp_send_chain_size (bufs p) limit) w
    rw [hs] at sp
    dsimp only at sp
    have hm := ((rtmp_send_chain_frame bufs1 (p :: next) (limit - n) w1).1 p).2.2.2.2
    simp only [bufs1, Function.update_same] at hm
    have hb := rtmp_send_chain_step_advanced bufs
      (rtmp_send_chain bufs1 (p :: next) (limit - n) w1).2.1 p next limit w n w1 hlt hs h1 h2 hm
    rw [sp.2.1] at ih
    rw [rtmp_send_chain]
    simp only [hlt, ↓reduceIte, hs, h1, h2, h3, h4, ne_eq, not_false_eq_true]
    rw [new_effects_send_chain_cons _ _ _ w w1 _ sp.1, sent_bytes_cons, ih]
    exact hb
  | case6 bufs limit w p next hlt n w1 hs h1 h2 bufs1 h3 ih =>
    have sp := rtmp_unix_send_spec (bufs p).pos (rtmp_send_chain_size (bufs p) limit) w
    rw [hs] at sp
    dsimp only at sp
    have hm := ((rtmp_send_chain_frame bufs1 (p :: next) limit w1).1 p).2.2.2.2
    simp only [bufs1, Function.update_same] at hm
    have hb := rtmp_send_chain_step_advanced bufs
      (rtmp_send_chain bufs1 (p :: next) limit w1).2.1 p next limit w n w1 hlt hs h1 h2 hm
    rw [sp.2.1] at ih
    rw [rtmp_send_chain]
    simp only [hlt, ↓reduceIte, hs, h1, h2, h3, ne_eq, not_false_eq_true]
    rw [new_effects_send_chain_cons _ _ _ w w1 _ sp.1, sent_bytes_cons, ih]
    exact hb
  | case7 bufs limit w p next hlt ih =>
    have hfr := (rtmp_send_chain_bufs bufs next limit w).1 p hlt
    rw [rtmp_send_chain_skip _ _ _ _ _ hlt, chain_advanced, hfr, Function.update_eq_self, ih]
    simp [mem_read]

/-- C13: for a chain whose buffers have `pos ≤ last`, the bytes `send`
accepted during one call of `rtmp_send_chain`, followed by the unread regions
`[pos, last)` the chain has after the call, are the unread regions it had
before, in chain order; when the result is `NULL` the accepted bytes are all of
them. The accepted bytes are, buffer by buffer, the bytes between the old `pos`
and the new one. `start`, `last`, `end` and the `temporary` flag of every
buffer are as before and `pos` has not moved back, buffers outside the chain
and memory are untouched, nothing but `send` is called, and a link that is
returned is a link of the chain given. -/
theorem rtmp_send_chain_sends_regions (bufs : Nat → rtmp_buf_t) (cl : List Nat)
    (limit : Int) (w : world)
    (hinv : ∀ p ∈ cl, (bufs p).pos ≤ (bufs p).last) :
    sent_bytes (new_effects w (rtmp_send_chain bufs cl limit w).2.2) ++
        chain_pending (rtmp_send_chain bufs cl limit w).2.1 w.mem cl =
      chain_pending bufs w.mem cl ∧
    ((rtmp_send_chain bufs cl limit w).1 = .null →
      sent_bytes (new_effects w (rtmp_send_chain bufs cl limit w).2.2) =
        chain_pending bufs w.mem cl) ∧
    sent_bytes (new_effects w (rtmp_send_chain bufs cl limit w).2.2) =
      chain_advanced bufs (rtmp_send_chain bufs cl limit w).2.1 w.mem cl ∧
    (∀ q, ((rtmp_send_chain bufs cl limit w).2.1 q).start = (bufs q).start ∧
      ((rtmp_send_chain bufs cl limit w).2.1 q).last = (bufs q).last ∧
      ((rtmp_send_chain bufs cl limit w).2.1 q).end_ = (bufs q).end_ ∧
      ((rtmp_send_chain bufs cl limit w).2.1 q).temporary = (bufs q).temporary ∧
      (bufs q).pos ≤ ((rtmp_send_chain bufs cl limit w).2.1 q).pos ∧
      ((bufs q).pos ≤ (bufs q).last →
        ((rtmp_send_chain bufs cl limit w).2.1 q).pos ≤ (bufs q).last)) ∧
    (∀ q, q ∉ cl → (rtmp_send_chain bufs cl limit w).2.1 q = bufs q) ∧
    (rtmp_send_chain bufs cl limit w).2.2.mem = w.mem ∧
    (∀ e ∈ new_effects w (rtmp_send_chain bufs cl limit w).2.2, e.is_send = true) ∧
    (∀ l, (rtmp_send_chain bufs cl limit w).1 = .node l → l ≠ [] ∧ l <:+ cl) := by
  have hb := rtmp_send_chain_bytes bufs cl limit w hinv
  have hf := rtmp_send_chain_frame bufs cl limit w
  have hr := rtmp_send_chain_result bufs cl limit w
  have ht := rtmp_send_chain_trace bufs cl limit w
  have hi := (rtmp_send_chain_bufs bufs cl limit w).2
  refine ⟨hb, ?_, rtmp_send_chain_advanced bufs cl limit w, ?_, hf.2, ht.2, ?_, hr.1⟩
  · intro hn
    have hd : ∀ q ∈ cl, ((rtmp_send_chain bufs cl limit w).2.1 q).pos =
        ((rtmp_send_chain bufs cl limit w).2.1 q).last := by
      intro q hq
      have a := hr.2 hn q hq
      have b := hi q (hinv q hq)
      omega
    rw [chain_pending_drained _ _ _ hd, List.append_nil] at hb
    exact hb
  · intro q
    obtain ⟨a1, a2, a3, a4, a5⟩ := hf.1 q
    refine ⟨a1, a2, a3, a4, a5, ?_⟩
    intro hq
    have b := hi q hq
    omega
  · obtain ⟨es, e1, e2⟩ := ht.1
    rw [new_effects_of_append _ _ _ e1]
    exact e2

theorem rtmp_send_chain_sends_regions_witness :
    (∀ p ∈ [100, 200], (sample_chain_bufs p).pos ≤ (sample_chain_bufs p).last) ∧
    sent_bytes (new_effects (sample_chain_world [.bytes 4, .bytes 1, .eagain])
        (rtmp_send_chain sample_chain_bufs [100, 200] 0
          (sample_chain_world [.bytes 4, .bytes 1, .eagain])).2.2) =
      chain_advanced sample_chain_bufs
        (rtmp_send_chain sample_chain_bufs [100, 200] 0
          (sample_chain_world [.bytes 4, .bytes 1, .eagain])).2.1
        (sample_chain_world [.bytes 4, .bytes 1, .eagain]).mem [100, 200] :=
  ⟨by decide,
   (rtmp_send_chain_sends_regions sample_chain_bufs [100, 200] 0
    (sample_chain_world [.bytes 4, .bytes 1, .eagain]) (by decide)).2.2.1⟩

/-! ### `rtmp_handshake_create_challenge` -/

theorem mem_write_ge (mem : Nat → Nat) (addr : Nat) (bytes : List Nat) (a : Nat)
    (h : addr + bytes.length ≤ a) : mem_write mem addr bytes a = mem a := by
  unfold mem_write
  rw [if_neg (by omega)]

theorem mem_read_getD (mem : Nat → Nat) (a n i : Nat) (h : i < n) :
    (mem_read mem a n).getD i 0 = mem (a + i) := by
  unfold mem_read
  rw [List.getD_eq_getElem?_getD, List.getElem?_map, List.getElem?_range h]
  rfl

theorem mem_read_ext (m1 m2 : Nat → Nat) (a b n : Nat)
    (h : ∀ i, i < n → m1 (a + i) = m2 (b + i)) : mem_read m1 a n = mem_read m2 b n := by
  unfold mem_read
  apply List.map_congr_left
  intro i hi
  exact h i (List.mem_range.mp hi)

theorem mem_read_eq_of_getD (mem : Nat → Nat) (a : Nat) (l : List Nat)
    (h : ∀ i, i < l.length → mem (a + i) = l.getD i 0) : mem_read mem a l.length = l := by
  apply List.ext_getElem
  · simp [mem_read]
  · intro i h1 h2
    have e := h i h2
    simp only [mem_read, List.getElem_map, List.getElem_range]
    rw [e, List.getD_eq_getElem?_getD, List.getElem?_eq_getElem h2]
    rfl

theorem and_255 (x : Nat) : (x &&& 0xFF) % 256 = x % 256 := by
  have h := Nat.and_pow_two_sub_one_eq_mod x 8
  norm_num at h
  rw [h]
  omega

theorem getD_replicate_zero (n i : Nat) : (List.replicate n 0).getD i 0 = 0 := by
  rw [List.getD_eq_getElem?_getD, List.getElem?_replicate]
  split <;> rfl

/-- With room for 3073 bytes `rtmp_handshake_create_challenge` answers
`RTMP_OK`, calls `rand` 1528 times, and stores S0 and S1 at `buf` and then S2
behind them. -/
theorem rtmp_handshake_create_challenge_ok (s : rtmp_session_t) (buf bufsize : Nat)
    (w : world) (h : 3073 ≤ bufsize) :
    rtmp_handshake_create_challenge s buf bufsize w =
      (RTMP_OK,
       { w with
         mem := mem_write
           (mem_write w.mem buf
             ([3, ((w.now % 2 ^ 32) >>> 24) &&& 0xFF, ((w.now % 2 ^ 32) >>> 16) &&& 0xFF,
               ((w.now % 2 ^ 32) >>> 8) &&& 0xFF, (w.now % 2 ^ 32) &&& 0xFF, 0, 0, 0, 0] ++
              (List.range 1528).map (fun i => (w.rand (w.rand_calls + i) &&& 0xFF) % 256)))
           (buf + 1537)
           (match s.hs_buf with
            | some hb =>
              if (hb.last : Int) - hb.start ≥ 1537 then
                mem_read
                  (mem_write w.mem buf
                    ([3, ((w.now % 2 ^ 32) >>> 24) &&& 0xFF, ((w.now % 2 ^ 32) >>> 16) &&& 0xFF,
                      ((w.now % 2 ^ 32) >>> 8) &&& 0xFF, (w.now % 2 ^ 32) &&& 0xFF, 0, 0, 0, 0] ++
                     (List.range 1528).map
                       (fun i => (w.rand (w.rand_calls + i) &&& 0xFF) % 256)))
                  (hb.start + 1) 1536
              else List.replicate 1536 0
            | none => List.replicate 1536 0),
         rand_calls := w.rand_calls + 1528 }) := by
  unfold rtmp_handshake_create_challenge
  rw [if_neg (by omega)] <;> rfl

/-- The bytes of memory after `rtmp_handshake_create_challenge` had room for
its 3073 bytes: the header, the 1528 `rand` bytes, each byte of S2 as the
source byte of `memcpy` (for a source outside the 3073 bytes written) or 0,
and every other byte as before. -/
theorem rtmp_handshake_create_challenge_bytes (s : rtmp_session_t) (buf bufsize : Nat)
    (w : world) (h : 3073 ≤ bufsize) :
    mem_read (rtmp_handshake_create_challenge s buf bufsize w).2.mem buf 9 =
      [3, ((w.now % 2 ^ 32) >>> 24) &&& 0xFF, ((w.now % 2 ^ 32) >>> 16) &&& 0xFF,
        ((w.now % 2 ^ 32) >>> 8) &&& 0xFF, (w.now % 2 ^ 32) &&& 0xFF, 0, 0, 0, 0] ∧
    (∀ i, i < 1528 → (rtmp_handshake_create_challenge s buf bufsize w).2.mem (buf + 9 + i) =
      w.rand (w.rand_calls + i) % 256) ∧
    (∀ hb, s.hs_buf = some hb → hb.start + 1537 ≤ hb.last →
      (hb.start + 1537 ≤ buf ∨ buf + 3073 ≤ hb.start + 1) → ∀ i, i < 1536 →
      (rtmp_handshake_create_challenge s buf bufsize w).2.mem (buf + 1537 + i) =
        w.mem (hb.start + 1 + i)) ∧
    ((∀ hb, s.hs_buf = some hb → hb.last < hb.start + 1537) → ∀ i, i < 1536 →
      (rtmp_handshake_create_challenge s buf bufsize w).2.mem (buf + 1537 + i) = 0) ∧
    (∀ a, a < buf ∨ buf + 3073 ≤ a →
      (rtmp_handshake_create_challenge s buf bufsize w).2.mem a = w.mem a) := by
  rw [rtmp_handshake_create_challenge_ok s buf bufsize w h]
  dsimp only
  generalize hr : (List.range 1528).map (fun i => (w.rand (w.rand_calls + i) &&& 0xFF) % 256)
    = rnd
  have hrl : rnd.length = 1528 := by rw [← hr]; simp
  have hrg : ∀ i, i < 1528 → rnd.getD i 0 = w.rand (w.rand_calls + i) % 256 := by
    intro i hi
    rw [← hr, List.getD_eq_getElem?_getD, List.getElem?_map, List.getElem?_range hi]
    exact and_255 _
  generalize hh : [3, ((w.now % 2 ^ 32) >>> 24) &&& 0xFF, ((w.now % 2 ^ 32) >>> 16) &&& 0xFF,
        ((w.now % 2 ^ 32) >>> 8) &&& 0xFF, (w.now % 2 ^ 32) &&& 0xFF, 0, 0, 0, 0] = hdr
  have hhl : hdr.length = 9 := by rw [← hh]; rfl
  generalize hs2 : (match s.hs_buf with
            | some hb =>
              if (hb.last : Int) - hb.start ≥ 1537 then
                mem_read (mem_write w.mem buf (hdr ++ rnd)) (hb.start + 1) 1536
              else List.replicate 1536 0
            | none => List.replicate 1536 0) = s2
  have hs2l : s2.length = 1536 := by
    rw [← hs2]
    split
    · split
      · exact mem_read_length _ _ _
      · exact List.length_replicate _ _
    · exact List.length_replicate _ _
  have hl1 : (hdr ++ rnd).length = 1537 := by rw [List.length_append, hhl, hrl]
  -- a byte of S0 and S1
  have hlow : ∀ a, buf ≤ a → a < buf + 1537 →
      mem_write (mem_write w.mem buf (hdr ++ rnd)) (buf + 1537) s2 a =
        (hdr ++ rnd).getD (a - buf) 0 := by
    intro a h1 h2
    rw [mem_write_lt _ _ _ _ (by omega)]
    have e := mem_write_at w.mem buf (hdr ++ rnd) (a - buf) (by omega)
    rw [show buf + (a - buf) = a by omega] at e
    exact e
  have hhigh : ∀ i, i < 1536 →
      mem_write (mem_write w.mem buf (hdr ++ rnd)) (buf + 1537) s2 (buf + 1537 + i) =
        s2.getD i 0 := fun i hi => mem_write_at _ _ _ _ (by omega)
  refine ⟨?_, ?_, ?_, ?_, ?_⟩
  · have e : mem_read (mem_write (mem_write w.mem buf (hdr ++ rnd)) (buf + 1537) s2) buf
        hdr.length = hdr := by
      apply mem_read_eq_of_getD
      intro i hi
      rw [hlow _ (by omega) (by omega), show buf + i - buf = i by omega]
      rw [List.getD_eq_getElem?_getD, List.getD_eq_getElem?_getD, List.getElem?_append_left hi]
    rw [hhl] at e
    exact e
  · intro i hi
    rw [hlow _ (by omega) (by omega), show buf + 9 + i - buf = 9 + i by omega]
    rw [List.getD_eq_getElem?_getD, List.getElem?_append_right (by omega), hhl,
      show 9 + i - 9 = i by omega, ← List.getD_eq_getElem?_getD]
    exact hrg i hi
  · intro hb e1 e2 hno i hi
    have hs2v : s2 = mem_read (mem_write w.mem buf (hdr ++ rnd)) (hb.start + 1) 1536 := by
      rw [← hs2, e1]
      simp only
      rw [if_pos (by omega)]
    have e3 : s2.getD i 0 = mem_write w.mem buf (hdr ++ rnd) (hb.start + 1 + i) := by
      rw [hs2v, mem_read_getD _ _ _ _ hi]
    rw [hhigh i hi, e3]
    unfold mem_write
    rw [if_neg (by omega)]
  · intro hno i hi
    rw [hhigh i hi, ← hs2]
    split
    · rename_i hb e1
      have := hno hb e1
      rw [if_neg (by omega)]
      exact getD_replicate_zero _ _
    · exact getD_replicate_zero _ _
  · intro a ha
    rcases ha with ha | ha
    · rw [mem_write_lt _ _ _ _ (by omega), mem_write_lt _ _ _ _ ha]
    · rw [mem_write_ge _ _ _ _ (by omega), mem_write_ge _ _ _ _ (by omega)]

theorem epoll_interest_append (tr : List effect) (e : effect) :
    epoll_interest (tr ++ [e]) = epoll_apply (epoll_interest tr) e := by
  simp [epoll_interest, List.foldl_append]

/-- C20 (the code departs from the claim): `rtmp_add_event` on an event that
is not active, at a moment when the socket is not registered and `epoll_ctl`
fails. The function has set `ev->active = 1` before the call of `epoll_ctl`
and does not take it back: it returns `RTMP_ERROR` with the event active and
the socket still not registered. `rtmp_handle_read_event`, which hands an
inactive event to `rtmp_add_event`, leaves the same state. -/
theorem rtmp_add_event_active_unregistered (ev : rtmp_event_t) (fd : Int) (event : Nat)
    (w : world) (rest : List Bool)
    (ha : ev.active = false) (hep : w.epoll_fd ≠ -1) (hctl : w.ctl = false :: rest)
    (hreg : epoll_interest w.trace fd = none) :
    (rtmp_add_event ev fd event w).1 = RTMP_ERROR ∧
    (rtmp_add_event ev fd event w).2.1.active = true ∧
    new_effects w (rtmp_add_event ev fd event w).2.2 =
      [.epoll_ctl EPOLL_CTL_ADD fd (event ||| EPOLLET) false] ∧
    event_registered (rtmp_add_event ev fd event w).2.2.trace fd event = false ∧
    (rtmp_handle_read_event ev fd w).2.1.active = true ∧
    event_registered (rtmp_handle_read_event ev fd w).2.2.trace fd RTMP_READ_EVENT = false := by
  have hadd : ∀ evt, rtmp_add_event ev fd evt w =
      (RTMP_ERROR, { ev with active := true },
        { w with ctl := rest }.log (.epoll_ctl EPOLL_CTL_ADD fd (evt ||| EPOLLET) false)) := by
    intro evt
    unfold rtmp_add_event epoll_ctl
    simp [hep, ha, hctl]
  have hr : ∀ evt, event_registered
      ({ w with ctl := rest }.log (.epoll_ctl EPOLL_CTL_ADD fd (evt ||| EPOLLET) false)).trace
      fd evt = false := by
    intro evt
    unfold event_registered
    simp only [world.log, epoll_interest_append, epoll_apply, hreg]
  have hh : rtmp_handle_read_event ev fd w = rtmp_add_event ev fd RTMP_READ_EVENT w := by
    unfold rtmp_handle_read_event
    simp [ha]
  rw [hh, hadd, hadd]
  exact ⟨rfl, rfl, new_effects_of_append _ _ _ rfl, hr event, rfl, hr RTMP_READ_EVENT⟩

theorem rtmp_add_event_active_unregistered_witness :
    (rtmp_add_event rtmp_event_zero 7 RTMP_READ_EVENT
      { sample_world [] [] [] with ctl := [false] }).1 = RTMP_ERROR ∧
    (rtmp_add_event rtmp_event_zero 7 RTMP_READ_EVENT
      { sample_world [] [] [] with ctl := [false] }).2.1.active = true ∧
    new_effects { sample_world [] [] [] with ctl := [false] }
        (rtmp_add_event rtmp_event_zero 7 RTMP_READ_EVENT
          { sample_world [] [] [] with ctl := [false] }).2.2 =
      [.epoll_ctl EPOLL_CTL_ADD 7 (RTMP_READ_EVENT ||| EPOLLET) false] ∧
    event_registered (rtmp_add_event rtmp_event_zero 7 RTMP_READ_EVENT
      { sample_world [] [] [] with ctl := [false] }).2.2.trace 7 RTMP_READ_EVENT = false ∧
    (rtmp_handle_read_event rtmp_event_zero 7
      { sample_world [] [] [] with ctl := [false] }).2.1.active = true ∧
    event_registered (rtmp_handle_read_event rtmp_event_zero 7
      { sample_world [] [] [] with ctl := [false] }).2.2.trace 7 RTMP_READ_EVENT = false :=
  rtmp_add_event_active_unregistered rtmp_event_zero 7 RTMP_READ_EVENT
    { sample_world [] [] [] with ctl := [false] } [] rfl (by decide) rfl (by decide)

/-- The two events of a connection share its socket, and the epoll instance
keeps one entry per socket. Here every `epoll_ctl` call succeeds: the read
event and then the write event of socket 7 are handed to
`rtmp_handle_read_event` and `rtmp_handle_write_event`, and the read event is
then deleted. The write event is still active, and the socket is no longer
registered. -/
theorem rtmp_del_event_unregisters_socket :
    (rtmp_handle_write_event { rtmp_event_zero with write := true } 7
      (rtmp_handle_read_event rtmp_event_zero 7 (sample_world [] [] [])).2.2).2.1.active
      = true ∧
    (rtmp_del_event (rtmp_handle_read_event rtmp_event_zero 7 (sample_world [] [] [])).2.1 7
      (rtmp_handle_write_event { rtmp_event_zero with write := true } 7
        (rtmp_handle_read_event rtmp_event_zero 7 (sample_world [] [] [])).2.2).2.2).1
      = RTMP_OK ∧
    event_registered
      (rtmp_del_event (rtmp_handle_read_event rtmp_event_zero 7 (sample_world [] [] [])).2.1 7
        (rtmp_handle_write_event { rtmp_event_zero with write := true } 7
          (rtmp_handle_read_event rtmp_event_zero 7 (sample_world [] [] [])).2.2).2.2).2.2.trace
      7 RTMP_WRITE_EVENT = false := by
  decide

/-! ### Handlers on a closed or timed-out connection -/

/-- C18: on a connection whose `destroyed` flag is set, `rtmp_handshake_recv`,
`rtmp_handshake_send`, `rtmp_recv_handler` and `rtmp_send_handler` return at
once, and so do `rtmp_handshake` and `rtmp_cycle` for a session that points to
that connection: connection, session and environment are exactly as before, so
nothing was received, sent or registered, no timer was set and no field was
changed. -/
theorem rtmp_handlers_closed_noop (m : machine) (hd : m.c.destroyed = true) :
    rtmp_handshake_recv m = some m ∧ rtmp_handshake_send m = some m ∧
    rtmp_recv_handler m = some m ∧ rtmp_send_handler m = some m ∧
    (∀ s, m.s = some s → s.connection = true →
      rtmp_handshake m = some m ∧ rtmp_cycle m = some m) := by
  refine ⟨?_, ?_, ?_, ?_, ?_⟩
  · rw [rtmp_handshake_recv]
    simp [hd]
  · rw [rtmp_handshake_send]
    simp [hd]
  · simp [rtmp_recv_handler, hd]
  · simp [rtmp_send_handler, hd]
  · intro s hs hc
    obtain ⟨c, s', w⟩ := m
    simp only at hs hd
    subst hs
    constructor
    · rw [rtmp_handshake]
      simp [hc, hd]
    · rw [rtmp_cycle]
      simp [hc, hd]

theorem rtmp_handlers_closed_noop_witness :
    sample_machine_closed.c.destroyed = true ∧
    rtmp_handshake_recv sample_machine_closed = some sample_machine_closed ∧
    rtmp_handshake_send sample_machine_closed = some sample_machine_closed ∧
    rtmp_recv_handler sample_machine_closed = some sample_machine_closed ∧
    rtmp_send_handler sample_machine_closed = some sample_machine_closed ∧
    rtmp_handshake sample_machine_closed = some sample_machine_closed ∧
    rtmp_cycle sample_machine_closed = some sample_machine_closed :=
  ⟨rfl,
   (rtmp_handlers_closed_noop sample_machine_closed rfl).1,
   (rtmp_handlers_closed_noop sample_machine_closed rfl).2.1,
   (rtmp_handlers_closed_noop sample_machine_closed rfl).2.2.1,
   (rtmp_handlers_closed_noop sample_machine_closed rfl).2.2.2.1,
   ((rtmp_handlers_closed_noop sample_machine_closed rfl).2.2.2.2 sample_session rfl rfl).1,
   ((rtmp_handlers_closed_noop sample_machine_closed rfl).2.2.2.2 sample_session rfl rfl).2⟩

theorem del_event_if_active_fields (ev : rtmp_event_t) (fd : Int) (w : world) :
    ∃ a, (del_event_if_active ev fd w).1 = { ev with active := a } := by
  unfold del_event_if_active
  split
  · unfold rtmp_del_event
    split
    · exact ⟨ev.active, rfl⟩
    · dsimp only
      split
      · exact ⟨ev.active, rfl⟩
      · exact ⟨false, rfl⟩
  · exact ⟨ev.active, rfl⟩

/-- The function `rtmp_close_connection` changes `fd`, `destroyed` and the
`active` flags of the two events, and nothing else of the connection. -/
theorem rtmp_close_connection_fields (c : rtmp_connection_t) (w : world) :
    ∃ a1 a2 fd d, (rtmp_close_connection c w).1 =
      { c with read := { c.read with active := a1 }, write := { c.write with active := a2 },
               fd := fd, destroyed := d } := by
  unfold rtmp_close_connection
  split
  · obtain ⟨a1, h1⟩ := del_event_if_active_fields c.read c.fd w
    obtain ⟨a2, h2⟩ := del_event_if_active_fields c.write c.fd
      (del_event_if_active c.read c.fd w).2
    exact ⟨a1, a2, -1, true, by simp only [h1, h2]⟩
  · exact ⟨c.read.active, c.write.active, c.fd, true, rfl⟩

/-- The function `rtmp_finalize_session` returns for every session pointer,
`NULL` included. It is logged first; the calls that follow are the
`RTMP_DISCONNECT` notification, `epoll_ctl`, `close` and `free`. Of the session
it changes `connected` only, of the connection `fd`, `destroyed` and the
`active` flags. -/
theorem rtmp_finalize_session_total (m : machine) :
    ∃ m1 es, rtmp_finalize_session m = some m1 ∧
      m1.w.trace = m.w.trace ++ .finalize_session :: es ∧
      (∀ e ∈ es, e = .fire_event RTMP_DISCONNECT ∨ e.is_epoll_ctl = true ∨
        e.is_close = true ∨ e.is_heap = true) ∧
      (∃ a1 a2 fd d, m1.c =
        { m.c with read := { m.c.read with active := a1 },
                   write := { m.c.write with active := a2 }, fd := fd, destroyed := d }) ∧
      (∀ s, m.s = some s → m1.s = some { s with connected := 0 }) ∧
      (m.s = none → m1.s = none) := by
  cases hs : m.s with
  | none =>
    refine ⟨{ m with w := m.w.log .finalize_session }, [], ?_, ?_, ?_, ?_, ?_, ?_⟩
    · rw [rtmp_finalize_session]
      simp [hs]
    · simp [world.log]
    · simp
    · exact ⟨m.c.read.active, m.c.write.active, m.c.fd, m.c.destroyed, rfl⟩
    · intro s h; cases h
    · intro _; exact hs
  | some s =>
    obtain ⟨m1, es, fs, e1, e2, e3, e4, e5, -, -, e8⟩ := rtmp_finalize_session_spec m s hs
    refine ⟨m1, .fire_event RTMP_DISCONNECT :: (es ++ fs), e1, ?_, ?_, ?_, ?_, ?_⟩
    · rw [e4]; simp
    · intro e he
      rcases List.mem_cons.mp he with h | h
      · exact Or.inl h
      · rcases List.mem_append.mp h with h | h
        · rcases e5 e h with h2 | h2
          · exact Or.inr (Or.inl h2)
          · exact Or.inr (Or.inr (Or.inl (by rw [h2]; rfl)))
        · exact Or.inr (Or.inr (Or.inr (by rw [e8] at h; exact pool_frees_is_heap _ e h)))
    · rw [e3]
      split
      · exact rtmp_close_connection_fields _ _
      · exact ⟨m.c.read.active, m.c.write.active, m.c.fd, m.c.destroyed, rfl⟩
    · intro s' h
      cases h
      exact e2
    · intro h; cases h

/-- C17: on a connection that is not destroyed, `rtmp_handshake_recv` and
`rtmp_recv_handler` called with the `timedout` flag of the read event set, and
`rtmp_handshake_send` and `rtmp_send_handler` called with the `timedout` flag
of the write event set, do nothing but set `c->timedout` and call
`rtmp_finalize_session`. That call returns with `c->timedout` set; between
entry and return there is no `recv` and no `send`, and the stage and the
scratch buffer of the session are as before. -/
theorem rtmp_handlers_timed_out (m : machine) (hd : m.c.destroyed = false) :
    (m.c.read.timedout = true →
      rtmp_handshake_recv m =
        rtmp_finalize_session { m with c := { m.c with timedout := true } } ∧
      rtmp_recv_handler m =
        rtmp_finalize_session { m with c := { m.c with timedout := true } }) ∧
    (m.c.write.timedout = true →
      rtmp_handshake_send m =
        rtmp_finalize_session { m with c := { m.c with timedout := true } } ∧
      rtmp_send_handler m =
        rtmp_finalize_session { m with c := { m.c with timedout := true } }) ∧
    ∃ m1, rtmp_finalize_session { m with c := { m.c with timedout := true } } = some m1 ∧
      m1.c.timedout = true ∧
      effect.finalize_session ∈ new_effects m.w m1.w ∧
      (∀ e ∈ new_effects m.w m1.w, e.is_recv = false ∧ e.is_send = false) ∧
      m1.s.map (fun s => s.hs_stage) = m.s.map (fun s => s.hs_stage) ∧
      m1.s.map (fun s => s.hs_buf) = m.s.map (fun s => s.hs_buf) := by
  refine ⟨?_, ?_, ?_⟩
  · intro ht
    constructor
    · rw [rtmp_handshake_recv]
      simp [hd, ht]
    · simp [rtmp_recv_handler, hd, ht]
  · intro ht
    constructor
    · rw [rtmp_handshake_send]
      simp [hd, ht]
    · simp [rtmp_send_handler, hd, ht]
  · obtain ⟨m1, es, e1, e2, e3, ⟨a1, a2, fd, d, e4⟩, e5, e6⟩ :=
      rtmp_finalize_session_total { m with c := { m.c with timedout := true } }
    have hn : new_effects m.w m1.w = .finalize_session :: es :=
      new_effects_of_append _ _ _ e2
    refine ⟨m1, e1, by rw [e4], by rw [hn]; simp, ?_, ?_, ?_⟩
    · intro e he
      rw [hn] at he
      rcases List.mem_cons.mp he with h | h
      · subst h; exact ⟨rfl, rfl⟩
      · rcases e3 e h with h2 | h2 | h2 | h2
        · subst h2; exact ⟨rfl, rfl⟩
        · cases e <;> simp_all [effect.is_epoll_ctl, effect.is_recv, effect.is_send]
        · cases e <;> simp_all [effect.is_close, effect.is_recv, effect.is_send]
        · cases e <;> simp_all [effect.is_heap, effect.is_recv, effect.is_send]
    · cases hs : m.s with
      | none => rw [e6 hs] <;> rfl
      | some s => rw [e5 s hs] <;> rfl
    · cases hs : m.s with
      | none => rw [e6 hs] <;> rfl
      | some s => rw [e5 s hs] <;> rfl

theorem rtmp_handlers_timed_out_witness :
    sample_machine_timedout.c.destroyed = false ∧
    rtmp_handshake_recv sample_machine_timedout =
      rtmp_finalize_session
        { sample_machine_timedout with
          c := { sample_machine_timedout.c with timedout := true } } ∧
    rtmp_send_handler sample_machine_timedout =
      rtmp_finalize_session
        { sample_machine_timedout with
          c := { sample_machine_timedout.c with timedout := true } } ∧
    ∃ m1, rtmp_finalize_session
        { sample_machine_timedout with
          c := { sample_machine_timedout.c with timedout := true } } = some m1 ∧
      m1.c.timedout = true ∧
      effect.finalize_session ∈ new_effects sample_machine_timedout.w m1.w ∧
      (∀ e ∈ new_effects sample_machine_timedout.w m1.w,
        e.is_recv = false ∧ e.is_send = false) ∧
      m1.s.map (fun s => s.hs_stage) = sample_machine_timedout.s.map (fun s => s.hs_stage) ∧
      m1.s.map (fun s => s.hs_buf) = sample_machine_timedout.s.map (fun s => s.hs_buf) :=
  ⟨rfl,
   ((rtmp_handlers_timed_out sample_machine_timedout rfl).1 rfl).1,
   ((rtmp_handlers_timed_out sample_machine_timedout rfl).2.1 rfl).2,
   (rtmp_handlers_timed_out sample_machine_timedout rfl).2.2⟩

/-! ### The receive loop of the handshake, in general -/

theorem take_append_drop_length (n : Nat) (l : List Nat) :
    l = l.take n ++ l.drop (l.take n).length := by
  rw [List.length_take]
  rcases Nat.le_total n l.length with h | h
  · rw [Nat.min_eq_left h]
    exact (List.take_append_drop _ _).symm
  · rw [Nat.min_eq_right h, List.drop_length, List.take_of_length_le h]
    simp

/-- One call of `rtmp_unix_recv`: it is logged with its answer; it either
answers `RTMP_AGAIN` or `RTMP_ERROR` and leaves memory and the wire alone, or
takes between 1 and `size` bytes from the wire and stores them at `buf`. It
never touches what `send`, `epoll_ctl`, `malloc`, the clock and `rand` see. -/
theorem rtmp_unix_recv_spec (buf size : Nat) (w : world) :
    (rtmp_unix_recv buf size w).2.trace =
      w.trace ++ [.recv size (rtmp_unix_recv buf size w).1] ∧
    (((rtmp_unix_recv buf size w).1 = RTMP_AGAIN ∨ (rtmp_unix_recv buf size w).1 = RTMP_ERROR) ∧
        (rtmp_unix_recv buf size w).2.mem = w.mem ∧
        (rtmp_unix_recv buf size w).2.wire = w.wire ∨
      ∃ data : List Nat, 0 < data.length ∧ data.length ≤ size ∧
        (rtmp_unix_recv buf size w).1 = data.length ∧
        w.wire = data ++ (rtmp_unix_recv buf size w).2.wire ∧
        (rtmp_unix_recv buf size w).2.mem = mem_write w.mem buf data) ∧
    (rtmp_unix_recv buf size w).2.tx = w.tx ∧
    (rtmp_unix_recv buf size w).2.ctl = w.ctl ∧
    (rtmp_unix_recv buf size w).2.epoll_fd = w.epoll_fd := by
  unfold rtmp_unix_recv
  split
  · exact ⟨rfl, Or.inl ⟨Or.inl rfl, rfl, rfl⟩, rfl, rfl, rfl⟩
  · exact ⟨rfl, Or.inl ⟨Or.inl rfl, rfl, rfl⟩, rfl, rfl, rfl⟩
  · exact ⟨rfl, Or.inl ⟨Or.inr rfl, rfl, rfl⟩, rfl, rfl, rfl⟩
  · rename_i k rest hrx
    dsimp only
    split
    · exact ⟨rfl, Or.inl ⟨Or.inr rfl, rfl, rfl⟩, rfl, rfl, rfl⟩
    · rename_i hne
      refine ⟨rfl, Or.inr ⟨w.wire.take (min k size), by omega, ?_, rfl, ?_, rfl⟩, rfl, rfl, rfl⟩
      · rw [List.length_take]
        omega
      · simp only [world.log]
        exact take_append_drop_length _ _

/-- The `while` loop of `rtmp_handshake_recv`, for every buffer and every
behaviour of the socket: it calls nothing but `recv`; the bytes `D` it took
from the wire are stored at the old `last`, in order, and `last` moved on by
their number, never past `end`; no byte below the old `last` changed. When the
loop leaves by would-block, that answer is its last call and all calls before
it delivered bytes. It ends as `done` exactly when the buffer holds the
required count. -/
theorem rtmp_handshake_recv_loop_spec (req : Nat) (b : rtmp_buf_t) (w : world) :
    ∃ (es : List effect) (D : List Nat),
      (rtmp_handshake_recv_loop req b w).2.2.trace = w.trace ++ es ∧
      (∀ e ∈ es, e.is_recv = true) ∧
      w.wire = D ++ (rtmp_handshake_recv_loop req b w).2.2.wire ∧
      (rtmp_handshake_recv_loop req b w).2.1 = { b with last := b.last + D.length } ∧
      (∀ a, a < b.last → (rtmp_handshake_recv_loop req b w).2.2.mem a = w.mem a) ∧
      mem_read (rtmp_handshake_recv_loop req b w).2.2.mem b.last D.length = D ∧
      (b.last ≤ b.end_ → b.last + D.length ≤ b.end_) ∧
      ((rtmp_handshake_recv_loop req b w).1 = .again →
        ∃ es0 size, es = es0 ++ [.recv size RTMP_AGAIN] ∧
          ∀ e ∈ es0, ∃ sz n, e = effect.recv sz n ∧ 0 < n) ∧
      ((rtmp_handshake_recv_loop req b w).1 = .done ↔
        ¬ ((b.last : Int) + D.length - b.start < req)) ∧
      (rtmp_handshake_recv_loop req b w).2.2.tx = w.tx ∧
      (rtmp_handshake_recv_loop req b w).2.2.ctl = w.ctl ∧
      (rtmp_handshake_recv_loop req b w).2.2.epoll_fd = w.epoll_fd := by
  induction b, w using rtmp_handshake_recv_loop.induct req with
  | case1 b w hlt n w1 hs hn =>
    have sp := rtmp_unix_recv_spec b.last (size_t_of ((b.end_ : Int) - b.last)) w
    rw [hs] at sp
    dsimp only at sp
    obtain ⟨s1, s2, s3, s4, s5⟩ := sp
    rw [rtmp_handshake_recv_loop]
    simp only [hlt, ↓reduceIte, hs, hn]
    rcases s2 with ⟨-, s6, s7⟩ | ⟨data, d1, d2, d3, -, -⟩
    · refine ⟨_, [], s1, ?_, by simp [s7], by simp [rtmp_buf_last_eta], ?_, by simp [mem_read],
        by simp, by simp, ?_, s3, s4, s5⟩
      · simp [effect.is_recv]
      · intro a _; rw [s6]
      · simp only [List.length_nil, Nat.cast_zero, add_zero]
        constructor
        · intro h; cases h
        · intro h; exact absurd hlt h
    · exfalso
      rcases hn with h | h
      · rw [h] at d3; unfold RTMP_ERROR at d3; omega
      · rw [h] at d3; omega
  | case2 b w hlt w1 hs hn =>
    have sp := rtmp_unix_recv_spec b.last (size_t_of ((b.end_ : Int) - b.last)) w
    rw [hs] at sp
    dsimp only at sp
    obtain ⟨s1, s2, s3, s4, s5⟩ := sp
    rw [rtmp_handshake_recv_loop]
    simp only [hlt, ↓reduceIte, hs, hn]
    rcases s2 with ⟨-, s6, s7⟩ | ⟨data, d1, d2, d3, -, -⟩
    · refine ⟨_, [], s1, ?_, by simp [s7], by simp [rtmp_buf_last_eta], ?_, by simp [mem_read],
        by simp, ?_, ?_, s3, s4, s5⟩
      · simp [effect.is_recv]
      · intro a _; rw [s6]
      · intro _
        exact ⟨[], _, rfl, by simp⟩
      · simp only [List.length_nil, Nat.cast_zero, add_zero]
        constructor
        · intro h; cases h
        · intro h; exact absurd hlt h
    · exfalso
      unfold RTMP_AGAIN at d3; omega
  | case3 b w hlt n w1 hs hn hna ih =>
    have sp := rtmp_unix_recv_spec b.last (size_t_of ((b.end_ : Int) - b.last)) w
    rw [hs] at sp
    dsimp only at sp
    obtain ⟨s1, s2, s3, s4, s5⟩ := sp
    rw [rtmp_handshake_recv_loop]
    simp only [hlt, ↓reduceIte, hs, hn, hna]
    rcases s2 with ⟨h, -, -⟩ | ⟨data, d1, d2, d3, d4, d5⟩
    · exfalso
      rcases h with h | h
      · exact hna h
      · exact hn (Or.inl h)
    · obtain ⟨es, D, i1, i2, i3, i4, i5, i6, i7, i8, i9, i10, i11, i12⟩ := ih
      have hl : ((b.last : Int) + n).toNat = b.last + data.length := by omega
      simp only [hl] at i1 i2 i3 i4 i5 i6 i7 i8 i9 i10 i11 i12 ⊢
      refine ⟨.recv (size_t_of ((b.end_ : Int) - b.last)) n :: es, data ++ D, ?_, ?_, ?_, ?_, ?_,
        ?_, ?_, ?_, ?_, by rw [i10, s3], by rw [i11, s4], by rw [i12, s5]⟩
      · rw [i1, s1]; simp
      · intro e he
        rcases List.mem_cons.mp he with h | h
        · subst h; rfl
        · exact i2 e h
      · rw [d4, i3]; simp
      · rw [i4]; simp [Nat.add_assoc]
      · intro a ha
        rw [i5 a (by omega), d5, mem_write_lt _ _ _ _ ha]
      · rw [List.length_append, ← mem_read_append, i6]
        congr 1
        apply mem_read_eq_of_getD
        intro i hi
        rw [i5 _ (by omega), d5]
        exact mem_write_at _ _ _ _ hi
      · intro hle
        have hsz : (size_t_of ((b.end_ : Int) - b.last) : Int) ≤ (b.end_ : Int) - b.last :=
          size_t_of_le _ (by omega)
        have := i7 (by omega)
        rw [List.length_append]
        omega
      · intro ha
        obtain ⟨es0, size, e1, e2⟩ := i8 ha
        refine ⟨.recv (size_t_of ((b.end_ : Int) - b.last)) n :: es0, size, by rw [e1]; simp, ?_⟩
        intro e he
        rcases List.mem_cons.mp he with h | h
        · exact ⟨_, _, h, by omega⟩
        · exact e2 e h
      · rw [i9, List.length_append]
        push_cast
        constructor <;> intro h <;> omega
  | case4 b w hlt =>
    rw [rtmp_handshake_recv_loop]
    simp only [hlt, ↓reduceIte]
    refine ⟨[], [], by simp, by simp, by simp, by simp [rtmp_buf_last_eta], by simp,
      by simp [mem_read], by simp, by simp, ?_, by simp, by simp, by simp⟩
    simp only [List.length_nil, Nat.cast_zero, add_zero, true_iff]
    exact hlt

/-! ### The ways through `rtmp_handshake_recv` -/

/-- The function `rtmp_handshake_recv` when its loop left by would-block: the
timer is set, the read event handed to `rtmp_handle_read_event`, and the
session finalized only if that call failed. -/
theorem rtmp_handshake_recv_on_again (c : rtmp_connection_t) (s : rtmp_session_t)
    (w : world) (b0 b : rtmp_buf_t) (w1 : world)
    (hd : c.destroyed = false) (ht : c.read.timedout = false)
    (hst : s.hs_stage = RTMP_HANDSHAKE_SERVER_RECV_CHALLENGE1 ∨
      s.hs_stage = RTMP_HANDSHAKE_SERVER_RECV_CHALLENGE2)
    (hb : s.hs_buf = some b0)
    (hloop : rtmp_handshake_recv_loop
      (if s.hs_stage = RTMP_HANDSHAKE_SERVER_RECV_CHALLENGE1 then 1537 else 1536) b0 w =
        (.again, b, w1)) :
    rtmp_handshake_recv { c := c, s := some s, w := w } =
      if (rtmp_handle_read_event (rtmp_add_timer (del_timer_if_set c.read) s.timeout)
          c.fd w1).1 ≠ RTMP_OK then
        rtmp_finalize_session
          { c := { c with read := (rtmp_handle_read_event
                    (rtmp_add_timer (del_timer_if_set c.read) s.timeout) c.fd w1).2.1 },
            s := some { s with hs_buf := some b },
            w := (rtmp_handle_read_event
                    (rtmp_add_timer (del_timer_if_set c.read) s.timeout) c.fd w1).2.2 }
      else
        some
          { c := { c with read := (rtmp_handle_read_event
                    (rtmp_add_timer (del_timer_if_set c.read) s.timeout) c.fd w1).2.1 },
            s := some { s with hs_buf := some b },
            w := (rtmp_handle_read_event
                    (rtmp_add_timer (del_timer_if_set c.read) s.timeout) c.fd w1).2.2 } := by
  rw [rtmp_handshake_recv]
  simp only [hd, ht, hst, hb, hloop, Bool.false_eq_true, ↓reduceIte]

/-- The function `rtmp_handshake_recv` when `recv` failed or the peer closed:
the session is finalized. -/
theorem rtmp_handshake_recv_on_error (c : rtmp_connection_t) (s : rtmp_session_t)
    (w : world) (b0 b : rtmp_buf_t) (w1 : world)
    (hd : c.destroyed = false) (ht : c.read.timedout = false)
    (hst : s.hs_stage = RTMP_HANDSHAKE_SERVER_RECV_CHALLENGE1 ∨
      s.hs_stage = RTMP_HANDSHAKE_SERVER_RECV_CHALLENGE2)
    (hb : s.hs_buf = some b0)
    (hloop : rtmp_handshake_recv_loop
      (if s.hs_stage = RTMP_HANDSHAKE_SERVER_RECV_CHALLENGE1 then 1537 else 1536) b0 w =
        (.finalize, b, w1)) :
    rtmp_handshake_recv { c := c, s := some s, w := w } =
      rtmp_finalize_session
        { c := { c with read := del_timer_if_set c.read },
          s := some { s with hs_buf := some b }, w := w1 } := by
  rw [rtmp_handshake_recv]
  simp only [hd, ht, hst, hb, hloop, Bool.false_eq_true, ↓reduceIte]

/-- The function `rtmp_handshake_recv` in a stage that is not a receive stage:
the session is finalized. -/
theorem rtmp_handshake_recv_other_stage (c : rtmp_connection_t) (s : rtmp_session_t)
    (w : world)
    (hd : c.destroyed = false) (ht : c.read.timedout = false)
    (hst : ¬ (s.hs_stage = RTMP_HANDSHAKE_SERVER_RECV_CHALLENGE1 ∨
      s.hs_stage = RTMP_HANDSHAKE_SERVER_RECV_CHALLENGE2)) :
    rtmp_handshake_recv { c := c, s := some s, w := w } =
      rtmp_finalize_session
        { c := { c with read := del_timer_if_set c.read }, s := some s, w := w } := by
  rw [rtmp_handshake_recv]
  simp only [hd, ht, hst, Bool.false_eq_true, ↓reduceIte]

/-- The function `rtmp_handshake_recv` in a receive stage of a session without
scratch buffer dereferences `NULL`. -/
theorem rtmp_handshake_recv_no_buf (c : rtmp_connection_t) (s : rtmp_session_t)
    (w : world)
    (hd : c.destroyed = false) (ht : c.read.timedout = false)
    (hst : s.hs_stage = RTMP_HANDSHAKE_SERVER_RECV_CHALLENGE1 ∨
      s.hs_stage = RTMP_HANDSHAKE_SERVER_RECV_CHALLENGE2)
    (hb : s.hs_buf = none) :
    rtmp_handshake_recv { c := c, s := some s, w := w } = none := by
  rw [rtmp_handshake_recv]
  simp only [hd, ht, hst, hb, Bool.false_eq_true, ↓reduceIte]

/-- The function `rtmp_handshake_recv` when its loop ran to the end: the read
event is deleted if it was active and the stage goes up by one; then either the
session is finalized or `rtmp_handshake` is called. -/
theorem rtmp_handshake_recv_on_done (c : rtmp_connection_t) (s : rtmp_session_t)
    (w : world) (b0 b : rtmp_buf_t) (w1 : world)
    (hd : c.destroyed = false) (ht : c.read.timedout = false)
    (hst : s.hs_stage = RTMP_HANDSHAKE_SERVER_RECV_CHALLENGE1 ∨
      s.hs_stage = RTMP_HANDSHAKE_SERVER_RECV_CHALLENGE2)
    (hb : s.hs_buf = some b0)
    (hloop : rtmp_handshake_recv_loop
      (if s.hs_stage = RTMP_HANDSHAKE_SERVER_RECV_CHALLENGE1 then 1537 else 1536) b0 w =
        (.done, b, w1)) :
    rtmp_handshake_recv { c := c, s := some s, w := w } =
      if s.hs_stage = RTMP_HANDSHAKE_SERVER_RECV_CHALLENGE1 ∧
          (del_event_if_active (del_timer_if_set c.read) c.fd w1).2.mem b.start = 3 then
        rtmp_handshake
          { c := { c with read := (del_event_if_active (del_timer_if_set c.read) c.fd w1).1 },
            s := some { s with hs_buf := some b, hs_stage := s.hs_stage + 1 },
            w := (del_event_if_active (del_timer_if_set c.read) c.fd w1).2 }
      else
        rtmp_finalize_session
          { c := { c with read := (del_event_if_active (del_timer_if_set c.read) c.fd w1).1 },
            s := some { s with hs_buf := some b, hs_stage := s.hs_stage + 1 },
            w := (del_event_if_active (del_timer_if_set c.read) c.fd w1).2 } := by
  rw [rtmp_handshake_recv]
  simp only [hd, ht, hst, hb, hloop, Bool.false_eq_true, ↓reduceIte]
  rcases hst with h | h
  · rw [h]
    simp [RTMP_HANDSHAKE_SERVER_RECV_CHALLENGE1, RTMP_HANDSHAKE_SERVER_SEND_CHALLENGE2]
  · rw [h]
    simp [RTMP_HANDSHAKE_SERVER_RECV_CHALLENGE1, RTMP_HANDSHAKE_SERVER_RECV_CHALLENGE2,
      RTMP_HANDSHAKE_SERVER_SEND_CHALLENGE2, RTMP_HANDSHAKE_DONE, RTMP_MSG_MAX]

/-- The function `rtmp_handle_read_event` calls nothing but `epoll_ctl`,
leaves memory and the wire alone, changes nothing of the event but `active`,
and answers `RTMP_OK` only with the event active. -/
theorem rtmp_handle_read_event_spec (rev : rtmp_event_t) (fd : Int) (w : world) :
    (∃ es, (rtmp_handle_read_event rev fd w).2.2.trace = w.trace ++ es ∧
      ∀ e ∈ es, e.is_epoll_ctl = true) ∧
    (rtmp_handle_read_event rev fd w).2.2.mem = w.mem ∧
    (rtmp_handle_read_event rev fd w).2.2.wire = w.wire ∧
    (∃ a, (rtmp_handle_read_event rev fd w).2.1 = { rev with active := a }) ∧
    ((rtmp_handle_read_event rev fd w).1 = RTMP_OK →
      (rtmp_handle_read_event rev fd w).2.1.active = true) := by
  by_cases ha : rev.active = true
  · have e : rtmp_handle_read_event rev fd w = (RTMP_OK, rev, w) := by
      unfold rtmp_handle_read_event
      simp [ha]
    rw [e]
    exact ⟨⟨[], by simp, by simp⟩, rfl, rfl, ⟨rev.active, rfl⟩, fun _ => ha⟩
  · have ha2 : rev.active = false := by simpa using ha
    by_cases hep : w.epoll_fd = -1
    · have e : rtmp_handle_read_event rev fd w = (RTMP_ERROR, rev, w) := by
        unfold rtmp_handle_read_event rtmp_add_event
        simp [ha2, hep]
      rw [e]
      exact ⟨⟨[], by simp, by simp⟩, rfl, rfl, ⟨rev.active, rfl⟩, fun h => by
        simp [RTMP_ERROR, RTMP_OK] at h⟩
    · have e : rtmp_handle_read_event rev fd w =
          (if w.ctl.headD true = false then RTMP_ERROR else RTMP_OK, { rev with active := true },
            (epoll_ctl EPOLL_CTL_ADD fd (RTMP_READ_EVENT ||| EPOLLET) w).2) := by
        unfold rtmp_handle_read_event rtmp_add_event
        simp only [ha2, hep, Bool.false_eq_true, not_false_eq_true, ↓reduceIte]
        unfold epoll_ctl
        dsimp only
        split <;> rfl
      rw [e]
      exact ⟨⟨[_], rfl, by simp [effect.is_epoll_ctl]⟩, rfl, rfl, ⟨true, rfl⟩, fun _ => rfl⟩

/-- Whatever `rtmp_finalize_session` is called on, the call is in the trace of
the state it returns. -/
theorem rtmp_finalize_session_logged (w : world) (X m1 : machine) (pre : List effect)
    (h1 : X.w.trace = w.trace ++ pre) (h2 : rtmp_finalize_session X = some m1) :
    effect.finalize_session ∈ new_effects w m1.w ∧
    (∀ e ∈ new_effects w m1.w, e ∈ pre ∨ e = .finalize_session ∨
      e = .fire_event RTMP_DISCONNECT ∨ e.is_epoll_ctl = true ∨ e.is_close = true ∨
      e.is_heap = true) ∧
    (∀ s, X.s = some s → m1.s = some { s with connected := 0 }) ∧
    (∃ a1 a2 fd d, m1.c =
        { X.c with read := { X.c.read with active := a1 },
                   write := { X.c.write with active := a2 }, fd := fd, destroyed := d }) := by
  obtain ⟨m2, es, e1, e2, e3, e4, e5, -⟩ := rtmp_finalize_session_total X
  rw [e1] at h2
  cases h2
  have hn : new_effects w m1.w = pre ++ .finalize_session :: es := by
    apply new_effects_of_append
    rw [e2, h1, List.append_assoc]
  refine ⟨by rw [hn]; simp, ?_, e5, e4⟩
  intro e he
  rw [hn] at he
  rcases List.mem_append.mp he with h | h
  · exact Or.inl h
  · rcases List.mem_cons.mp h with h | h
    · exact Or.inr (Or.inl h)
    · exact Or.inr (Or.inr (e3 e h))

/-- A scratch buffer with room for fewer than 3073 bytes, as `rtmp_handshake`
creates it: when the loop of `rtmp_handshake_recv` has run to the end, the
stage goes up by one and the session is finalized in that stage, whether the
version byte is 3 or not (or the function dereferences `NULL`). -/
theorem rtmp_handshake_recv_done_finalizes (c : rtmp_connection_t) (s : rtmp_session_t)
    (w : world) (b0 b : rtmp_buf_t) (w1 : world)
    (hd : c.destroyed = false) (ht : c.read.timedout = false)
    (hst : s.hs_stage = RTMP_HANDSHAKE_SERVER_RECV_CHALLENGE1 ∨
      s.hs_stage = RTMP_HANDSHAKE_SERVER_RECV_CHALLENGE2)
    (hb : s.hs_buf = some b0)
    (hcap : b0.start ≤ b0.end_ ∧ b0.end_ - b0.start < 3073)
    (hloop : rtmp_handshake_recv_loop
      (if s.hs_stage = RTMP_HANDSHAKE_SERVER_RECV_CHALLENGE1 then 1537 else 1536) b0 w =
        (.done, b, w1)) :
    rtmp_handshake_recv { c := c, s := some s, w := w } = none ∨
    ∃ X s1, rtmp_handshake_recv { c := c, s := some s, w := w } = rtmp_finalize_session X ∧
      X.w = (del_event_if_active (del_timer_if_set c.read) c.fd w1).2 ∧
      X.s = some s1 ∧ s1.hs_stage = s.hs_stage + 1 := by
  have hl := rtmp_handshake_recv_loop_spec
    (if s.hs_stage = RTMP_HANDSHAKE_SERVER_RECV_CHALLENGE1 then 1537 else 1536) b0 w
  rw [hloop] at hl
  obtain ⟨es, D, -, -, -, hbq, -⟩ := hl
  dsimp only at hbq
  rw [rtmp_handshake_recv_on_done c s w b0 b w1 hd ht hst hb hloop]
  split
  · rename_i hv
    by_cases hc : s.connection = true
    · right
      have hst1 : s.hs_stage + 1 = 1 := by
        rw [hv.1]; rfl
      rw [rtmp_handshake_stage1
        { c with read := (del_event_if_active (del_timer_if_set c.read) c.fd w1).1 }
        { s with hs_buf := some b, hs_stage := s.hs_stage + 1 }
        (del_event_if_active (del_timer_if_set c.read) c.fd w1).2 hd hc hst1]
      by_cases hwt : c.write.timedout = true
      · refine ⟨
          { c := { c with read := (del_event_if_active (del_timer_if_set c.read) c.fd w1).1,
                          timedout := true },
            s := some { s with hs_buf := some b, hs_stage := s.hs_stage + 1 },
            w := (del_event_if_active (del_timer_if_set c.read) c.fd w1).2 },
          { s with hs_buf := some b, hs_stage := s.hs_stage + 1 }, ?_, rfl, rfl, rfl⟩
        rw [rtmp_handshake_send]
        simp only [hd, hwt, Bool.false_eq_true, ↓reduceIte]
      · refine ⟨
          { c := { c with read := (del_event_if_active (del_timer_if_set c.read) c.fd w1).1,
                          write := del_timer_if_set c.write },
            s := some { s with hs_buf := some { b with pos := b.start, last := b.start },
                               hs_stage := s.hs_stage + 1 },
            w := (del_event_if_active (del_timer_if_set c.read) c.fd w1).2 },
          { s with hs_buf := some { b with pos := b.start, last := b.start },
                   hs_stage := s.hs_stage + 1 }, ?_, rfl, rfl, rfl⟩
        rw [rtmp_handshake_send_small_buf
          { c with read := (del_event_if_active (del_timer_if_set c.read) c.fd w1).1 }
          { s with hs_buf := some b, hs_stage := s.hs_stage + 1 }
          (del_event_if_active (del_timer_if_set c.read) c.fd w1).2 b hd (by simpa using hwt)
          hst1 rfl (by rw [hbq]; exact hcap.1) (by rw [hbq]; exact hcap.2)]
    · left
      rw [rtmp_handshake]
      simp [hc]
  · right
    exact ⟨_, _, rfl, rfl, rfl, rfl⟩

/-- C14: `rtmp_handshake_recv` on a connection that is not destroyed, with a
scratch buffer that has room for fewer than 3073 bytes (`rtmp_handshake`
creates it with 1537). If the call returns and has not finalized the session,
then its calls were: `recv` calls that each delivered bytes, then one `recv`
that answered `RTMP_AGAIN`, then at most `epoll_ctl`. The bytes `D` taken from
the wire by this call stand at the old `last` of the buffer, in order, and
`last` has moved on by their number, within the buffer; the bytes below the old
`last` are untouched, so the buffer holds what it held followed by `D`. The
read event is active and its timer set on return. -/
theorem rtmp_handshake_recv_reads_until_again (m m1 : machine) (s : rtmp_session_t)
    (b : rtmp_buf_t)
    (hd : m.c.destroyed = false) (hs : m.s = some s) (hb : s.hs_buf = some b)
    (hcap : b.start ≤ b.end_ ∧ b.end_ - b.start < 3073)
    (hr : rtmp_handshake_recv m = some m1)
    (hnf : effect.finalize_session ∉ new_effects m.w m1.w) :
    ∃ (es ctl : List effect) (size : Nat) (D : List Nat),
      new_effects m.w m1.w = es ++ .recv size RTMP_AGAIN :: ctl ∧
      (∀ e ∈ es, ∃ sz n, e = effect.recv sz n ∧ 0 < n) ∧
      (∀ e ∈ ctl, e.is_epoll_ctl = true) ∧
      m.w.wire = D ++ m1.w.wire ∧
      m1.s = some { s with hs_buf := some { b with last := b.last + D.length } } ∧
      mem_read m1.w.mem b.last D.length = D ∧
      (∀ a, a < b.last → m1.w.mem a = m.w.mem a) ∧
      (b.last ≤ b.end_ → b.last + D.length ≤ b.end_) ∧
      (b.start ≤ b.last →
        mem_read m1.w.mem b.start (b.last + D.length - b.start) =
          mem_read m.w.mem b.start (b.last - b.start) ++ D) ∧
      m1.c.read.active = true ∧ m1.c.read.timer_set = true := by
  obtain ⟨c, s2, w⟩ := m
  simp only at hd hs hr hnf ⊢
  subst hs
  by_cases ht : c.read.timedout = true
  · exfalso
    rw [rtmp_handshake_recv] at hr
    simp only [hd, ht, Bool.false_eq_true, ↓reduceIte] at hr
    exact hnf (rtmp_finalize_session_logged w _ m1 [] (by simp) hr).1
  · have ht2 : c.read.timedout = false := by simpa using ht
    by_cases hst : s.hs_stage = RTMP_HANDSHAKE_SERVER_RECV_CHALLENGE1 ∨
        s.hs_stage = RTMP_HANDSHAKE_SERVER_RECV_CHALLENGE2
    · have hl := rtmp_handshake_recv_loop_spec
        (if s.hs_stage = RTMP_HANDSHAKE_SERVER_RECV_CHALLENGE1 then 1537 else 1536) b w
      rcases hloop : rtmp_handshake_recv_loop
        (if s.hs_stage = RTMP_HANDSHAKE_SERVER_RECV_CHALLENGE1 then 1537 else 1536) b w
        with ⟨ex, b1, w1⟩
      rw [hloop] at hl
      obtain ⟨es, D, l1, l2, l3, l4, l5, l6, l7, l8, -⟩ := hl
      dsimp only at l1 l2 l3 l4 l5 l6 l7 l8
      cases ex with
      | done =>
        exfalso
        rcases rtmp_handshake_recv_done_finalizes c s w b b1 w1 hd ht2 hst hb hcap hloop with
          h | ⟨X, s1, h1, h2, -, -⟩
        · rw [h] at hr; cases hr
        · rw [h1] at hr
          obtain ⟨⟨es2, t2, -⟩, -, -⟩ :=
            del_event_if_active_spec (del_timer_if_set c.read) c.fd w1
          exact hnf (rtmp_finalize_session_logged w X m1 (es ++ es2)
            (by rw [h2, t2, l1, List.append_assoc]) hr).1
      | finalize =>
        exfalso
        rw [rtmp_handshake_recv_on_error c s w b b1 w1 hd ht2 hst hb hloop] at hr
        exact hnf (rtmp_finalize_session_logged w _ m1 es l1 hr).1
      | again =>
        rw [rtmp_handshake_recv_on_again c s w b b1 w1 hd ht2 hst hb hloop] at hr
        obtain ⟨⟨es2, t2, p2⟩, q2, q3, ⟨a, q4⟩, q5⟩ := rtmp_handle_read_event_spec
          (rtmp_add_timer (del_timer_if_set c.read) s.timeout) c.fd w1
        split at hr
        · exfalso
          exact hnf (rtmp_finalize_session_logged w _ m1 (es ++ es2)
            (by simp only []; rw [t2, l1, List.append_assoc]) hr).1
        · rename_i hrc
          have hrc2 : (rtmp_handle_read_event
              (rtmp_add_timer (del_timer_if_set c.read) s.timeout) c.fd w1).1 = RTMP_OK := by
            simpa using hrc
          cases hr
          obtain ⟨es0, size, e1, e2⟩ := l8 rfl
          have hmem : ∀ x, (rtmp_handle_read_event
              (rtmp_add_timer (del_timer_if_set c.read) s.timeout) c.fd w1).2.2.mem x =
              w1.mem x := fun x => by rw [q2]
          refine ⟨es0, es2, size, D, ?_, e2, p2, ?_, ?_, ?_, ?_, l7, ?_, q5 hrc2, ?_⟩
          · apply new_effects_of_append
            simp only []
            rw [t2, l1, e1]
            simp
          · simp only []
            rw [q3]
            exact l3
          · simp only []
            rw [l4]
          · simp only []
            rw [q2]
            exact l6
          · intro x hx
            simp only []
            rw [q2]
            exact l5 x hx
          · intro hle
            simp only []
            rw [q2, show b.last + D.length - b.start = (b.last - b.start) + D.length by omega,
              ← mem_read_append, show b.start + (b.last - b.start) = b.last by omega, l6]
            congr 1
            apply mem_read_ext
            intro i hi
            exact l5 _ (by omega)
          · simp only []
            rw [q4]
            rfl
    · exfalso
      rw [rtmp_handshake_recv_other_stage c s w hd ht2 hst] at hr
      exact hnf (rtmp_finalize_session_logged w _ m1 [] (by simp) hr).1

theorem sample_recv_loop_again :
    rtmp_handshake_recv_loop 1537
        { pos := 73760, last := 73760, start := 73760, end_ := 75297, temporary := true }
        (sample_world_waiting [3, 9] [.bytes 2] []) =
      (.again,
       { pos := 73760, last := 73762, start := 73760, end_ := 75297, temporary := true },
       { sample_world_waiting [] [] [] with
         mem := mem_write (fun _ => 0) 73760 [3, 9],
         trace := (sample_world_waiting [] [] []).trace ++
           [.recv 1537 2, .recv 1535 RTMP_AGAIN] }) := by
  rw [rtmp_handshake_recv_loop]
  simp [rtmp_unix_recv, sample_world_waiting, boot, size_t_of, world.log, RTMP_ERROR,
    RTMP_AGAIN]
  rw [rtmp_handshake_recv_loop]
  simp [rtmp_unix_recv, size_t_of, world.log, RTMP_ERROR, RTMP_AGAIN]

theorem sample_machine_reading_recv :
    rtmp_handshake_recv sample_machine_reading = some sample_machine_read := by
  have h := rtmp_handshake_recv_on_again sample_connection_waiting sample_session
    (sample_world_waiting [3, 9] [.bytes 2] [])
    { pos := 73760, last := 73760, start := 73760, end_ := 75297, temporary := true }
    { pos := 73760, last := 73762, start := 73760, end_ := 75297, temporary := true }
    { sample_world_waiting [] [] [] with
      mem := mem_write (fun _ => 0) 73760 [3, 9],
      trace := (sample_world_waiting [] [] []).trace ++
        [.recv 1537 2, .recv 1535 RTMP_AGAIN] }
    rfl rfl (Or.inl rfl) rfl sample_recv_loop_again
  rw [if_neg (by decide)] at h
  exact h

theorem rtmp_handshake_recv_reads_until_again_witness :
    sample_machine_reading.c.destroyed = false ∧
    rtmp_handshake_recv sample_machine_reading = some sample_machine_read ∧
    effect.finalize_session ∉ new_effects sample_machine_reading.w sample_machine_read.w ∧
    ∃ (es ctl : List effect) (size : Nat) (D : List Nat),
      new_effects sample_machine_reading.w sample_machine_read.w =
        es ++ .recv size RTMP_AGAIN :: ctl ∧
      (∀ e ∈ es, ∃ sz n, e = effect.recv sz n ∧ 0 < n) ∧
      (∀ e ∈ ctl, e.is_epoll_ctl = true) ∧
      sample_machine_reading.w.wire = D ++ sample_machine_read.w.wire ∧
      sample_machine_read.s = some { sample_session with
        hs_buf := some { pos := 73760, last := 73760 + D.length, start := 73760,
                         end_ := 75297, temporary := true } } ∧
      mem_read sample_machine_read.w.mem 73760 D.length = D ∧
      (∀ a, a < 73760 → sample_machine_read.w.mem a = sample_machine_reading.w.mem a) ∧
      ((73760 : Nat) ≤ 75297 → 73760 + D.length ≤ 75297) ∧
      ((73760 : Nat) ≤ 73760 →
        mem_read sample_machine_read.w.mem 73760 (73760 + D.length - 73760) =
          mem_read sample_machine_reading.w.mem 73760 (73760 - 73760) ++ D) ∧
      sample_machine_read.c.read.active = true ∧
      sample_machine_read.c.read.timer_set = true :=
  ⟨rfl, sample_machine_reading_recv, by decide,
   rtmp_handshake_recv_reads_until_again sample_machine_reading sample_machine_read
     sample_session
     { pos := 73760, last := 73760, start := 73760, end_ := 75297, temporary := true }
     rfl rfl rfl (by decide) sample_machine_reading_recv (by decide)⟩

theorem not_send_of_kinds (e : effect)
    (h : e.is_recv = true ∨ e = .finalize_session ∨ e = .fire_event RTMP_DISCONNECT ∨
      e.is_epoll_ctl = true ∨ e.is_close = true ∨ e.is_heap = true) :
    e.is_send = false := by
  cases e <;> simp_all [effect.is_recv, effect.is_send, effect.is_epoll_ctl, effect.is_close,
    effect.is_heap]

/-- C15: `rtmp_handshake_recv` on a connection that is not destroyed, for a
session with a scratch buffer. First part: the read event has not timed out,
the stage is one of the two receive stages, and the loop is left because `recv`
answered `RTMP_AGAIN` while the buffer held fewer bytes than the stage needs
(1537 or 1536). The call then returns with the stage unchanged, the timer of
the read event set to the timeout of the session, and no `send`; if
`rtmp_handle_read_event` answered `RTMP_OK` the read event is active and the
session was not finalized, otherwise the session was finalized. Second part,
for a scratch buffer with room for fewer than 3073 bytes: a call that returns
with another stage than it began with has raised it by exactly one, and its
loop ended with the buffer holding the count the stage needs. -/
theorem rtmp_handshake_recv_partial_read (m : machine) (s : rtmp_session_t) (b : rtmp_buf_t)
    (hd : m.c.destroyed = false) (hs : m.s = some s) (hb : s.hs_buf = some b) :
    (m.c.read.timedout = false →
      (s.hs_stage = RTMP_HANDSHAKE_SERVER_RECV_CHALLENGE1 ∨
        s.hs_stage = RTMP_HANDSHAKE_SERVER_RECV_CHALLENGE2) →
      ∀ b1 w1,
        rtmp_handshake_recv_loop
          (if s.hs_stage = RTMP_HANDSHAKE_SERVER_RECV_CHALLENGE1 then 1537 else 1536) b m.w =
            (.again, b1, w1) →
        ∃ m1, rtmp_handshake_recv m = some m1 ∧
          (∃ s1, m1.s = some s1 ∧ s1.hs_stage = s.hs_stage ∧ s1.hs_buf = some b1) ∧
          ((b1.last : Int) - b1.start <
            ((if s.hs_stage = RTMP_HANDSHAKE_SERVER_RECV_CHALLENGE1 then 1537 else 1536 : Nat)
              : Int)) ∧
          m1.c.read.timer_set = true ∧ m1.c.read.timer = s.timeout ∧
          (∀ e ∈ new_effects m.w m1.w, e.is_send = false) ∧
          (∃ size, effect.recv size RTMP_AGAIN ∈ new_effects m.w m1.w) ∧
          ((rtmp_handle_read_event (rtmp_add_timer (del_timer_if_set m.c.read) s.timeout)
              m.c.fd w1).1 = RTMP_OK →
            m1.c.read.active = true ∧ m1.c.destroyed = false ∧
            effect.finalize_session ∉ new_effects m.w m1.w) ∧
          ((rtmp_handle_read_event (rtmp_add_timer (del_timer_if_set m.c.read) s.timeout)
              m.c.fd w1).1 ≠ RTMP_OK →
            effect.finalize_session ∈ new_effects m.w m1.w)) ∧
    ((b.start ≤ b.end_ ∧ b.end_ - b.start < 3073) →
      ∀ m1 s1, rtmp_handshake_recv m = some m1 → m1.s = some s1 →
        s1.hs_stage ≠ s.hs_stage →
        s1.hs_stage = s.hs_stage + 1 ∧
        (rtmp_handshake_recv_loop
          (if s.hs_stage = RTMP_HANDSHAKE_SERVER_RECV_CHALLENGE1 then 1537 else 1536) b
            m.w).1 = .done ∧
        ¬ (((rtmp_handshake_recv_loop
          (if s.hs_stage = RTMP_HANDSHAKE_SERVER_RECV_CHALLENGE1 then 1537 else 1536) b
            m.w).2.1.last : Int) - b.start <
          ((if s.hs_stage = RTMP_HANDSHAKE_SERVER_RECV_CHALLENGE1 then 1537 else 1536 : Nat)
            : Int))) := by
  obtain ⟨c, s2, w⟩ := m
  simp only at hd hs ⊢
  subst hs
  constructor
  · intro ht hst b1 w1 hloop
    have hl := rtmp_handshake_recv_loop_spec
      (if s.hs_stage = RTMP_HANDSHAKE_SERVER_RECV_CHALLENGE1 then 1537 else 1536) b w
    rw [hloop] at hl
    obtain ⟨es, D, l1, l2, l3, l4, l5, l6, l7, l8, l9, -⟩ := hl
    dsimp only at l1 l2 l3 l4 l5 l6 l7 l8 l9
    obtain ⟨es0, size, e1, e2⟩ := l8 rfl
    have hcount : (b1.last : Int) - b1.start <
        ((if s.hs_stage = RTMP_HANDSHAKE_SERVER_RECV_CHALLENGE1 then 1537 else 1536 : Nat)
          : Int) := by
      have h9 : ¬ ¬ ((b.last : Int) + D.length - b.start <
          ((if s.hs_stage = RTMP_HANDSHAKE_SERVER_RECV_CHALLENGE1 then 1537 else 1536 : Nat)
            : Int)) := fun h => by
        have := l9.mpr h
        cases this
      rw [l4]
      simp only
      generalize (if s.hs_stage = RTMP_HANDSHAKE_SERVER_RECV_CHALLENGE1 then 1537 else 1536 : Nat)
        = req at h9 ⊢
      push_cast
      omega
    obtain ⟨⟨es2, t2, p2⟩, q2, q3, ⟨a, q4⟩, q5⟩ := rtmp_handle_read_event_spec
      (rtmp_add_timer (del_timer_if_set c.read) s.timeout) c.fd w1
    rw [rtmp_handshake_recv_on_again c s w b b1 w1 hd ht hst hb hloop]
    by_cases hrc : (rtmp_handle_read_event
        (rtmp_add_timer (del_timer_if_set c.read) s.timeout) c.fd w1).1 = RTMP_OK
    · rw [if_neg (by simpa using hrc)]
      have hn : new_effects w (rtmp_handle_read_event
          (rtmp_add_timer (del_timer_if_set c.read) s.timeout) c.fd w1).2.2 = es ++ es2 := by
        apply new_effects_of_append
        rw [t2, l1, List.append_assoc]
      refine ⟨_, rfl, ⟨_, rfl, rfl, rfl⟩, hcount, ?_, ?_, ?_, ?_, ?_, ?_⟩
      · simp only []
        rw [q4]
        rfl
      · simp only []
        rw [q4]
        rfl
      · intro e he
        simp only [] at he
        rw [hn] at he
        rcases List.mem_append.mp he with h | h
        · exact not_send_of_kinds e (Or.inl (l2 e h))
        · exact not_send_of_kinds e (Or.inr (Or.inr (Or.inr (Or.inl (p2 e h)))))
      · refine ⟨size, ?_⟩
        simp only []
        rw [hn, e1]
        simp
      · intro _
        refine ⟨q5 hrc, hd, ?_⟩
        simp only []
        rw [hn]
        intro he
        rcases List.mem_append.mp he with h | h
        · have := l2 _ h
          simp [effect.is_recv] at this
        · have := p2 _ h
          simp [effect.is_epoll_ctl] at this
      · intro h
        exact absurd hrc h
    · rw [if_pos (by simpa using hrc)]
      obtain ⟨mf, esf, f1, f2, f3, ⟨a1, a2, fd, d, f4⟩, f5, -⟩ := rtmp_finalize_session_total
        { c := { c with read := (rtmp_handle_read_event
                    (rtmp_add_timer (del_timer_if_set c.read) s.timeout) c.fd w1).2.1 },
          s := some { s with hs_buf := some b1 },
          w := (rtmp_handle_read_event
                    (rtmp_add_timer (del_timer_if_set c.read) s.timeout) c.fd w1).2.2 }
      simp only [] at f2 f4 f5
      have hn : new_effects w mf.w = es ++ es2 ++ .finalize_session :: esf := by
        apply new_effects_of_append
        rw [f2, t2, l1]
        simp
      refine ⟨mf, f1, ⟨_, f5 _ rfl, rfl, rfl⟩, hcount, ?_, ?_, ?_, ?_, ?_, ?_⟩
      · rw [f4]
        simp only []
        rw [q4]
        rfl
      · rw [f4]
        simp only []
        rw [q4]
        rfl
      · intro e he
        rw [hn] at he
        rcases List.mem_append.mp he with h | h
        · rcases List.mem_append.mp h with h | h
          · exact not_send_of_kinds e (Or.inl (l2 e h))
          · exact not_send_of_kinds e (Or.inr (Or.inr (Or.inr (Or.inl (p2 e h)))))
        · rcases List.mem_cons.mp h with h | h
          · exact not_send_of_kinds e (Or.inr (Or.inl h))
          · exact not_send_of_kinds e (Or.inr (Or.inr (f3 e h)))
      · refine ⟨size, ?_⟩
        rw [hn, e1]
        simp
      · intro h
        exact absurd h hrc
      · intro _
        rw [hn]
        simp
  · intro hcap m1 s1 hr hs1 hne
    have hfin : ∀ (X : machine) (sX : rtmp_session_t), X.s = some sX →
        rtmp_finalize_session X = some m1 → s1.hs_stage = sX.hs_stage := by
      intro X sX hX hf
      obtain ⟨mf, esf, f1, -, -, -, f5, -⟩ := rtmp_finalize_session_total X
      rw [f1] at hf
      cases hf
      rw [f5 sX hX] at hs1
      cases hs1
      rfl
    by_cases ht : c.read.timedout = true
    · exfalso
      rw [rtmp_handshake_recv] at hr
      simp only [hd, ht, Bool.false_eq_true, ↓reduceIte] at hr
      exact hne (hfin _ s rfl hr)
    · have ht2 : c.read.timedout = false := by simpa using ht
      by_cases hst : s.hs_stage = RTMP_HANDSHAKE_SERVER_RECV_CHALLENGE1 ∨
          s.hs_stage = RTMP_HANDSHAKE_SERVER_RECV_CHALLENGE2
      · have hl := rtmp_handshake_recv_loop_spec
          (if s.hs_stage = RTMP_HANDSHAKE_SERVER_RECV_CHALLENGE1 then 1537 else 1536) b w
        rcases hloop : rtmp_handshake_recv_loop
          (if s.hs_stage = RTMP_HANDSHAKE_SERVER_RECV_CHALLENGE1 then 1537 else 1536) b w
          with ⟨ex, b1, w1⟩
        rw [hloop] at hl
        obtain ⟨es, D, -, -, -, l4, -, -, -, -, l9, -⟩ := hl
        dsimp only at l4 l9
        cases ex with
        | done =>
          rcases rtmp_handshake_recv_done_finalizes c s w b b1 w1 hd ht2 hst hb hcap hloop with
            h | ⟨X, sX, h1, -, h3, h4⟩
          · rw [h] at hr; cases hr
          · rw [h1] at hr
            refine ⟨by rw [hfin X sX h3 hr, h4], rfl, ?_⟩
            have := l9.mp rfl
            rw [l4]
            simp only
            rw [Nat.cast_add]
            exact this
        | finalize =>
          exfalso
          rw [rtmp_handshake_recv_on_error c s w b b1 w1 hd ht2 hst hb hloop] at hr
          exact hne (hfin _ { s with hs_buf := some b1 } rfl hr)
        | again =>
          exfalso
          rw [rtmp_handshake_recv_on_again c s w b b1 w1 hd ht2 hst hb hloop] at hr
          split at hr
          · exact hne (hfin _ { s with hs_buf := some b1 } rfl hr)
          · cases hr
            cases hs1
            exact hne rfl
      · exfalso
        rw [rtmp_handshake_recv_other_stage c s w hd ht2 hst] at hr
        exact hne (hfin _ s rfl hr)

theorem rtmp_handshake_recv_partial_read_witness :
    sample_machine_reading.c.destroyed = false ∧
    ∃ m1, rtmp_handshake_recv sample_machine_reading = some m1 ∧
      (∃ s1, m1.s = some s1 ∧ s1.hs_stage = 0 ∧
        s1.hs_buf = some { pos := 73760, last := 73762, start := 73760, end_ := 75297,
                           temporary := true }) ∧
      m1.c.read.timer_set = true ∧ m1.c.read.timer = 60000 ∧
      (∀ e ∈ new_effects sample_machine_reading.w m1.w, e.is_send = false) ∧
      (∃ size, effect.recv size RTMP_AGAIN ∈ new_effects sample_machine_reading.w m1.w) := by
  obtain ⟨m1, h1, h2, -, h4, h5, h6, h7, -⟩ :=
    (rtmp_handshake_recv_partial_read sample_machine_reading sample_session
      { pos := 73760, last := 73760, start := 73760, end_ := 75297, temporary := true }
      rfl rfl rfl).1 rfl (Or.inl rfl) _ _ sample_recv_loop_again
  exact ⟨rfl, m1, h1, h2, h4, h5, h6, h7⟩

/-! ### The buffer invariant -/

/-- The `while` loop of `rtmp_handshake_send` calls nothing but `send` and
changes nothing of the buffer but `pos`, which it moves forward and never past
`last` when it was not past `last` before. -/
theorem rtmp_handshake_send_loop_spec (b : rtmp_buf_t) (w : world) :
    (∃ p, (rtmp_handshake_send_loop b w).2.1 = { b with pos := p } ∧ b.pos ≤ p ∧
      (b.pos ≤ b.last → p ≤ b.last)) ∧
    (∃ es, (rtmp_handshake_send_loop b w).2.2.trace = w.trace ++ es ∧
      ∀ e ∈ es, e.is_send = true) ∧
    (rtmp_handshake_send_loop b w).2.2.mem = w.mem := by
  induction b, w using rtmp_handshake_send_loop.induct with
  | case1 b w hne w1 hs =>
    have sp := rtmp_unix_send_spec b.pos (size_t_of ((b.last : Int) - b.pos)) w
    rw [hs] at sp
    dsimp only at sp
    rw [rtmp_handshake_send_loop]
    simp only [hne, ne_eq, not_false_eq_true, ↓reduceIte, hs]
    exact ⟨⟨b.pos, by cases b; rfl, le_refl _, fun h => h⟩,
      ⟨_, sp.1, by simp [effect.is_send]⟩, sp.2.1⟩
  | case2 b w hne n w1 hs h1 h2 =>
    have sp := rtmp_unix_send_spec b.pos (size_t_of ((b.last : Int) - b.pos)) w
    rw [hs] at sp
    dsimp only at sp
    rw [rtmp_handshake_send_loop]
    simp only [hne, ne_eq, not_false_eq_true, ↓reduceIte, hs, h1, h2]
    exact ⟨⟨b.pos, by cases b; rfl, le_refl _, fun h => h⟩,
      ⟨_, sp.1, by simp [effect.is_send]⟩, sp.2.1⟩
  | case3 b w hne n w1 hs h1 h2 ih =>
    have sp := rtmp_unix_send_spec b.pos (size_t_of ((b.last : Int) - b.pos)) w
    rw [hs] at sp
    dsimp only at sp
    obtain ⟨s1, s2, s3⟩ := sp
    rw [rtmp_handshake_send_loop]
    simp only [hne, ne_eq, not_false_eq_true, ↓reduceIte, hs, h1, h2]
    obtain ⟨⟨p, i1, i2, i3⟩, ⟨es, i4, i5⟩, i6⟩ := ih
    simp only at i1 i2 i3
    rcases s3 with h | h | ⟨h0, hn⟩
    · exact absurd (Or.inl h) h2
    · exact absurd h h1
    · refine ⟨⟨p, by rw [i1], by omega, ?_⟩,
        ⟨.send (mem_read w.mem b.pos (size_t_of ((b.last : Int) - b.pos))) n :: es,
          by rw [i4, s1]; simp, ?_⟩,
        by rw [i6, s2]⟩
      · intro hle
        have hsz : (size_t_of ((b.last : Int) - b.pos) : Int) ≤ (b.last : Int) - b.pos :=
          size_t_of_le _ (by omega)
        exact i3 (by omega)
      · intro e he
        rcases List.mem_cons.mp he with h | h
        · subst h; rfl
        · exact i5 e h
  | case4 b w hne =>
    rw [rtmp_handshake_send_loop]
    simp only [hne, ↓reduceIte]
    exact ⟨⟨b.pos, by cases b; rfl, le_refl _, fun h => h⟩, ⟨[], by simp, by simp⟩, trivial⟩

theorem buf_valid_create_temp_buf (pool : rtmp_pool_t) (size : Nat) (w : world)
    (b : rtmp_buf_t) (h : (rtmp_create_temp_buf pool size w).1 = some b) : buf_valid b := by
  obtain ⟨h1, h2, h3⟩ := (rtmp_create_temp_buf_spec pool size w).2 b h
  unfold buf_valid
  omega

theorem buf_valid_recv_loop (req : Nat) (b : rtmp_buf_t) (w : world) (h : buf_valid b) :
    buf_valid (rtmp_handshake_recv_loop req b w).2.1 := by
  obtain ⟨es, D, -, -, -, l4, -, -, l7, -⟩ := rtmp_handshake_recv_loop_spec req b w
  unfold buf_valid at h ⊢
  rw [l4]
  have := l7 h.2.2
  simp only
  omega

theorem buf_valid_send_loop (b : rtmp_buf_t) (w : world) (h : buf_valid b) :
    buf_valid (rtmp_handshake_send_loop b w).2.1 := by
  obtain ⟨⟨p, i1, i2, i3⟩, -, -⟩ := rtmp_handshake_send_loop_spec b w
  unfold buf_valid at h ⊢
  rw [i1]
  have := i3 h.2.1
  simp only
  omega

theorem buf_valid_send_chain (bufs : Nat → rtmp_buf_t) (cl : List Nat) (limit : Int)
    (w : world) (q : Nat) (h : buf_valid (bufs q)) :
    buf_valid ((rtmp_send_chain bufs cl limit w).2.1 q) := by
  obtain ⟨a1, a2, a3, -, a5⟩ := (rtmp_send_chain_frame bufs cl limit w).1 q
  have hb := (rtmp_send_chain_bufs bufs cl limit w).2 q h.2.1
  unfold buf_valid at h ⊢
  omega

/-- The buffer `rtmp_handshake_send` goes on with after its
`SEND_CHALLENGE2` step: `pos` and `last` are set to `start`, and when
`rtmp_handshake_create_challenge` had room (it answered `RTMP_OK`) `last` is
moved on by 3073, which is within the buffer. -/
theorem buf_valid_challenge (s : rtmp_session_t) (b0 : rtmp_buf_t) (w : world)
    (h : buf_valid b0) :
    buf_valid { b0 with pos := b0.start, last := b0.start } ∧
    ((rtmp_handshake_create_challenge s b0.start
        (size_t_of ((b0.end_ : Int) - b0.start)) w).1 = RTMP_OK →
      buf_valid { b0 with pos := b0.start, last := b0.start + (1537 + 1536) }) := by
  unfold buf_valid at h ⊢
  refine ⟨by simp only; omega, ?_⟩
  intro hok
  have hsz : (size_t_of ((b0.end_ : Int) - b0.start) : Int) ≤ (b0.end_ : Int) - b0.start :=
    size_t_of_le _ (by omega)
  by_cases hc : size_t_of ((b0.end_ : Int) - b0.start) < 3073
  · rw [rtmp_handshake_create_challenge_small _ _ _ _ hc] at hok
    simp [RTMP_ERROR, RTMP_OK] at hok
  · simp only
    omega

theorem hs_buf_valid_mk (c : rtmp_connection_t) (s : rtmp_session_t) (w : world)
    (h : ∀ b, s.hs_buf = some b → buf_valid b) :
    hs_buf_valid { c := c, s := some s, w := w } := by
  intro s1 b1 h1 h2
  cases h1
  exact h b1 h2

/-- The function `rtmp_finalize_session` keeps the scratch buffer as it is. -/
theorem hs_buf_valid_finalize (X m1 : machine) (hv : hs_buf_valid X)
    (h : rtmp_finalize_session X = some m1) : hs_buf_valid m1 := by
  obtain ⟨mf, esf, f1, -, -, -, f5, f6⟩ := rtmp_finalize_session_total X
  rw [f1] at h
  cases h
  intro s1 b1 h1 h2
  cases hX : X.s with
  | none => rw [f6 hX] at h1; cases h1
  | some sX =>
    rw [f5 sX hX] at h1
    cases h1
    exact hv sX b1 hX h2

/-- The `RTMP_HANDSHAKE_DONE` notification, which runs `rtmp_cycle`, keeps the
scratch buffer as it is. -/
theorem hs_buf_valid_fire_done (m m1 : machine) (hv : hs_buf_valid m)
    (h : rtmp_fire_event RTMP_HANDSHAKE_DONE m = some m1) : hs_buf_valid m1 := by
  rw [rtmp_fire_event] at h
  simp only [RTMP_HANDSHAKE_DONE, RTMP_CONNECT, RTMP_DISCONNECT, RTMP_MSG_MAX] at h
  norm_num at h
  rw [rtmp_cycle] at h
  obtain ⟨c, so, w⟩ := m
  cases so with
  | none => simp at h
  | some s =>
    simp only at h
    split at h
    · cases h
    · split at h
      · cases h
        exact hs_buf_valid_mk _ _ _ (fun b hb => hv s b rfl hb)
      · split at h
        · exact hs_buf_valid_finalize _ m1
            (hs_buf_valid_mk _ _ _ (fun b hb => hv s b rfl hb)) h
        · cases h
          exact hs_buf_valid_mk _ _ _ (fun b hb => hv s b rfl hb)

/-- The function `rtmp_handshake_recv` keeps the buffer invariant, given that
the calls of `rtmp_handshake` it makes (in a later stage) keep it. -/
theorem hs_buf_valid_recv (m : machine) (hv : hs_buf_valid m)
    (ih : ∀ X, hs_rank X < hs_rank m → hs_buf_valid X →
      ∀ m1, rtmp_handshake X = some m1 → hs_buf_valid m1) :
    ∀ m1, rtmp_handshake_recv m = some m1 → hs_buf_valid m1 := by
  intro m1 hr
  obtain ⟨c, so, w⟩ := m
  by_cases hd : c.destroyed = true
  · rw [rtmp_handshake_recv] at hr
    simp only [hd, ↓reduceIte] at hr
    cases hr
    exact hv
  · have hd2 : c.destroyed = false := by simpa using hd
    by_cases ht : c.read.timedout = true
    · rw [rtmp_handshake_recv] at hr
      simp only [hd2, ht, Bool.false_eq_true, ↓reduceIte] at hr
      exact hs_buf_valid_finalize _ m1 (by exact fun s b h1 h2 => hv s b h1 h2) hr
    · have ht2 : c.read.timedout = false := by simpa using ht
      cases so with
      | none =>
        rw [rtmp_handshake_recv] at hr
        simp [hd2, ht2] at hr
      | some s =>
        by_cases hst : s.hs_stage = RTMP_HANDSHAKE_SERVER_RECV_CHALLENGE1 ∨
            s.hs_stage = RTMP_HANDSHAKE_SERVER_RECV_CHALLENGE2
        · cases hb : s.hs_buf with
          | none =>
            rw [rtmp_handshake_recv_no_buf c s w hd2 ht2 hst hb] at hr
            cases hr
          | some b =>
            have hvb : buf_valid b := hv s b rfl hb
            have hvl := buf_valid_recv_loop
              (if s.hs_stage = RTMP_HANDSHAKE_SERVER_RECV_CHALLENGE1 then 1537 else 1536) b w hvb
            rcases hloop : rtmp_handshake_recv_loop
              (if s.hs_stage = RTMP_HANDSHAKE_SERVER_RECV_CHALLENGE1 then 1537 else 1536) b w
              with ⟨ex, b1, w1⟩
            rw [hloop] at hvl
            simp only at hvl
            have hvs : ∀ b2, (some b1 : Option rtmp_buf_t) = some b2 → buf_valid b2 := by
              intro b2 h2
              cases h2
              exact hvl
            cases ex with
            | done =>
              rw [rtmp_handshake_recv_on_done c s w b b1 w1 hd2 ht2 hst hb hloop] at hr
              split at hr
              · rename_i hv3
                refine ih _ ?_ (hs_buf_valid_mk _ _ _ hvs) m1 hr
                simp only [hs_rank, hv3.1, RTMP_HANDSHAKE_SERVER_RECV_CHALLENGE1]
                norm_num
              · exact hs_buf_valid_finalize _ m1 (hs_buf_valid_mk _ _ _ hvs) hr
            | finalize =>
              rw [rtmp_handshake_recv_on_error c s w b b1 w1 hd2 ht2 hst hb hloop] at hr
              exact hs_buf_valid_finalize _ m1 (hs_buf_valid_mk _ _ _ hvs) hr
            | again =>
              rw [rtmp_handshake_recv_on_again c s w b b1 w1 hd2 ht2 hst hb hloop] at hr
              split at hr
              · exact hs_buf_valid_finalize _ m1 (hs_buf_valid_mk _ _ _ hvs) hr
              · cases hr
                exact hs_buf_valid_mk _ _ _ hvs
        · rw [rtmp_handshake_recv_other_stage c s w hd2 ht2 hst] at hr
          exact hs_buf_valid_finalize _ m1
            (hs_buf_valid_mk _ _ _ (fun b hb => hv s b rfl hb)) hr

theorem rtmp_handshake_create_challenge_fst (s : rtmp_session_t) (buf bufsize : Nat)
    (w : world) (h : ¬ bufsize < 3073) :
    (rtmp_handshake_create_challenge s buf bufsize w).1 = RTMP_OK := by
  rw [rtmp_handshake_create_challenge_ok s buf bufsize w (by omega)]

/-- The ways through `rtmp_handshake_send` once it has its buffer ready: `bX`
and `wX` are the buffer and the environment it enters its loop with, either
after `rtmp_handshake_create_challenge` has stored the 3073 bytes (stage
`SEND_CHALLENGE2`) or as they were (any other stage). -/
theorem rtmp_handshake_send_paths (c : rtmp_connection_t) (s : rtmp_session_t) (w : world)
    (b0 bX : rtmp_buf_t) (wX : world)
    (hd : c.destroyed = false) (ht : c.write.timedout = false) (hb : s.hs_buf = some b0)
    (hprep :
      (s.hs_stage = RTMP_HANDSHAKE_SERVER_SEND_CHALLENGE2 ∧
        ¬ size_t_of ((b0.end_ : Int) - b0.start) < 3073 ∧
        bX = { b0 with pos := b0.start, last := b0.start + (1537 + 1536) } ∧
        wX = (rtmp_handshake_create_challenge
          { s with hs_buf := some { b0 with pos := b0.start, last := b0.start } } b0.start
          (size_t_of ((b0.end_ : Int) - b0.start)) w).2) ∨
      (¬ s.hs_stage = RTMP_HANDSHAKE_SERVER_SEND_CHALLENGE2 ∧ bX = b0 ∧ wX = w)) :
    (∀ b w2, rtmp_handshake_send_loop bX wX = (.finalize, b, w2) →
      rtmp_handshake_send { c := c, s := some s, w := w } =
        rtmp_finalize_session
          { c := { c with write := del_timer_if_set c.write },
            s := some { s with hs_buf := some b }, w := w2 }) ∧
    (∀ b w2, rtmp_handshake_send_loop bX wX = (.again, b, w2) →
      rtmp_handshake_send { c := c, s := some s, w := w } =
        if (rtmp_handle_write_event (rtmp_add_timer (del_timer_if_set c.write) s.timeout)
            c.fd w2).1 ≠ RTMP_OK then
          rtmp_finalize_session
            { c := { c with write := (rtmp_handle_write_event
                      (rtmp_add_timer (del_timer_if_set c.write) s.timeout) c.fd w2).2.1 },
              s := some { s with hs_buf := some b },
              w := (rtmp_handle_write_event
                      (rtmp_add_timer (del_timer_if_set c.write) s.timeout) c.fd w2).2.2 }
        else
          some
            { c := { c with write := (rtmp_handle_write_event
                      (rtmp_add_timer (del_timer_if_set c.write) s.timeout) c.fd w2).2.1 },
              s := some { s with hs_buf := some b },
              w := (rtmp_handle_write_event
                      (rtmp_add_timer (del_timer_if_set c.write) s.timeout) c.fd w2).2.2 }) ∧
    (∀ b w2, rtmp_handshake_send_loop bX wX = (.done, b, w2) →
      rtmp_handshake_send { c := c, s := some s, w := w } =
        if (s.hs_stage + 1) % 2 ^ 64 = RTMP_HANDSHAKE_SERVER_RECV_CHALLENGE2 then
          rtmp_handshake
            { c := { c with write := (del_event_if_active (del_timer_if_set c.write) c.fd w2).1 },
              s := some { s with hs_buf := some { b with pos := b.start, last := b.start },
                                 hs_stage := (s.hs_stage + 1) % 2 ^ 64 },
              w := (del_event_if_active (del_timer_if_set c.write) c.fd w2).2 }
        else if (s.hs_stage + 1) % 2 ^ 64 = RTMP_HANDSHAKE_DONE then
          rtmp_handshake
            { c := { c with write := (del_event_if_active (del_timer_if_set c.write) c.fd w2).1 },
              s := some { s with hs_buf := none, hs_stage := (s.hs_stage + 1) % 2 ^ 64 },
              w := (del_event_if_active (del_timer_if_set c.write) c.fd w2).2 }
        else
          rtmp_finalize_session
            { c := { c with write := (del_event_if_active (del_timer_if_set c.write) c.fd w2).1 },
              s := some { s with hs_buf := some b, hs_stage := (s.hs_stage + 1) % 2 ^ 64 },
              w := (del_event_if_active (del_timer_if_set c.write) c.fd w2).2 }) := by
  rcases hprep with ⟨hst, hsz, rfl, rfl⟩ | ⟨hst, rfl, rfl⟩
  · have hok : ∀ s2, (rtmp_handshake_create_challenge s2 b0.start
        (size_t_of ((b0.end_ : Int) - b0.start)) w).1 = RTMP_OK :=
      fun s2 => rtmp_handshake_create_challenge_fst s2 _ _ w hsz
    refine ⟨?_, ?_, ?_⟩ <;> intro b w2 hloop <;> simp only [hst] at hloop <;>
      rw [rtmp_handshake_send] <;>
      simp only [hd, ht, hb, hst, hok, hloop, Bool.false_eq_true, ↓reduceIte, ne_eq,
        not_true_eq_false]
  · refine ⟨?_, ?_, ?_⟩ <;> intro b w2 hloop <;> rw [rtmp_handshake_send] <;>
      simp only [hd, ht, hb, hst, hloop, Bool.false_eq_true, ↓reduceIte, ne_eq,
        not_true_eq_false]

/-- The function `rtmp_handshake_send` keeps the buffer invariant, given that
the calls of `rtmp_handshake` it makes (in a later stage) keep it. -/
theorem hs_buf_valid_send (m : machine) (hv : hs_buf_valid m)
    (ih : ∀ X, hs_rank X < hs_rank m → hs_buf_valid X →
      ∀ m1, rtmp_handshake X = some m1 → hs_buf_valid m1) :
    ∀ m1, rtmp_handshake_send m = some m1 → hs_buf_valid m1 := by
  intro m1 hr
  obtain ⟨c, so, w⟩ := m
  by_cases hd : c.destroyed = true
  · rw [rtmp_handshake_send] at hr
    simp only [hd, ↓reduceIte] at hr
    cases hr
    exact hv
  · have hd2 : c.destroyed = false := by simpa using hd
    by_cases ht : c.write.timedout = true
    · rw [rtmp_handshake_send] at hr
      simp only [hd2, ht, Bool.false_eq_true, ↓reduceIte] at hr
      exact hs_buf_valid_finalize _ m1 (by exact fun s b h1 h2 => hv s b h1 h2) hr
    · have ht2 : c.write.timedout = false := by simpa using ht
      cases so with
      | none =>
        rw [rtmp_handshake_send] at hr
        simp [hd2, ht2] at hr
      | some s =>
        cases hb : s.hs_buf with
        | none =>
          rw [rtmp_handshake_send] at hr
          simp [hd2, ht2, hb] at hr
        | some b0 =>
          have hvb : buf_valid b0 := hv s b0 rfl hb
          -- the buffer and the environment the loop is entered with
          have key : ∀ (bX : rtmp_buf_t) (wX : world), buf_valid bX →
              ((s.hs_stage = RTMP_HANDSHAKE_SERVER_SEND_CHALLENGE2 ∧
                ¬ size_t_of ((b0.end_ : Int) - b0.start) < 3073 ∧
                bX = { b0 with pos := b0.start, last := b0.start + (1537 + 1536) } ∧
                wX = (rtmp_handshake_create_challenge
                  { s with hs_buf := some { b0 with pos := b0.start, last := b0.start } }
                  b0.start (size_t_of ((b0.end_ : Int) - b0.start)) w).2) ∨
              (¬ s.hs_stage = RTMP_HANDSHAKE_SERVER_SEND_CHALLENGE2 ∧ bX = b0 ∧ wX = w)) →
              hs_buf_valid m1 := by
            intro bX wX hvX hprep
            obtain ⟨p1, p2, p3⟩ := rtmp_handshake_send_paths c s w b0 bX wX hd2 ht2 hb hprep
            have hvl := buf_valid_send_loop bX wX hvX
            rcases hloop : rtmp_handshake_send_loop bX wX with ⟨ex, b1, w1⟩
            rw [hloop] at hvl
            simp only at hvl
            have hvs : ∀ b2, (some b1 : Option rtmp_buf_t) = some b2 → buf_valid b2 := by
              intro b2 h2
              cases h2
              exact hvl
            cases ex with
            | done =>
              rw [p3 b1 w1 hloop] at hr
              split at hr
              · rename_i hs2
                refine ih _ ?_ (hs_buf_valid_mk _ _ _ ?_) m1 hr
                · simp only [hs_rank]
                  rw [hs2]
                  simp only [RTMP_HANDSHAKE_SERVER_RECV_CHALLENGE2] at hs2 ⊢
                  omega
                · intro b2 h2
                  cases h2
                  unfold buf_valid at hvl ⊢
                  simp only
                  omega
              · split at hr
                · rename_i hs2
                  refine ih _ ?_ (hs_buf_valid_mk _ _ _ ?_) m1 hr
                  · simp only [hs_rank]
                    rw [hs2]
                    simp only [RTMP_HANDSHAKE_DONE, RTMP_MSG_MAX] at hs2 ⊢
                    omega
                  · intro b2 h2
                    cases h2
                · exact hs_buf_valid_finalize _ m1 (hs_buf_valid_mk _ _ _ hvs) hr
            | finalize =>
              rw [p1 b1 w1 hloop] at hr
              exact hs_buf_valid_finalize _ m1 (hs_buf_valid_mk _ _ _ hvs) hr
            | again =>
              rw [p2 b1 w1 hloop] at hr
              split at hr
              · exact hs_buf_valid_finalize _ m1 (hs_buf_valid_mk _ _ _ hvs) hr
              · cases hr
                exact hs_buf_valid_mk _ _ _ hvs
          by_cases hst : s.hs_stage = RTMP_HANDSHAKE_SERVER_SEND_CHALLENGE2
          · by_cases hsz : size_t_of ((b0.end_ : Int) - b0.start) < 3073
            · rw [rtmp_handshake_send] at hr
              have hcc : ∀ s2 buf, rtmp_handshake_create_challenge s2 buf
                  (size_t_of ((b0.end_ : Int) - b0.start)) w = (RTMP_ERROR, w) :=
                fun s2 buf => rtmp_handshake_create_challenge_small s2 buf _ w hsz
              simp only [hd2, ht2, hb, hst, hcc, Bool.false_eq_true, ↓reduceIte] at hr
              simp only [RTMP_ERROR, RTMP_OK] at hr
              norm_num at hr
              refine hs_buf_valid_finalize _ m1 (hs_buf_valid_mk _ _ _ ?_) hr
              intro b2 h2
              cases h2
              exact (buf_valid_challenge s b0 w hvb).1
            · exact key _ _
                ((buf_valid_challenge
                  { s with hs_buf := some { b0 with pos := b0.start, last := b0.start } }
                  b0 w hvb).2 (rtmp_handshake_create_challenge_fst _ _ _ w hsz))
                (Or.inl ⟨hst, hsz, rfl, rfl⟩)
          · exact key b0 w hvb (Or.inr ⟨hst, rfl, rfl⟩)

/-- The function `rtmp_handshake` keeps the buffer invariant, given that the
two handlers it calls keep it. -/
theorem hs_buf_valid_handshake (m : machine) (hv : hs_buf_valid m)
    (hrecv : ∀ X, hs_rank X = hs_rank m → hs_buf_valid X →
      ∀ m1, rtmp_handshake_recv X = some m1 → hs_buf_valid m1)
    (hsend : ∀ X, hs_rank X = hs_rank m → hs_buf_valid X →
      ∀ m1, rtmp_handshake_send X = some m1 → hs_buf_valid m1) :
    ∀ m1, rtmp_handshake m = some m1 → hs_buf_valid m1 := by
  intro m1 hr
  obtain ⟨c, so, w⟩ := m
  cases so with
  | none =>
    rw [rtmp_handshake] at hr
    simp at hr
  | some s =>
    by_cases hc : s.connection = true
    · by_cases hd : c.destroyed = true
      · rw [rtmp_handshake] at hr
        simp only [hc, hd, not_true_eq_false, ↓reduceIte] at hr
        cases hr
        exact hv
      · have hd2 : c.destroyed = false := by simpa using hd
        by_cases h0 : s.hs_stage = RTMP_HANDSHAKE_SERVER_RECV_CHALLENGE1
        · cases hb : s.hs_buf with
          | some b =>
            rw [rtmp_handshake] at hr
            simp only [hc, hd2, h0, hb, not_true_eq_false, Bool.false_eq_true, ↓reduceIte] at hr
            refine hrecv _ ?_ (hs_buf_valid_mk _ _ _ ?_) m1 hr
            · simp only [hs_rank, h0]
            · intro b2 h2
              cases h2
              exact hv s b rfl hb
          | none =>
            cases hp : s.in_pool with
            | none =>
              rw [rtmp_handshake] at hr
              simp [hc, hd2, h0, hb, hp] at hr
            | some pool =>
              have hvc := buf_valid_create_temp_buf pool RTMP_HANDSHAKE_BUFSIZE w
              rcases hct : rtmp_create_temp_buf pool RTMP_HANDSHAKE_BUFSIZE w with
                ⟨ob, pool2, w2⟩
              rw [hct] at hvc
              rw [rtmp_handshake] at hr
              simp only [hc, hd2, h0, hb, hp, hct, not_true_eq_false, Bool.false_eq_true,
                ↓reduceIte] at hr
              cases ob with
              | none =>
                simp only at hr
                refine hs_buf_valid_finalize _ m1 (hs_buf_valid_mk _ _ _ ?_) hr
                intro b2 h2
                cases h2
              | some b =>
                simp only at hr
                refine hrecv _ ?_ (hs_buf_valid_mk _ _ _ ?_) m1 hr
                · simp only [hs_rank, h0]
                · intro b2 h2
                  cases h2
                  exact hvc b rfl
        · by_cases h1 : s.hs_stage = RTMP_HANDSHAKE_SERVER_SEND_CHALLENGE2
          · rw [rtmp_handshake] at hr
            simp only [hc, hd2, h0, h1, not_true_eq_false, Bool.false_eq_true, ↓reduceIte] at hr
            simp only [RTMP_HANDSHAKE_SERVER_RECV_CHALLENGE1,
              RTMP_HANDSHAKE_SERVER_SEND_CHALLENGE2] at hr
            norm_num at hr
            exact hsend _ (by simp only [hs_rank, h1, RTMP_HANDSHAKE_SERVER_SEND_CHALLENGE2])
              (hs_buf_valid_mk _ _ _ (fun b hb => hv s b rfl hb)) m1 hr
          · by_cases h2 : s.hs_stage = RTMP_HANDSHAKE_SERVER_RECV_CHALLENGE2
            · rw [rtmp_handshake] at hr
              simp only [hc, hd2, h0, h1, h2, not_true_eq_false, Bool.false_eq_true,
                ↓reduceIte] at hr
              simp only [RTMP_HANDSHAKE_SERVER_RECV_CHALLENGE1,
                RTMP_HANDSHAKE_SERVER_SEND_CHALLENGE2,
                RTMP_HANDSHAKE_SERVER_RECV_CHALLENGE2] at hr
              norm_num at hr
              exact hrecv _ (by simp only [hs_rank, h2, RTMP_HANDSHAKE_SERVER_RECV_CHALLENGE2])
                (hs_buf_valid_mk _ _ _ (fun b hb => hv s b rfl hb)) m1 hr
            · by_cases h3 : s.hs_stage = RTMP_HANDSHAKE_SERVER_SEND_RESPONSE
              · rw [rtmp_handshake] at hr
                simp only [hc, hd2, h0, h1, h2, h3, not_true_eq_false, Bool.false_eq_true,
                  ↓reduceIte] at hr
                simp only [RTMP_HANDSHAKE_SERVER_RECV_CHALLENGE1,
                  RTMP_HANDSHAKE_SERVER_SEND_CHALLENGE2,
                  RTMP_HANDSHAKE_SERVER_RECV_CHALLENGE2,
                  RTMP_HANDSHAKE_SERVER_SEND_RESPONSE] at hr
                norm_num at hr
                exact hsend _
                  (by simp only [hs_rank, h3, RTMP_HANDSHAKE_SERVER_SEND_RESPONSE])
                  (hs_buf_valid_mk _ _ _ (fun b hb => hv s b rfl hb)) m1 hr
              · rw [rtmp_handshake] at hr
                simp only [hc, hd2, h0, h1, h2, h3, not_true_eq_false, Bool.false_eq_true,
                  ↓reduceIte] at hr
                split at hr
                · exact hs_buf_valid_fire_done _ m1
                    (hs_buf_valid_mk _ _ _ (fun b hb => hv s b rfl hb)) hr
                · cases hr
                  exact hv
    · rw [rtmp_handshake] at hr
      simp [hc] at hr

/-- The three functions of the handshake keep the buffer invariant: by
induction on the number of stages that are left. -/
theorem hs_buf_valid_handlers (n : Nat) :
    ∀ m : machine, hs_rank m = n → hs_buf_valid m →
      (∀ m1, rtmp_handshake m = some m1 → hs_buf_valid m1) ∧
      (∀ m1, rtmp_handshake_recv m = some m1 → hs_buf_valid m1) ∧
      (∀ m1, rtmp_handshake_send m = some m1 → hs_buf_valid m1) := by
  induction n using Nat.strong_induction_on with
  | _ n ih =>
    intro m hn hv
    have hH : ∀ X, hs_rank X < hs_rank m → hs_buf_valid X →
        ∀ m1, rtmp_handshake X = some m1 → hs_buf_valid m1 :=
      fun X hX hvX => (ih (hs_rank X) (by omega) X rfl hvX).1
    have hR : ∀ X, hs_rank X = hs_rank m → hs_buf_valid X →
        ∀ m1, rtmp_handshake_recv X = some m1 → hs_buf_valid m1 :=
      fun X hX hvX => hs_buf_valid_recv X hvX (fun Y hY => hH Y (by omega))
    have hS : ∀ X, hs_rank X = hs_rank m → hs_buf_valid X →
        ∀ m1, rtmp_handshake_send X = some m1 → hs_buf_valid m1 :=
      fun X hX hvX => hs_buf_valid_send X hvX (fun Y hY => hH Y (by omega))
    exact ⟨hs_buf_valid_handshake m hv hR hS, hR m rfl hv, hS m rfl hv⟩

/-- One round of the loop of `rtmp_handshake_recv` keeps the invariant. -/
theorem buf_valid_recv_step (b : rtmp_buf_t) (w : world) (h : buf_valid b)
    (h1 : ¬ ((rtmp_unix_recv b.last (size_t_of ((b.end_ : Int) - b.last)) w).1 = RTMP_ERROR ∨
      (rtmp_unix_recv b.last (size_t_of ((b.end_ : Int) - b.last)) w).1 = 0))
    (h2 : ¬ (rtmp_unix_recv b.last (size_t_of ((b.end_ : Int) - b.last)) w).1 = RTMP_AGAIN) :
    buf_valid { b with last := ((b.last : Int) +
      (rtmp_unix_recv b.last (size_t_of ((b.end_ : Int) - b.last)) w).1).toNat } := by
  obtain ⟨-, s2, -⟩ := rtmp_unix_recv_spec b.last (size_t_of ((b.end_ : Int) - b.last)) w
  unfold buf_valid at h ⊢
  have hsz : (size_t_of ((b.end_ : Int) - b.last) : Int) ≤ (b.end_ : Int) - b.last :=
    size_t_of_le _ (by omega)
  rcases s2 with ⟨h3 | h3, -, -⟩ | ⟨data, d1, d2, d3, -, -⟩
  · exact absurd h3 h2
  · exact absurd (Or.inl h3) h1
  · rw [d3]
    simp only
    omega

/-- One round of the loop of `rtmp_handshake_send`, and of the inner loop of
`rtmp_send_chain` with the size it offers, keeps the invariant. -/
theorem buf_valid_send_step (b : rtmp_buf_t) (w : world) (size : Nat) (h : buf_valid b)
    (hsz : size ≤ b.last - b.pos)
    (h1 : ¬ (rtmp_unix_send b.pos size w).1 = RTMP_ERROR)
    (h2 : ¬ (rtmp_unix_send b.pos size w).1 = RTMP_AGAIN) :
    buf_valid { b with pos := ((b.pos : Int) + (rtmp_unix_send b.pos size w).1).toNat } := by
  obtain ⟨-, -, s3⟩ := rtmp_unix_send_spec b.pos size w
  unfold buf_valid at h ⊢
  rcases s3 with h3 | h3 | ⟨h3, h4⟩
  · exact absurd h3 h2
  · exact absurd h3 h1
  · simp only
    omega

/-- C19: the invariant `start ≤ pos ≤ last ≤ end` holds for every buffer that
`rtmp_create_temp_buf` returns. It is kept by every round of the loop of
`rtmp_handshake_recv` and by the loop as a whole, by every round of the loop of
`rtmp_handshake_send` and of `rtmp_send_chain` (`send` is offered at most
`last - pos` bytes) and by these loops as a whole, by the step of
`rtmp_handshake_send` that resets the buffer and makes room for S0, S1 and S2,
and by every call of `rtmp_handshake_recv`, `rtmp_handshake_send` and
`rtmp_handshake` from entry to return, nested calls included; `rtmp_send_chain`
keeps it for every buffer. In the model `recv` and `send` never return a count
above the size they were given. -/
theorem buf_valid_preserved :
    (∀ pool size w b, (rtmp_create_temp_buf pool size w).1 = some b → buf_valid b) ∧
    (∀ b w, buf_valid b →
      ¬ ((rtmp_unix_recv b.last (size_t_of ((b.end_ : Int) - b.last)) w).1 = RTMP_ERROR ∨
        (rtmp_unix_recv b.last (size_t_of ((b.end_ : Int) - b.last)) w).1 = 0) →
      ¬ (rtmp_unix_recv b.last (size_t_of ((b.end_ : Int) - b.last)) w).1 = RTMP_AGAIN →
      buf_valid { b with last := ((b.last : Int) +
        (rtmp_unix_recv b.last (size_t_of ((b.end_ : Int) - b.last)) w).1).toNat }) ∧
    (∀ req b w, buf_valid b → buf_valid (rtmp_handshake_recv_loop req b w).2.1) ∧
    (∀ b w size, buf_valid b → size ≤ b.last - b.pos →
      ¬ (rtmp_unix_send b.pos size w).1 = RTMP_ERROR →
      ¬ (rtmp_unix_send b.pos size w).1 = RTMP_AGAIN →
      buf_valid { b with pos := ((b.pos : Int) + (rtmp_unix_send b.pos size w).1).toNat }) ∧
    (∀ b w, buf_valid b → buf_valid (rtmp_handshake_send_loop b w).2.1) ∧
    (∀ s b w, buf_valid b →
      buf_valid { b with pos := b.start, last := b.start } ∧
      ((rtmp_handshake_create_challenge s b.start
          (size_t_of ((b.end_ : Int) - b.start)) w).1 = RTMP_OK →
        buf_valid { b with pos := b.start, last := b.start + (1537 + 1536) })) ∧
    (∀ m m1, hs_buf_valid m → rtmp_handshake_recv m = some m1 → hs_buf_valid m1) ∧
    (∀ m m1, hs_buf_valid m → rtmp_handshake_send m = some m1 → hs_buf_valid m1) ∧
    (∀ m m1, hs_buf_valid m → rtmp_handshake m = some m1 → hs_buf_valid m1) ∧
    (∀ bufs cl limit w q, buf_valid (bufs q) →
      buf_valid ((rtmp_send_chain bufs cl limit w).2.1 q)) :=
  ⟨buf_valid_create_temp_buf,
   buf_valid_recv_step,
   fun req b w h => buf_valid_recv_loop req b w h,
   fun b w size h hsz h1 h2 => buf_valid_send_step b w size h hsz h1 h2,
   buf_valid_send_loop,
   buf_valid_challenge,
   fun m m1 hv h => (hs_buf_valid_handlers (hs_rank m) m rfl hv).2.1 m1 h,
   fun m m1 hv h => (hs_buf_valid_handlers (hs_rank m) m rfl hv).2.2 m1 h,
   fun m m1 hv h => (hs_buf_valid_handlers (hs_rank m) m rfl hv).1 m1 h,
   buf_valid_send_chain⟩

theorem buf_valid_preserved_witness :
    hs_buf_valid sample_machine_reading ∧
    rtmp_handshake_recv sample_machine_reading = some sample_machine_read ∧
    hs_buf_valid sample_machine_read :=
  ⟨hs_buf_valid_mk _ _ _ (fun b hb => by
      cases hb
      exact ⟨le_refl _, le_refl _, by decide⟩),
   sample_machine_reading_recv,
   buf_valid_preserved.2.2.2.2.2.2.1 sample_machine_reading sample_machine_read
    (hs_buf_valid_mk _ _ _ (fun b hb => by
      cases hb
      exact ⟨le_refl _, le_refl _, by decide⟩))
    sample_machine_reading_recv⟩
/-! ### The pool: serving from the block -/

theorem malloc_trace (size : Nat) (w : world) :
    (malloc size w).2.trace = w.trace ++ [.malloc size (malloc size w).1] := by
  unfold malloc
  split <;> rfl

theorem rtmp_palloc_large_trace (pool : rtmp_pool_t) (size : Nat) (w : world) :
    ∃ es, (rtmp_palloc_large pool size w).2.2.trace =
      w.trace ++ .malloc size (malloc size w).1 :: es := by
  have h1 := malloc_trace size w
  unfold rtmp_palloc_large
  revert h1
  generalize malloc size w = r
  rcases r with ⟨_ | p, w1⟩
  · intro h1
    exact ⟨[], h1⟩
  · intro h1
    dsimp only at h1 ⊢
    split
    · have h2 := malloc_trace RTMP_DEFAULT_POOL_SIZE w1
      unfold rtmp_create_pool
      dsimp only
      rw [if_neg (Nat.lt_irrefl _)]
      revert h2
      generalize malloc RTMP_DEFAULT_POOL_SIZE w1 = r2
      rcases r2 with ⟨_ | q, w2⟩
      · intro h2
        exact ⟨[.malloc RTMP_DEFAULT_POOL_SIZE none], by
          dsimp only at h2 ⊢; rw [h2, h1, List.append_assoc]; rfl⟩
      · intro h2
        exact ⟨[.malloc RTMP_DEFAULT_POOL_SIZE (some q)], by
          dsimp only at h2 ⊢; rw [h2, h1, List.append_assoc]; rfl⟩
    · exact ⟨[], h1⟩

/-- A request that the head block cannot take by the test of `rtmp_pool_alloc`
goes to `rtmp_palloc_large`, whatever blocks are linked behind the head. -/
theorem rtmp_pool_alloc_not_fitting (pool : rtmp_pool_t) (size : Nat) (w : world)
    (h : ¬ size ≤ size_t_of ((pool.blk.end_ : Int) - pool.blk.last)) :
    rtmp_pool_alloc pool size w = rtmp_palloc_large pool size w := by
  unfold rtmp_pool_alloc
  rw [if_neg h]

/-- C21: a call of `rtmp_pool_alloc` that makes no call of `malloc` serves the
request by bumping the cursor. The address returned is a multiple of 16, it is
not below the cursor before the call, no smaller multiple of 16 has that
property, and the call leaves the cursor at that address plus `size`; nothing
else of the pool and nothing outside the pool changes. -/
theorem rtmp_pool_alloc_bump (pool : rtmp_pool_t) (size : Nat) (w : world)
    (h : (rtmp_pool_alloc pool size w).2.2.trace = w.trace) :
    ∃ m, (rtmp_pool_alloc pool size w).1 = some m ∧
      m % 16 = 0 ∧ pool.blk.last ≤ m ∧ (∀ a, a % 16 = 0 → pool.blk.last ≤ a → m ≤ a) ∧
      (rtmp_pool_alloc pool size w).2.1 =
        { pool with blk := { pool.blk with last := m + size } } ∧
      (rtmp_pool_alloc pool size w).2.2 = w := by
  have hl : (rtmp_palloc_large pool size w).2.2.trace ≠ w.trace := by
    obtain ⟨es, he⟩ := rtmp_palloc_large_trace pool size w
    rw [he]
    intro h2
    have := congrArg List.length h2
    simp at this
  by_cases h1 : size ≤ size_t_of ((pool.blk.end_ : Int) - pool.blk.last)
  · by_cases h2 : size_t_of ((pool.blk.end_ : Int) -
        ((pool.blk.last + (RTMP_POOL_ALIGNMENT - 1)) / RTMP_POOL_ALIGNMENT *
          RTMP_POOL_ALIGNMENT : Nat)) ≥ size
    · have e : rtmp_pool_alloc pool size w =
          (some ((pool.blk.last + (RTMP_POOL_ALIGNMENT - 1)) / RTMP_POOL_ALIGNMENT *
              RTMP_POOL_ALIGNMENT),
           { pool with blk := { pool.blk with
               last := (pool.blk.last + (RTMP_POOL_ALIGNMENT - 1)) / RTMP_POOL_ALIGNMENT *
                 RTMP_POOL_ALIGNMENT + size } }, w) := by
        unfold rtmp_pool_alloc
        rw [if_pos h1]
        unfold rtmp_palloc_small
        dsimp only
        rw [if_pos h2]
      rw [e]
      refine ⟨_, rfl, ?_, ?_, ?_, rfl, rfl⟩
      · simp only [RTMP_POOL_ALIGNMENT]; omega
      · simp only [RTMP_POOL_ALIGNMENT]; omega
      · intro a ha hle
        simp only [RTMP_POOL_ALIGNMENT]; omega
    · have e : rtmp_pool_alloc pool size w = rtmp_palloc_large pool size w := by
        unfold rtmp_pool_alloc
        rw [if_pos h1]
        unfold rtmp_palloc_small
        dsimp only
        rw [if_neg h2]
      rw [e] at h
      exact absurd h hl
  · rw [rtmp_pool_alloc_not_fitting pool size w h1] at h
    exact absurd h hl

theorem rtmp_pool_alloc_bump_witness :
    ∃ m, (rtmp_pool_alloc ⟨⟨65536, 65576, 69632, 4096⟩, []⟩ 100 (boot 69648 [] [] [])).1
        = some m ∧
      m % 16 = 0 ∧ 65576 ≤ m ∧ (∀ a, a % 16 = 0 → 65576 ≤ a → m ≤ a) ∧
      (rtmp_pool_alloc ⟨⟨65536, 65576, 69632, 4096⟩, []⟩ 100 (boot 69648 [] [] [])).2.1 =
        ⟨⟨65536, m + 100, 69632, 4096⟩, []⟩ ∧
      (rtmp_pool_alloc ⟨⟨65536, 65576, 69632, 4096⟩, []⟩ 100 (boot 69648 [] [] [])).2.2 =
        boot 69648 [] [] [] :=
  rtmp_pool_alloc_bump ⟨⟨65536, 65576, 69632, 4096⟩, []⟩ 100 (boot 69648 [] [] []) (by decide)

/-- C22 (the code departs from the claim): a pool of 4096 bytes on a heap that
starts at 65536 and requests of 4000, 100 and 100 bytes. The first is served
from the head block and leaves it 48 bytes. The second does not fit: it comes
from `malloc` at 69648, and a follow-on block of 4096 bytes is created at 69760
and linked behind the head. The third does not fit the head either and would
fit the follow-on block, whose cursor is at 69800 with 4056 bytes free; it is
served by a new `malloc` at 73872, another block is created at 73984 and
linked, and the cursor of the first follow-on block has not moved. -/
theorem rtmp_pool_alloc_skips_follow_on_block :
    (match rtmp_create_pool 4096 (boot 65536 [] [] []) with
     | (some pool, w) =>
       ((rtmp_pool_alloc_seq pool w [4000, 100]).1,
        (rtmp_pool_alloc_seq pool w [4000, 100]).2.1,
        (rtmp_pool_alloc (rtmp_pool_alloc_seq pool w [4000, 100]).2.1 100
          (rtmp_pool_alloc_seq pool w [4000, 100]).2.2).1,
        (rtmp_pool_alloc (rtmp_pool_alloc_seq pool w [4000, 100]).2.1 100
          (rtmp_pool_alloc_seq pool w [4000, 100]).2.2).2.1,
        new_effects (rtmp_pool_alloc_seq pool w [4000, 100]).2.2
          (rtmp_pool_alloc (rtmp_pool_alloc_seq pool w [4000, 100]).2.1 100
            (rtmp_pool_alloc_seq pool w [4000, 100]).2.2).2.2)
     | (none, _) => ([], ⟨⟨0, 0, 0, 0⟩, []⟩, none, ⟨⟨0, 0, 0, 0⟩, []⟩, [])) =
      ([(some 65584, 4000), (some 69648, 100)],
       ⟨⟨65536, 69584, 69632, 4096⟩, [⟨69760, 69800, 73856, 4096⟩]⟩,
       some 73872,
       ⟨⟨65536, 69584, 69632, 4096⟩,
        [⟨73984, 74024, 78080, 4096⟩, ⟨69760, 69800, 73856, 4096⟩]⟩,
       [.malloc 100 (some 73872), .malloc 4096 (some 73984)]) := by
  decide

/-- C25 (the code departs from the claim): a pool made by
`rtmp_create_pool(4100)` on a heap that starts at 65536, so that the block is
`[65536, 69636)`, and requests of 4049 and 2 bytes. The first leaves the cursor
at 69633. The second fits the 3 bytes left by the test of `rtmp_pool_alloc`,
is aligned up to 69648, which is past `end`, passes the test of
`rtmp_palloc_small` because `end - m` wraps as a `size_t`, and is served at
69648: the region lies outside the block and the cursor is left past `end`. -/
theorem rtmp_pool_alloc_cursor_past_end :
    (match rtmp_create_pool 4100 (boot 65536 [] [] []) with
     | (some pool, w) =>
       ((rtmp_pool_alloc_seq pool w [4049, 2]).1,
        (rtmp_pool_alloc_seq pool w [4049, 2]).2.1.blk,
        new_effects w (rtmp_pool_alloc_seq pool w [4049, 2]).2.2)
     | (none, _) => ([], ⟨0, 0, 0, 0⟩, [])) =
      ([(some 65584, 4049), (some 69648, 2)],
       { addr := 65536, last := 69650, end_ := 69636, size := 4100 }, []) ∧
    ¬ (69650 ≤ 69636) ∧ ¬ (69648 + 2 ≤ 69636) := by
  refine ⟨by decide, by decide, by decide⟩
/-! ### Arrays -/

/-- A request of 0 bytes is always served, from the block, at no cost. -/
theorem rtmp_pool_alloc_zero (pool : rtmp_pool_t) (w : world) :
    ∃ m, rtmp_pool_alloc pool 0 w =
      (some m, { pool with blk := { pool.blk with last := m } }, w) := by
  unfold rtmp_pool_alloc
  rw [if_pos (Nat.zero_le _)]
  unfold rtmp_palloc_small
  dsimp only
  rw [if_pos (Nat.zero_le _)]
  exact ⟨_, rfl⟩

/-- What `rtmp_array_create(pool, 0, size)` returns when the struct could be
allocated: an array without storage, `nalloc = 0`. -/
theorem rtmp_array_create_zero (pool : rtmp_pool_t) (size : Nat) (w : world)
    (a : rtmp_array_t) (pool1 : rtmp_pool_t) (w1 : world)
    (h : rtmp_array_create pool 0 size w = (some a, pool1, w1)) :
    a = { elts := none, nelts := 0, size := size, nalloc := 0 } := by
  unfold rtmp_array_create at h
  split at h
  · cases h
  · simp only [ne_eq, not_true_eq_false, if_false, Prod.mk.injEq, Option.some.injEq] at h
    exact h.1.symm

/-- C30 (the code departs from the claim): an array made by
`rtmp_array_create(pool, 0, size)` has `nalloc = 0`. The first
`rtmp_array_push` on it finds `nelts == nalloc`, asks the pool for
`2 * size * 0 = 0` bytes, which never fails, doubles `nalloc` to 0 and returns
an element: the call succeeds and leaves `nelts = 1 > 0 = nalloc`, with the
element at the address of a region of 0 bytes. -/
theorem rtmp_array_push_zero_capacity (pool : rtmp_pool_t) (size : Nat) (w : world)
    (a : rtmp_array_t) (pool1 : rtmp_pool_t) (w1 : world)
    (h : rtmp_array_create pool 0 size w = (some a, pool1, w1)) :
    ∃ elt pool2 w2,
      rtmp_array_push a pool1 w1 =
        (some elt, { elts := some elt, nelts := 1, size := size, nalloc := 0 }, pool2, w2) ∧
      ¬ (rtmp_array_push a pool1 w1).2.1.nelts ≤ (rtmp_array_push a pool1 w1).2.1.nalloc ∧
      (rtmp_pool_alloc pool1 0 w1).1 = some elt ∧
      new_effects w1 w2 = [] := by
  have ha := rtmp_array_create_zero pool size w a pool1 w1 h
  subst ha
  obtain ⟨m, hm⟩ := rtmp_pool_alloc_zero pool1 w1
  have e : rtmp_array_push { elts := none, nelts := 0, size := size, nalloc := 0 } pool1 w1 =
      (some m, { elts := some m, nelts := 1, size := size, nalloc := 0 },
        { pool1 with blk := { pool1.blk with last := m } },
        rtmp_memcpy m 0 0 w1) := by
    unfold rtmp_array_push
    simp only [if_true, Nat.mul_zero, Nat.zero_mod, Nat.zero_mul, hm, Option.getD_none,
      Option.getD_some, Nat.add_zero, Nat.zero_add]
    rfl
  refine ⟨m, _, _, e, ?_, ?_, ?_⟩
  · rw [e]; exact Nat.not_succ_le_zero 0
  · rw [hm]
  · simp [new_effects, rtmp_memcpy]

theorem rtmp_array_push_zero_capacity_witness :
    ∃ elt pool2 w2,
      rtmp_array_push ⟨none, 0, 8, 0⟩ ⟨⟨65536, 65624, 69632, 4096⟩, []⟩
          (boot 69648 [] [] []) =
        (some elt, { elts := some elt, nelts := 1, size := 8, nalloc := 0 }, pool2, w2) ∧
      ¬ (rtmp_array_push ⟨none, 0, 8, 0⟩ ⟨⟨65536, 65624, 69632, 4096⟩, []⟩
          (boot 69648 [] [] [])).2.1.nelts ≤
        (rtmp_array_push ⟨none, 0, 8, 0⟩ ⟨⟨65536, 65624, 69632, 4096⟩, []⟩
          (boot 69648 [] [] [])).2.1.nalloc ∧
      (rtmp_pool_alloc ⟨⟨65536, 65624, 69632, 4096⟩, []⟩ 0 (boot 69648 [] [] [])).1 =
        some elt ∧
      new_effects (boot 69648 [] [] []) w2 = [] :=
  rtmp_array_push_zero_capacity ⟨⟨65536, 65576, 69632, 4096⟩, []⟩ 8 (boot 69648 [] [] [])
    ⟨none, 0, 8, 0⟩ ⟨⟨65536, 65624, 69632, 4096⟩, []⟩ (boot 69648 [] [] []) (by
      simp [rtmp_array_create, rtmp_pool_alloc, rtmp_palloc_small, size_t_of,
        sizeof_rtmp_array_t, RTMP_POOL_ALIGNMENT])

/-- The same array under `rtmp_array_push_n`: for every `n` from 1 on the
call succeeds, `nalloc` stays 0 and `nelts` becomes `n`. -/
theorem rtmp_array_push_n_zero_capacity (pool : rtmp_pool_t) (size n : Nat) (w : world)
    (hn : 0 < n) (hn2 : n < 2 ^ 64) :
    ∃ elt pool2 w2,
      rtmp_array_push_n { elts := none, nelts := 0, size := size, nalloc := 0 } n pool w =
        (some elt, { elts := some elt, nelts := n, size := size, nalloc := 0 }, pool2, w2) := by
  obtain ⟨m, hm⟩ := rtmp_pool_alloc_zero pool w
  refine ⟨m, { pool with blk := { pool.blk with last := m } }, rtmp_memcpy m 0 0 w, ?_⟩
  unfold rtmp_array_push_n
  have e1 : (0 + n) % 2 ^ 64 = n := by rw [Nat.zero_add]; exact Nat.mod_eq_of_lt hn2
  simp only [e1, gt_iff_lt, hn, if_true, Nat.mul_zero, Nat.zero_mod, Nat.zero_mul, hm,
    Option.getD_some, Option.getD_none, Nat.add_zero]

/-- An array with room for at least one element keeps `nelts ≤ nalloc` under
`rtmp_array_push`, as long as the doubled capacity is a `size_t`. -/
theorem rtmp_array_push_within (a : rtmp_array_t) (pool : rtmp_pool_t) (w : world)
    (h1 : 1 ≤ a.nalloc) (h2 : a.nelts ≤ a.nalloc) (h3 : a.nalloc * 2 < 2 ^ 64) :
    (rtmp_array_push a pool w).2.1.nelts ≤ (rtmp_array_push a pool w).2.1.nalloc ∨
      (rtmp_array_push a pool w).1 = none := by
  unfold rtmp_array_push
  split
  · rename_i hfull
    dsimp only
    split
    · right; rfl
    · left
      dsimp only
      rw [Nat.mod_eq_of_lt h3, Nat.mod_eq_of_lt (by omega)]
      omega
  · left
    dsimp only
    rw [Nat.mod_eq_of_lt (by omega)]
    omega

/-- An array with room for at least one element keeps `nelts ≤ nalloc` under
`rtmp_array_push_n`, as long as the new capacity is a `size_t`. -/
theorem rtmp_array_push_n_within (a : rtmp_array_t) (n : Nat) (pool : rtmp_pool_t)
    (w : world) (h1 : 1 ≤ a.nalloc) (h2 : a.nelts ≤ a.nalloc)
    (h3 : 2 * a.nalloc * n < 2 ^ 64) (h4 : a.nelts + n < 2 ^ 64) :
    (rtmp_array_push_n a n pool w).2.1.nelts ≤ (rtmp_array_push_n a n pool w).2.1.nalloc ∨
      (rtmp_array_push_n a n pool w).1 = none := by
  unfold rtmp_array_push_n
  rw [Nat.mod_eq_of_lt h4]
  split
  · rename_i hfull
    dsimp only
    split
    · right; rfl
    · left
      dsimp only
      rw [Nat.mod_eq_of_lt h3]
      have hn : 1 ≤ n := by omega
      have : a.nalloc + n ≤ 2 * a.nalloc * n := by nlinarith
      omega
  · left
    dsimp only
    omega
/-! ### Byte order -/

theorem rtmp_rmemcpy_loop_spec (d s n : Nat) (mem : Nat → Nat) (h : s ≤ d ∨ d + n ≤ s)
    (a : Nat) :
    rtmp_rmemcpy_loop d s n mem a = if d ≤ a ∧ a < d + n then mem (s + (a - d)) else mem a := by
  induction n generalizing mem with
  | zero =>
    rw [rtmp_rmemcpy_loop, if_neg (by omega)]
  | succ n ih =>
    rw [rtmp_rmemcpy_loop, ih _ (by omega)]
    by_cases h1 : d ≤ a ∧ a < d + n
    · rw [if_pos h1, if_pos (by omega), Function.update_noteq (by omega)]
    · rw [if_neg h1]
      by_cases h2 : a = d + n
      · subst h2
        rw [Function.update_same, if_pos (by omega), Nat.add_sub_cancel_left]
      · rw [Function.update_noteq h2, if_neg (by omega)]

/-- C28 (the code departs from the claim): `rtmp_rmemcpy` returns `dst`, and
when the source does not start inside the destination it stores the bytes in
the order of the source, `dst[i] = src[i]` for every `i < n`, and leaves every
other byte alone. The loop `while (n--) { d[n] = s[n]; }` uses one index for
both sides. -/
theorem rtmp_rmemcpy_copies (dst src n : Nat) (mem : Nat → Nat)
    (h : src ≤ dst ∨ dst + n ≤ src) :
    (rtmp_rmemcpy dst src n mem).1 = dst ∧
    (∀ i, i < n → (rtmp_rmemcpy dst src n mem).2 (dst + i) = mem (src + i)) ∧
    (∀ a, a < dst ∨ dst + n ≤ a → (rtmp_rmemcpy dst src n mem).2 a = mem a) := by
  refine ⟨rfl, ?_, ?_⟩
  · intro i hi
    show rtmp_rmemcpy_loop dst src n mem (dst + i) = _
    rw [rtmp_rmemcpy_loop_spec dst src n mem h, if_pos (by omega), Nat.add_sub_cancel_left]
  · intro a ha
    show rtmp_rmemcpy_loop dst src n mem a = _
    rw [rtmp_rmemcpy_loop_spec dst src n mem h, if_neg (by omega)]

theorem rtmp_rmemcpy_copies_witness :
    (rtmp_rmemcpy 200 100 2 (mem_write (fun _ => 0) 100 [1, 2])).1 = 200 ∧
    (∀ i, i < 2 → (rtmp_rmemcpy 200 100 2 (mem_write (fun _ => 0) 100 [1, 2])).2 (200 + i) =
      mem_write (fun _ => 0) 100 [1, 2] (100 + i)) ∧
    (∀ a, a < 200 ∨ 200 + 2 ≤ a →
      (rtmp_rmemcpy 200 100 2 (mem_write (fun _ => 0) 100 [1, 2])).2 a =
        mem_write (fun _ => 0) 100 [1, 2] a) :=
  rtmp_rmemcpy_copies 200 100 2 (mem_write (fun _ => 0) 100 [1, 2]) (by decide)

/-- The bytes 1, 2 at `src` arrive as 1, 2 at `dst`, not as 2, 1. -/
theorem rtmp_rmemcpy_not_reversed :
    mem_read (mem_write (fun _ => 0) 100 [1, 2]) 100 2 = [1, 2] ∧
    mem_read (rtmp_rmemcpy 200 100 2 (mem_write (fun _ => 0) 100 [1, 2])).2 200 2 = [1, 2] ∧
    mem_read (rtmp_rmemcpy 200 100 2 (mem_write (fun _ => 0) 100 [1, 2])).2 200 2 ≠
      [1, 2].reverse := by
  refine ⟨by decide, by decide, by decide⟩

theorem and_shifted_mask (x k j : Nat) :
    x &&& ((2 ^ k - 1) <<< j) = ((x >>> j) % 2 ^ k) <<< j := by
  apply Nat.eq_of_testBit_eq
  intro i
  simp only [Nat.testBit_and, Nat.testBit_shiftLeft, Nat.testBit_two_pow_sub_one,
    Nat.testBit_mod_two_pow, Nat.testBit_shiftRight]
  by_cases h : j ≤ i
  · simp [h, Nat.add_sub_cancel' h, Bool.and_comm]
  · simp [h]

theorem lor_eq_add (a b i : Nat) (h : b < 2 ^ i) : a * 2 ^ i ||| b = a * 2 ^ i + b := by
  rw [Nat.mul_comm]
  exact (Nat.mul_add_lt_is_or h a).symm

theorem lor_eq_add8 (a b : Nat) (h : b < 256) : a * 256 ||| b = a * 256 + b :=
  lor_eq_add a b 8 h

theorem lor_eq_add16 (a b : Nat) (h : b < 65536) : a * 65536 ||| b = a * 65536 + b :=
  lor_eq_add a b 16 h

theorem lor_eq_add24 (a b : Nat) (h : b < 16777216) :
    a * 16777216 ||| b = a * 16777216 + b :=
  lor_eq_add a b 24 h

theorem lor_eq_add32 (a b : Nat) (h : b < 4294967296) :
    a * 4294967296 ||| b = a * 4294967296 + b :=
  lor_eq_add a b 32 h

/-- The four low bytes of a number. -/
theorem bytes4 (n : Nat) :
    ∃ b3 b2 b1 b0, b3 < 256 ∧ b2 < 256 ∧ b1 < 256 ∧ b0 < 256 ∧
      n % 256 = b0 ∧ n / 256 % 256 = b1 ∧ n / 65536 % 256 = b2 ∧ n / 16777216 % 256 = b3 ∧
      n % 4294967296 = 16777216 * b3 + 65536 * b2 + 256 * b1 + b0 :=
  ⟨n / 16777216 % 256, n / 65536 % 256, n / 256 % 256, n % 256, by omega, by omega, by omega,
    by omega, rfl, rfl, rfl, rfl, by omega⟩

/-- The two low bytes of a number. -/
theorem bytes2 (n : Nat) :
    ∃ b1 b0, b1 < 256 ∧ b0 < 256 ∧ n % 256 = b0 ∧ n / 256 % 256 = b1 ∧
      n % 65536 = 256 * b1 + b0 :=
  ⟨n / 256 % 256, n % 256, by omega, by omega, rfl, rfl, by omega⟩

/-- The value of `rtmp_r16` in terms of the two bytes of its argument. -/
theorem rtmp_r16_eq (n : Nat) : rtmp_r16 n = n % 256 * 256 + n / 256 % 256 := by
  unfold rtmp_r16
  dsimp only
  simp only [Nat.shiftLeft_eq, Nat.shiftRight_eq_div_pow, Nat.reducePow]
  rw [show n % 65536 / 256 = n / 256 % 256 by omega,
    show n % 65536 * 256 = (n / 256 % 256 * 256 + n % 256) * 256 by omega,
    lor_eq_add8 _ _ (Nat.mod_lt _ (by decide))]
  omega

theorem r32_bytes_aux (b3 b2 b1 b0 : Nat) (h0 : b0 < 256) (h1 : b1 < 256) (h2 : b2 < 256)
    (h3 : b3 < 256) :
    (16777216 * b3 + 65536 * b2 + 256 * b1 + b0) * 16777216 % 4294967296 |||
      (16777216 * b3 + 65536 * b2 + 256 * b1 + b0) * 256 % 4294967296 / 65536 % 256 * 65536 |||
      (16777216 * b3 + 65536 * b2 + 256 * b1 + b0) / 256 / 256 % 256 * 256 |||
      (16777216 * b3 + 65536 * b2 + 256 * b1 + b0) / 16777216 =
    b0 * 16777216 + b1 * 65536 + b2 * 256 + b3 := by
  rw [show (16777216 * b3 + 65536 * b2 + 256 * b1 + b0) * 16777216 % 4294967296 =
      b0 * 16777216 by omega,
    show (16777216 * b3 + 65536 * b2 + 256 * b1 + b0) * 256 % 4294967296 / 65536 % 256 = b1 by
      omega,
    show (16777216 * b3 + 65536 * b2 + 256 * b1 + b0) / 256 / 256 % 256 = b2 by omega,
    show (16777216 * b3 + 65536 * b2 + 256 * b1 + b0) / 16777216 = b3 by omega,
    Nat.lor_assoc, Nat.lor_assoc,
    lor_eq_add8 b2 b3 h3, lor_eq_add16 b1 _ (by omega), lor_eq_add24 b0 _ (by omega)]
  omega

/-- The value of `rtmp_r32` in terms of the four bytes of its argument. -/
theorem rtmp_r32_eq (n : Nat) :
    rtmp_r32 n =
      n % 256 * 16777216 + n / 256 % 256 * 65536 + n / 65536 % 256 * 256 +
        n / 16777216 % 256 := by
  unfold rtmp_r32
  dsimp only
  have m1 : (0xff0000 : Nat) = (2 ^ 8 - 1) <<< 16 := by decide
  have m2 : (0xff00 : Nat) = (2 ^ 8 - 1) <<< 8 := by decide
  rw [m1, m2, and_shifted_mask, and_shifted_mask]
  simp only [Nat.shiftLeft_eq, Nat.shiftRight_eq_div_pow, Nat.reducePow]
  clear m1 m2
  obtain ⟨b3, b2, b1, b0, h3, h2, h1, h0, e0, e1, e2, e3, e⟩ := bytes4 n
  rw [e, e0, e1, e2, e3]
  exact r32_bytes_aux b3 b2 b1 b0 h0 h1 h2 h3

theorem rtmp_r32_lt (n : Nat) : rtmp_r32 n < 4294967296 := by
  rw [rtmp_r32_eq]; omega

/-- Applied twice, `rtmp_r32` gives back the low 32 bits. -/
theorem rtmp_r32_twice (n : Nat) : rtmp_r32 (rtmp_r32 n) = n % 4294967296 := by
  rw [rtmp_r32_eq (rtmp_r32 n), rtmp_r32_eq n]
  obtain ⟨b3, b2, b1, b0, h3, h2, h1, h0, e0, e1, e2, e3, e⟩ := bytes4 n
  rw [e, e0, e1, e2, e3]
  clear e e0 e1 e2 e3
  rw [show (b0 * 16777216 + b1 * 65536 + b2 * 256 + b3) % 256 = b3 by omega,
    show (b0 * 16777216 + b1 * 65536 + b2 * 256 + b3) / 256 % 256 = b2 by omega,
    show (b0 * 16777216 + b1 * 65536 + b2 * 256 + b3) / 65536 % 256 = b1 by omega,
    show (b0 * 16777216 + b1 * 65536 + b2 * 256 + b3) / 16777216 % 256 = b0 by omega]
  omega

/-- The value of `rtmp_r64` in terms of `rtmp_r32` of the two halves. -/
theorem rtmp_r64_eq (n : Nat) :
    rtmp_r64 n =
      rtmp_r32 (n % 4294967296) * 4294967296 + rtmp_r32 (n / 4294967296 % 4294967296) := by
  unfold rtmp_r64
  dsimp only
  simp only [Nat.shiftLeft_eq, Nat.shiftRight_eq_div_pow, Nat.reducePow]
  have h1 := rtmp_r32_lt (n % 18446744073709551616 % 4294967296)
  rw [Nat.mod_eq_of_lt (by omega), lor_eq_add32 _ _ (rtmp_r32_lt _),
    show n % 18446744073709551616 % 4294967296 = n % 4294967296 by omega,
    show n % 18446744073709551616 / 4294967296 % 4294967296 =
      n / 4294967296 % 4294967296 by omega]

theorem bytes_of_two (n : Nat) : bytes_of 2 n = [n % 256, n / 256 % 256] := by
  simp [bytes_of, List.range_succ]

/-- The two bytes of `rtmp_r16 n` are those of `n` in reverse order. -/
theorem rtmp_r16_bytes (n : Nat) : bytes_of 2 (rtmp_r16 n) = (bytes_of 2 n).reverse := by
  rw [bytes_of_two, bytes_of_two, rtmp_r16_eq]
  obtain ⟨b1, b0, h1, h0, e0, e1, e⟩ := bytes2 n
  rw [e0, e1]
  clear e e0 e1
  simp only [List.reverse_cons, List.reverse_nil, List.nil_append, List.cons_append,
    List.cons.injEq, and_true]
  constructor <;> omega

/-- Applied twice, `rtmp_r16` gives back the low 16 bits. -/
theorem rtmp_r16_twice (n : Nat) : rtmp_r16 (rtmp_r16 n) = n % 65536 := by
  rw [rtmp_r16_eq (rtmp_r16 n), rtmp_r16_eq n]
  obtain ⟨b1, b0, h1, h0, e0, e1, e⟩ := bytes2 n
  rw [e, e0, e1]
  clear e e0 e1
  rw [show (b0 * 256 + b1) % 256 = b1 by omega, show (b0 * 256 + b1) / 256 % 256 = b0 by omega]
  omega

theorem bytes_of_four (n : Nat) :
    bytes_of 4 n = [n % 256, n / 256 % 256, n / 65536 % 256, n / 16777216 % 256] := by
  simp [bytes_of, List.range_succ]

theorem bytes_of_eight (n : Nat) :
    bytes_of 8 n = bytes_of 4 n ++ bytes_of 4 (n / 4294967296) := by
  simp only [bytes_of, List.range_succ, List.range_zero, List.nil_append, List.map_append,
    List.map_cons, List.map_nil, List.cons_append, List.cons.injEq, and_true, Nat.reducePow,
    Nat.div_one, true_and, Nat.div_div_eq_div_mul, Nat.reduceMul]

theorem bytes_of_four_mod (n : Nat) : bytes_of 4 (n % 4294967296) = bytes_of 4 n := by
  rw [bytes_of_four, bytes_of_four]
  simp only [List.cons.injEq, and_true]
  refine ⟨?_, ?_, ?_, ?_⟩ <;> omega

theorem bytes_of_four_low (a b : Nat) : bytes_of 4 (a * 4294967296 + b) = bytes_of 4 b := by
  rw [bytes_of_four, bytes_of_four]
  simp only [List.cons.injEq, and_true]
  refine ⟨?_, ?_, ?_, ?_⟩ <;> omega

/-- The four bytes of `rtmp_r32 n` are those of `n` in reverse order. -/
theorem rtmp_r32_bytes (n : Nat) : bytes_of 4 (rtmp_r32 n) = (bytes_of 4 n).reverse := by
  rw [bytes_of_four, bytes_of_four, rtmp_r32_eq]
  obtain ⟨b3, b2, b1, b0, h3, h2, h1, h0, e0, e1, e2, e3, e⟩ := bytes4 n
  rw [e0, e1, e2, e3]
  clear e e0 e1 e2 e3
  simp only [List.reverse_cons, List.reverse_nil, List.nil_append, List.cons_append,
    List.cons.injEq, and_true]
  refine ⟨?_, ?_, ?_, ?_⟩ <;> omega

/-- C29: `rtmp_r16`, `rtmp_r32` and `rtmp_r64` reverse the order of the 2, 4
and 8 bytes of their argument, and each is its own inverse on the values of
its type. -/
theorem rtmp_r_reverses_bytes (n : Nat) :
    bytes_of 2 (rtmp_r16 n) = (bytes_of 2 n).reverse ∧
    bytes_of 4 (rtmp_r32 n) = (bytes_of 4 n).reverse ∧
    bytes_of 8 (rtmp_r64 n) = (bytes_of 8 n).reverse ∧
    rtmp_r16 (rtmp_r16 n) = n % 2 ^ 16 ∧
    rtmp_r32 (rtmp_r32 n) = n % 2 ^ 32 ∧
    rtmp_r64 (rtmp_r64 n) = n % 2 ^ 64 := by
  have e64 := rtmp_r64_eq n
  have l1 := rtmp_r32_lt (n % 4294967296)
  have l2 := rtmp_r32_lt (n / 4294967296 % 4294967296)
  refine ⟨rtmp_r16_bytes n, rtmp_r32_bytes n, ?_, rtmp_r16_twice n, rtmp_r32_twice n, ?_⟩
  · rw [bytes_of_eight, bytes_of_eight, e64, bytes_of_four_low,
      show (rtmp_r32 (n % 4294967296) * 4294967296 +
        rtmp_r32 (n / 4294967296 % 4294967296)) / 4294967296 = rtmp_r32 (n % 4294967296) by
        omega,
      rtmp_r32_bytes, rtmp_r32_bytes, bytes_of_four_mod, bytes_of_four_mod,
      List.reverse_append]
  · rw [rtmp_r64_eq (rtmp_r64 n), e64,
      show (rtmp_r32 (n % 4294967296) * 4294967296 +
        rtmp_r32 (n / 4294967296 % 4294967296)) % 4294967296 =
        rtmp_r32 (n / 4294967296 % 4294967296) by omega,
      show (rtmp_r32 (n % 4294967296) * 4294967296 +
        rtmp_r32 (n / 4294967296 % 4294967296)) / 4294967296 % 4294967296 =
        rtmp_r32 (n % 4294967296) by omega,
      rtmp_r32_twice, rtmp_r32_twice]
    omega
/-! ### Stage `RECV_CHALLENGE2`: what one `recv` may take -/

/-- One pass of the receive loop that ends it: the `recv` call is offered the
whole free part of the buffer, `end - last` bytes, and what it delivers reaches
the required size. -/
theorem rtmp_handshake_recv_loop_one_read (req : Nat) (b : rtmp_buf_t) (w : world) (k : Nat)
    (rest : List os_io) (hrx : w.rx = .bytes k :: rest)
    (h1 : b.start ≤ b.last) (h2 : b.last ≤ b.end_) (h3 : b.end_ - b.last < 2 ^ 64)
    (hlt : b.last - b.start < req)
    (hn : req ≤ b.last - b.start + min (min k (b.end_ - b.last)) w.wire.length) :
    rtmp_handshake_recv_loop req b w =
      (.done, { b with last := b.last + min (min k (b.end_ - b.last)) w.wire.length },
       { w with rx := rest,
                wire := w.wire.drop (min (min k (b.end_ - b.last)) w.wire.length),
                mem := mem_write w.mem b.last (w.wire.take (min k (b.end_ - b.last))) }.log
         (.recv (b.end_ - b.last)
           ((min (min k (b.end_ - b.last)) w.wire.length : Nat) : Int))) := by
  have hc : (b.last : Int) - b.start < req := by omega
  have hsz := size_t_of_sub b.last b.end_ h2 h3
  have hpos : 0 < min (min k (b.end_ - b.last)) w.wire.length := by omega
  have hrecv := rtmp_unix_recv_bytes b.last (b.end_ - b.last) k w _ hrx hpos
  generalize hnd : min (min k (b.end_ - b.last)) w.wire.length = n at hrecv hpos hn ⊢
  rw [rtmp_handshake_recv_loop, if_pos hc]
  simp only [hsz]
  rw [hrecv]
  have e1 : ¬ (((n : Nat) : Int) = RTMP_ERROR ∨ ((n : Nat) : Int) = 0) := by
    simp only [RTMP_ERROR]; omega
  have e2 : ¬ (((n : Nat) : Int) = RTMP_AGAIN) := by
    simp only [RTMP_AGAIN]; omega
  simp only [e1, e2, ↓reduceIte]
  have e3 : ((b.last : Int) + (n : Int)).toNat = b.last + n := by omega
  rw [e3, rtmp_handshake_recv_loop, if_neg (by simp only; omega)]

theorem pool_frees_not_recv (p : Option rtmp_pool_t) : ∀ e ∈ pool_frees p, e.is_recv = false := by
  intro e he
  cases p with
  | none => simp [pool_frees] at he
  | some pool =>
    simp only [pool_frees, List.mem_map] at he
    obtain ⟨_, _, rfl⟩ := he
    rfl

theorem not_recv_of_epoll_ctl (e : effect) (h : e.is_epoll_ctl = true) : e.is_recv = false := by
  cases e <;> simp_all [effect.is_epoll_ctl, effect.is_recv]

/-- C27 (the code departs from the claim): stage `RECV_CHALLENGE2` with the
scratch buffer as `rtmp_handshake_send` leaves it, `last = start`, and room for
at least 1537 bytes (`rtmp_handshake` creates it with 1537). The peer has at
least 1537 bytes on the wire and the kernel delivers that many to one `recv`.
`rtmp_handshake_recv` offers `recv` the whole buffer, `end - start` bytes, not
the 1536 bytes of C2: the one `recv` call it makes takes `n > 1536` bytes from
the connection, and then the stage is advanced. -/
theorem rtmp_handshake_recv_c2_takes_more (c : rtmp_connection_t) (s : rtmp_session_t)
    (w : world) (b : rtmp_buf_t) (k : Nat) (rest : List os_io)
    (hd : c.destroyed = false) (hrt : c.read.timedout = false)
    (hst : s.hs_stage = RTMP_HANDSHAKE_SERVER_RECV_CHALLENGE2) (hb : s.hs_buf = some b)
    (bl : b.last = b.start) (be1 : 1537 ≤ b.end_ - b.start) (be2 : b.end_ - b.start < 2 ^ 64)
    (hrx : w.rx = .bytes k :: rest) (hk : 1537 ≤ k) (hwire : 1537 ≤ w.wire.length) :
    ∃ m n tail, rtmp_handshake_recv { c := c, s := some s, w := w } = some m ∧
      1536 < n ∧ n = min (min k (b.end_ - b.start)) w.wire.length ∧
      new_effects w m.w = .recv (b.end_ - b.start) (n : Int) :: tail ∧
      (∀ e ∈ tail, e.is_recv = false) ∧
      m.s = some { s with hs_buf := some { b with last := b.start + n }, hs_stage := 3,
                          connected := 0 } := by
  have hloop := rtmp_handshake_recv_loop_one_read 1536 b w k rest hrx (by omega) (by omega)
    (by omega) (by omega) (by omega)
  rw [bl] at hloop
  generalize hnd : min (min k (b.end_ - b.start)) w.wire.length = n at hloop
  have hn : 1536 < n := by omega
  rw [rtmp_handshake_recv_stage2_done c s w b _ _ hd hrt hst hb hloop]
  obtain ⟨⟨es1, t1, p1⟩, -, -⟩ := del_event_if_active_spec (del_timer_if_set c.read) c.fd
    ({ w with rx := rest, wire := w.wire.drop n,
              mem := mem_write w.mem b.start (w.wire.take (min k (b.end_ - b.start))) }.log
      (.recv (b.end_ - b.start) (n : Int)))
  obtain ⟨m, es, fs, r1, r2, -, r4, r5, -, -, r8⟩ := rtmp_finalize_session_spec
    { c := { c with read := (del_event_if_active (del_timer_if_set c.read) c.fd
              ({ w with rx := rest, wire := w.wire.drop n,
                        mem := mem_write w.mem b.start
                          (w.wire.take (min k (b.end_ - b.start))) }.log
                (.recv (b.end_ - b.start) (n : Int)))).1 },
      s := some { s with hs_buf := some { b with last := b.start + n }, hs_stage := 3 },
      w := (del_event_if_active (del_timer_if_set c.read) c.fd
              ({ w with rx := rest, wire := w.wire.drop n,
                        mem := mem_write w.mem b.start
                          (w.wire.take (min k (b.end_ - b.start))) }.log
                (.recv (b.end_ - b.start) (n : Int)))).2 } _ rfl
  refine ⟨m, n, es1 ++ [.finalize_session, .fire_event RTMP_DISCONNECT] ++ es ++ fs, r1, hn,
    rfl, ?_, ?_, r2⟩
  · apply new_effects_of_append
    rw [r4, t1]
    simp only [world.log, List.append_assoc, List.singleton_append, List.cons_append,
      List.nil_append]
  · intro e he
    simp only [List.mem_append, List.mem_cons, List.mem_singleton, List.not_mem_nil,
      or_false] at he
    rcases he with ((h | h | h) | h) | h
    · exact not_recv_of_epoll_ctl e (p1 e h)
    · subst h; rfl
    · subst h; rfl
    · rcases r5 e h with h2 | h2
      · exact not_recv_of_epoll_ctl e h2
      · subst h2; rfl
    · rw [r8] at h
      exact pool_frees_not_recv _ e h

theorem rtmp_handshake_recv_c2_takes_more_witness :
    ∃ m n tail,
      rtmp_handshake_recv
        { c := sample_connection_waiting,
          s := some { sample_session with
            hs_stage := 2,
            hs_buf := some { pos := 73760, last := 73760, start := 73760, end_ := 75297,
                             temporary := true } },
          w := sample_world_waiting (List.replicate 1537 7) [.bytes 1537] [] } = some m ∧
      1536 < n ∧ n = min (min 1537 (75297 - 73760))
        (sample_world_waiting (List.replicate 1537 7) [.bytes 1537] []).wire.length ∧
      new_effects (sample_world_waiting (List.replicate 1537 7) [.bytes 1537] []) m.w =
        .recv (75297 - 73760) (n : Int) :: tail ∧
      (∀ e ∈ tail, e.is_recv = false) ∧
      m.s = some { sample_session with
        hs_buf := some { pos := 73760, last := 73760 + n, start := 73760, end_ := 75297,
                         temporary := true },
        hs_stage := 3, connected := 0 } :=
  rtmp_handshake_recv_c2_takes_more sample_connection_waiting
    { sample_session with
      hs_stage := 2,
      hs_buf := some { pos := 73760, last := 73760, start := 73760, end_ := 75297,
                       temporary := true } }
    (sample_world_waiting (List.replicate 1537 7) [.bytes 1537] [])
    { pos := 73760, last := 73760, start := 73760, end_ := 75297, temporary := true } 1537 []
    rfl rfl rfl rfl rfl (by decide) (by decide) rfl (by decide)
    (by
      rw [show (sample_world_waiting (List.replicate 1537 7) [.bytes 1537] []).wire =
        List.replicate 1537 7 from rfl, List.length_replicate])
/-! ### Stage `SEND_CHALLENGE2`: a response sent in two pieces -/

/-- The send loop when the kernel takes `k` bytes, fewer than the buffer
holds, and then reports `EAGAIN`: two `send` calls, and `pos` has moved on by
`k`. -/
theorem rtmp_handshake_send_loop_then_again (b : rtmp_buf_t) (w : world) (k : Nat)
    (rest : List os_io) (htx : w.tx = .bytes k :: .eagain :: rest)
    (h1 : b.pos ≤ b.last) (h2 : b.last - b.pos < 2 ^ 64)
    (hk : 0 < k) (hk2 : k < b.last - b.pos) :
    rtmp_handshake_send_loop b w =
      (.again, { b with pos := b.pos + k },
       { w with
         tx := rest,
         trace := w.trace ++
           [.send (mem_read w.mem b.pos (b.last - b.pos)) (k : Int),
            .send (mem_read w.mem (b.pos + k) (b.last - b.pos - k)) RTMP_AGAIN] }) := by
  have hsz := size_t_of_sub b.pos b.last h1 h2
  have hsz2 : size_t_of ((b.last : Int) - ((b.pos + k : Nat) : Int)) = b.last - b.pos - k := by
    rw [size_t_of_sub (b.pos + k) b.last (by omega) (by omega)]
    omega
  have e1 : rtmp_unix_send b.pos (b.last - b.pos) w =
      ((k : Int), { w with tx := .eagain :: rest }.log
        (.send (mem_read w.mem b.pos (b.last - b.pos)) (k : Int))) := by
    unfold rtmp_unix_send
    rw [htx]
    simp only
    rw [min_eq_left (by omega)]
  rw [rtmp_handshake_send_loop, if_pos (by omega)]
  simp only [hsz]
  rw [e1]
  have n1 : ¬ ((k : Int) = RTMP_ERROR) := by simp only [RTMP_ERROR]; omega
  have n2 : ¬ ((k : Int) = RTMP_AGAIN ∨ (k : Int) = 0) := by simp only [RTMP_AGAIN]; omega
  simp only [n1, n2, ↓reduceIte]
  have e3 : ((b.pos : Int) + (k : Int)).toNat = b.pos + k := by omega
  rw [e3, rtmp_handshake_send_loop, if_pos (by simp only; omega)]
  simp only [hsz2]
  have e2 : rtmp_unix_send (b.pos + k) (b.last - b.pos - k)
      ({ w with tx := .eagain :: rest }.log
        (.send (mem_read w.mem b.pos (b.last - b.pos)) (k : Int))) =
      (RTMP_AGAIN, { w with
         tx := rest,
         trace := w.trace ++
           [.send (mem_read w.mem b.pos (b.last - b.pos)) (k : Int),
            .send (mem_read w.mem (b.pos + k) (b.last - b.pos - k)) RTMP_AGAIN] }) := by
    unfold rtmp_unix_send
    simp [world.log]
  rw [e2]
  simp [RTMP_AGAIN, RTMP_ERROR]

/-- A call of `rtmp_handle_write_event` on an event that is registered, or
that `epoll_ctl` accepts: it returns `RTMP_OK` and the event is active. -/
theorem rtmp_handle_write_event_ok (wev : rtmp_event_t) (fd : Int) (w : world)
    (h : wev.active = true ∨ (w.epoll_fd ≠ -1 ∧ w.ctl.headD true = true)) :
    ∃ w2 ctl, rtmp_handle_write_event wev fd w = (RTMP_OK, { wev with active := true }, w2) ∧
      w2.trace = w.trace ++ ctl ∧ (∀ e ∈ ctl, e.is_epoll_ctl = true) ∧
      w2.tx = w.tx ∧ w2.mem = w.mem ∧ w2.rand = w.rand ∧ w2.rand_calls = w.rand_calls ∧
      w2.now = w.now ∧ w2.epoll_fd = w.epoll_fd ∧
      (wev.active = true → w2 = w) := by
  by_cases ha : wev.active = true
  · refine ⟨w, [], ?_, by simp, by simp, rfl, rfl, rfl, rfl, rfl, rfl, fun _ => rfl⟩
    unfold rtmp_handle_write_event
    rw [if_neg (by simp [ha])]
    cases wev
    simp only at ha
    subst ha
    rfl
  · rcases h with h | ⟨h1, h2⟩
    · exact absurd h ha
    · refine ⟨(epoll_ctl EPOLL_CTL_ADD fd (RTMP_WRITE_EVENT ||| EPOLLET) w).2,
        [.epoll_ctl EPOLL_CTL_ADD fd (RTMP_WRITE_EVENT ||| EPOLLET) true], ?_, ?_, ?_, rfl, rfl,
        rfl, rfl, rfl, rfl, fun h => absurd h ha⟩
      · unfold rtmp_handle_write_event
        rw [if_pos ha]
        unfold rtmp_add_event
        rw [if_neg h1]
        simp only [ha, Bool.false_eq_true, ↓reduceIte, epoll_ctl, h2, Bool.true_eq_false]
      · simp only [epoll_ctl, world.log, h2]
      · intro e he
        simp only [List.mem_singleton] at he
        subst he
        rfl

theorem mem_read_drop (mem : Nat → Nat) (a n k : Nat) (h : k ≤ n) :
    (mem_read mem a n).drop k = mem_read mem (a + k) (n - k) := by
  have e := mem_read_append mem a k (n - k)
  rw [show k + (n - k) = n by omega] at e
  rw [← e, List.drop_left' (mem_read_length mem a k)]

theorem del_timer_if_set_fields (ev : rtmp_event_t) :
    (del_timer_if_set ev).active = ev.active ∧ (del_timer_if_set ev).timedout = ev.timedout := by
  unfold del_timer_if_set rtmp_del_timer
  split <;> exact ⟨rfl, rfl⟩

/-- One call of `rtmp_handshake_send` in stage `SEND_CHALLENGE2`, with room
for the response, when the kernel takes `k` of the 3073 bytes and then reports
`EAGAIN`. The response is generated, `send` is offered its 3073 bytes from the
start of the buffer, then the `3073 - k` bytes from byte `k` on; the call
leaves `pos = start + k`, the stage as it was, and the write event active. -/
theorem rtmp_handshake_send_would_block (c : rtmp_connection_t) (s : rtmp_session_t)
    (w : world) (b0 : rtmp_buf_t) (k : Nat) (rest : List os_io)
    (hd : c.destroyed = false) (ht : c.write.timedout = false)
    (hst : s.hs_stage = RTMP_HANDSHAKE_SERVER_SEND_CHALLENGE2) (hb : s.hs_buf = some b0)
    (hcap : b0.start + 3073 ≤ b0.end_) (hcap2 : b0.end_ - b0.start < 2 ^ 64)
    (htx : w.tx = .bytes k :: .eagain :: rest) (hk : 0 < k) (hk2 : k < 3073)
    (hreg : c.write.active = true ∨ (w.epoll_fd ≠ -1 ∧ w.ctl.headD true = true)) :
    ∃ m1 ctl resp,
      rtmp_handshake_send { c := c, s := some s, w := w } = some m1 ∧
      m1.c.destroyed = false ∧ m1.c.write.timedout = false ∧ m1.c.write.active = true ∧
      m1.s = some { s with
        hs_buf := some { b0 with pos := b0.start + k, last := b0.start + 3073 } } ∧
      m1.w.tx = rest ∧ m1.w.rand = w.rand ∧ m1.w.rand_calls = w.rand_calls + 1528 ∧
      m1.w.epoll_fd = w.epoll_fd ∧
      resp = mem_read m1.w.mem b0.start 3073 ∧
      (∀ i, i < 1528 → m1.w.mem (b0.start + 9 + i) = w.rand (w.rand_calls + i) % 256) ∧
      m1.w.trace =
        w.trace ++ .send resp (k : Int) :: .send (resp.drop k) RTMP_AGAIN :: ctl ∧
      (∀ e ∈ ctl, e.is_epoll_ctl = true) ∧
      (c.write.active = true → ctl = []) := by
  have hsz : size_t_of ((b0.end_ : Int) - b0.start) = b0.end_ - b0.start :=
    size_t_of_sub _ _ (by omega) hcap2
  have hsz3 : ¬ size_t_of ((b0.end_ : Int) - b0.start) < 3073 := by rw [hsz]; omega
  have hch := rtmp_handshake_create_challenge_ok
    { s with hs_buf := some { b0 with pos := b0.start, last := b0.start } } b0.start
    (size_t_of ((b0.end_ : Int) - b0.start)) w (by omega)
  have hbytes := rtmp_handshake_create_challenge_bytes
    { s with hs_buf := some { b0 with pos := b0.start, last := b0.start } } b0.start
    (size_t_of ((b0.end_ : Int) - b0.start)) w (by omega)
  generalize hX : (rtmp_handshake_create_challenge
    { s with hs_buf := some { b0 with pos := b0.start, last := b0.start } } b0.start
    (size_t_of ((b0.end_ : Int) - b0.start)) w).2 = wX at hbytes
  have x1 : wX.tx = w.tx := by rw [← hX, hch]
  have x2 : wX.trace = w.trace := by rw [← hX, hch]
  have x3 : wX.rand = w.rand := by rw [← hX, hch]
  have x4 : wX.rand_calls = w.rand_calls + 1528 := by rw [← hX, hch]
  have x5 : wX.epoll_fd = w.epoll_fd := by rw [← hX, hch]
  have x6 : wX.ctl = w.ctl := by rw [← hX, hch]
  have hloop := rtmp_handshake_send_loop_then_again
    { b0 with pos := b0.start, last := b0.start + (1537 + 1536) } wX k rest
    (by rw [x1]; exact htx) (by simp only; omega) (by simp only; omega) hk
    (by simp only; omega)
  simp only [show b0.start + (1537 + 1536) - b0.start = 3073 by omega] at hloop
  have hpath := (rtmp_handshake_send_paths c s w b0 _ wX hd ht hb
    (Or.inl ⟨hst, hsz3, rfl, hX.symm⟩)).2.1 _ _ hloop
  obtain ⟨w2, ctl, q1, q2, q3, q4, q5, q6, q7, q8, q9, q10⟩ := rtmp_handle_write_event_ok
    (rtmp_add_timer (del_timer_if_set c.write) s.timeout) c.fd
    { wX with
      tx := rest,
      trace := wX.trace ++
        [.send (mem_read wX.mem b0.start 3073) (k : Int),
         .send (mem_read wX.mem (b0.start + k) (3073 - k)) RTMP_AGAIN] }
    (by
      rcases hreg with h | ⟨h1, h2⟩
      · left
        show (del_timer_if_set c.write).active = true
        rw [(del_timer_if_set_fields c.write).1]; exact h
      · right
        exact ⟨by simpa [x5] using h1, by simpa [x6] using h2⟩)
  rw [q1] at hpath
  simp only [ne_eq, not_true_eq_false, ↓reduceIte] at hpath
  refine ⟨_, ctl, mem_read wX.mem b0.start 3073, hpath, hd, ?_, rfl, rfl, ?_, ?_, ?_, ?_, ?_, ?_,
    ?_, q3, ?_⟩
  · show (del_timer_if_set c.write).timedout = false
    rw [(del_timer_if_set_fields c.write).2]; exact ht
  · simp only [q4]
  · simp only [q6, x3]
  · simp only [q7, x4]
  · simp only [q9, x5]
  · simp only [q5]
  · intro i hi
    simp only [q5]
    exact hbytes.2.1 i hi
  · simp only [q2, x2, List.append_assoc, List.cons_append, List.nil_append]
    rw [mem_read_drop _ _ _ _ (by omega)]
  · intro ha
    have := q10 (by
      show (del_timer_if_set c.write).active = true
      rw [(del_timer_if_set_fields c.write).1]; exact ha)
    rw [this] at q2
    simp only at q2
    have hl := congrArg List.length q2
    simp only [List.length_append] at hl
    exact List.eq_nil_of_length_eq_zero (by omega)

theorem sent_bytes_append (es fs : List effect) :
    sent_bytes (es ++ fs) = sent_bytes es ++ sent_bytes fs := by
  induction es with
  | nil => rfl
  | cons e es ih =>
    rw [List.cons_append, sent_bytes_cons, ih, sent_bytes_cons e es, List.append_assoc]

theorem not_send_of_epoll_ctl (e : effect) (h : e.is_epoll_ctl = true) : e.is_send = false := by
  cases e <;> simp_all [effect.is_epoll_ctl, effect.is_send]

/-- C26 (the code departs from the claim): stage `SEND_CHALLENGE2` with room
for the 3073 bytes of the response. The first call of `rtmp_handshake_send`
generates a response `resp1`; `send` takes its first `k` bytes and then reports
`EAGAIN`, and the call returns with `pos = start + k` and the stage unchanged.
The next call resets the buffer and generates a response again, `resp2`, with
the next 1528 values of `rand()`, and offers `send` all 3073 bytes of it from
byte 0. With `j` bytes taken this time, the bytes `send` has accepted are the
first `k` bytes of `resp1` followed by the first `j` bytes of `resp2`, not the
bytes of `resp1` from byte `k` on. -/
theorem rtmp_handshake_send_restarts_response (c : rtmp_connection_t) (s : rtmp_session_t)
    (w : world) (b0 : rtmp_buf_t) (k j : Nat) (rest : List os_io)
    (hd : c.destroyed = false) (ht : c.write.timedout = false)
    (hst : s.hs_stage = RTMP_HANDSHAKE_SERVER_SEND_CHALLENGE2) (hb : s.hs_buf = some b0)
    (hcap : b0.start + 3073 ≤ b0.end_) (hcap2 : b0.end_ - b0.start < 2 ^ 64)
    (htx : w.tx = .bytes k :: .eagain :: .bytes j :: .eagain :: rest)
    (hk : 0 < k) (hk2 : k < 3073) (hj : 0 < j) (hj2 : j < 3073)
    (hreg : c.write.active = true ∨ (w.epoll_fd ≠ -1 ∧ w.ctl.headD true = true)) :
    ∃ m1 m2 resp1 resp2 ctl,
      rtmp_handshake_send { c := c, s := some s, w := w } = some m1 ∧
      m1.s = some { s with
        hs_buf := some { b0 with pos := b0.start + k, last := b0.start + 3073 } } ∧
      rtmp_handshake_send m1 = some m2 ∧
      resp1.length = 3073 ∧ resp2.length = 3073 ∧
      new_effects w m1.w = .send resp1 (k : Int) :: .send (resp1.drop k) RTMP_AGAIN :: ctl ∧
      (∀ e ∈ ctl, e.is_epoll_ctl = true) ∧
      new_effects m1.w m2.w = [.send resp2 (j : Int), .send (resp2.drop j) RTMP_AGAIN] ∧
      sent_bytes (new_effects w m2.w) = resp1.take k ++ resp2.take j ∧
      (∀ i, i < 1528 →
        resp1.getD (9 + i) 0 = w.rand (w.rand_calls + i) % 256 ∧
        resp2.getD (9 + i) 0 = w.rand (w.rand_calls + 1528 + i) % 256) := by
  obtain ⟨m1, ctl, resp1, a1, a2, a3, a4, a5, a6, a7, a8, a9, a10, a11, a12, a13, -⟩ :=
    rtmp_handshake_send_would_block c s w b0 k (.bytes j :: .eagain :: rest) hd ht hst hb hcap
      hcap2 htx hk hk2 hreg
  obtain ⟨c1, so1, w1⟩ := m1
  simp only at a2 a3 a4 a5 a6 a7 a8 a9 a10 a11 a12 a13
  subst a5
  obtain ⟨m2, ctl2, resp2, b1, -, -, -, -, -, -, -, -, b10, b11, b12, -, b14⟩ :=
    rtmp_handshake_send_would_block c1
      { s with hs_buf := some { b0 with pos := b0.start + k, last := b0.start + 3073 } } w1
      { b0 with pos := b0.start + k, last := b0.start + 3073 } j rest a2 a3 hst rfl hcap hcap2
      a6 hj hj2 (Or.inl a4)
  have hc2 : ctl2 = [] := b14 a4
  subst hc2
  simp only at b10 b11 b12
  have l1 : resp1.length = 3073 := by rw [a10]; exact mem_read_length _ _ _
  have l2 : resp2.length = 3073 := by rw [b10]; exact mem_read_length _ _ _
  refine ⟨_, m2, resp1, resp2, ctl, a1, rfl, b1, l1, l2, new_effects_of_append _ _ _ a12, a13,
    new_effects_of_append _ _ _ b12, ?_, ?_⟩
  · rw [new_effects_of_append w m2.w
      (.send resp1 (k : Int) :: .send (resp1.drop k) RTMP_AGAIN :: ctl ++
        [.send resp2 (j : Int), .send (resp2.drop j) RTMP_AGAIN])
      (by rw [b12, a12, List.append_assoc])]
    rw [sent_bytes_append, sent_bytes_cons, sent_bytes_cons (.send (resp1.drop k) RTMP_AGAIN),
      sent_bytes_of_no_send ctl (fun e he => not_send_of_epoll_ctl e (a13 e he))]
    simp only [sent_bytes, RTMP_AGAIN, List.append_nil, Int.toNat_ofNat]
    have p1 : (0 : Int) < (k : Int) := by omega
    have p2 : (0 : Int) < (j : Int) := by omega
    simp [p1, p2]
  · intro i hi
    constructor
    · rw [a10, mem_read_getD _ _ _ _ (by omega), ← Nat.add_assoc]
      exact a11 i hi
    · rw [b10, mem_read_getD _ _ _ _ (by omega), ← Nat.add_assoc, b11 i hi, a7, a8]

theorem rtmp_handshake_send_restarts_response_witness :
    ∃ m1 m2 resp1 resp2 ctl,
      rtmp_handshake_send
        { c := sample_connection_waiting,
          s := some { sample_session_full with hs_stage := 1 },
          w := sample_world_waiting [] [] [.bytes 100, .eagain, .bytes 200, .eagain] } =
        some m1 ∧
      m1.s = some { sample_session_full with
        hs_stage := 1,
        hs_buf := some { pos := 1000 + 100, last := 1000 + 3073, start := 1000, end_ := 4073,
                         temporary := true } } ∧
      rtmp_handshake_send m1 = some m2 ∧
      resp1.length = 3073 ∧ resp2.length = 3073 ∧
      new_effects (sample_world_waiting [] [] [.bytes 100, .eagain, .bytes 200, .eagain]) m1.w =
        .send resp1 ((100 : Nat) : Int) :: .send (resp1.drop 100) RTMP_AGAIN :: ctl ∧
      (∀ e ∈ ctl, e.is_epoll_ctl = true) ∧
      new_effects m1.w m2.w =
        [.send resp2 ((200 : Nat) : Int), .send (resp2.drop 200) RTMP_AGAIN] ∧
      sent_bytes
          (new_effects (sample_world_waiting [] [] [.bytes 100, .eagain, .bytes 200, .eagain])
            m2.w) =
        resp1.take 100 ++ resp2.take 200 ∧
      (∀ i, i < 1528 →
        resp1.getD (9 + i) 0 =
          (sample_world_waiting [] [] [.bytes 100, .eagain, .bytes 200, .eagain]).rand
            ((sample_world_waiting [] [] [.bytes 100, .eagain, .bytes 200, .eagain]).rand_calls
              + i) % 256 ∧
        resp2.getD (9 + i) 0 =
          (sample_world_waiting [] [] [.bytes 100, .eagain, .bytes 200, .eagain]).rand
            ((sample_world_waiting [] [] [.bytes 100, .eagain, .bytes 200, .eagain]).rand_calls
              + 1528 + i) % 256) :=
  rtmp_handshake_send_restarts_response sample_connection_waiting
    { sample_session_full with hs_stage := 1 }
    (sample_world_waiting [] [] [.bytes 100, .eagain, .bytes 200, .eagain])
    { pos := 1000, last := 2537, start := 1000, end_ := 4073, temporary := true } 100 200 []
    rfl rfl rfl rfl (by decide) (by decide) rfl (by decide) (by decide) (by decide) (by decide)
    (Or.inr ⟨by decide, rfl⟩)
/-! ### The chunk stream -/

theorem bytes_of_three (n : Nat) : bytes_of 3 n = [n % 256, n / 256 % 256, n / 65536 % 256] := by
  simp [bytes_of, List.range_succ]

theorem be_bytes_three (n : Nat) :
    be_bytes 3 n = [n / 65536 % 256, n / 256 % 256, n % 256] := by
  simp [be_bytes, bytes_of_three]

theorem be_bytes_four (n : Nat) :
    be_bytes 4 n = [n / 16777216 % 256, n / 65536 % 256, n / 256 % 256, n % 256] := by
  simp [be_bytes, bytes_of_four]

theorem be_value_three (a b c : Nat) : be_value [a, b, c] = (a * 256 + b) * 256 + c := by
  simp [be_value]

theorem be_value_four (a b c d : Nat) :
    be_value [a, b, c, d] = ((a * 256 + b) * 256 + c) * 256 + d := by
  simp [be_value]

theorem le_value_four (a b c d : Nat) :
    le_value [a, b, c, d] = a + 256 * (b + 256 * (c + 256 * d)) := by
  simp [le_value]

theorem be_value_be_bytes_three (n : Nat) (h : n < 2 ^ 24) : be_value (be_bytes 3 n) = n := by
  rw [be_bytes_three, be_value_three]
  omega

theorem be_value_be_bytes_four (n : Nat) (h : n < 2 ^ 32) : be_value (be_bytes 4 n) = n := by
  rw [be_bytes_four, be_value_four]
  omega

theorem le_value_bytes_of_four (n : Nat) (h : n < 2 ^ 32) : le_value (bytes_of 4 n) = n := by
  rw [bytes_of_four, le_value_four]
  omega

theorem be_bytes_length (k n : Nat) : (be_bytes k n).length = k := by
  simp [be_bytes, bytes_of]

/-- Reading back a basic header gives the selector and the csid it was made
from. -/
theorem parse_basic_header_chunk (fmt csid : Nat) (rest : List Nat) (hf : fmt < 4)
    (h1 : 2 ≤ csid) (h2 : csid < 65600) :
    parse_basic_header (chunk_basic_header fmt csid ++ rest) = some (fmt, csid, rest) := by
  unfold chunk_basic_header
  by_cases c1 : csid < 64
  · rw [if_pos c1]
    simp only [List.singleton_append, parse_basic_header]
    rw [if_neg (by omega), if_neg (by omega)]
    simp only [Option.some.injEq, Prod.mk.injEq, and_true]
    constructor <;> omega
  · rw [if_neg c1]
    by_cases c2 : csid < 320
    · rw [if_pos c2]
      simp only [List.cons_append, List.nil_append, parse_basic_header]
      rw [if_pos (by omega)]
      simp only [Option.some.injEq, Prod.mk.injEq, and_true]
      constructor <;> omega
    · rw [if_neg c2]
      simp only [List.cons_append, List.nil_append, parse_basic_header]
      rw [if_neg (by omega), if_pos (by omega)]
      simp only [Option.some.injEq, Prod.mk.injEq, and_true]
      constructor <;> omega

theorem take_bytes_append (a rest : List Nat) :
    take_bytes a.length (a ++ rest) = some (a, rest) := by
  unfold take_bytes
  rw [if_pos (by simp)]
  simp

theorem take_bytes_of_length (n : Nat) (a rest : List Nat) (h : a.length = n) :
    take_bytes n (a ++ rest) = some (a, rest) := by
  subst h
  exact take_bytes_append a rest

/-- The extended timestamp is there exactly when the 24-bit field is
`0xFFFFFF`. -/
theorem ext_flag (ts : Nat) (h : ts < 2 ^ 32) :
    decide (be_value (be_bytes 3 (min ts 0xFFFFFF)) = 0xFFFFFF) = decide (0xFFFFFF ≤ ts) := by
  rw [be_value_be_bytes_three _ (by omega)]
  by_cases c : 0xFFFFFF ≤ ts
  · rw [min_eq_right c]; simp [c]
  · rw [min_eq_left (by omega)]
    simp only [c, decide_False, decide_eq_false_iff_not]
    omega

/-- Reading the extended timestamp that follows a header whose timestamp field
is `ts`. -/
theorem parse_ext (ts t mlen type msid : Nat) (rest : List Nat) (h : ts < 2 ^ 32)
    (ht : t = min ts 0xFFFFFF) :
    (if decide (0xFFFFFF ≤ ts) = true then
        match take_bytes 4 (chunk_ext_timestamp ts ++ rest) with
        | none => none
        | some (x, rest) => some (be_value x, mlen, type, msid, true, rest)
      else some (t, mlen, type, msid, false, chunk_ext_timestamp ts ++ rest)) =
      some (ts, mlen, type, msid, decide (0xFFFFFF ≤ ts), rest) := by
  unfold chunk_ext_timestamp
  by_cases c : 0xFFFFFF ≤ ts
  · simp only [c, decide_True, ↓reduceIte]
    rw [take_bytes_of_length 4 _ _ (be_bytes_length 4 ts)]
    simp only [be_value_be_bytes_four ts h]
  · simp only [c, decide_False, Bool.false_eq_true, ↓reduceIte, List.nil_append]
    rw [ht, min_eq_left (by omega)]

/-- Reading back a message header of the full form. -/
theorem parse_message_header_full (st : rtmp_stream_t) (ts mlen type msid : Nat)
    (rest : List Nat) (h1 : ts < 2 ^ 32) (h2 : mlen < 2 ^ 24) (h4 : msid < 2 ^ 32) :
    parse_message_header 0 st (chunk_message_header 0 ts mlen type msid ++ rest) =
      some (ts, mlen, type, msid, decide (0xFFFFFF ≤ ts), rest) := by
  have e : chunk_message_header 0 ts mlen type msid ++ rest =
      (be_bytes 3 (min ts 0xFFFFFF) ++ be_bytes 3 mlen ++ [type] ++ bytes_of 4 msid) ++
        (chunk_ext_timestamp ts ++ rest) := by
    simp [chunk_message_header]
  unfold parse_message_header
  rw [e, take_bytes_of_length 11 _ _ (by simp [be_bytes_length, bytes_of])]
  have f1 : (be_bytes 3 (min ts 0xFFFFFF) ++ be_bytes 3 mlen ++ [type] ++ bytes_of 4 msid).take 3
      = be_bytes 3 (min ts 0xFFFFFF) := by
    rw [List.append_assoc, List.append_assoc, List.take_left' (be_bytes_length 3 _)]
  have f2 : ((be_bytes 3 (min ts 0xFFFFFF) ++ be_bytes 3 mlen ++ [type] ++
      bytes_of 4 msid).drop 3).take 3 = be_bytes 3 mlen := by
    rw [List.append_assoc, List.append_assoc, List.drop_left' (be_bytes_length 3 _),
      List.take_left' (be_bytes_length 3 _)]
  have f3 : (be_bytes 3 (min ts 0xFFFFFF) ++ be_bytes 3 mlen ++ [type] ++
      bytes_of 4 msid).getD 6 0 = type := by
    rw [be_bytes_three, be_bytes_three]; rfl
  have f4 : (be_bytes 3 (min ts 0xFFFFFF) ++ be_bytes 3 mlen ++ [type] ++
      bytes_of 4 msid).drop 7 = bytes_of 4 msid := by
    rw [be_bytes_three, be_bytes_three]; rfl
  simp only [↓reduceIte, f1, f2, f3, f4, ext_flag ts h1, be_value_be_bytes_three mlen h2,
    le_value_bytes_of_four msid h4]
  exact parse_ext ts _ mlen type msid rest h1 (be_value_be_bytes_three _ (by omega))

/-- Reading back a message header of the same-stream-id form. -/
theorem parse_message_header_same_stream (st : rtmp_stream_t) (ts mlen type msid : Nat)
    (rest : List Nat) (h1 : ts < 2 ^ 32) (h2 : mlen < 2 ^ 24) :
    parse_message_header 1 st (chunk_message_header 1 ts mlen type msid ++ rest) =
      some (ts, mlen, type, st.hdr.msid, decide (0xFFFFFF ≤ ts), rest) := by
  have e : chunk_message_header 1 ts mlen type msid ++ rest =
      (be_bytes 3 (min ts 0xFFFFFF) ++ be_bytes 3 mlen ++ [type]) ++
        (chunk_ext_timestamp ts ++ rest) := by
    simp [chunk_message_header]
  unfold parse_message_header
  rw [e, take_bytes_of_length 7 _ _ (by simp [be_bytes_length])]
  have f1 : (be_bytes 3 (min ts 0xFFFFFF) ++ be_bytes 3 mlen ++ [type]).take 3
      = be_bytes 3 (min ts 0xFFFFFF) := by
    rw [List.append_assoc, List.take_left' (be_bytes_length 3 _)]
  have f2 : ((be_bytes 3 (min ts 0xFFFFFF) ++ be_bytes 3 mlen ++ [type]).drop 3).take 3 =
      be_bytes 3 mlen := by
    rw [List.append_assoc, List.drop_left' (be_bytes_length 3 _),
      List.take_left' (be_bytes_length 3 _)]
  have f3 : (be_bytes 3 (min ts 0xFFFFFF) ++ be_bytes 3 mlen ++ [type]).getD 6 0 = type := by
    rw [be_bytes_three, be_bytes_three]; rfl
  simp only [↓reduceIte, show ¬ (1 : Nat) = 0 by decide, f1, f2, f3, ext_flag ts h1,
    be_value_be_bytes_three mlen h2]
  exact parse_ext ts _ mlen type st.hdr.msid rest h1 (be_value_be_bytes_three _ (by omega))

/-- Reading back a message header of the timestamp-delta-only form. -/
theorem parse_message_header_delta_only (st : rtmp_stream_t) (ts mlen type msid : Nat)
    (rest : List Nat) (h1 : ts < 2 ^ 32) :
    parse_message_header 2 st (chunk_message_header 2 ts mlen type msid ++ rest) =
      some (ts, st.hdr.mlen, st.hdr.type, st.hdr.msid, decide (0xFFFFFF ≤ ts), rest) := by
  have e : chunk_message_header 2 ts mlen type msid ++ rest =
      be_bytes 3 (min ts 0xFFFFFF) ++ (chunk_ext_timestamp ts ++ rest) := by
    simp [chunk_message_header]
  unfold parse_message_header
  rw [e, take_bytes_of_length 3 _ _ (be_bytes_length 3 _)]
  simp only [↓reduceIte, show ¬ (2 : Nat) = 0 by decide, show ¬ (2 : Nat) = 1 by decide,
    ext_flag ts h1]
  exact parse_ext ts _ st.hdr.mlen st.hdr.type st.hdr.msid rest h1
    (be_value_be_bytes_three _ (by omega))

/-- Reading the header of a chunk in the header-elided form, for a slot whose
extended-timestamp flag was set by a timestamp field `ts`. -/
theorem parse_message_header_elided (st : rtmp_stream_t) (ts : Nat) (rest : List Nat)
    (h1 : ts < 2 ^ 32) (hx : st.ext = decide (0xFFFFFF ≤ ts)) :
    ∃ t, parse_message_header 3 st (chunk_ext_timestamp ts ++ rest) =
      some (t, st.hdr.mlen, st.hdr.type, st.hdr.msid, st.ext, rest) := by
  unfold parse_message_header chunk_ext_timestamp
  by_cases c : 0xFFFFFF ≤ ts
  · refine ⟨ts, ?_⟩
    simp only [c, decide_True] at hx
    simp only [show ¬ (3 : Nat) = 0 by decide, show ¬ (3 : Nat) = 1 by decide,
      show ¬ (3 : Nat) = 2 by decide, ↓reduceIte, hx, c]
    rw [take_bytes_of_length 4 _ _ (be_bytes_length 4 ts)]
    simp only [be_value_be_bytes_four ts h1]
  · refine ⟨st.dtime, ?_⟩
    simp only [c, decide_False] at hx
    simp [hx, c]

theorem rtmp_chunks_nil (C : Nat) (cont : List Nat) (fuel : Nat) :
    rtmp_chunks C cont fuel [] = [] := by
  cases fuel <;> simp [rtmp_chunks]

theorem rtmp_recv_chunks_nil (fuel : Nat) (e : chunk_engine) :
    rtmp_recv_chunks fuel e [] = some e := by
  cases fuel <;> simp [rtmp_recv_chunks]

theorem chunk_basic_header_ne_nil (fmt csid : Nat) : chunk_basic_header fmt csid ≠ [] := by
  unfold chunk_basic_header
  split
  · simp
  · split <;> simp

/-- One chunk, given what its two headers read as and that the stream holds
the payload the slot still expects from this chunk. -/
theorem rtmp_recv_chunk_eq (e : chunk_engine) (bs bs1 : List Nat)
    (fmt csid ts mlen type msid : Nat) (ext : Bool) (data rest : List Nat)
    (st1 : rtmp_stream_t)
    (hb : parse_basic_header bs = some (fmt, csid, bs1))
    (hm : parse_message_header fmt (e.in_streams csid) bs1 =
      some (ts, mlen, type, msid, ext, data ++ rest))
    (hst1 : st1 =
      if (e.in_streams csid).len = 0 then
        { e.in_streams csid with
          hdr := { csid := csid,
                   timestamp :=
                     if fmt = 0 then ts else ((e.in_streams csid).hdr.timestamp + ts) % 2 ^ 32,
                   mlen := mlen, type := type, msid := msid },
          dtime := if fmt = 0 then 0 else ts,
          ext := ext }
      else e.in_streams csid)
    (hn : data.length = min (st1.hdr.mlen - st1.len) e.in_chunk_size) :
    rtmp_recv_chunk e bs =
      if st1.len + data.length = st1.hdr.mlen then
        some (rtmp_receive_message
                { e with in_streams :=
                    (Function.update e.in_streams csid { st1 with len := 0, in_ := [] }) }
                st1.hdr (st1.in_ ++ data),
              rest)
      else
        some ({ e with in_streams :=
                  (Function.update e.in_streams csid
                    { st1 with len := st1.len + data.length, in_ := st1.in_ ++ data }) },
              rest) := by
  unfold rtmp_recv_chunk
  rw [hb]
  simp only
  rw [hm]
  simp only
  rw [← hst1, ← hn, take_bytes_append]

/-- The chunks after the first: a slot that holds the first `acc.length` bytes
of a message takes the rest from the header-elided chunks and hands over the
whole message. -/
theorem rtmp_recv_chunks_cont (C csid ts : Nat) (hdr : rtmp_header_t) (d : Nat) (hC : 0 < C)
    (h1 : 2 ≤ csid) (h2 : csid < 65600) (hts : ts < 2 ^ 32) :
    ∀ (fuelE : Nat) (e : chunk_engine) (acc rest : List Nat) (fuel : Nat),
      e.in_chunk_size = C →
      e.in_streams csid =
        { hdr := hdr, dtime := d, len := acc.length, ext := decide (0xFFFFFF ≤ ts),
          in_ := acc } →
      0 < acc.length → rest ≠ [] →
      acc.length + rest.length = hdr.mlen →
      rest.length ≤ fuelE →
      (rtmp_chunks C (chunk_basic_header 3 csid ++ chunk_ext_timestamp ts) fuelE rest).length
        ≤ fuel →
      rtmp_recv_chunks fuel e
          (rtmp_chunks C (chunk_basic_header 3 csid ++ chunk_ext_timestamp ts) fuelE rest) =
        some (rtmp_receive_message
          { e with in_streams :=
              (Function.update e.in_streams csid
                { hdr := hdr, dtime := d, len := 0, ext := decide (0xFFFFFF ≤ ts),
                  in_ := [] }) }
          hdr (acc ++ rest)) := by
  intro fuelE
  induction fuelE with
  | zero =>
    intro e acc rest fuel _ _ _ hr _ hf _
    exact absurd (List.eq_nil_of_length_eq_zero (by omega)) hr
  | succ fuelE ih =>
    intro e acc rest fuel hin hslot hacc hr hlen hf hfuel
    have hch : rtmp_chunks C (chunk_basic_header 3 csid ++ chunk_ext_timestamp ts) (fuelE + 1)
        rest =
        chunk_basic_header 3 csid ++ (chunk_ext_timestamp ts ++ (rest.take C ++
          rtmp_chunks C (chunk_basic_header 3 csid ++ chunk_ext_timestamp ts) fuelE
            (rest.drop C))) := by
      rw [rtmp_chunks, if_neg hr]
      simp only [List.append_assoc]
    rw [hch] at hfuel ⊢
    have hb0 : 0 < (chunk_basic_header 3 csid).length :=
      List.length_pos.mpr (chunk_basic_header_ne_nil 3 csid)
    simp only [List.length_append] at hfuel
    obtain ⟨f, rfl⟩ : ∃ f, fuel = f + 1 := ⟨fuel - 1, by omega⟩
    rw [rtmp_recv_chunks, if_neg (by
      intro h
      have := congrArg List.length h
      simp only [List.length_append, List.length_nil] at this
      omega)]
    obtain ⟨t, hm⟩ := parse_message_header_elided (e.in_streams csid) ts
      (rest.take C ++ rtmp_chunks C (chunk_basic_header 3 csid ++ chunk_ext_timestamp ts) fuelE
        (rest.drop C)) hts (by rw [hslot])
    have hrest0 : 0 < rest.length := List.length_pos.mpr hr
    have hstep := rtmp_recv_chunk_eq e _ _ 3 csid t _ _ _ _ (rest.take C) _ (e.in_streams csid)
      (parse_basic_header_chunk 3 csid _ (by decide) h1 h2) hm
      (by rw [if_neg (by rw [hslot]; simp only; omega)])
      (by rw [hslot, hin]; simp only [List.length_take]; omega)
    rw [hstep]
    by_cases hlast : rest.length ≤ C
    · have e1 : rest.take C = rest := List.take_of_length_le hlast
      have e2 : rest.drop C = [] := List.drop_of_length_le hlast
      rw [if_pos (by rw [hslot, e1]; exact hlen)]
      simp only [e1, e2, rtmp_chunks_nil, rtmp_recv_chunks_nil, hslot]
    · have hlt : C < rest.length := by omega
      have htk : (rest.take C).length = C := by
        rw [List.length_take]; omega
      rw [if_neg (by rw [hslot, htk]; simp only; omega)]
      simp only
      have hres := ih
        { e with in_streams :=
            (Function.update e.in_streams csid
              { e.in_streams csid with
                len := (e.in_streams csid).len + (rest.take C).length,
                in_ := (e.in_streams csid).in_ ++ rest.take C }) }
        (acc ++ rest.take C) (rest.drop C) f hin
        (by
          simp only [Function.update_same, hslot, List.length_append])
        (by simp only [List.length_append]; omega)
        (by
          intro h
          have := congrArg List.length h
          simp only [List.length_drop, List.length_nil] at this
          omega)
        (by simp only [List.length_append, List.length_drop, htk]; omega)
        (by simp only [List.length_drop]; omega)
        (by simp only [htk] at hfuel; omega)
      rw [hres]
      simp only [Function.update_idem, List.append_assoc, List.take_append_drop]

/-- What the first chunk of a prepared message reads as, when the slot of the
chunk stream holds the previous header: the fields of `h`, with the length of
the payload. -/
theorem first_chunk_headers (h : rtmp_header_t) (lh : Option rtmp_header_t) (L : Nat)
    (st : rtmp_stream_t) (rest : List Nat)
    (hts : h.timestamp < 2 ^ 32) (hlen : L < 2 ^ 24) (hms : h.msid < 2 ^ 32)
    (hlh : ∀ l, lh = some l → st.hdr = l ∧ l.timestamp < 2 ^ 32) :
    header_form h L lh < 4 ∧
    timestamp_field (header_form h L lh) h lh < 2 ^ 32 ∧
    parse_message_header (header_form h L lh) st
        (chunk_message_header (header_form h L lh)
          (timestamp_field (header_form h L lh) h lh) L h.type h.msid ++ rest) =
      some (timestamp_field (header_form h L lh) h lh, L, h.type, h.msid,
        decide (0xFFFFFF ≤ timestamp_field (header_form h L lh) h lh), rest) ∧
    (if header_form h L lh = 0 then timestamp_field (header_form h L lh) h lh
     else (st.hdr.timestamp + timestamp_field (header_form h L lh) h lh) % 2 ^ 32) =
      h.timestamp := by
  cases lh with
  | none =>
    have e0 : header_form h L none = 0 := rfl
    have e1 : timestamp_field 0 h none = h.timestamp := Nat.mod_eq_of_lt hts
    rw [e0, e1]
    exact ⟨by decide, hts, parse_message_header_full st _ _ _ _ rest hts hlen hms, rfl⟩
  | some l =>
    obtain ⟨hs, hl⟩ := hlh l rfl
    by_cases c1 : l.csid = h.csid ∧ l.msid = h.msid
    · by_cases c2 : l.type = h.type ∧ l.mlen = L
      · have e0 : header_form h L (some l) = 2 := by
          simp only [header_form, c1, c2, and_self, ↓reduceIte]
        have e1 : timestamp_field 2 h (some l) =
            (h.timestamp % 2 ^ 32 + 2 ^ 32 - l.timestamp % 2 ^ 32) % 2 ^ 32 := by
          simp only [timestamp_field, show ¬ (2 : Nat) = 0 by decide, ↓reduceIte]
        rw [e0, e1]
        have hd : (h.timestamp % 2 ^ 32 + 2 ^ 32 - l.timestamp % 2 ^ 32) % 2 ^ 32 < 2 ^ 32 :=
          Nat.mod_lt _ (by decide)
        refine ⟨by decide, hd, ?_, ?_⟩
        · rw [parse_message_header_delta_only st _ _ _ _ rest hd, hs, c2.1, c2.2, c1.2]
        · rw [if_neg (by decide), hs]
          omega
      · have e0 : header_form h L (some l) = 1 := by
          simp only [header_form, c1, c2, and_self, ↓reduceIte]
        have e1 : timestamp_field 1 h (some l) =
            (h.timestamp % 2 ^ 32 + 2 ^ 32 - l.timestamp % 2 ^ 32) % 2 ^ 32 := by
          simp only [timestamp_field, show ¬ (1 : Nat) = 0 by decide, ↓reduceIte]
        rw [e0, e1]
        have hd : (h.timestamp % 2 ^ 32 + 2 ^ 32 - l.timestamp % 2 ^ 32) % 2 ^ 32 < 2 ^ 32 :=
          Nat.mod_lt _ (by decide)
        refine ⟨by decide, hd, ?_, ?_⟩
        · rw [parse_message_header_same_stream st _ _ _ _ rest hd hlen, hs, c1.2]
        · rw [if_neg (by decide), hs]
          omega
    · have e0 : header_form h L (some l) = 0 := by
        simp only [header_form, c1, ↓reduceIte]
      have e1 : timestamp_field 0 h (some l) = h.timestamp := by
        simp only [timestamp_field, ↓reduceIte]
        exact Nat.mod_eq_of_lt hts
      rw [e0, e1]
      exact ⟨by decide, hts, parse_message_header_full st _ _ _ _ rest hts hlen hms, rfl⟩

/-- C23: a message of any length `L` below 2^24 (so also 0, `C - 1`, `C`,
`C + 1` and 10000), prepared with `rtmp_prepare_message` for the chunk size
`C ≥ 1` and sent, is read back by an engine with the same chunk size whose
slot for the chunk stream is idle and holds the previous header: the engine
uses up the bytes and hands over exactly one more message, with the header `h`
(its length field being `L`) and the payload `out`, and the slot is idle
again.  -/
theorem rtmp_chunk_round_trip (C : Nat) (h : rtmp_header_t) (lh : Option rtmp_header_t)
    (out : List Nat) (e : chunk_engine)
    (hC : 0 < C) (hin : e.in_chunk_size = C)
    (hcs1 : 2 ≤ h.csid) (hcs2 : h.csid < 65600)
    (hts : h.timestamp < 2 ^ 32) (hlen : out.length < 2 ^ 24) (hms : h.msid < 2 ^ 32)
    (hidle : (e.in_streams h.csid).len = 0 ∧ (e.in_streams h.csid).in_ = [])
    (hlh : ∀ l, lh = some l → (e.in_streams h.csid).hdr = l ∧ l.timestamp < 2 ^ 32) :
    ∃ e1, rtmp_recv e (rtmp_send_message [] (rtmp_prepare_message C h lh out)) = some e1 ∧
      e1.received = e.received ++ [({ h with mlen := out.length }, out)] ∧
      (e1.received.getLast?.map (fun m => m.2.length)) = some out.length ∧
      (e1.in_streams h.csid).hdr = { h with mlen := out.length } ∧
      (e1.in_streams h.csid).len = 0 ∧ (e1.in_streams h.csid).in_ = [] ∧
      e1.in_chunk_size = C ∧
      ∀ c, c ≠ h.csid → e1.in_streams c = e.in_streams c := by
  have hrecv : ∀ (bs : List Nat) (e1 : chunk_engine),
      (∀ fuel, bs.length ≤ fuel + 1 → bs ≠ [] →
        rtmp_recv_chunks (fuel + 1) e bs = some e1) → bs ≠ [] → rtmp_recv e bs = some e1 := by
    intro bs e1 hf hne
    unfold rtmp_recv
    have hpos : 0 < bs.length := List.length_pos.mpr hne
    obtain ⟨f, hfe⟩ : ∃ f, bs.length = f + 1 := ⟨bs.length - 1, by omega⟩
    rw [hfe]
    exact hf f (by omega) hne
  generalize hst : e.in_streams h.csid = st at hidle hlh
  obtain ⟨q1, q2, q3, q4⟩ := first_chunk_headers h lh out.length st
    (out.take C ++ rtmp_chunks C
      (chunk_basic_header 3 h.csid ++
        chunk_ext_timestamp (timestamp_field (header_form h out.length lh) h lh)) out.length
      (out.drop C)) hts hlen hms hlh
  generalize hfm : header_form h out.length lh = fmt at q1 q2 q3 q4
  generalize htf : timestamp_field fmt h lh = ts at q2 q3 q4
  have hbs : rtmp_send_message [] (rtmp_prepare_message C h lh out) =
      chunk_basic_header fmt h.csid ++
        (chunk_message_header fmt ts out.length h.type h.msid ++
          (out.take C ++ rtmp_chunks C (chunk_basic_header 3 h.csid ++ chunk_ext_timestamp ts)
            out.length (out.drop C))) := by
    simp only [rtmp_send_message, rtmp_prepare_message, List.nil_append, hfm, htf,
      List.append_assoc]
  rw [hbs]
  have hb0 : 0 < (chunk_basic_header fmt h.csid).length :=
    List.length_pos.mpr (chunk_basic_header_ne_nil fmt h.csid)
  have hne : chunk_basic_header fmt h.csid ++
      (chunk_message_header fmt ts out.length h.type h.msid ++
        (out.take C ++ rtmp_chunks C (chunk_basic_header 3 h.csid ++ chunk_ext_timestamp ts)
          out.length (out.drop C))) ≠ [] := by
    intro hnil
    have := congrArg List.length hnil
    simp only [List.length_append, List.length_nil] at this
    omega
  have hstep := rtmp_recv_chunk_eq e _ _ fmt h.csid ts out.length h.type h.msid
    (decide (0xFFFFFF ≤ ts)) (out.take C)
    (rtmp_chunks C (chunk_basic_header 3 h.csid ++ chunk_ext_timestamp ts) out.length
      (out.drop C))
    { st with
      hdr := { csid := h.csid, timestamp := h.timestamp, mlen := out.length, type := h.type,
               msid := h.msid },
      dtime := if fmt = 0 then 0 else ts,
      ext := decide (0xFFFFFF ≤ ts) }
    (parse_basic_header_chunk fmt h.csid _ q1 hcs1 hcs2) (by rw [hst]; exact q3)
    (by rw [hst, if_pos hidle.1, q4])
    (by simp only [hidle.1, hin, List.length_take]; omega)
  simp only [hidle.1, hidle.2, List.nil_append, Nat.zero_add] at hstep
  have hfin : ∀ eF : chunk_engine,
      eF = rtmp_receive_message
        { e with in_streams :=
            (Function.update e.in_streams h.csid
              { hdr := { csid := h.csid, timestamp := h.timestamp, mlen := out.length,
                         type := h.type, msid := h.msid },
                dtime := if fmt = 0 then 0 else ts, len := 0,
                ext := decide (0xFFFFFF ≤ ts), in_ := [] }) }
        { csid := h.csid, timestamp := h.timestamp, mlen := out.length, type := h.type,
          msid := h.msid } out →
      eF.received = e.received ++ [({ h with mlen := out.length }, out)] ∧
      (eF.received.getLast?.map (fun m => m.2.length)) = some out.length ∧
      (eF.in_streams h.csid).hdr = { h with mlen := out.length } ∧
      (eF.in_streams h.csid).len = 0 ∧ (eF.in_streams h.csid).in_ = [] ∧
      eF.in_chunk_size = C ∧
      ∀ c, c ≠ h.csid → eF.in_streams c = e.in_streams c := by
    intro eF hF
    subst hF
    refine ⟨rfl, ?_, ?_, ?_, ?_, hin, ?_⟩
    · simp [rtmp_receive_message]
    · simp only [rtmp_receive_message, Function.update_same]
    · simp only [rtmp_receive_message, Function.update_same]
    · simp only [rtmp_receive_message, Function.update_same]
    · intro c hc
      simp only [rtmp_receive_message, Function.update_noteq hc]
  by_cases hone : out.length ≤ C
  · have e1 : out.take C = out := List.take_of_length_le hone
    have e2 : out.drop C = [] := List.drop_of_length_le hone
    rw [e1, e2, rtmp_chunks_nil] at hstep hne ⊢
    rw [if_pos rfl] at hstep
    refine ⟨_, hrecv _ _ (fun fuel _ hn => ?_) hne, hfin _ rfl⟩
    rw [rtmp_recv_chunks, if_neg hn, hstep]
    simp only [rtmp_recv_chunks_nil]
  · have hlt : C < out.length := by omega
    have htk : (out.take C).length = C := by rw [List.length_take]; omega
    rw [if_neg (by rw [htk]; omega)] at hstep
    have hcont := rtmp_recv_chunks_cont C h.csid ts
      { csid := h.csid, timestamp := h.timestamp, mlen := out.length, type := h.type,
        msid := h.msid }
      (if fmt = 0 then 0 else ts) hC hcs1 hcs2 q2 out.length
      { e with in_streams :=
          (Function.update e.in_streams h.csid
            { hdr := { csid := h.csid, timestamp := h.timestamp, mlen := out.length,
                       type := h.type, msid := h.msid },
              dtime := if fmt = 0 then 0 else ts,
              len := (out.take C).length,
              ext := decide (0xFFFFFF ≤ ts),
              in_ := out.take C }) }
      (out.take C) (out.drop C)
    refine ⟨_, hrecv _ _ (fun fuel hfl hn => ?_) hne, hfin _ rfl⟩
    rw [rtmp_recv_chunks, if_neg hn, hstep]
    simp only
    have hc2 := hcont fuel hin (by simp only [Function.update_same]) (by omega)
      (by
        intro hnil
        have := congrArg List.length hnil
        simp only [List.length_drop, List.length_nil] at this
        omega)
      (by simp only [htk, List.length_drop]; omega)
      (by simp only [List.length_drop]; omega)
      (by
        simp only [List.length_append] at hfl
        omega)
    rw [hc2]
    simp only [Function.update_idem, List.take_append_drop]

theorem rtmp_chunk_round_trip_witness :
    ∃ e1,
      rtmp_recv sample_engine
        (rtmp_send_message []
          (rtmp_prepare_message 128 ⟨3, 1000, 129, 20, 1⟩ none (List.replicate 129 7))) =
        some e1 ∧
      e1.received = sample_engine.received ++
        [({ (⟨3, 1000, 129, 20, 1⟩ : rtmp_header_t) with
            mlen := (List.replicate 129 7).length }, List.replicate 129 7)] ∧
      (e1.received.getLast?.map (fun m => m.2.length)) = some (List.replicate 129 7).length ∧
      (e1.in_streams (⟨3, 1000, 129, 20, 1⟩ : rtmp_header_t).csid).hdr =
        { (⟨3, 1000, 129, 20, 1⟩ : rtmp_header_t) with mlen := (List.replicate 129 7).length } ∧
      (e1.in_streams (⟨3, 1000, 129, 20, 1⟩ : rtmp_header_t).csid).len = 0 ∧
      (e1.in_streams (⟨3, 1000, 129, 20, 1⟩ : rtmp_header_t).csid).in_ = [] ∧
      e1.in_chunk_size = 128 ∧
      ∀ c, c ≠ (⟨3, 1000, 129, 20, 1⟩ : rtmp_header_t).csid →
        e1.in_streams c = sample_engine.in_streams c :=
  rtmp_chunk_round_trip 128 ⟨3, 1000, 129, 20, 1⟩ none (List.replicate 129 7) sample_engine
    (by decide) rfl (by decide) (by decide) (by decide)
    (by rw [List.length_replicate]; decide) (by decide) ⟨rfl, rfl⟩
    (fun l hl => by cases hl)

/-- C24: when the previous header `lh` of the chunk stream has the chunk stream
id, the message stream id, the type and the length of the message to prepare,
`rtmp_prepare_message` gives the first chunk the timestamp-delta-only form:
the header-size selector in the top two bits of the first byte is 2, not 0,
and the chunk starts with the basic header and the three bytes of the
timestamp delta (followed by the extended timestamp when the delta needs
it), then the payload. -/
theorem rtmp_prepare_message_delta_only (C : Nat) (h l : rtmp_header_t) (out : List Nat)
    (hcs1 : 2 ≤ h.csid) (hcs2 : h.csid < 65600)
    (h1 : l.csid = h.csid) (h2 : l.msid = h.msid) (h3 : l.type = h.type)
    (h4 : l.mlen = out.length) :
    header_form h out.length (some l) = 2 ∧
    (∃ b rest, rtmp_prepare_message C h (some l) out = b :: rest ∧ b / 64 = 2) ∧
    ∃ tail, rtmp_prepare_message C h (some l) out =
      chunk_basic_header 2 h.csid ++
        be_bytes 3 (min ((h.timestamp % 2 ^ 32 + 2 ^ 32 - l.timestamp % 2 ^ 32) % 2 ^ 32)
          0xFFFFFF) ++
        chunk_ext_timestamp ((h.timestamp % 2 ^ 32 + 2 ^ 32 - l.timestamp % 2 ^ 32) % 2 ^ 32) ++
        out.take C ++ tail := by
  have e0 : header_form h out.length (some l) = 2 := by
    simp only [header_form, h1, h2, h3, h4, and_self, ↓reduceIte]
  have e1 : timestamp_field 2 h (some l) =
      (h.timestamp % 2 ^ 32 + 2 ^ 32 - l.timestamp % 2 ^ 32) % 2 ^ 32 := by
    simp only [timestamp_field, show ¬ (2 : Nat) = 0 by decide, ↓reduceIte]
  have e2 : ∀ ts mlen type msid, chunk_message_header 2 ts mlen type msid =
      be_bytes 3 (min ts 0xFFFFFF) ++ chunk_ext_timestamp ts := by
    intro ts mlen type msid
    simp only [chunk_message_header, show ¬ (2 : Nat) = 0 by decide,
      show ¬ (2 : Nat) = 1 by decide, ↓reduceIte]
  refine ⟨e0, ?_, ?_⟩
  · unfold rtmp_prepare_message
    simp only [e0, e1]
    unfold chunk_basic_header
    by_cases c1 : h.csid < 64
    · rw [if_pos c1]
      exact ⟨_, _, by simp only [List.singleton_append, List.cons_append]; rfl, by omega⟩
    · rw [if_neg c1]
      by_cases c2 : h.csid < 320
      · rw [if_pos c2]
        exact ⟨_, _, by simp only [List.cons_append]; rfl, by omega⟩
      · rw [if_neg c2]
        exact ⟨_, _, by simp only [List.cons_append]; rfl, by omega⟩
  · refine ⟨rtmp_chunks C
      (chunk_basic_header 3 h.csid ++ chunk_ext_timestamp
        ((h.timestamp % 2 ^ 32 + 2 ^ 32 - l.timestamp % 2 ^ 32) % 2 ^ 32)) out.length
      (out.drop C), ?_⟩
    unfold rtmp_prepare_message
    simp only [e0, e1, e2, List.append_assoc]

theorem rtmp_prepare_message_delta_only_witness :
    header_form ⟨3, 1040, 4, 9, 1⟩ [1, 2, 3, 4].length (some ⟨3, 1000, 4, 9, 1⟩) = 2 ∧
    (∃ b rest,
      rtmp_prepare_message 128 ⟨3, 1040, 4, 9, 1⟩ (some ⟨3, 1000, 4, 9, 1⟩) [1, 2, 3, 4] =
        b :: rest ∧ b / 64 = 2) ∧
    ∃ tail,
      rtmp_prepare_message 128 ⟨3, 1040, 4, 9, 1⟩ (some ⟨3, 1000, 4, 9, 1⟩) [1, 2, 3, 4] =
        chunk_basic_header 2 (⟨3, 1040, 4, 9, 1⟩ : rtmp_header_t).csid ++
          be_bytes 3
            (min (((⟨3, 1040, 4, 9, 1⟩ : rtmp_header_t).timestamp % 2 ^ 32 + 2 ^ 32 -
              (⟨3, 1000, 4, 9, 1⟩ : rtmp_header_t).timestamp % 2 ^ 32) % 2 ^ 32) 0xFFFFFF) ++
          chunk_ext_timestamp
            (((⟨3, 1040, 4, 9, 1⟩ : rtmp_header_t).timestamp % 2 ^ 32 + 2 ^ 32 -
              (⟨3, 1000, 4, 9, 1⟩ : rtmp_header_t).timestamp % 2 ^ 32) % 2 ^ 32) ++
          [1, 2, 3, 4].take 128 ++ tail :=
  rtmp_prepare_message_delta_only 128 ⟨3, 1040, 4, 9, 1⟩ ⟨3, 1000, 4, 9, 1⟩ [1, 2, 3, 4]
    (by decide) (by decide) rfl rfl rfl rfl

/-- The bytes of that second message: selector 2 with csid 3, the delta 40 in
three bytes, the payload. -/
theorem rtmp_prepare_message_delta_only_bytes :
    rtmp_prepare_message 128 ⟨3, 1040, 4, 9, 1⟩ (some ⟨3, 1000, 4, 9, 1⟩) [1, 2, 3, 4] =
      [131, 0, 0, 40, 1, 2, 3, 4] ∧
    rtmp_prepare_message 128 ⟨3, 1000, 4, 9, 1⟩ none [1, 2, 3, 4] =
      [3, 0, 3, 232, 0, 0, 4, 9, 1, 0, 0, 0, 1, 2, 3, 4] := by
  constructor <;> decide

/-! ### A second `rtmp_finalize_session` -/

theorem destroy_blocks_live_subset (l : List rtmp_pool_s) :
    ∀ (w : world) (r : Nat × Nat),
      r ∈ (l.foldl (fun w p => free p.addr w) w).live → r ∈ w.live := by
  induction l with
  | nil => intro w r h; exact h
  | cons a l ih =>
    intro w r h
    have h2 := ih (free a.addr w) r h
    simp only [free, world.log, List.mem_filter] at h2
    exact h2.1

theorem destroy_blocks_not_live (l : List rtmp_pool_s) :
    ∀ (w : world) (b : rtmp_pool_s), b ∈ l →
      ∀ r ∈ (l.foldl (fun w p => free p.addr w) w).live, r.1 ≠ b.addr := by
  induction l with
  | nil => intro w b hb; cases hb
  | cons a l ih =>
    intro w b hb r hr
    rcases List.mem_cons.mp hb with h | h
    · subst h
      have h2 := destroy_blocks_live_subset l (free b.addr w) r hr
      simp only [free, world.log, List.mem_filter, decide_eq_true_eq] at h2
      exact h2.2
    · exact ih (free a.addr w) b h r hr

/-- After `rtmp_destroy_pool` no block of the pool is a live allocation. -/
theorem rtmp_destroy_pool_not_live (pool : rtmp_pool_t) (w : world) (b : rtmp_pool_s)
    (hb : b ∈ pool.blk :: pool.next) :
    ∀ r ∈ (rtmp_destroy_pool pool w).live, r.1 ≠ b.addr :=
  destroy_blocks_not_live _ w b hb

theorem invalid_free_skip (live : List Nat) (e : effect) (t : List effect)
    (h : e.is_heap = false) : invalid_free live (e :: t) = invalid_free live t := by
  cases e <;> simp_all [effect.is_heap, invalid_free]

/-- C6 (the code departs from the claim): a session that points to its
connection, with the socket open and a pool `s->in_pool`. The first
`rtmp_finalize_session` calls `close` once, leaves `fd = -1` and
`destroyed = 1`, and frees the blocks of `s->in_pool`: the first block, in
which `rtmp_init_session` has placed the session struct itself, is no live
allocation afterwards. The function tests `s == NULL` and nothing else,
`destroyed` in particular not, so a second call goes through the same
statements on the struct as the first call left it: it fires `RTMP_DISCONNECT`
and hands the same pool to `rtmp_destroy_pool`, whose first `free` is given the
block that is already freed. C defines nothing about a call that reads the
freed struct and frees the block again, so the second call cannot be said to
leave the connection as it was. Last part: the guard the claim describes is
there in `rtmp_close_connection`, whose second call does nothing. -/
theorem rtmp_finalize_session_twice_frees_twice (m : machine) (s : rtmp_session_t)
    (pool : rtmp_pool_t)
    (h : m.s = some s) (hc : s.connection = true) (hfd : m.c.fd ≠ -1)
    (hp : s.in_pool = some pool) :
    (∃ m1 m2, rtmp_finalize_session m = some m1 ∧
      (new_effects m.w m1.w).countP effect.is_close = 1 ∧
      m1.c.fd = -1 ∧ m1.c.destroyed = true ∧
      effect.free pool.blk.addr ∈ new_effects m.w m1.w ∧
      (∀ r ∈ m1.w.live, r.1 ≠ pool.blk.addr) ∧
      rtmp_finalize_session m1 = some m2 ∧
      effect.fire_event RTMP_DISCONNECT ∈ new_effects m1.w m2.w ∧
      effect.free pool.blk.addr ∈ new_effects m1.w m2.w ∧
      invalid_free (m1.w.live.map Prod.fst) (new_effects m1.w m2.w) = true) ∧
    (∀ w : world,
      (rtmp_close_connection m.c w).1.fd = -1 ∧
      (rtmp_close_connection m.c w).1.destroyed = true ∧
      (new_effects w (rtmp_close_connection m.c w).2).countP effect.is_close = 1 ∧
      rtmp_close_connection (rtmp_close_connection m.c w).1 (rtmp_close_connection m.c w).2 =
        rtmp_close_connection m.c w) := by
  constructor
  · obtain ⟨m1, es, fs, e1, e2, e3, e4, e5, e6, _, e8⟩ := rtmp_finalize_session_spec m s h
    obtain ⟨m2, es2, fs2, f1, _, _, f4, _, _, f7, f8⟩ := rtmp_finalize_session_spec m1 _ e2
    have c1 := rtmp_close_connection_fd m.c
      ((m.w.log .finalize_session).log (.fire_event RTMP_DISCONNECT))
    rw [if_pos hc] at e3
    have hm1fd : m1.c.fd = -1 := by rw [e3]; exact c1.1
    have hm1d : m1.c.destroyed = true := by rw [e3]; exact c1.2
    have hes2 : es2 = [] := f7 (Or.inr hm1fd)
    have hfs : fs = .free pool.blk.addr :: pool.next.map (fun b => effect.free b.addr) := by
      rw [e8, hp]; rfl
    have hfs2 : fs2 = .free pool.blk.addr :: pool.next.map (fun b => effect.free b.addr) := by
      rw [f8]
      simp only [hp]
      rfl
    have hlive : ∀ r ∈ m1.w.live, r.1 ≠ pool.blk.addr := by
      have e := rtmp_finalize_session_eq m s h
      rw [e1] at e
      have e' := Option.some.inj e
      rw [e']
      simp only [hp]
      exact rtmp_destroy_pool_not_live pool _ pool.blk (by simp)
    have hn1 := new_effects_of_append m.w m1.w _
      (by rw [e4, List.append_assoc, List.append_assoc])
    have hn2 := new_effects_of_append m1.w m2.w _
      (by rw [f4, List.append_assoc, List.append_assoc])
    refine ⟨m1, m2, e1, ?_, hm1fd, hm1d, ?_, hlive, f1, ?_, ?_, ?_⟩
    · rw [hn1]
      simp [List.countP_append, e6, hc, hfd,
        countP_is_close_of_heap fs (e8 ▸ pool_frees_is_heap _), effect.is_close,
        List.countP_cons]
    · rw [hn1, hfs]; simp
    · rw [hn2]; simp
    · rw [hn2, hfs2]; simp
    · rw [hn2, hes2, hfs2]
      have hnot : pool.blk.addr ∉ m1.w.live.map Prod.fst := by
        intro hin
        obtain ⟨r, hr, hra⟩ := List.mem_map.mp hin
        exact hlive r hr hra
      simp [invalid_free, hnot]
  · intro w
    have c1 := rtmp_close_connection_fd m.c w
    obtain ⟨es, t1, _, t3, _⟩ := rtmp_close_connection_trace m.c w
    refine ⟨c1.1, c1.2, ?_, ?_⟩
    · rw [new_effects_of_append _ _ _ t1, t3]; simp [hfd]
    · rw [rtmp_close_connection_closed _ _ c1.1 c1.2]

/-- Witness of C6: the sample session while it waits for C0 and C1; its socket
is 7 and the first block of its pool is at 69648. -/
theorem rtmp_finalize_session_twice_frees_twice_witness :
    (∃ m1 m2,
      rtmp_finalize_session
        { c := sample_connection_waiting, s := some sample_session,
          w := sample_world_waiting [] [] [] } = some m1 ∧
      (new_effects (sample_world_waiting [] [] []) m1.w).countP effect.is_close = 1 ∧
      m1.c.fd = -1 ∧ m1.c.destroyed = true ∧
      effect.free 69648 ∈ new_effects (sample_world_waiting [] [] []) m1.w ∧
      (∀ r ∈ m1.w.live, r.1 ≠ 69648) ∧
      rtmp_finalize_session m1 = some m2 ∧
      effect.fire_event RTMP_DISCONNECT ∈ new_effects m1.w m2.w ∧
      effect.free 69648 ∈ new_effects m1.w m2.w ∧
      invalid_free (m1.w.live.map Prod.fst) (new_effects m1.w m2.w) = true) ∧
    (∀ w : world,
      (rtmp_close_connection sample_connection_waiting w).1.fd = -1 ∧
      (rtmp_close_connection sample_connection_waiting w).1.destroyed = true ∧
      (new_effects w (rtmp_close_connection sample_connection_waiting w).2).countP
        effect.is_close = 1 ∧
      rtmp_close_connection (rtmp_close_connection sample_connection_waiting w).1
          (rtmp_close_connection sample_connection_waiting w).2 =
        rtmp_close_connection sample_connection_waiting w) :=
  rtmp_finalize_session_twice_frees_twice
    { c := sample_connection_waiting, s := some sample_session,
      w := sample_world_waiting [] [] [] } sample_session
    { blk := { addr := 69648, last := 73224, end_ := 73744, size := 4096 },
      next := [{ addr := 75312, last := 75352, end_ := 79408, size := 4096 }] }
    rfl rfl (by decide) rfl

/-- Where `rtmp_init_session` places the session: the `rtmp_pcalloc` that
returns `s` is served from the first block of the pool just created, the pool
that becomes `s->in_pool`. -/
theorem rtmp_init_session_struct_in_pool (w w1 : world) (pool : rtmp_pool_t)
    (h : rtmp_create_pool 4096 w = (some pool, w1)) :
    ∃ p pool2,
      rtmp_pool_calloc pool (sizeof_rtmp_session_t + sizeof_ptr * 64) w1 =
        (some p, pool2,
          { w1 with
            mem := (mem_write w1.mem p
              (List.replicate (sizeof_rtmp_session_t + sizeof_ptr * 64) 0)) }) ∧
      pool.blk.addr ≤ p ∧ p + (sizeof_rtmp_session_t + sizeof_ptr * 64) ≤ pool.blk.end_ ∧
      pool2.blk.addr = pool.blk.addr := by
  unfold rtmp_create_pool at h
  simp only [RTMP_DEFAULT_POOL_SIZE, lt_self_iff_false, ↓reduceIte] at h
  rcases hm : malloc 4096 w with ⟨_ | a, w'⟩
  · rw [hm] at h; simp at h
  · rw [hm] at h
    simp only [Prod.mk.injEq, Option.some.injEq] at h
    obtain ⟨hpool, -⟩ := h
    subst hpool
    have hsz : size_t_of (((a + 4096 : Nat) : Int) - ((a + sizeof_rtmp_pool_t : Nat) : Int))
        = 4056 := by
      unfold size_t_of sizeof_rtmp_pool_t
      omega
    have hm16 : (a + sizeof_rtmp_pool_t + (RTMP_POOL_ALIGNMENT - 1)) / RTMP_POOL_ALIGNMENT *
        RTMP_POOL_ALIGNMENT ≤ a + 55 ∧
        a + 40 ≤ (a + sizeof_rtmp_pool_t + (RTMP_POOL_ALIGNMENT - 1)) / RTMP_POOL_ALIGNMENT *
          RTMP_POOL_ALIGNMENT := by
      unfold sizeof_rtmp_pool_t RTMP_POOL_ALIGNMENT
      omega
    generalize hM : (a + sizeof_rtmp_pool_t + (RTMP_POOL_ALIGNMENT - 1)) / RTMP_POOL_ALIGNMENT *
        RTMP_POOL_ALIGNMENT = M at hm16
    have hsz2 : size_t_of (((a + 4096 : Nat) : Int) - (M : Int)) ≥ 928 := by
      unfold size_t_of
      omega
    refine ⟨M, { blk := { addr := a, last := M + 928, end_ := a + 4096, size := 4096 },
                  next := [] }, ?_, ?_, ?_, ?_⟩
    · unfold rtmp_pool_calloc rtmp_pool_alloc rtmp_palloc_small
      simp only [hsz, hM, sizeof_rtmp_session_t, sizeof_ptr]
      rw [if_pos (by omega)]
      rw [if_pos hsz2]
    · simp only; omega
    · simp only [sizeof_rtmp_session_t, sizeof_ptr]; omega
    · rfl

/-! ### C0 and C1 over any number of read events -/

theorem rtmp_unix_recv_served (buf size : Nat) (w : world)
    (hok : rx_delivers w.rx) (hsz : 0 < size) (hwl : 0 < w.wire.length) :
    (rtmp_unix_recv buf size w).1 ≠ RTMP_ERROR ∧ (rtmp_unix_recv buf size w).1 ≠ 0 ∧
    rx_delivers (rtmp_unix_recv buf size w).2.rx ∧
    ((rtmp_unix_recv buf size w).1 = RTMP_AGAIN →
      (w.rx = [] ∧ (rtmp_unix_recv buf size w).2.rx = []) ∨
      w.rx = .eagain :: (rtmp_unix_recv buf size w).2.rx) ∧
    ((rtmp_unix_recv buf size w).1 ≠ RTMP_AGAIN →
      ∃ k n : Nat, w.rx = .bytes k :: (rtmp_unix_recv buf size w).2.rx ∧
        (rtmp_unix_recv buf size w).1 = (n : Int) ∧ 0 < n ∧
        n = min (min k size) w.wire.length ∧
        (rtmp_unix_recv buf size w).2.wire.length = w.wire.length - n) := by
  unfold rtmp_unix_recv
  split
  · rename_i hrx
    refine ⟨by simp [RTMP_AGAIN, RTMP_ERROR], by simp [RTMP_AGAIN], ?_, ?_, ?_⟩
    · simp only [world.log]; rw [hrx]; intro x hx; cases hx
    · intro _; left; exact ⟨hrx, by simp only [world.log]; exact hrx⟩
    · intro h; exact absurd rfl h
  · rename_i rest hrx
    refine ⟨by simp [RTMP_AGAIN, RTMP_ERROR], by simp [RTMP_AGAIN], ?_, ?_, ?_⟩
    · simp only [world.log]
      intro x hx
      exact hok x (by rw [hrx]; exact List.mem_cons_of_mem _ hx)
    · intro _; right; simp only [world.log]; exact hrx
    · intro h; exact absurd rfl h
  · rename_i rest hrx
    exfalso
    rcases hok .fail (by rw [hrx]; simp) with h | ⟨k, _, h⟩ <;> cases h
  · rename_i k rest hrx
    have hk : 0 < k := by
      rcases hok (.bytes k) (by rw [hrx]; simp) with h | ⟨k', hk', h⟩
      · cases h
      · cases h; exact hk'
    have hl : (List.take (min k size) w.wire).length = min (min k size) w.wire.length := by
      simp
    dsimp only
    rw [if_neg (by rw [hl]; omega)]
    refine ⟨?_, ?_, ?_, ?_, ?_⟩
    · simp only [RTMP_ERROR]; omega
    · simp only; omega
    · simp only [world.log]
      intro x hx
      exact hok x (by rw [hrx]; exact List.mem_cons_of_mem _ hx)
    · intro h
      exfalso
      simp only [RTMP_AGAIN] at h
      omega
    · intro _
      refine ⟨k, min (min k size) w.wire.length, ?_, ?_, by omega, rfl, ?_⟩
      · simp only [world.log]; exact hrx
      · simp only [hl]
      · simp only [world.log, List.length_drop, hl]

theorem bytes_offered_cons_bytes (k : Nat) (t : List os_io) :
    bytes_offered (.bytes k :: t) = k + bytes_offered t := rfl

theorem recv_served_arith (last start end_ k n wl off : Nat) (h1 : start ≤ last)
    (h2 : end_ = start + 1537) (hlt : last - start < 1537)
    (e4 : n = min (min k (end_ - last)) wl)
    (h4 : 1537 ≤ (last - start) + (k + off)) (h5 : 1537 ≤ last - start + wl) :
    1537 ≤ (last + n - start) + off ∧ 1537 ≤ (last + n - start) + (wl - n) := by
  omega

/-- The receive loop on a socket that lets the rest of C0 and C1 arrive: it
does not end on an error; when it stops on `EAGAIN` it has used up one `EAGAIN`
of the script; and what is still offered is enough for the rest. -/
theorem rtmp_handshake_recv_loop_served (b : rtmp_buf_t) (w : world) :
    b.start ≤ b.last → b.end_ = b.start + 1537 →
    rx_delivers w.rx →
    1537 ≤ (b.last - b.start) + bytes_offered w.rx →
    1537 ≤ (b.last - b.start) + w.wire.length →
    (rtmp_handshake_recv_loop 1537 b w).1 ≠ .finalize ∧
    rx_delivers (rtmp_handshake_recv_loop 1537 b w).2.2.rx ∧
    1537 ≤ ((rtmp_handshake_recv_loop 1537 b w).2.1.last - b.start) +
      bytes_offered (rtmp_handshake_recv_loop 1537 b w).2.2.rx ∧
    ((rtmp_handshake_recv_loop 1537 b w).1 = .again →
      (rtmp_handshake_recv_loop 1537 b w).2.2.rx.count .eagain < w.rx.count .eagain) := by
  induction b, w using rtmp_handshake_recv_loop.induct 1537 with
  | case1 b w hlt n w1 hs hn =>
    intro h1 h2 h3 h4 h5
    exfalso
    have hsz : size_t_of ((b.end_ : Int) - b.last) = b.end_ - b.last :=
      size_t_of_sub _ _ (by omega) (by omega)
    have sp := rtmp_unix_recv_served b.last (size_t_of ((b.end_ : Int) - b.last)) w h3
      (by rw [hsz]; omega) (by omega)
    rw [hs] at sp
    rcases hn with h | h
    · exact sp.1 h
    · exact sp.2.1 h
  | case2 b w hlt w1 hs hn =>
    intro h1 h2 h3 h4 h5
    have hsz : size_t_of ((b.end_ : Int) - b.last) = b.end_ - b.last :=
      size_t_of_sub _ _ (by omega) (by omega)
    have sp := rtmp_unix_recv_served b.last (size_t_of ((b.end_ : Int) - b.last)) w h3
      (by rw [hsz]; omega) (by omega)
    rw [hs] at sp
    obtain ⟨-, -, s3, s4, -⟩ := sp
    rw [rtmp_handshake_recv_loop]
    simp only [hlt, ↓reduceIte, hs, hn]
    rcases s4 rfl with ⟨e1, e2⟩ | e1
    · exfalso
      rw [e1] at h4
      simp only [bytes_offered] at h4
      omega
    · dsimp only at e1 s3
      refine ⟨by simp, s3, ?_, ?_⟩
      · rw [e1] at h4
        simpa [bytes_offered] using h4
      · intro _
        rw [e1]
        simp
  | case3 b w hlt n w1 hs hn hna ih =>
    intro h1 h2 h3 h4 h5
    have hlt' : b.last - b.start < 1537 := by omega
    have hsz : size_t_of ((b.end_ : Int) - b.last) = b.end_ - b.last :=
      size_t_of_sub _ _ (by omega) (by omega)
    have sp := rtmp_unix_recv_served b.last (size_t_of ((b.end_ : Int) - b.last)) w h3
      (by rw [hsz]; omega) (by omega)
    rw [hs] at sp
    obtain ⟨-, -, s3, -, s5⟩ := sp
    obtain ⟨k, n', e1, e2, e3, e4, e5⟩ := s5 hna
    clear s5
    dsimp only at e1 e2 e5 s3
    rw [hsz] at e4
    have hl : ((b.last : Int) + n).toNat = b.last + n' := by omega
    rw [rtmp_handshake_recv_loop]
    simp only [hlt, ↓reduceIte, hs, hn, hna]
    rw [e1, bytes_offered_cons_bytes] at h4
    have har := recv_served_arith b.last b.start b.end_ k n' w.wire.length
      (bytes_offered w1.rx) h1 h2 hlt' e4 h4 h5
    have := ih (by simp only [hl]; omega) h2 s3
      (by simp only [hl]; exact har.1) (by simp only [hl]; rw [e5]; exact har.2)
    simp only [hl] at this ⊢
    obtain ⟨i1, i2, i3, i4⟩ := this
    refine ⟨i1, i2, i3, ?_⟩
    intro ha
    have := i4 ha
    rw [e1]
    simpa using this
  | case4 b w hlt =>
    intro h1 h2 h3 h4 h5
    rw [rtmp_handshake_recv_loop]
    simp only [hlt, ↓reduceIte]
    exact ⟨by simp, h3, h4, by simp⟩

theorem del_event_if_active_wire (ev : rtmp_event_t) (fd : Int) (w : world) :
    (del_event_if_active ev fd w).2.wire = w.wire := by
  unfold del_event_if_active
  split
  · unfold rtmp_del_event epoll_ctl
    split
    · rfl
    · dsimp only
      split <;> rfl
  · rfl

theorem rtmp_close_connection_wire (c : rtmp_connection_t) (w : world) :
    (rtmp_close_connection c w).2.wire = w.wire := by
  unfold rtmp_close_connection
  split
  · simp only [world.log]
    rw [del_event_if_active_wire, del_event_if_active_wire]
  · rfl

/-- The function `rtmp_finalize_session` takes nothing from the wire. -/
theorem rtmp_finalize_session_wire (m m1 : machine) (h : rtmp_finalize_session m = some m1) :
    m1.w.wire = m.w.wire := by
  cases hs : m.s with
  | none =>
    rw [rtmp_finalize_session] at h
    simp only [hs] at h
    cases h
    rfl
  | some s =>
    rw [rtmp_finalize_session_eq m s hs] at h
    cases h
    simp only
    cases s.in_pool with
    | none =>
      simp only
      split
      · rw [rtmp_close_connection_wire]; rfl
      · rfl
    | some pool =>
      simp only
      rw [(heap_step_destroy_pool pool _).2.1]
      split
      · rw [rtmp_close_connection_wire]; rfl
      · rfl

/-- A `rtmp_finalize_session` that follows quiet calls, with what it leaves of
the connection. -/
theorem rtmp_finalize_session_after (w0 : world) (X : machine) (s : rtmp_session_t)
    (hs : X.s = some s) (hc : s.connection = true) (hq : quiet_step w0 X.w) :
    ∃ m1, rtmp_finalize_session X = some m1 ∧ quiet_step w0 m1.w ∧
      effect.finalize_session ∈ new_effects w0 m1.w ∧
      m1.c.destroyed = true ∧ m1.c.fd = -1 ∧
      m1.c.read.handler = X.c.read.handler ∧ m1.w.wire = X.w.wire := by
  obtain ⟨m1, es, e1, e2, e3, e4, e5, e6⟩ := rtmp_finalize_session_quiet X s hs hc
  obtain ⟨es0, t0, p0⟩ := hq
  obtain ⟨m2, _, f1, _, _, ⟨a1, a2, fd, d, f4⟩, _, _⟩ := rtmp_finalize_session_total X
  rw [e1] at f1
  cases f1
  have ht : m1.w.trace = w0.trace ++ (es0 ++ es) := by rw [e4, t0, List.append_assoc]
  refine ⟨m1, e1, ⟨es0 ++ es, ht, ?_⟩, ?_, e2, e3, ?_, rtmp_finalize_session_wire X m1 e1⟩
  · intro e he
    rcases List.mem_append.mp he with h | h
    · exact p0 e h
    · exact e6 e h
  · rw [new_effects_of_append _ _ _ ht]
    exact List.mem_append.mpr (Or.inr e5)
  · rw [f4]

theorem del_timer_if_set_handler (ev : rtmp_event_t) :
    (del_timer_if_set ev).handler = ev.handler := by
  unfold del_timer_if_set rtmp_del_timer
  split <;> rfl

/-- With `epoll_ctl` succeeding, `rtmp_handle_read_event` answers `RTMP_OK`;
it leaves the socket script alone. -/
theorem rtmp_handle_read_event_served (rev : rtmp_event_t) (fd : Int) (w : world)
    (hctl : ∀ b ∈ w.ctl, b = true) (hep : w.epoll_fd ≠ -1) :
    (rtmp_handle_read_event rev fd w).1 = RTMP_OK ∧
    (rtmp_handle_read_event rev fd w).2.2.rx = w.rx ∧
    (∀ b ∈ (rtmp_handle_read_event rev fd w).2.2.ctl, b = true) ∧
    (rtmp_handle_read_event rev fd w).2.2.epoll_fd = w.epoll_fd := by
  have hhead : w.ctl.headD true = true := by
    cases hw : w.ctl with
    | nil => rfl
    | cons a l => exact hctl a (by rw [hw]; simp)
  have htail : ∀ b ∈ w.ctl.tail, b = true := fun b hb => hctl b (List.mem_of_mem_tail hb)
  unfold rtmp_handle_read_event
  split
  · unfold rtmp_add_event
    rw [if_neg hep]
    simp only [epoll_ctl, hhead, world.log, Bool.true_eq_false, ↓reduceIte]
    exact ⟨trivial, trivial, htail, trivial⟩
  · exact ⟨rfl, rfl, hctl, rfl⟩

theorem rtmp_handle_read_event_rx (rev : rtmp_event_t) (fd : Int) (w : world) :
    (rtmp_handle_read_event rev fd w).2.2.rx = w.rx := by
  unfold rtmp_handle_read_event
  split
  · unfold rtmp_add_event
    split
    · rfl
    · simp only [epoll_ctl, world.log]
      split <;> rfl
  · rfl

theorem not_finalize_of_is_recv (e : effect) (h : e.is_recv = true) :
    e ≠ .finalize_session := by
  intro he; subst he; simp [effect.is_recv] at h

theorem not_finalize_of_is_epoll_ctl (e : effect) (h : e.is_epoll_ctl = true) :
    e ≠ .finalize_session := by
  intro he; subst he; simp [effect.is_epoll_ctl] at h

/-- One call of `rtmp_handshake_recv` on a machine that waits for the rest of
C0 and C1, where the first byte on the wire of `w0` is not 3. It returns, and
then the machine waits again with more bytes in the buffer, or the session was
finalized early, or the buffer was completed and the version test finalized
the session. When the socket lets the bytes arrive, it is the last of these,
or the machine waits again with one `EAGAIN` fewer to come. -/
theorem rtmp_handshake_recv_c0c1 (w0 : world) (c0 : Nat) (c1 tail : List Nat) (m : machine)
    (hwire : w0.wire = c0 :: c1 ++ tail) (h0 : c0 ≠ 3) (h1 : c1.length = 1536)
    (hA : hs_recv_waiting w0 m) :
    ∃ m1, rtmp_handshake_recv m = some m1 ∧
      (hs_recv_waiting w0 m1 ∨ hs_recv_failed w0 m1 ∨ hs_recv_rejected w0 (c0 :: c1) m1) ∧
      (hs_recv_served w0 m.w →
        hs_recv_rejected w0 (c0 :: c1) m1 ∨
        (hs_recv_waiting w0 m1 ∧ hs_recv_served w0 m1.w ∧
          m1.w.rx.count .eagain < m.w.rx.count .eagain)) := by
  obtain ⟨c, so, w⟩ := m
  obtain ⟨hq, hnf, hd, hrt, hh, s, b, hs, hc, hst, hb, b1, b2, b3, hmem⟩ := hA
  simp only at hq hnf hd hrt hh hs hmem
  subst hs
  obtain ⟨es0, t0, p0⟩ := id hq
  have hn0 : new_effects w0 w = es0 := new_effects_of_append _ _ _ t0
  rw [hn0] at hnf
  have hl := rtmp_handshake_recv_loop_spec 1537 b w
  rcases hloop : rtmp_handshake_recv_loop 1537 b w with ⟨ex, b', w1⟩
  rw [hloop] at hl
  obtain ⟨es, D, l1, l2, l3, l4, l5, l6, l7, -, l9, -, l11, l12⟩ := hl
  dsimp only at l1 l2 l3 l4 l5 l6 l7 l9 l11 l12
  have hw0len : w0.wire.length = 1537 + tail.length := by
    rw [hwire]; simp [h1]; omega
  have hlen0 : w0.wire.length = (b.last - b.start) + w.wire.length := by
    rw [← hmem, List.length_append, mem_read_length]
  have hlenw : w.wire.length = D.length + w1.wire.length := by
    rw [l3, List.length_append]
  have hle : b.last + D.length ≤ b.start + 1537 := by
    have := l7 (by omega)
    omega
  -- the buffer after the loop holds what it held, followed by `D`
  have hcont : mem_read w1.mem b.start (b.last + D.length - b.start) ++ w1.wire = w0.wire := by
    rw [← hmem, l3, ← List.append_assoc]
    congr 1
    rw [show b.last + D.length - b.start = (b.last - b.start) + D.length by omega,
      ← mem_read_append, show b.start + (b.last - b.start) = b.last by omega, l6]
    congr 1
    apply mem_read_ext
    intro i hi
    exact l5 _ (by omega)
  have hq1 : quiet_step w0 w1 := quiet_step_trans hq (quiet_step_of_recv es l1 l2)
  have hnf1 : ∀ e ∈ es0 ++ es, e ≠ effect.finalize_session := by
    intro e he
    rcases List.mem_append.mp he with h | h
    · intro h2; subst h2; exact hnf h
    · exact not_finalize_of_is_recv e (l2 e h)
  have ht1 : w1.trace = w0.trace ++ (es0 ++ es) := by rw [l1, t0, List.append_assoc]
  have hsv := fun (hsrv : hs_recv_served w0 w) =>
    rtmp_handshake_recv_loop_served b w b1 b3 hsrv.1 (by have := hsrv.2.2.2; omega) (by omega)
  rw [hloop] at hsv
  dsimp only at hsv
  cases ex with
  | done =>
    have hfull : b.last + D.length = b.start + 1537 := by
      have := l9.mp rfl
      omega
    rw [hfull, show b.start + 1537 - b.start = 1537 by omega] at hcont
    rw [hwire, show c0 :: c1 ++ tail = (c0 :: c1) ++ tail from rfl] at hcont
    have hsplit := List.append_inj hcont (by
      rw [mem_read_length]; simp [h1])
    have hP : mem_read w1.mem b.start 1537 = c0 :: c1 := hsplit.1
    have hbyte : w1.mem b.start = c0 := by
      have e := congrArg (fun l => l.getD 0 0) hP
      simp only [mem_read_getD _ _ _ _ (show 0 < 1537 by decide), Nat.add_zero] at e
      exact e
    obtain ⟨⟨es2, t2, p2⟩, q2, -⟩ := del_event_if_active_spec (del_timer_if_set c.read) c.fd w1
    obtain ⟨a, q3⟩ := del_event_if_active_fields (del_timer_if_set c.read) c.fd w1
    have hb'start : b'.start = b.start := by rw [l4]
    have hstep := rtmp_handshake_recv_stage0_done c s w b b' w1 hd hrt hst hb hloop
    rw [if_pos (by rw [q2, hb'start, hbyte]; exact h0)] at hstep
    have hqX : quiet_step w0 (del_event_if_active (del_timer_if_set c.read) c.fd w1).2 :=
      quiet_step_trans hq1 (quiet_step_del_event_if_active _ _ _)
    obtain ⟨m1, r1, r2, r3, r4, r5, r6, r7⟩ := rtmp_finalize_session_after w0
      { c := { c with read := (del_event_if_active (del_timer_if_set c.read) c.fd w1).1 },
        s := some { s with hs_buf := some b', hs_stage := 1 },
        w := (del_event_if_active (del_timer_if_set c.read) c.fd w1).2 } _ rfl hc hqX
    simp only at r6 r7
    rw [del_event_if_active_wire] at r7
    have hrej : hs_recv_rejected w0 (c0 :: c1) m1 := by
      refine ⟨r2, r3, r4, r5, ?_, ?_, _, m1, _, _, r1, rfl, ?_, rfl, rfl, rfl, ?_, ?_⟩
      · left
        rw [r6, q3]
        simp only
        rw [del_timer_if_set_handler]
        exact hh
      · rw [r7, hwire, hsplit.2] <;> rfl
      · simp only
        rw [new_effects_of_append _ _ _ (show _ = w0.trace ++ (es0 ++ es ++ es2) by
          rw [t2, ht1, List.append_assoc])]
        intro hin
        rcases List.mem_append.mp hin with h | h
        · exact hnf1 _ h rfl
        · exact not_finalize_of_is_epoll_ctl _ (p2 _ h) rfl
      · rw [l4]
        simp only
        omega
      · simp only
        rw [q2, hb'start]
        exact hP
    refine ⟨m1, by rw [hstep]; exact r1, Or.inr (Or.inr hrej), fun _ => Or.inl hrej⟩
  | finalize =>
    have hstep := rtmp_handshake_recv_on_error c s w b b' w1 hd hrt (Or.inl hst) hb
      (by rw [if_pos hst]; exact hloop)
    have hnd : b.last + D.length < b.start + 1537 := by
      have := l9.not.mp (by simp)
      omega
    obtain ⟨m1, r1, r2, r3, r4, r5, r6, r7⟩ := rtmp_finalize_session_after w0
      { c := { c with read := del_timer_if_set c.read },
        s := some { s with hs_buf := some b' }, w := w1 } _ rfl hc hq1
    simp only at r6 r7
    refine ⟨m1, by rw [hstep]; exact r1, Or.inr (Or.inl ⟨r2, r3, r4, ?_, ?_⟩), ?_⟩
    · left
      rw [r6, del_timer_if_set_handler]
      exact hh
    · rw [r7]
      omega
    · intro hsrv
      exact absurd rfl (hsv hsrv).1
  | again =>
    have hstep := rtmp_handshake_recv_on_again c s w b b' w1 hd hrt (Or.inl hst) hb
      (by rw [if_pos hst]; exact hloop)
    have hnd : b.last + D.length < b.start + 1537 := by
      have := l9.not.mp (by simp)
      omega
    obtain ⟨⟨es2, t2, p2⟩, q2, q3, ⟨a, q4⟩, -⟩ := rtmp_handle_read_event_spec
      (rtmp_add_timer (del_timer_if_set c.read) s.timeout) c.fd w1
    have hq2 : quiet_step w0 (rtmp_handle_read_event
        (rtmp_add_timer (del_timer_if_set c.read) s.timeout) c.fd w1).2.2 :=
      quiet_step_trans hq1 ⟨es2, t2, fun e he => quiet_of_is_epoll_ctl e (p2 e he)⟩
    have hhand : (rtmp_handle_read_event
        (rtmp_add_timer (del_timer_if_set c.read) s.timeout) c.fd w1).2.1.handler =
        .rtmp_handshake_recv := by
      rw [q4]
      simp only [rtmp_add_timer]
      rw [del_timer_if_set_handler]
      exact hh
    by_cases hrc : (rtmp_handle_read_event
        (rtmp_add_timer (del_timer_if_set c.read) s.timeout) c.fd w1).1 = RTMP_OK
    · rw [if_neg (by simpa using hrc)] at hstep
      have hwait : hs_recv_waiting w0
          { c := { c with read := (rtmp_handle_read_event
                    (rtmp_add_timer (del_timer_if_set c.read) s.timeout) c.fd w1).2.1 },
            s := some { s with hs_buf := some b' },
            w := (rtmp_handle_read_event
                    (rtmp_add_timer (del_timer_if_set c.read) s.timeout) c.fd w1).2.2 } := by
        refine ⟨hq2, ?_, hd, ?_, hhand, _, b', rfl, hc, hst, rfl, ?_, ?_, ?_, ?_⟩
        · simp only
          rw [new_effects_of_append _ _ _ (show _ = w0.trace ++ (es0 ++ es ++ es2) by
            rw [t2, ht1, List.append_assoc])]
          intro hin
          rcases List.mem_append.mp hin with h | h
          · exact hnf1 _ h rfl
          · exact not_finalize_of_is_epoll_ctl _ (p2 _ h) rfl
        · simp only
          rw [q4]
          simp only [rtmp_add_timer]
          rw [(del_timer_if_set_fields c.read).2]
          exact hrt
        · rw [l4]; simp only; omega
        · rw [l4]; simp only; omega
        · rw [l4]; exact b3
        · simp only
          rw [q2, q3, l4]
          exact hcont
      refine ⟨_, hstep, Or.inl hwait, ?_⟩
      intro hsrv
      right
      obtain ⟨-, v2, v3, v4⟩ := hsv hsrv
      obtain ⟨u1, u2, u3, u4⟩ := rtmp_handle_read_event_served
        (rtmp_add_timer (del_timer_if_set c.read) s.timeout) c.fd w1
        (by rw [l11]; exact hsrv.2.1) (by rw [l12]; exact hsrv.2.2.1)
      refine ⟨hwait, ⟨?_, u3, ?_, ?_⟩, ?_⟩
      · simp only; rw [u2]; exact v2
      · simp only; rw [u4, l12]; exact hsrv.2.2.1
      · simp only
        rw [u2, q3]
        rw [l4] at v3
        simp only at v3
        omega
      · simp only
        rw [u2]
        exact v4 rfl
    · rw [if_pos hrc] at hstep
      obtain ⟨m1, r1, r2, r3, r4, r5, r6, r7⟩ := rtmp_finalize_session_after w0
        { c := { c with read := (rtmp_handle_read_event
                  (rtmp_add_timer (del_timer_if_set c.read) s.timeout) c.fd w1).2.1 },
          s := some { s with hs_buf := some b' },
          w := (rtmp_handle_read_event
                  (rtmp_add_timer (del_timer_if_set c.read) s.timeout) c.fd w1).2.2 }
        _ rfl hc hq2
      simp only at r6 r7
      refine ⟨m1, by rw [hstep]; exact r1, Or.inr (Or.inl ⟨r2, r3, r4, ?_, ?_⟩), ?_⟩
      · left
        rw [r6]
        exact hhand
      · rw [r7, q3]
        omega
      · intro hsrv
        exfalso
        exact hrc (rtmp_handle_read_event_served
          (rtmp_add_timer (del_timer_if_set c.read) s.timeout) c.fd w1
          (by rw [l11]; exact hsrv.2.1) (by rw [l12]; exact hsrv.2.2.1)).1

/-- What `rtmp_event_loop` does to a read event before it calls the handler:
it sets flags the handshake handlers never look at. -/
theorem rtmp_event_loop_read_eq (events : Nat) (m : machine) :
    ∃ rev : rtmp_event_t, rev.handler = m.c.read.handler ∧
      rev.timedout = m.c.read.timedout ∧
      (m.c.read.handler = .rtmp_handshake_recv →
        rtmp_event_loop_read events m =
          rtmp_handshake_recv { m with c := { m.c with read := rev } }) ∧
      (m.c.read.handler = .rtmp_recv_handler →
        rtmp_event_loop_read events m =
          rtmp_recv_handler { m with c := { m.c with read := rev } }) := by
  unfold rtmp_event_loop_read
  by_cases h1 : events &&& (EPOLLERR ||| EPOLLHUP) ≠ 0 <;>
    by_cases h2 : events &&& RTMP_READ_EVENT ≠ 0 <;>
    simp only [h1, h2, ↓reduceIte, not_true_eq_false, not_false_eq_true, ne_eq]
  · exact ⟨{ m.c.read with error := true, ready := true }, rfl, rfl,
      fun h => by simp only [h], fun h => by simp only [h]⟩
  · exact ⟨{ m.c.read with error := true }, rfl, rfl,
      fun h => by simp only [h], fun h => by simp only [h]⟩
  · exact ⟨{ m.c.read with ready := true }, rfl, rfl,
      fun h => by simp only [h], fun h => by simp only [h]⟩
  · exact ⟨m.c.read, rfl, rfl, fun h => by simp only [h], fun h => by simp only [h]⟩

/-- One read event on a machine in one of the three states. -/
theorem rtmp_event_loop_read_c0c1 (w0 : world) (c0 : Nat) (c1 tail : List Nat)
    (events : Nat) (m : machine)
    (hwire : w0.wire = c0 :: c1 ++ tail) (h0 : c0 ≠ 3) (h1 : c1.length = 1536) :
    (hs_recv_waiting w0 m →
      ∃ m1, rtmp_event_loop_read events m = some m1 ∧
        (hs_recv_waiting w0 m1 ∨ hs_recv_failed w0 m1 ∨ hs_recv_rejected w0 (c0 :: c1) m1) ∧
        (hs_recv_served w0 m.w →
          hs_recv_rejected w0 (c0 :: c1) m1 ∨
          (hs_recv_waiting w0 m1 ∧ hs_recv_served w0 m1.w ∧
            m1.w.rx.count .eagain < m.w.rx.count .eagain))) ∧
    (hs_recv_failed w0 m →
      ∃ m1, rtmp_event_loop_read events m = some m1 ∧ hs_recv_failed w0 m1) ∧
    (hs_recv_rejected w0 (c0 :: c1) m →
      ∃ m1, rtmp_event_loop_read events m = some m1 ∧ hs_recv_rejected w0 (c0 :: c1) m1) := by
  obtain ⟨rev, g1, g2, g3, g4⟩ := rtmp_event_loop_read_eq events m
  refine ⟨?_, ?_, ?_⟩
  · intro hA
    obtain ⟨a1, a2, a3, a4, a5, a6⟩ := hA
    rw [g3 a5]
    exact rtmp_handshake_recv_c0c1 w0 c0 c1 tail { m with c := { m.c with read := rev } }
      hwire h0 h1 ⟨a1, a2, a3, by rw [← a4]; exact g2, by rw [← a5]; exact g1, a6⟩
  · intro hB
    obtain ⟨a1, a2, a3, a4, a5⟩ := hB
    have hn := rtmp_handlers_closed_noop { m with c := { m.c with read := rev } } a3
    refine ⟨{ m with c := { m.c with read := rev } }, ?_, a1, a2, a3, ?_, a5⟩
    · rcases a4 with h | h
      · rw [g3 h]; exact hn.1
      · rw [g4 h]; exact hn.2.2.1
    · show rev.handler = _ ∨ rev.handler = _
      rw [g1]; exact a4
  · intro hC
    obtain ⟨a1, a2, a3, a4, a5, a6, a7⟩ := hC
    have hn := rtmp_handlers_closed_noop { m with c := { m.c with read := rev } } a3
    refine ⟨{ m with c := { m.c with read := rev } }, ?_, a1, a2, a3, a4, ?_, a6, a7⟩
    · rcases a5 with h | h
      · rw [g3 h]; exact hn.1
      · rw [g4 h]; exact hn.2.2.1
    · show rev.handler = _ ∨ rev.handler = _
      rw [g1]; exact a5

/-- Any run of read events keeps the machine in one of the three states. -/
theorem rtmp_event_loop_reads_c0c1 (w0 : world) (c0 : Nat) (c1 tail : List Nat)
    (hwire : w0.wire = c0 :: c1 ++ tail) (h0 : c0 ≠ 3) (h1 : c1.length = 1536)
    (evs : List Nat) :
    ∀ m, (hs_recv_waiting w0 m ∨ hs_recv_failed w0 m ∨ hs_recv_rejected w0 (c0 :: c1) m) →
      ∃ m1, rtmp_event_loop_reads evs m = some m1 ∧
        (hs_recv_waiting w0 m1 ∨ hs_recv_failed w0 m1 ∨ hs_recv_rejected w0 (c0 :: c1) m1) := by
  induction evs with
  | nil => intro m h; exact ⟨m, rfl, h⟩
  | cons ev evs ih =>
    intro m h
    obtain ⟨s1, s2, s3⟩ := rtmp_event_loop_read_c0c1 w0 c0 c1 tail ev m hwire h0 h1
    rcases h with h | h | h
    · obtain ⟨m1, r1, r2, -⟩ := s1 h
      obtain ⟨m2, q1, q2⟩ := ih m1 r2
      exact ⟨m2, by simp only [rtmp_event_loop_reads, r1, q1], q2⟩
    · obtain ⟨m1, r1, r2⟩ := s2 h
      obtain ⟨m2, q1, q2⟩ := ih m1 (Or.inr (Or.inl r2))
      exact ⟨m2, by simp only [rtmp_event_loop_reads, r1, q1], q2⟩
    · obtain ⟨m1, r1, r2⟩ := s3 h
      obtain ⟨m2, q1, q2⟩ := ih m1 (Or.inr (Or.inr r2))
      exact ⟨m2, by simp only [rtmp_event_loop_reads, r1, q1], q2⟩

/-- With a socket that lets the bytes arrive and at least one read event for
each `EAGAIN` still to come and one more, the run ends with the session
finalized by the version test. -/
theorem rtmp_event_loop_reads_served (w0 : world) (c0 : Nat) (c1 tail : List Nat)
    (hwire : w0.wire = c0 :: c1 ++ tail) (h0 : c0 ≠ 3) (h1 : c1.length = 1536)
    (evs : List Nat) :
    ∀ m, (hs_recv_rejected w0 (c0 :: c1) m ∨
        (hs_recv_waiting w0 m ∧ hs_recv_served w0 m.w ∧
          m.w.rx.count .eagain < evs.length)) →
      ∃ m1, rtmp_event_loop_reads evs m = some m1 ∧ hs_recv_rejected w0 (c0 :: c1) m1 := by
  induction evs with
  | nil =>
    intro m h
    rcases h with h | ⟨-, -, h⟩
    · exact ⟨m, rfl, h⟩
    · simp at h
  | cons ev evs ih =>
    intro m h
    obtain ⟨s1, -, s3⟩ := rtmp_event_loop_read_c0c1 w0 c0 c1 tail ev m hwire h0 h1
    rcases h with h | ⟨hA, hS, hN⟩
    · obtain ⟨m1, r1, r2⟩ := s3 h
      obtain ⟨m2, q1, q2⟩ := ih m1 (Or.inl r2)
      exact ⟨m2, by simp only [rtmp_event_loop_reads, r1, q1], q2⟩
    · obtain ⟨m1, r1, -, r3⟩ := s1 hA
      have hnext : hs_recv_rejected w0 (c0 :: c1) m1 ∨
          (hs_recv_waiting w0 m1 ∧ hs_recv_served w0 m1.w ∧
            m1.w.rx.count .eagain < evs.length) := by
        rcases r3 hS with h | ⟨u1, u2, u3⟩
        · exact Or.inl h
        · right
          refine ⟨u1, u2, ?_⟩
          simp only [List.length_cons] at hN
          omega
      obtain ⟨m2, q1, q2⟩ := ih m1 hnext
      exact ⟨m2, by simp only [rtmp_event_loop_reads, r1, q1], q2⟩

/-! ### Allocation when `malloc` does not fail -/

theorem malloc_no_oom (size : Nat) (w : world) (h : ∀ b ∈ w.oom, b = false) :
    (malloc size w).1 ≠ none ∧ ∀ b ∈ (malloc size w).2.oom, b = false := by
  have hhead : w.oom.headD false = false := by
    cases hw : w.oom with
    | nil => rfl
    | cons a l => exact h a (by rw [hw]; simp)
  have htail : ∀ b ∈ w.oom.tail, b = false := fun b hb => h b (List.mem_of_mem_tail hb)
  unfold malloc
  rw [if_neg (by rw [hhead]; decide)]
  exact ⟨by simp, htail⟩

theorem rtmp_create_pool_no_oom (size : Nat) (w : world) (h : ∀ b ∈ w.oom, b = false) :
    (rtmp_create_pool size w).1 ≠ none ∧ ∀ b ∈ (rtmp_create_pool size w).2.oom, b = false := by
  unfold rtmp_create_pool
  dsimp only
  have hm := malloc_no_oom (if size < RTMP_DEFAULT_POOL_SIZE then RTMP_DEFAULT_POOL_SIZE else size)
    w h
  revert hm
  generalize malloc (if size < RTMP_DEFAULT_POOL_SIZE then RTMP_DEFAULT_POOL_SIZE else size) w = r
  rcases r with ⟨_ | p, w1⟩
  · intro hm; exact absurd rfl hm.1
  · intro hm; exact ⟨by simp, hm.2⟩

theorem rtmp_palloc_large_no_oom (pool : rtmp_pool_t) (size : Nat) (w : world)
    (h : ∀ b ∈ w.oom, b = false) :
    (rtmp_palloc_large pool size w).1 ≠ none ∧
    ∀ b ∈ (rtmp_palloc_large pool size w).2.2.oom, b = false := by
  unfold rtmp_palloc_large
  have hm := malloc_no_oom size w h
  revert hm
  generalize malloc size w = r
  rcases r with ⟨_ | p, w1⟩
  · intro hm; exact absurd rfl hm.1
  · intro hm
    dsimp only
    split
    · have hp := rtmp_create_pool_no_oom RTMP_DEFAULT_POOL_SIZE w1 hm.2
      revert hp
      generalize rtmp_create_pool RTMP_DEFAULT_POOL_SIZE w1 = r2
      rcases r2 with ⟨_ | p2, w2⟩
      · intro hp; exact absurd rfl hp.1
      · intro hp; exact ⟨by simp, hp.2⟩
    · exact ⟨by simp, hm.2⟩

theorem rtmp_pool_alloc_no_oom (pool : rtmp_pool_t) (size : Nat) (w : world)
    (h : ∀ b ∈ w.oom, b = false) :
    (rtmp_pool_alloc pool size w).1 ≠ none ∧
    ∀ b ∈ (rtmp_pool_alloc pool size w).2.2.oom, b = false := by
  unfold rtmp_pool_alloc rtmp_palloc_small
  split
  · dsimp only
    split
    · exact ⟨by simp, h⟩
    · exact rtmp_palloc_large_no_oom pool size w h
  · exact rtmp_palloc_large_no_oom pool size w h

theorem rtmp_pool_calloc_no_oom (pool : rtmp_pool_t) (size : Nat) (w : world)
    (h : ∀ b ∈ w.oom, b = false) :
    (rtmp_pool_calloc pool size w).1 ≠ none ∧
    ∀ b ∈ (rtmp_pool_calloc pool size w).2.2.oom, b = false := by
  unfold rtmp_pool_calloc
  have hp := rtmp_pool_alloc_no_oom pool size w h
  revert hp
  generalize rtmp_pool_alloc pool size w = r
  rcases r with ⟨_ | p, pool2, w2⟩
  · intro hp; exact absurd rfl hp.1
  · intro hp; exact ⟨by simp, hp.2⟩

theorem rtmp_create_temp_buf_no_oom (pool : rtmp_pool_t) (size : Nat) (w : world)
    (h : ∀ b ∈ w.oom, b = false) :
    (rtmp_create_temp_buf pool size w).1 ≠ none := by
  unfold rtmp_create_temp_buf
  have hp := rtmp_pool_calloc_no_oom pool sizeof_rtmp_buf_t w h
  revert hp
  generalize rtmp_pool_calloc pool sizeof_rtmp_buf_t w = r
  rcases r with ⟨_ | p, pool2, w2⟩
  · intro hp; exact absurd rfl hp.1
  · intro hp
    dsimp only
    have hp2 := rtmp_pool_alloc_no_oom pool2 size w2 hp.2
    revert hp2
    generalize rtmp_pool_alloc pool2 size w2 = r2
    rcases r2 with ⟨_ | p2, pool3, w3⟩
    · intro hp2; exact absurd rfl hp2.1
    · intro _; simp

theorem rtmp_init_session_no_oom (w : world) (h : ∀ b ∈ w.oom, b = false) :
    ∀ b ∈ (rtmp_init_session w).2.oom, b = false := by
  unfold rtmp_init_session
  have h1 := rtmp_create_pool_no_oom 4096 w h
  revert h1
  generalize rtmp_create_pool 4096 w = r
  rcases r with ⟨_ | pool, w1⟩
  · intro h1; exact absurd rfl h1.1
  · intro h1
    dsimp only
    have h2 := rtmp_pool_calloc_no_oom pool (sizeof_rtmp_session_t + sizeof_ptr * 64) w1 h1.2
    revert h2
    generalize rtmp_pool_calloc pool (sizeof_rtmp_session_t + sizeof_ptr * 64) w1 = r2
    rcases r2 with ⟨_ | p2, pool2, w2⟩
    · intro h2; exact absurd rfl h2.1
    · intro h2
      dsimp only
      have h3 := rtmp_pool_calloc_no_oom pool2 (sizeof_rtmp_stream_t * 64) w2 h2.2
      revert h3
      generalize rtmp_pool_calloc pool2 (sizeof_rtmp_stream_t * 64) w2 = r3
      rcases r3 with ⟨_ | p3, pool3, w3⟩
      · intro h3; exact absurd rfl h3.1
      · intro h3; exact h3.2

theorem not_finalize_of_is_heap (e : effect) (h : e.is_heap = true) :
    e ≠ .finalize_session := by
  intro he; subst he; simp [effect.is_heap] at h

/-- The first step: `rtmp_init_connection` on a connection whose session can
be allocated, with C0 other than 3 first on the wire. It returns with the
machine in one of the three states. -/
theorem rtmp_init_connection_c0c1 (c : rtmp_connection_t) (w : world)
    (c0 : Nat) (c1 tail : List Nat)
    (hd : c.destroyed = false) (hrt : c.read.timedout = false)
    (hs : (rtmp_init_session w).1 ≠ none)
    (hwire : w.wire = c0 :: c1 ++ tail) (h0 : c0 ≠ 3) (h1 : c1.length = 1536) :
    ∃ m, rtmp_init_connection c w = some m ∧
      (hs_recv_waiting w m ∨ hs_recv_failed w m ∨ hs_recv_rejected w (c0 :: c1) m) ∧
      ((∀ b ∈ w.oom, b = false) → hs_recv_served w w →
        hs_recv_rejected w (c0 :: c1) m ∨
        (hs_recv_waiting w m ∧ hs_recv_served w m.w ∧
          m.w.rx.count .eagain < w.rx.count .eagain)) := by
  unfold rtmp_init_connection
  obtain ⟨hh1, hs1⟩ := rtmp_init_session_spec w
  have hoom1 := rtmp_init_session_no_oom w
  revert hh1 hs1 hs hoom1
  generalize rtmp_init_session w = r
  rcases r with ⟨_ | s0, w1⟩
  · intro hs; exact absurd rfl hs
  · intro _ hh1 hs1 hoom1
    dsimp only at hoom1 hh1 ⊢
    obtain ⟨st0, hb0, _, _, pool, hp0⟩ := hs1 s0 rfl
    rw [rtmp_handshake_stage0
      { c with read := { c.read with handler := .rtmp_recv_handler },
               write := { c.write with handler := .rtmp_send_handler } }
      { s0 with connection := true,
                close := { s0.close with handler := .rtmp_close_handler } }
      w1 pool hd rfl st0 hb0 hp0]
    obtain ⟨hh2, hb2⟩ := rtmp_create_temp_buf_spec pool RTMP_HANDSHAKE_BUFSIZE w1
    have hoom2 := fun h => rtmp_create_temp_buf_no_oom pool RTMP_HANDSHAKE_BUFSIZE w1 (hoom1 h)
    revert hh2 hb2 hoom2
    have e1537 : (1537 : Nat) = RTMP_HANDSHAKE_BUFSIZE := rfl
    rw [e1537]
    generalize rtmp_create_temp_buf pool RTMP_HANDSHAKE_BUFSIZE w1 = t
    rcases t with ⟨_ | b, pool2, w2⟩
    · intro hh2 _ hoom2
      have hstep := heap_step_trans hh1 hh2
      obtain ⟨m1, r1, r2, r3, r4, r5, r6, r7⟩ := rtmp_finalize_session_after w
        { c := { c with read := { c.read with handler := .rtmp_recv_handler },
                        write := { c.write with handler := .rtmp_send_handler } },
          s := some { { s0 with connection := true,
                                close := { s0.close with handler := .rtmp_close_handler } } with
                      hs_buf := none, in_pool := some pool2 },
          w := w2 } _ rfl rfl (quiet_step_of_heap_step hstep)
      simp only at r6 r7
      refine ⟨m1, r1, Or.inr (Or.inl ⟨r2, r3, r4, Or.inr r6, ?_⟩), ?_⟩
      · rw [r7, hstep.2.1]
        omega
      · intro h _
        exact absurd rfl (hoom2 h)
    · intro hh2 hb2 _
      obtain ⟨_, bl, be⟩ := hb2 b rfl
      have hstep := heap_step_trans hh1 hh2
      obtain ⟨x1, x2, -, x4, -, x6, -, -, -, es, xt, xp⟩ := id hstep
      have hA : hs_recv_waiting w
          { c := { { c with read := { c.read with handler := .rtmp_recv_handler },
                            write := { c.write with handler := .rtmp_send_handler } } with
                   read := { { c.read with handler := handler_t.rtmp_recv_handler } with
                             handler := .rtmp_handshake_recv },
                   write := { { c.write with handler := handler_t.rtmp_send_handler } with
                              handler := .rtmp_handshake_send } },
            s := some { { s0 with connection := true,
                                  close := { s0.close with handler := .rtmp_close_handler } } with
                        hs_buf := some b, in_pool := some pool2 },
            w := w2 } := by
        refine ⟨quiet_step_of_heap_step hstep, ?_, hd, hrt, rfl, _, b, rfl, rfl, st0, rfl,
          by omega, by omega, be, ?_⟩
        · simp only
          rw [new_effects_of_append _ _ _ xt]
          intro hin
          exact not_finalize_of_is_heap _ (xp _ hin) rfl
        · simp only
          rw [bl, Nat.sub_self, x2]
          rfl
      obtain ⟨m1, r1, r2, r3⟩ := rtmp_handshake_recv_c0c1 w c0 c1 tail _ hwire h0 h1 hA
      refine ⟨m1, r1, r2, ?_⟩
      intro _ hsv
      have hsv2 : hs_recv_served w w2 := by
        obtain ⟨v1, v2, v3, v4⟩ := hsv
        exact ⟨by rw [x1]; exact v1, by rw [x4]; exact v2, by rw [x6]; exact v3,
          by rw [x1, x2]; exact v4⟩
      rcases r3 hsv2 with h | ⟨u1, u2, u3⟩
      · exact Or.inl h
      · right
        refine ⟨u1, u2, ?_⟩
        simp only at u3
        rw [x1] at u3
        exact u3

/-- C3: a connection whose session can be allocated, and a peer that has put a
C0 byte other than 3 and 1536 bytes of C1 on the wire. `rtmp_init_connection`
runs, then `rtmp_event_loop` delivers any number of read events; what `recv`,
`epoll_ctl` and `malloc` answer in between is arbitrary, so the 1537 bytes may
come in any pieces, over any number of calls of the handler, into a buffer
that is partly filled. All these calls return. No byte is passed to `send` and
`RTMP_HANDSHAKE_DONE` is not fired. Once the 1537 bytes have been read from
the socket, `rtmp_finalize_session` has been called and the connection is
closed and destroyed, so that both handshake handlers leave the machine as it
is from then on; the call was made in stage `SEND_CHALLENGE2` with C0 and C1 in
the scratch buffer, which is the state the version test of
`rtmp_handshake_recv` leaves, and nothing was called after it returned. Last
part: the 1537 bytes are read whenever `malloc` and `epoll_ctl` succeed, `recv`
reports neither an error nor the end of the stream and offers 1537 bytes in
all, and there is a read event for each `EAGAIN` of the socket. -/
theorem rtmp_handshake_rejects_version (c : rtmp_connection_t) (w : world)
    (c0 : Nat) (c1 tail : List Nat) (evs : List Nat)
    (hd : c.destroyed = false) (hrt : c.read.timedout = false)
    (hs : (rtmp_init_session w).1 ≠ none)
    (hwire : w.wire = c0 :: c1 ++ tail) (h0 : c0 ≠ 3) (h1 : c1.length = 1536) :
    ∃ m, (rtmp_init_connection c w).bind (rtmp_event_loop_reads evs) = some m ∧
      (∀ e ∈ new_effects w m.w, e.is_send = false) ∧
      effect.fire_event RTMP_HANDSHAKE_DONE ∉ new_effects w m.w ∧
      (m.w.wire = tail →
        effect.finalize_session ∈ new_effects w m.w ∧
        m.c.destroyed = true ∧ m.c.fd = -1 ∧
        rtmp_handshake_recv m = some m ∧ rtmp_handshake_send m = some m ∧
        ∃ X mX s b, rtmp_finalize_session X = some mX ∧ mX.w = m.w ∧
          effect.finalize_session ∉ new_effects w X.w ∧
          X.s = some s ∧ s.hs_stage = RTMP_HANDSHAKE_SERVER_SEND_CHALLENGE2 ∧
          s.hs_buf = some b ∧ b.last = b.start + 1537 ∧
          mem_read X.w.mem b.start 1537 = c0 :: c1) ∧
      ((∀ b ∈ w.oom, b = false) → rx_delivers w.rx → (∀ b ∈ w.ctl, b = true) →
        w.epoll_fd ≠ -1 → 1537 ≤ bytes_offered w.rx → w.rx.count .eagain ≤ evs.length →
        m.w.wire = tail) := by
  obtain ⟨m0, i1, i2, i3⟩ := rtmp_init_connection_c0c1 c w c0 c1 tail hd hrt hs hwire h0 h1
  obtain ⟨m, r1, r2⟩ := rtmp_event_loop_reads_c0c1 w c0 c1 tail hwire h0 h1 evs m0 i2
  have hq : quiet_step w m.w := by
    rcases r2 with h | h | h
    · exact h.1
    · exact h.1
    · exact h.1
  obtain ⟨es, t, p⟩ := hq
  have hn := new_effects_of_append _ _ _ t
  have hwl : w.wire.length = 1537 + tail.length := by
    rw [hwire]; simp [h1]; omega
  refine ⟨m, by rw [i1]; exact r1, ?_, ?_, ?_, ?_⟩
  · rw [hn]; exact fun e he => is_send_of_quiet e (p e he)
  · rw [hn]; exact fun he => ne_handshake_done_of_quiet _ (p _ he) rfl
  · intro hw
    rcases r2 with h | h | h
    · exfalso
      obtain ⟨-, -, -, -, -, s, b, -, -, -, -, b1, b2, -, hmem⟩ := h
      have := congrArg List.length hmem
      rw [List.length_append, mem_read_length, hw] at this
      omega
    · exfalso
      have := h.2.2.2.2
      rw [hw] at this
      omega
    · obtain ⟨-, a2, a3, a4, -, -, a7⟩ := h
      exact ⟨a2, a3, a4, (rtmp_handlers_closed_noop m a3).1,
        (rtmp_handlers_closed_noop m a3).2.1, a7⟩
  · intro g1 g2 g3 g4 g5 g6
    have hsv : hs_recv_served w w := ⟨g2, g3, g4, by omega⟩
    have hstart : hs_recv_rejected w (c0 :: c1) m0 ∨
        (hs_recv_waiting w m0 ∧ hs_recv_served w m0.w ∧
          m0.w.rx.count .eagain < evs.length) := by
      rcases i3 g1 hsv with h | ⟨u1, u2, u3⟩
      · exact Or.inl h
      · exact Or.inr ⟨u1, u2, by omega⟩
    obtain ⟨m', q1, q2⟩ := rtmp_event_loop_reads_served w c0 c1 tail hwire h0 h1 evs m0 hstart
    rw [r1] at q1
    cases q1
    have e := q2.2.2.2.2.2.1
    rw [hwire, show c0 :: c1 ++ tail = (c0 :: c1) ++ tail from rfl] at e
    exact (List.append_cancel_left e).symm

/-- Witness of C3: the connection accepted on socket 7, a C0 of 6 and a C1 of
1536 zero bytes. The first `recv` delivers 1000 bytes and the next reports
`EAGAIN`, so `rtmp_init_connection` returns with the buffer partly filled; the
rest arrives with the read event that follows. -/
theorem rtmp_handshake_rejects_version_witness :
    ∃ m, (rtmp_init_connection sample_connection
          (sample_world (6 :: List.replicate 1536 0) [.bytes 1000, .eagain, .bytes 1000] [])).bind
        (rtmp_event_loop_reads [RTMP_READ_EVENT]) = some m ∧
      (∀ e ∈ new_effects
          (sample_world (6 :: List.replicate 1536 0) [.bytes 1000, .eagain, .bytes 1000] []) m.w,
        e.is_send = false) ∧
      m.w.wire = [] ∧
      effect.finalize_session ∈ new_effects
        (sample_world (6 :: List.replicate 1536 0) [.bytes 1000, .eagain, .bytes 1000] []) m.w ∧
      m.c.destroyed = true ∧ m.c.fd = -1 := by
  obtain ⟨m, r1, r2, -, r4, r5⟩ := rtmp_handshake_rejects_version sample_connection
    (sample_world (6 :: List.replicate 1536 0) [.bytes 1000, .eagain, .bytes 1000] [])
    6 (List.replicate 1536 0) [] [RTMP_READ_EVENT] rfl rfl (by decide)
    (by simp only [sample_world, boot, List.append_nil]) (by decide)
    (List.length_replicate _ _)
  have hw : m.w.wire = [] := r5
    (by
      intro b hb
      change b ∈ [] at hb
      cases hb)
    (by
      intro x hx
      change x ∈ [os_io.bytes 1000, os_io.eagain, os_io.bytes 1000] at hx
      simp only [List.mem_cons, List.mem_singleton, List.not_mem_nil, or_false] at hx
      rcases hx with h | h | h
      · exact Or.inr ⟨1000, by decide, h⟩
      · exact Or.inl h
      · exact Or.inr ⟨1000, by decide, h⟩)
    (by
      intro b hb
      change b ∈ [] at hb
      cases hb)
    (by decide) (by decide) (by decide)
  exact ⟨m, r1, r2, hw, (r4 hw).1, (r4 hw).2.1, (r4 hw).2.2.1⟩

end Rtmp
